import Mathlib

/-!
# Spider: locale classifier, frontier, link-health checker and index search

A shallow embedding of `src/crawler.js` (class `SpiderCrawler`),
`src/indexer.js` (class `SiteIndexer`) and of the search and health-check
handlers of `src/server.js`.

* JavaScript strings are lists of characters.
* The platform's URL library (`new URL`, `URLSearchParams`) is a parameter of
  the embedding (`UrlLib`), and the properties are stated for every library;
  `plainLib` is a library that accepts plain http(s) URLs only and gives their
  instances on concrete inputs.
* The network (`fetch`) is an oracle handing back the outcome of a request.
* Lower-casing of arbitrary text and the regular expressions built at run time
  are a parameter (`Runtime`); `plainRuntime` is a model of it on ASCII text
  and literal patterns.
-/

namespace Spider

/-- JavaScript strings, as lists of characters. -/
abbrev Str := List Char

/-! ## String helpers of the JavaScript runtime -/

/-- The method `s.toLowerCase()`: ASCII letters are lowered, other characters are kept
(exact on ASCII text, which URL components are). -/
def toLowerCase (s : Str) : Str := s.map Char.toLower

/-- The method `s.startsWith(p)`. -/
def startsWith (s p : Str) : Bool := p.isPrefixOf s

/-- The method `s.endsWith(p)`. -/
def endsWith (s p : Str) : Bool := p.reverse.isPrefixOf s.reverse

/-- The method `s.includes(p)`. -/
def includes : Str → Str → Bool
  | [], p => p.isEmpty
  | c :: s, p => p.isPrefixOf (c :: s) || includes s p

/-- The method `s.split(sep)` for a one-character separator. -/
def splitOn (sep : Char) : Str → List Str
  | [] => [[]]
  | c :: s =>
    if c = sep then [] :: splitOn sep s
    else
      match splitOn sep s with
      | [] => [[c]]
      | w :: ws => (c :: w) :: ws

/-- White space and line terminators, the characters `trim()` removes. -/
def isJsSpace (c : Char) : Bool :=
  let n := c.toNat
  n = 0x20 || n = 0x09 || n = 0x0A || n = 0x0B || n = 0x0C || n = 0x0D || n = 0xA0 ||
  n = 0x1680 || (0x2000 ≤ n && n ≤ 0x200A) || n = 0x2028 || n = 0x2029 || n = 0x202F ||
  n = 0x205F || n = 0x3000 || n = 0xFEFF

/-- The method `s.trim()`. -/
def trim (s : Str) : Str :=
  ((s.dropWhile isJsSpace).reverse.dropWhile isJsSpace).reverse

/-- The call `s.replace(/\//g, '')`: every slash removed. -/
def removeSlashes (s : Str) : Str := s.filter (fun c => c != '/')

/-- The call `s.replace(/\/$/, '')`: one trailing slash removed. -/
def stripTrailingSlash (s : Str) : Str :=
  if s.getLast? = some '/' then s.dropLast else s

/-- JavaScript truthiness of a value that is a string or `null`. -/
def truthy : Option Str → Bool
  | none => false
  | some s => !s.isEmpty

/-- A JavaScript `Set` of strings: `has` is membership, `add` is `setAdd`. -/
def setAdd (s : List Str) (x : Str) : List Str := if x ∈ s then s else s ++ [x]

/-- A test `/(w1|w2|...)$/i.test(s)` with literal alternatives. -/
def endsWithAnyCI (s : Str) (words : List Str) : Bool :=
  words.any (fun w => endsWith (toLowerCase s) w)

/-- A test `/(w1|w2|...)/i.test(s)` with literal alternatives. -/
def includesAnyCI (s : Str) (words : List Str) : Bool :=
  words.any (fun w => includes (toLowerCase s) w)

/-! ## URL records (the WHATWG URL object) -/

/-- The URL record behind a JavaScript `URL` object. -/
structure URL where
  scheme : Str
  username : Str := []
  password : Str := []
  host : Option Str
  port : Option Str := none
  path : Str
  query : Option Str := none
  fragment : Option Str := none
deriving DecidableEq, Repr

namespace URL

/-- The getter `url.protocol`. -/
def protocol (u : URL) : Str := u.scheme ++ [':']

/-- The getter `url.hostname`. -/
def hostname (u : URL) : Str := u.host.getD []

/-- The getter `url.pathname`. -/
def pathname (u : URL) : Str := u.path

/-- The getter `url.search`: empty for a null or empty query. -/
def search (u : URL) : Str :=
  match u.query with
  | none => []
  | some [] => []
  | some q => '?' :: q

/-- The assignment `url.hash = ''`. -/
def clearHash (u : URL) : URL := { u with fragment := none }

/-- The assignment `url.search = v`, for `v` empty or an already encoded `?query`. -/
def setSearch (u : URL) (v : Str) : URL :=
  match v with
  | [] => { u with query := none }
  | '?' :: q => { u with query := some q }
  | q => { u with query := some q }

/-- The URL serializer: `url.toString()` and `url.href`. -/
def toString (u : URL) : Str :=
  u.scheme ++ [':'] ++
  (match u.host with
   | some h =>
     ['/', '/'] ++
     (if u.username ≠ [] ∨ u.password ≠ [] then
        u.username ++ (if u.password ≠ [] then ':' :: u.password else []) ++ ['@']
      else []) ++
     h ++
     (match u.port with
      | some p => ':' :: p
      | none => [])
   | none => if startsWith u.path ['/', '/'] then ['/', '.'] else []) ++
  u.path ++
  (match u.query with
   | some q => '?' :: q
   | none => []) ++
  (match u.fragment with
   | some f => '#' :: f
   | none => [])

end URL

/-- The URL library of the platform. -/
structure UrlLib where
  /-- The constructor `new URL(s)`; `none` when it throws. -/
  parse : Str → Option URL
  /-- The constructor `new URL(s, base)`; `none` when it throws. -/
  resolve : Str → Str → Option URL
  /-- The entries of `new URLSearchParams(search)`. -/
  parseQuery : Str → List (Str × Str)
  /-- The method `params.toString()`. -/
  serializeQuery : List (Str × Str) → Str

/-! ## A URL library for the examples: plain http(s) URLs -/

/-- Cut at the first `sep`: the text before it, and the text after it if there is one. -/
def splitFirst (sep : Char) : Str → Str × Option Str
  | [] => ([], none)
  | c :: s =>
    if c = sep then ([], some s)
    else ((c :: (splitFirst sep s).1), (splitFirst sep s).2)

/-- Characters of a host: lower-case letters, digits and dots. -/
def hostChar (c : Char) : Bool := c.isLower || c.isDigit || c = '.'

/-- A plain domain: non-empty labels, the last one starting with a letter. -/
def validHost (h : Str) : Bool :=
  h.all hostChar && (splitOn '.' h).all (fun l => !l.isEmpty) &&
  (match (splitOn '.' h).getLast? with
   | some (c :: _) => c.isLower
   | _ => false)

/-- The number a string of decimal digits denotes. -/
def digitsToNat (s : Str) : Nat := s.foldl (fun n c => 10 * n + (c.toNat - 48)) 0

/-- A port in serialised form: no leading zero, at most 65535, not the scheme's default. -/
def validPort (scheme p : Str) : Bool :=
  p.all Char.isDigit && (match p with
   | [] => false
   | c :: _ => c != '0') &&
  decide (digitsToNat p ≤ 65535) &&
  !(scheme = "http".toList && p = "80".toList) &&
  !(scheme = "https".toList && p = "443".toList)

/-- Path characters that the parser keeps as they are. -/
def pathChar (c : Char) : Bool :=
  c.isAlphanum || c = '/' || c = '-' || c = '_' || c = '.' || c = '~'

/-- No path segment starts with a dot (so none is `.` or `..`). -/
def noDotSegment : Str → Bool
  | [] => true
  | [_] => true
  | c :: d :: s => !(c = '/' && d = '.') && noDotSegment (d :: s)

/-- A path in serialised form. -/
def validPath (p : Str) : Bool :=
  p.head? = some '/' && p.all pathChar && noDotSegment p

/-- Query and fragment characters that the parser keeps as they are. -/
def queryChar (c : Char) : Bool :=
  c.isAlphanum || c = '/' || c = '-' || c = '_' || c = '.' || c = '~' ||
  c = '=' || c = '&' || c = '+' || c = '%' || c = '*'

/-- The rest of an http(s) URL after `scheme://`. -/
def parseAfterScheme (scheme rest : Str) : Option URL :=
  let beforeFragment := (splitFirst '#' rest).1
  let fragment := (splitFirst '#' rest).2
  let beforeQuery := (splitFirst '?' beforeFragment).1
  let query := (splitFirst '?' beforeFragment).2
  let authority := beforeQuery.takeWhile (fun c => c != '/')
  let rawPath := beforeQuery.dropWhile (fun c => c != '/')
  let path := if rawPath.isEmpty then ['/'] else rawPath
  let host := (splitFirst ':' authority).1
  let port := (splitFirst ':' authority).2
  if validHost host && port.all (validPort scheme) && validPath path &&
      query.all (fun q => q.all queryChar) && fragment.all (fun f => f.all queryChar) then
    some { scheme := scheme, host := some host, port := port, path := path,
           query := query, fragment := fragment }
  else none

/-- The constructor `new URL(s)` of a library that accepts plain http(s) URLs only:
`scheme://host[:port][/path][?query][#fragment]` whose characters need no escaping or
normalisation, on which it gives the record the platform gives. It refuses every other
input, also those the platform accepts. -/
def parseURL (s : Str) : Option URL :=
  if startsWith s "http://".toList then parseAfterScheme "http".toList (s.drop 7)
  else if startsWith s "https://".toList then parseAfterScheme "https".toList (s.drop 8)
  else none

/-- The value of a hexadecimal digit. -/
def hexVal (c : Char) : Option Nat :=
  if c.isDigit then some (c.toNat - 48)
  else if 'A'.toNat ≤ c.toNat ∧ c.toNat ≤ 'F'.toNat then some (c.toNat - 55)
  else if 'a'.toNat ≤ c.toNat ∧ c.toNat ≤ 'f'.toNat then some (c.toNat - 87)
  else none

/-- The upper-case hexadecimal digit of a value below 16. -/
def hexDigit (n : Nat) : Char :=
  if n < 10 then Char.ofNat (48 + n) else Char.ofNat (55 + n)

/-- The bytes of a character in UTF-8. -/
def utf8Bytes (c : Char) : List Nat :=
  if c.toNat < 0x80 then [c.toNat]
  else if c.toNat < 0x800 then [0xC0 + c.toNat / 0x40, 0x80 + c.toNat % 0x40]
  else if c.toNat < 0x10000 then
    [0xE0 + c.toNat / 0x1000, 0x80 + c.toNat / 0x40 % 0x40, 0x80 + c.toNat % 0x40]
  else
    [0xF0 + c.toNat / 0x40000, 0x80 + c.toNat / 0x1000 % 0x40, 0x80 + c.toNat / 0x40 % 0x40,
     0x80 + c.toNat % 0x40]

/-- The UTF-8 decoder of the Encoding Standard, which gives U+FFFD for every ill-formed
sequence: `needed` more bytes are awaited for the code point begun in `cp`, the next of
them within `lower` and `upper`. -/
def utf8Decode : (needed cp lower upper : Nat) → List Nat → Str
  | needed, _, _, _, [] => if needed = 0 then [] else [Char.ofNat 0xFFFD]
  | needed, cp, lower, upper, b :: rest =>
    if needed ≠ 0 ∧ lower ≤ b ∧ b ≤ upper then
      if needed = 1 then Char.ofNat (cp * 0x40 + (b - 0x80)) :: utf8Decode 0 0 0x80 0xBF rest
      else utf8Decode (needed - 1) (cp * 0x40 + (b - 0x80)) 0x80 0xBF rest
    else
      (if needed ≠ 0 then [Char.ofNat 0xFFFD] else []) ++
      (if b < 0x80 then Char.ofNat b :: utf8Decode 0 0 0x80 0xBF rest
       else if 0xC2 ≤ b ∧ b ≤ 0xDF then utf8Decode 1 (b - 0xC0) 0x80 0xBF rest
       else if 0xE0 ≤ b ∧ b ≤ 0xEF then
         utf8Decode 2 (b - 0xE0) (if b = 0xE0 then 0xA0 else 0x80)
           (if b = 0xED then 0x9F else 0xBF) rest
       else if 0xF0 ≤ b ∧ b ≤ 0xF4 then
         utf8Decode 3 (b - 0xF0) (if b = 0xF0 then 0x90 else 0x80)
           (if b = 0xF4 then 0x8F else 0xBF) rest
       else Char.ofNat 0xFFFD :: utf8Decode 0 0 0x80 0xBF rest)

/-- The bytes of a form-urlencoded name or value: `+` is a space, `%XX` with two
hexadecimal digits is the byte they denote, every other character its UTF-8 bytes. -/
def formBytes : Str → List Nat
  | [] => []
  | [c] => if c = '+' then [0x20] else utf8Bytes c
  | [c, a] => (if c = '+' then [0x20] else utf8Bytes c) ++ formBytes [a]
  | c :: a :: b :: t =>
    if c = '+' then 0x20 :: formBytes (a :: b :: t)
    else if c = '%' then
      match hexVal a, hexVal b with
      | some x, some y => (16 * x + y) :: formBytes t
      | _, _ => utf8Bytes c ++ formBytes (a :: b :: t)
    else utf8Bytes c ++ formBytes (a :: b :: t)

/-- Decoding of a form-urlencoded name or value: its bytes, read as UTF-8. -/
def formDecode (s : Str) : Str := utf8Decode 0 0 0x80 0xBF (formBytes s)

/-- Characters the form-urlencoded serializer leaves as they are. -/
def formSafe (c : Char) : Bool :=
  c.isAlphanum || c = '*' || c = '-' || c = '.' || c = '_'

/-- The form-urlencoded serialisation of a byte. -/
def formEncodeByte (b : Nat) : Str :=
  if formSafe (Char.ofNat b) then [Char.ofNat b]
  else if b = 0x20 then ['+']
  else ['%', hexDigit (b / 16 % 16), hexDigit (b % 16)]

/-- Encoding of a form-urlencoded name or value: its UTF-8 bytes, serialised. -/
def formEncode (s : Str) : Str :=
  s.flatMap (fun c => (utf8Bytes c).flatMap formEncodeByte)

/-- The entries of `new URLSearchParams(search)`. -/
def parseQueryString (search : Str) : List (Str × Str) :=
  let body := match search with
    | '?' :: q => q
    | q => q
  ((splitOn '&' body).filter (fun seg => !seg.isEmpty)).map (fun seg =>
    (formDecode (splitFirst '=' seg).1, formDecode ((splitFirst '=' seg).2.getD [])))

/-- The method `params.toString()`. -/
def serializeQueryString : List (Str × Str) → Str
  | [] => []
  | [p] => formEncode p.1 ++ '=' :: formEncode p.2
  | p :: q :: ps => formEncode p.1 ++ '=' :: formEncode p.2 ++ '&' :: serializeQueryString (q :: ps)

/-- The path segments after the removal of the dot segments: `.` is dropped, `..`
drops the segment before it, and either of them at the end leaves an empty last
segment. -/
def removeDotSegments : List Str → List Str → List Str
  | [], done => done
  | segment :: rest, done =>
    if segment = "..".toList then
      removeDotSegments rest (if rest.isEmpty then done.dropLast ++ [[]] else done.dropLast)
    else if segment = ".".toList then
      removeDotSegments rest (if rest.isEmpty then done ++ [[]] else done)
    else removeDotSegments rest (done ++ [segment])

/-- The path of a reference against the path of its base: a reference that starts with
a slash replaces the path, another one replaces its last segment; dot segments are
removed. -/
def mergePath (basePath refPath : Str) : Str :=
  let segments :=
    match refPath with
    | '/' :: rest => splitOn '/' rest
    | _ => (splitOn '/' (basePath.drop 1)).dropLast ++ splitOn '/' refPath
  '/' :: ['/'].intercalate (removeDotSegments segments [])

/-- The constructor `new URL(s, base)` on a plain base, when `s` is an absolute plain
URL or a reference to the base: empty, `//host/path`, `/path`, `path`, `?query` or
`#fragment`. -/
def resolveURL (s base : Str) : Option URL :=
  match parseURL s with
  | some u => some u
  | none =>
    match parseURL base with
    | none => none
    | some b =>
      let origin := ({ b with path := [], query := none, fragment := none } : URL).toString
      match s with
      | [] => some { b with fragment := none }
      | '/' :: '/' :: _ => parseURL (b.scheme ++ ':' :: s)
      | '?' :: _ => parseURL (origin ++ b.path ++ s)
      | '#' :: _ => parseURL (({ b with fragment := none } : URL).toString ++ s)
      | _ =>
        let refPath := s.takeWhile (fun c => c != '?' && c != '#')
        let rest := s.dropWhile (fun c => c != '?' && c != '#')
        if ':' ∈ refPath.takeWhile (fun c => c != '/') then none
        else parseURL (origin ++ mergePath b.path refPath ++ rest)

/-- A URL library for the examples: the platform's on plain http(s) URLs, and refusing
the rest. The properties of the program are stated for every library; this one gives
their instances on concrete URLs. -/
def plainLib : UrlLib where
  parse := parseURL
  resolve := resolveURL
  parseQuery := parseQueryString
  serializeQuery := serializeQueryString

/-! ## Regular expressions of the source, as matchers -/

/-- The list of literal alternatives `.e` for the extensions `e`. -/
def dotted (exts : List String) : List Str := exts.map (fun e => '.' :: e.toList)

/-- The list of literal alternatives `/w` for the words `w`. -/
def slashed (words : List String) : List Str := words.map (fun w => '/' :: w.toList)

/-- Extensions of `isAssetUrl` (crawler.js:422). -/
def assetExtensions : List String :=
  ["css", "js", "jpg", "jpeg", "png", "gif", "svg", "webp", "ico", "woff", "woff2", "ttf",
   "eot", "pdf", "zip", "mp4", "mp3"]

/-- Extensions `SpiderCrawler.addToQueue` skips (crawler.js:458). -/
def crawlerSkipExtensions : List String :=
  ["pdf", "jpg", "jpeg", "png", "gif", "svg", "webp", "zip", "exe", "dmg", "mp4", "mp3", "wav",
   "avi", "mov", "ico", "woff", "woff2", "ttf", "eot"]

/-- Path words `SpiderCrawler.addToQueue` skips (crawler.js:463). -/
def crawlerSkipPaths : List String :=
  ["wp-admin", "wp-login", "admin", "login", "logout", "feed", "rss", "cart", "checkout",
   "account"]

/-- Extensions `SiteIndexer.addToQueue` skips (indexer.js:503). -/
def indexerSkipExtensions : List String :=
  ["pdf", "jpg", "jpeg", "png", "gif", "svg", "webp", "zip", "exe", "mp4", "mp3"]

/-- Words of the tracking test (crawler.js:490). -/
def trackingWords : List String := ["utm_", "fbclid", "gclid", "session", "token"]

/-- The test `/(\?|&)(utm_|fbclid|gclid|session|token)/i.test(search)`. -/
def trackingTest (search : Str) : Bool :=
  includesAnyCI search
    (trackingWords.map (fun w => '?' :: w.toList) ++ trackingWords.map (fun w => '&' :: w.toList))

/-- The capture of `pathname.match(/^\/([a-z]{2}(?:-[a-z]{2,4})?)\//i)`, if it matches. -/
def localeMatch (pathname : Str) : Option Str :=
  match pathname with
  | s :: a :: b :: rest =>
    if s = '/' && a.isAlpha && b.isAlpha then
      match rest with
      | [] => none
      | c :: rest2 =>
        if c = '/' then some [a, b]
        else if c = '-' then
          if 2 ≤ (rest2.takeWhile Char.isAlpha).length ∧ (rest2.takeWhile Char.isAlpha).length ≤ 4 ∧
              (rest2.dropWhile Char.isAlpha).head? = some '/' then
            some (a :: b :: '-' :: rest2.takeWhile Char.isAlpha)
          else none
        else none
    else none
  | _ => none

/-! ## `SpiderCrawler` (src/crawler.js) -/

/-- The options object given to `new SpiderCrawler(options)`. -/
structure CrawlerOptions where
  startUrl : Str
  searchPattern : Option Str := none
  maxPages : Option Nat := none
  concurrency : Option Nat := none
  localeFilter : Option Str := none
  detectCrossLocale : Bool := false
  defaultLocaleHasPrefix : Bool := false
  otherLocales : Option Str := none

/-- The fields of a `SpiderCrawler` instance; `maxPages = none` is `Infinity`. -/
structure SpiderCrawler where
  startUrl : Str
  searchPattern : Option Str
  maxPages : Option Nat
  concurrency : Nat
  localeFilter : Option Str
  detectCrossLocale : Bool
  defaultLocaleHasPrefix : Bool
  otherLocales : List Str
  visited : List Str := []
  queued : List Str := []
  queue : List Str := []
  isRunning : Bool := false
  isPaused : Bool := false
  pagesCrawled : Nat := 0
  rootDomain : Option Str := none
  activeWorkers : Nat := 0
  errors : List (Str × Str) := []
deriving DecidableEq, Repr

/-- The value `a || b` for a string-or-null `a`. -/
def orElse (a : Option Str) (b : Option Str) : Option Str := if truthy a then a else b

namespace SpiderCrawler

/-- The method `parseLocales(localeString)` (crawler.js:320). -/
def parseLocales (localeString : Option Str) : List Str :=
  match localeString with
  | none => []
  | some [] => []
  | some s =>
    ((((splitOn ',' s).map (fun l => toLowerCase (trim l))).filter (fun l => 0 < l.length)).map
      (fun l => if startsWith l ['/'] then l else '/' :: l)).map
      (fun l => if endsWith l ['/'] then l else l ++ ['/'])

/-- The constructor (crawler.js:6). -/
def new (options : CrawlerOptions) : SpiderCrawler where
  startUrl := options.startUrl
  searchPattern := options.searchPattern
  maxPages := match options.maxPages with
    | some 0 => none
    | some n => some n
    | none => some 100
  concurrency := match options.concurrency with
    | some 0 => 3
    | some n => n
    | none => 3
  localeFilter := orElse options.localeFilter none
  detectCrossLocale := options.detectCrossLocale
  defaultLocaleHasPrefix := options.defaultLocaleHasPrefix
  otherLocales := parseLocales (orElse options.otherLocales (some "/de/, /fr/, /es/".toList))

/-- The method `extractLocale(url)` (crawler.js:391); `none` is `null`. -/
def extractLocale (lib : UrlLib) (self : SpiderCrawler) (url : Str) : Option Str :=
  match lib.parse url with
  | none => none
  | some urlObj =>
    let pathname := toLowerCase urlObj.pathname
    match self.otherLocales.find? (fun locale => startsWith pathname locale) with
    | some locale => some (removeSlashes locale)
    | none =>
      match localeMatch pathname with
      | some code => some (toLowerCase code)
      | none => none

/-- The method `isAssetUrl(url)` (crawler.js:419). -/
def isAssetUrl (lib : UrlLib) (url : Str) : Bool :=
  match lib.parse url with
  | none => false
  | some urlObj => endsWithAnyCI urlObj.pathname (dotted assetExtensions)

/-- The method `isCrossLocaleLink(sourceUrl, targetUrl)` (crawler.js:333). -/
def isCrossLocaleLink (lib : UrlLib) (self : SpiderCrawler) (sourceUrl targetUrl : Str) : Bool :=
  match lib.parse targetUrl with
  | none => false
  | some targetUrlObj =>
    if some targetUrlObj.hostname ≠ self.rootDomain then false
    else if isAssetUrl lib targetUrl then false
    else
      let sourceLocale := self.extractLocale lib sourceUrl
      let targetLocale := self.extractLocale lib targetUrl
      if !self.defaultLocaleHasPrefix then
        if !truthy sourceLocale then
          if truthy targetLocale then true else false
        else
          if truthy targetLocale && targetLocale ≠ sourceLocale then true
          else if !truthy targetLocale then true
          else false
      else
        if truthy sourceLocale && truthy targetLocale && sourceLocale ≠ targetLocale then true
        else if truthy sourceLocale && !truthy targetLocale then true
        else false

/-- The locale filter of `addToQueue` (crawler.js:467-487): `true` when the URL is skipped. -/
def localeRejects (self : SpiderCrawler) (urlObj : URL) : Bool :=
  if self.detectCrossLocale && !self.defaultLocaleHasPrefix && !truthy self.localeFilter then
    self.otherLocales.any (fun locale => startsWith (toLowerCase urlObj.pathname) locale)
  else if truthy self.localeFilter then
    let filters := (splitOn ',' (self.localeFilter.getD [])).map (fun f => toLowerCase (trim f))
    let pathLower := toLowerCase urlObj.pathname
    !filters.any (fun filter => includes pathLower filter)
  else false

/-- The cleaning inside `addToQueue` (crawler.js:489-501): tracking query dropped,
fragment dropped, trailing slash removed except on the bare root. -/
def cleanUrl (urlObj : URL) : Str :=
  let urlObj := if !urlObj.search.isEmpty && trackingTest urlObj.search then urlObj.setSearch []
    else urlObj
  let urlObj := urlObj.clearHash
  let cleanUrl := urlObj.toString
  if cleanUrl ≠ urlObj.protocol ++ ['/', '/'] ++ urlObj.hostname ++ ['/'] then
    stripTrailingSlash cleanUrl
  else cleanUrl

/-- The method `addToQueue(href)` (crawler.js:450). -/
def addToQueue (lib : UrlLib) (self : SpiderCrawler) (href : Str) : SpiderCrawler :=
  match lib.parse href with
  | none => self
  | some urlObj =>
    if some urlObj.hostname ≠ self.rootDomain then self
    else if endsWithAnyCI urlObj.pathname (dotted crawlerSkipExtensions) then self
    else if includesAnyCI urlObj.pathname (slashed crawlerSkipPaths) then self
    else if self.localeRejects urlObj then self
    else
      let cleanUrl := cleanUrl urlObj
      if cleanUrl ∉ self.visited ∧ cleanUrl ∉ self.queued then
        { self with queue := self.queue ++ [cleanUrl], queued := setAdd self.queued cleanUrl }
      else self

/-- The method `start()` up to the launch of the browser (crawler.js:44-60); a start
URL that does not parse ends the run before the queue is set. -/
def start (lib : UrlLib) (self : SpiderCrawler) : SpiderCrawler :=
  if self.isRunning then self
  else
    match lib.parse self.startUrl with
    | none => { self with isRunning := false, isPaused := false }
    | some urlObj =>
      { self with
        isRunning := true
        isPaused := false
        rootDomain := some urlObj.hostname
        queue := [self.startUrl]
        queued := setAdd self.queued self.startUrl }

/-- The cleaned URL `addToQueue` derives from `href`, when `href` parses. -/
def clean (lib : UrlLib) (href : Str) : Option Str := (lib.parse href).map cleanUrl

/-- Frontier states: `start()` on a fresh crawler, then any calls of `addToQueue`. -/
inductive Reachable (lib : UrlLib) : SpiderCrawler → Prop
  | start (options : CrawlerOptions) : Reachable lib ((new options).start lib)
  | addToQueue (s : SpiderCrawler) (href : Str) :
      Reachable lib s → Reachable lib (s.addToQueue lib href)

end SpiderCrawler

/-! ## `SiteIndexer` (src/indexer.js): frontier and locale detection -/

/-- The options object given to `new SiteIndexer(options)`. -/
structure IndexerOptions where
  startUrl : Str
  maxPages : Option Nat := none
  concurrency : Option Nat := none
  localeFilter : Option Str := none
  excludeLocaleSwitcher : Bool := true
  urlsToIndex : Option (List Str) := none

/-- The fields of a `SiteIndexer` instance that the frontier uses; `maxPages = none`
is `Infinity`. -/
structure SiteIndexer where
  startUrl : Str
  maxPages : Option Nat
  concurrency : Nat
  localeFilter : Option Str
  excludeLocaleSwitcher : Bool
  urlsToIndex : Option (List Str)
  knownLocales : List Str
  visited : List Str := []
  queued : List Str := []
  queue : List Str := []
  isRunning : Bool := false
  isPaused : Bool := false
  pagesCrawled : Nat := 0
  rootDomain : Option Str := none
  activeWorkers : Nat := 0
  errors : List (Str × Str) := []
  totalLinksFound : Nat := 0
deriving DecidableEq, Repr

namespace SiteIndexer

/-- The built-in list `knownLocales` (indexer.js:25). -/
def baseLocales : List Str :=
  ["en", "de", "fr", "es", "it", "pt", "nl", "pl", "ru", "ja", "ko", "zh", "ar", "hi", "tr",
   "sv", "da", "no", "fi", "en-us", "en-gb", "pt-br", "zh-cn", "zh-tw"].map String.toList

/-- The constructor (indexer.js:10). -/
def new (options : IndexerOptions) : SiteIndexer where
  startUrl := options.startUrl
  maxPages := match options.maxPages with
    | some 0 => none
    | some n => some n
    | none => some 1000
  concurrency := match options.concurrency with
    | some 0 => 3
    | some n => n
    | none => 3
  localeFilter := orElse options.localeFilter none
  excludeLocaleSwitcher := options.excludeLocaleSwitcher
  urlsToIndex := options.urlsToIndex
  knownLocales :=
    match orElse options.localeFilter none with
    | some f => if f ∈ baseLocales then baseLocales else baseLocales ++ [f]
    | none => baseLocales

/-- The method `detectUrlLocale(pathname)` (indexer.js:532). -/
def detectUrlLocale (self : SiteIndexer) (pathname : Str) : Option Str :=
  match (splitOn '/' (toLowerCase pathname)).filter (fun part => !part.isEmpty) with
  | [] => none
  | locale :: _ => if locale ∈ self.knownLocales then some locale else none

/-- The helper `extractLocale(href, isExternal)` of `indexPage` (indexer.js:332). -/
def extractLocale (lib : UrlLib) (knownLocales : List Str) (href : Str) (isExternal : Bool) :
    Option Str :=
  if isExternal then none
  else
    match lib.parse href with
    | none => some "default".toList
    | some url =>
      match (splitOn '/' (toLowerCase url.pathname)).filter (fun part => !part.isEmpty) with
      | [] => some "default".toList
      | candidate :: _ =>
        if candidate ∈ knownLocales then some candidate else some "default".toList

/-- The locale filter of `addToQueue` (indexer.js:505-516): `true` when the URL is skipped. -/
def localeRejects (self : SiteIndexer) (urlObj : URL) : Bool :=
  if truthy self.localeFilter then
    let urlLocale := self.detectUrlLocale urlObj.pathname
    if self.localeFilter = some "default".toList then urlLocale ≠ none
    else urlLocale ≠ self.localeFilter
  else false

/-- The cleaning inside `addToQueue` (indexer.js:518-519): fragment dropped, trailing
slash removed. -/
def cleanUrl (urlObj : URL) : Str :=
  let urlObj := urlObj.clearHash
  if (stripTrailingSlash urlObj.toString).isEmpty then urlObj.toString
  else stripTrailingSlash urlObj.toString

/-- The method `addToQueue(href)` (indexer.js:499). -/
def addToQueue (lib : UrlLib) (self : SiteIndexer) (href : Str) : SiteIndexer :=
  match lib.parse href with
  | none => self
  | some urlObj =>
    if some urlObj.hostname ≠ self.rootDomain then self
    else if endsWithAnyCI urlObj.pathname (dotted indexerSkipExtensions) then self
    else if self.localeRejects urlObj then self
    else
      let cleanUrl := cleanUrl urlObj
      if cleanUrl ∉ self.visited ∧ cleanUrl ∉ self.queued then
        { self with queue := self.queue ++ [cleanUrl], queued := setAdd self.queued cleanUrl }
      else self

/-- The method `buildIndex()` up to the launch of the browser (indexer.js:120-156), on
the frontier fields; a start URL that does not parse ends the run before the queue is set. -/
def buildIndex (lib : UrlLib) (self : SiteIndexer) : SiteIndexer :=
  if self.isRunning then self
  else
    match lib.parse self.startUrl with
    | none => { self with isRunning := false, isPaused := false }
    | some urlObj =>
      match self.urlsToIndex with
      | some (url :: urls) =>
        { self with
          isRunning := true
          isPaused := false
          rootDomain := some urlObj.hostname
          queue := url :: urls
          queued := (url :: urls).foldl setAdd self.queued }
      | _ =>
        { self with
          isRunning := true
          isPaused := false
          rootDomain := some urlObj.hostname
          queue := [self.startUrl]
          queued := setAdd self.queued self.startUrl }

/-- The cleaned URL `addToQueue` derives from `href`, when `href` parses. -/
def clean (lib : UrlLib) (href : Str) : Option Str := (lib.parse href).map cleanUrl

/-- Frontier states of a full crawl: `buildIndex()` on a fresh indexer without
`urlsToIndex` (the only mode in which `indexPage` calls `addToQueue`, indexer.js:474),
then any calls of `addToQueue`. -/
inductive Reachable (lib : UrlLib) : SiteIndexer → Prop
  | start (options : IndexerOptions) :
      options.urlsToIndex = none → Reachable lib ((new options).buildIndex lib)
  | addToQueue (s : SiteIndexer) (href : Str) :
      Reachable lib s → Reachable lib (s.addToQueue lib href)

/-! ## `SiteIndexer`: link health -/

/-- Query parameters `normalize` deletes (indexer.js:583). -/
def normalizeDeleted : List Str :=
  ["utm_source", "utm_medium", "utm_campaign", "utm_term", "utm_content", "gclid", "fbclid",
   "r"].map String.toList

/-- The helper `normalize(inputUrl)` of `checkLinkStatus` (indexer.js:578). -/
def normalize (lib : UrlLib) (inputUrl : Str) : Str :=
  match lib.parse inputUrl with
  | none => inputUrl
  | some u =>
    let u := u.clearHash
    let params := (lib.parseQuery u.search).filter (fun p => decide (p.1 ∉ normalizeDeleted))
    let u := u.setSearch
      (if !(lib.serializeQuery params).isEmpty then '?' :: lib.serializeQuery params else [])
    stripTrailingSlash u.toString

end SiteIndexer

/-- The request methods `checkLinkStatus` uses. -/
inductive Method
  | HEAD
  | GET
deriving DecidableEq, Repr

/-- How a call of `fetch` ends: with a response, or rejected by the abort timer, or
rejected by a network failure. -/
inductive FetchResult
  | response (status : Nat) (location : Option Str)
  | aborted
  | failed
deriving DecidableEq, Repr

/-- The network: the outcome of `fetch(url, { method })`. -/
abbrev Net := Method → Str → FetchResult

/-- What `checkLinkStatus` returns, with the requests it has issued, in order. -/
structure Checked where
  status : Nat
  requests : List Method
deriving DecidableEq, Repr

namespace SiteIndexer

/-- The `catch` block of `checkLinkStatus` (indexer.js:624-649): the GET fallback. -/
def checkLinkStatusFallback (net : Net) (url : Str) : Checked :=
  match net Method.GET url with
  | FetchResult.response status _ => { status := status, requests := [Method.HEAD, Method.GET] }
  | FetchResult.aborted => { status := 408, requests := [Method.HEAD, Method.GET] }
  | FetchResult.failed => { status := 0, requests := [Method.HEAD, Method.GET] }

/-- The method `checkLinkStatus(url)` (indexer.js:575). -/
def checkLinkStatus (lib : UrlLib) (net : Net) (url : Str) : Checked :=
  match net Method.HEAD url with
  | FetchResult.response status location =>
    if status ∈ [301, 302, 307, 308] then
      if truthy location then
        match lib.resolve (location.getD []) url with
        | none => checkLinkStatusFallback net url
        | some resolved =>
          if normalize lib resolved.toString = normalize lib url then
            { status := 200, requests := [Method.HEAD] }
          else { status := status, requests := [Method.HEAD] }
      else { status := status, requests := [Method.HEAD] }
    else if status ∈ [400, 403, 405] then checkLinkStatusFallback net url
    else { status := status, requests := [Method.HEAD] }
  | _ => checkLinkStatusFallback net url

end SiteIndexer

/-! ## Helpers for stating the properties -/

/-- The URL `SpiderCrawler.addToQueue(href)` hands to the queue, when `href` passes
every filter (crawler.js:452-501). -/
def SpiderCrawler.admitted (lib : UrlLib) (self : SpiderCrawler) (href : Str) : Option Str :=
  match lib.parse href with
  | none => none
  | some urlObj =>
    if some urlObj.hostname ≠ self.rootDomain then none
    else if endsWithAnyCI urlObj.pathname (dotted crawlerSkipExtensions) then none
    else if includesAnyCI urlObj.pathname (slashed crawlerSkipPaths) then none
    else if self.localeRejects urlObj then none
    else some (SpiderCrawler.cleanUrl urlObj)

/-- The last step of `SpiderCrawler.addToQueue` (crawler.js:504-507). -/
def SpiderCrawler.enqueue (self : SpiderCrawler) (cleanUrl : Str) : SpiderCrawler :=
  if cleanUrl ∉ self.visited ∧ cleanUrl ∉ self.queued then
    { self with queue := self.queue ++ [cleanUrl], queued := setAdd self.queued cleanUrl }
  else self

/-- The URL `SiteIndexer.addToQueue(href)` hands to the queue, when `href` passes
every filter (indexer.js:501-519). -/
def SiteIndexer.admitted (lib : UrlLib) (self : SiteIndexer) (href : Str) : Option Str :=
  match lib.parse href with
  | none => none
  | some urlObj =>
    if some urlObj.hostname ≠ self.rootDomain then none
    else if endsWithAnyCI urlObj.pathname (dotted indexerSkipExtensions) then none
    else if self.localeRejects urlObj then none
    else some (SiteIndexer.cleanUrl urlObj)

/-- The last step of `SiteIndexer.addToQueue` (indexer.js:521-524). -/
def SiteIndexer.enqueue (self : SiteIndexer) (cleanUrl : Str) : SiteIndexer :=
  if cleanUrl ∉ self.visited ∧ cleanUrl ∉ self.queued then
    { self with queue := self.queue ++ [cleanUrl], queued := setAdd self.queued cleanUrl }
  else self

/-- The frontier invariant: no URL twice in the queue, every queue entry in the queued set. -/
def FrontierOk (queue queued : List Str) : Prop :=
  queue.Nodup ∧ ∀ x ∈ queue, x ∈ queued

/-- The locale a verdict of `extractLocale` stands for: `null` and the empty string
both stand for no locale. -/
def localeOf (verdict : Option Str) : Option Str := if truthy verdict then verdict else none

/-- A crawler started on `http://a.com/` with the default options. -/
def exampleCrawler : SpiderCrawler :=
  (SpiderCrawler.new { startUrl := "http://a.com/".toList }).start plainLib

/-- An indexer started on `http://a.com/` with the default options. -/
def exampleIndexer : SiteIndexer :=
  (SiteIndexer.new { startUrl := "http://a.com/".toList }).buildIndex plainLib

/-- A crawler started on `http://a.com/` with `otherLocales: '//'`. -/
def slashLocaleCrawler : SpiderCrawler :=
  (SpiderCrawler.new { startUrl := "http://a.com/".toList, otherLocales := some "//".toList }).start
    plainLib

/-- A crawler started on `http://a.com/` with `defaultLocaleHasPrefix: true`. -/
def prefixedCrawler : SpiderCrawler :=
  (SpiderCrawler.new { startUrl := "http://a.com/".toList, defaultLocaleHasPrefix := true }).start
    plainLib

/-- The shape `xx` or `xx-yy`, `xx-yyy`, `xx-yyyy` of a locale code, over the letters
that `letter` accepts. -/
def codeShape (letter : Char → Bool) (code : Str) : Bool :=
  match code with
  | [a, b] => letter a && letter b
  | a :: b :: d :: r =>
    letter a && letter b && (d = '-') && r.all letter && decide (2 ≤ r.length) &&
      decide (r.length ≤ 4)
  | _ => false

/-- The network in which every HEAD request ends as `head` and every GET request as `get`. -/
def constNet (head get : FetchResult) : Net := fun method _ =>
  match method with
  | Method.HEAD => head
  | Method.GET => get

/-- A mark followed by a component, or nothing for an absent component. -/
def optStr (mark : Char) : Option Str → Str
  | some s => mark :: s
  | none => []

/-- The text `scheme://host[:port]path[?query][#fragment]`. -/
def plainText (scheme host : Str) (port : Option Str) (path : Str) (query fragment : Option Str) :
    Str :=
  scheme ++ ':' :: '/' :: '/' ::
    (host ++ (optStr ':' port ++ (path ++ (optStr '?' query ++ optStr '#' fragment))))

/-- The URL records that `plainLib` reads and writes: http(s), no credentials, every
component in serialised form. -/
def plainURL (u : URL) : Bool :=
  (u.scheme = "http".toList || u.scheme = "https".toList) &&
  u.username.isEmpty && u.password.isEmpty &&
  (match u.host with
   | some h => validHost h
   | none => false) &&
  u.port.all (validPort u.scheme) && validPath u.path &&
  u.query.all (fun q => q.all queryChar) && u.fragment.all (fun f => f.all queryChar)

/-- The URL record `SpiderCrawler.addToQueue` serialises: tracking query dropped
(crawler.js:490-492), fragment dropped (crawler.js:495). -/
def SpiderCrawler.cleanRecord (urlObj : URL) : URL :=
  (if !urlObj.search.isEmpty && trackingTest urlObj.search then urlObj.setSearch []
    else urlObj).clearHash

/-- The bare root `protocol//hostname/` of a URL (crawler.js:499). -/
def URL.root (u : URL) : Str := u.protocol ++ ['/', '/'] ++ u.hostname ++ ['/']

/-- The URL record `normalize` serialises: fragment dropped, listed parameters deleted
(indexer.js:581-584). -/
def SiteIndexer.normalizeRecord (lib : UrlLib) (u : URL) : URL :=
  u.clearHash.setSearch
    (if !(lib.serializeQuery ((lib.parseQuery u.clearHash.search).filter
          (fun p => decide (p.1 ∉ SiteIndexer.normalizeDeleted)))).isEmpty then
      '?' :: lib.serializeQuery ((lib.parseQuery u.clearHash.search).filter
          (fun p => decide (p.1 ∉ SiteIndexer.normalizeDeleted)))
    else [])

/-! ## The worker loop of `createWorker` -/

/-- The loop test of `SpiderCrawler.createWorker` (crawler.js:154). -/
def SpiderCrawler.loopTest (self : SpiderCrawler) : Bool :=
  self.isRunning && (decide (0 < self.queue.length) || decide (0 < self.activeWorkers)) &&
    (match self.maxPages with
     | none => true
     | some maxPages => decide (self.pagesCrawled < maxPages))

/-- One pass of the loop body of `SpiderCrawler.createWorker` from `queue.shift()` up to
the call of `crawlPage` (crawler.js:163-175): the crawler after the pass, and the URL
handed to `crawlPage` when the pass takes one. -/
def SpiderCrawler.takeNext (self : SpiderCrawler) : SpiderCrawler × Option Str :=
  match self.queue with
  | [] => (self, none)
  | currentUrl :: rest =>
    if currentUrl.isEmpty then ({ self with queue := rest }, none)
    else if currentUrl ∈ self.visited then ({ self with queue := rest }, none)
    else
      ({ self with
          queue := rest
          visited := setAdd self.visited currentUrl
          pagesCrawled := self.pagesCrawled + 1
          activeWorkers := self.activeWorkers + 1 }, some currentUrl)

/-- States of a crawl: `start()` on a fresh crawler, then calls of `addToQueue` and
passes of the workers in any order. A pass is allowed in every state, whatever the loop
test says, so the states a run goes through are among these. -/
inductive SpiderCrawler.Crawling (lib : UrlLib) : SpiderCrawler → Prop
  | start (options : CrawlerOptions) : Crawling lib ((SpiderCrawler.new options).start lib)
  | addToQueue (s : SpiderCrawler) (href : Str) :
      Crawling lib s → Crawling lib (s.addToQueue lib href)
  | takeNext (s : SpiderCrawler) : Crawling lib s → Crawling lib s.takeNext.1

/-- The loop test of `SiteIndexer.createWorker` (indexer.js:259). -/
def SiteIndexer.loopTest (self : SiteIndexer) : Bool :=
  self.isRunning && (decide (0 < self.queue.length) || decide (0 < self.activeWorkers)) &&
    (match self.maxPages with
     | none => true
     | some maxPages => decide (self.pagesCrawled < maxPages))

/-- One pass of the loop body of `SiteIndexer.createWorker` from `queue.shift()` up to
the call of `indexPage` (indexer.js:266-274): the indexer after the pass, and the URL
handed to `indexPage` when the pass takes one. -/
def SiteIndexer.takeNext (self : SiteIndexer) : SiteIndexer × Option Str :=
  match self.queue with
  | [] => (self, none)
  | currentUrl :: rest =>
    if currentUrl.isEmpty || decide (currentUrl ∈ self.visited) then
      ({ self with queue := rest }, none)
    else
      ({ self with
          queue := rest
          visited := setAdd self.visited currentUrl
          pagesCrawled := self.pagesCrawled + 1
          activeWorkers := self.activeWorkers + 1 }, some currentUrl)

/-- States of an indexing run, full or incremental: `buildIndex()` on a fresh indexer,
then calls of `addToQueue` and passes of the workers in any order. A pass is allowed in
every state, whatever the loop test says, so the states a run goes through are among
these. -/
inductive SiteIndexer.Indexing (lib : UrlLib) : SiteIndexer → Prop
  | start (options : IndexerOptions) : Indexing lib ((SiteIndexer.new options).buildIndex lib)
  | addToQueue (s : SiteIndexer) (href : Str) :
      Indexing lib s → Indexing lib (s.addToQueue lib href)
  | takeNext (s : SiteIndexer) : Indexing lib s → Indexing lib s.takeNext.1

/-- No URL is both in the queue and in the visited set. -/
def NoOverlap (queue visited : List Str) : Prop := ∀ x, ¬ (x ∈ queue ∧ x ∈ visited)

/-- The frontier invariant with the visited set: the queue has no URL twice, every
queue entry is in the queued set, and none is in the visited set. -/
def FrontierFresh (queue queued visited : List Str) : Prop :=
  FrontierOk queue queued ∧ NoOverlap queue visited

/-! ## Crawlers and indexers for the examples -/

/-- An indexer in incremental mode whose `urlsToIndex` names `http://a.com/x` twice,
after `buildIndex()`. -/
def duplicateIndexer : SiteIndexer :=
  (SiteIndexer.new { startUrl := "http://a.com/".toList,
                     urlsToIndex := some ["http://a.com/x".toList, "http://a.com/x".toList] }).buildIndex
    plainLib

/-- An indexer in incremental mode on two different URLs, after `buildIndex()`. -/
def incrementalIndexer : SiteIndexer :=
  (SiteIndexer.new { startUrl := "http://a.com/".toList,
                     urlsToIndex := some ["http://a.com/x".toList, "http://a.com/y".toList] }).buildIndex
    plainLib

/-- A crawler started on `http://a.com`, the root written without its slash. -/
def bareRootCrawler : SpiderCrawler :=
  (SpiderCrawler.new { startUrl := "http://a.com".toList }).start plainLib

/-- A crawler started on `http://a.com/` with the locale filter `de`. -/
def filteredCrawler : SpiderCrawler :=
  (SpiderCrawler.new { startUrl := "http://a.com/".toList, localeFilter := some "de".toList }).start
    plainLib

/-- An indexer started on `http://a.com/` with the locale filter `de`. -/
def filteredIndexer : SiteIndexer :=
  (SiteIndexer.new { startUrl := "http://a.com/".toList, localeFilter := some "de".toList }).buildIndex
    plainLib

/-- The filters `SpiderCrawler.addToQueue` reads from `localeFilter` (crawler.js:481). -/
def SpiderCrawler.localeFilters (self : SpiderCrawler) : List Str :=
  (splitOn ',' (self.localeFilter.getD [])).map (fun f => toLowerCase (trim f))

/-! ## Health report: the category of a checked link -/

/-- The categories of the health report. -/
inductive Category
  | broken
  | redirect
  | healthy
deriving DecidableEq, Repr

/-- The categorisation of a checked link in `indexPage` (indexer.js:430-446); `none`
when no branch takes the status. -/
def SiteIndexer.categorize (status : Nat) : Option Category :=
  if status = 404 ∨ status = 410 ∨ status ≥ 500 then some Category.broken
  else if status = 301 ∨ status = 302 ∨ status = 307 ∨ status = 308 then some Category.redirect
  else if status ≥ 200 ∧ status < 300 then some Category.healthy
  else none

/-- The category `indexPage` gives to a link it checks (indexer.js:425-446). -/
def SiteIndexer.linkCategory (lib : UrlLib) (net : Net) (href : Str) : Option Category :=
  SiteIndexer.categorize (SiteIndexer.checkLinkStatus lib net href).status

/-- The status request of the health checks of server.js (server.js:383-413 and
1198-1233): HEAD, then GET when HEAD is rejected or answers 405, 403 or 400; the
outcome is a response or the rejection of the GET request. The requests are sent with
`redirect: 'follow'`. -/
def healthCheckFetch (net : Net) (href : Str) : FetchResult :=
  match net Method.HEAD href with
  | FetchResult.response status location =>
    if status = 405 ∨ status = 403 ∨ status = 400 then net Method.GET href
    else FetchResult.response status location
  | _ => net Method.GET href

/-- The categorisation of a link in `GET /api/health-check` (server.js:415-450) and in
`runHealthCheck` (server.js:1235-1262); `none` when no branch takes the status. An
entry for a network failure is pushed to `broken` with status 0. -/
def healthCheckCategory (net : Net) (href : Str) : Option Category :=
  match healthCheckFetch net href with
  | FetchResult.response status _ =>
    if status = 404 ∨ status = 410 ∨ status ≥ 500 then some Category.broken
    else if status ≥ 200 ∧ status < 400 then some Category.healthy
    else none
  | FetchResult.aborted => some Category.healthy
  | FetchResult.failed => some Category.broken

/-! ## The JavaScript runtime on text: lower-casing and regular expressions -/

/-- What the search and the locale-switcher tests take from the runtime: the method
`s.toLowerCase()` on arbitrary text, and the constructor `new RegExp(source)` or
`new RegExp(source, 'i')` with the method `test` of its result; `regExp source
ignoreCase` is `none` when the constructor throws. -/
structure Runtime where
  toLowerCase : Str → Str
  regExp : Str → Bool → Option (Str → Bool)

/-- The property `s.length`: the number of UTF-16 code units. -/
def utf16Length (s : Str) : Nat := (s.map (fun c => if c.toNat < 0x10000 then 1 else 2)).sum

/-- The test `/^[a-z]{2}(-[a-z]{2})?$/i.test(s)`. -/
def isoCodeTest (s : Str) : Bool :=
  match s with
  | [a, b] => a.isAlpha && b.isAlpha
  | [a, b, c, d, e] => a.isAlpha && b.isAlpha && c = '-' && d.isAlpha && e.isAlpha
  | _ => false

/-- The class `[\u{1F1E0}-\u{1F1FF}]`: the regional indicators flags are made of. -/
def isFlagChar (c : Char) : Bool := 0x1F1E0 ≤ c.toNat && c.toNat ≤ 0x1F1FF

/-- The class `[\u4e00-\u9fff\u3040-\u309f\u30a0-\u30ff\uac00-\ud7af]`. -/
def isCjkChar (c : Char) : Bool :=
  let n := c.toNat
  (0x4e00 ≤ n && n ≤ 0x9fff) || (0x3040 ≤ n && n ≤ 0x309f) || (0x30a0 ≤ n && n ≤ 0x30ff) ||
    (0xac00 ≤ n && n ≤ 0xd7af)

/-- Line terminators, the characters `.` does not match. -/
def isLineTerminator (c : Char) : Bool :=
  let n := c.toNat
  n = 0x0A || n = 0x0D || n = 0x2028 || n = 0x2029

/-- A match of `\s*\([^)]*\)\s*` at the start of `s`: what follows the match. -/
def takeParen (s : Str) : Option Str :=
  match s.dropWhile isJsSpace with
  | '(' :: inner =>
    match inner.dropWhile (fun c => c != ')') with
    | ')' :: rest => some (rest.dropWhile isJsSpace)
    | _ => none
  | _ => none

/-- The scan of `s.replace(/\s*\([^)]*\)\s*/g, '')`, with one unit of fuel per
character. -/
def stripParensFuel : Nat → Str → Str
  | 0, s => s
  | _ + 1, [] => []
  | fuel + 1, c :: s =>
    match takeParen (c :: s) with
    | some rest => stripParensFuel fuel rest
    | none => c :: stripParensFuel fuel s

/-- The call `s.replace(/\s*\([^)]*\)\s*/g, '')`: every parenthesised part removed, with
the white space around it. -/
def stripParens (s : Str) : Str := stripParensFuel (s.length + 1) s

/-- The test `/[\u{1F1E0}-\u{1F1FF}][\u{1F1E0}-\u{1F1FF}]/u.test(s)`: two regional
indicators in a row. -/
def hasFlagPair : Str → Bool
  | a :: b :: rest => (isFlagChar a && isFlagChar b) || hasFlagPair (b :: rest)
  | _ => false

/-- The constant `LOCALE_SWITCHER_TEXTS` (server.js:134-174), character by character as
the file has it. -/
def LOCALE_SWITCHER_TEXTS : List Str :=
  ["english", "german", "french", "spanish", "italian", "portuguese", "dutch", "polish",
   "russian", "japanese", "korean", "chinese", "arabic", "hindi", "turkish", "swedish", "danish",
   "norwegian", "finnish", "czech", "hungarian", "romanian", "bulgarian", "croatian", "serbian",
   "slovenian", "slovak", "ukrainian", "greek", "hebrew", "thai", "vietnamese", "indonesian",
   "malay", "filipino", "bengali", "catalan", "latvian", "lithuanian", "estonian", "icelandic",
   "persian", "farsi", "urdu", "swahili", "afrikaans", "welsh", "irish", "scottish", "basque",
   "galician", "deutsch", "fran√ßais", "espa√±ol", "italiano", "portugu√™s", "nederlands",
   "polski", "—Ä—É—Å—Å–∫–∏–π", "Êó•Êú¨Ë™û", "ÌïúÍµ≠Ïñ¥", "‰∏≠Êñá", "ÁÆÄ‰Ωì‰∏≠Êñá",
   "ÁπÅÈ´î‰∏≠Êñá", "ÿßŸÑÿπÿ±ÿ®Ÿäÿ©", "‡§π‡§ø‡§®‡•ç‡§¶‡•Ä", "t√ºrk√ße", "svenska", "dansk",
   "norsk", "suomi", "ƒçe≈°tina", "magyar", "rom√¢nƒÉ", "–±—ä–ª–≥–∞—Ä—Å–∫–∏", "hrvatski",
   "—Å—Ä–ø—Å–∫–∏", "sloven≈°ƒçina", "slovenƒçina", "—É–∫—Ä–∞—ó–Ω—Å—å–∫–∞", "ŒµŒªŒªŒ∑ŒΩŒπŒ∫Œ¨",
   "◊¢◊ë◊®◊ô◊™", "‡πÑ‡∏ó‡∏¢", "ti·∫øng vi·ªát", "bahasa indonesia", "melayu", "filipino",
   "‡¶¨‡¶æ‡¶Ç‡¶≤‡¶æ", "catal√†", "latvie≈°u", "lietuvi≈≥", "eesti", "√≠slenska", "ŸÅÿßÿ±ÿ≥€å",
   "ÿßÿ±ÿØŸà", "kiswahili", "cymraeg", "gaeilge", "euskara", "galego", "en", "de", "fr", "es",
   "it", "pt", "nl", "pl", "ru", "ja", "ko", "zh", "ar", "hi", "tr", "sv", "da", "no", "fi",
   "cs", "hu", "ro", "bg", "hr", "sr", "sl", "sk", "uk", "el", "he", "th", "vi", "id", "ms",
   "tl", "bn", "ca", "lv", "lt", "et", "is", "fa", "ur", "sw", "af", "cy", "ga", "eu", "gl",
   "mt", "lb", "mk", "sq", "bs", "hy", "ka", "az", "kk", "uz", "tg", "mn", "ne", "si", "km",
   "lo", "my", "en-us", "en-gb", "en-au", "en-ca", "en-nz", "en-ie", "en-za", "en-in", "en-sg",
   "pt-br", "pt-pt", "zh-cn", "zh-tw", "zh-hk", "zh-sg", "es-es", "es-mx", "es-ar", "es-co",
   "es-cl", "es-pe", "fr-fr", "fr-ca", "fr-be", "fr-ch", "de-de", "de-at", "de-ch", "nl-nl",
   "nl-be", "it-it", "it-ch", "eng", "ger", "deu", "fra", "fre", "spa", "ita", "por", "dut",
   "nld", "pol", "rus", "jpn", "kor", "chn", "chi", "ara", "hin", "tur", "swe", "dan", "nor",
   "fin", "üá∫üá∏", "üá¨üáß", "üá©üá™", "üá´üá∑", "üá™üá∏", "üáÆüáπ", "üáµüáπ",
   "üáßüá∑", "üá≥üá±", "üáµüá±", "üá∑üá∫", "üáØüáµ", "üá∞üá∑", "üá®üá≥",
   "üáπüáº", "üá≠üá∞", "üá∏üá¶", "üáÆüá≥", "üáπüá∑", "üá∏üá™", "üá©üá∞",
   "üá≥üá¥", "üá´üáÆ", "üá®üáø", "üá≠üá∫", "üá∑üá¥", "üáßüá¨", "üá≠üá∑",
   "üá∑üá∏", "üá∏üáÆ", "üá∏üá∞", "üá∫üá¶", "üá¨üá∑", "üáÆüá±", "üáπüá≠",
   "üáªüá≥", "üáÆüá©", "üá≤üáæ", "üáµüá≠", "üáßüá©", "üá¶üáπ", "üá®üá≠",
   "üáßüá™", "üá®üá¶", "üá¶üá∫", "üá≥üáø", "üáÆüá™", "üáøüá¶", "üá∏üá¨",
   "üá≤üáΩ", "üá¶üá∑", "üá®üá¥", "üá®üá±", "üáµüá™"].map String.toList

/-- The set `localeSwitcherTexts` of the constructor (indexer.js:31-71). -/
def SiteIndexer.localeSwitcherTexts : List Str :=
  ["english", "german", "french", "spanish", "italian", "portuguese", "dutch", "polish",
   "russian", "japanese", "korean", "chinese", "arabic", "hindi", "turkish", "swedish", "danish",
   "norwegian", "finnish", "czech", "hungarian", "romanian", "bulgarian", "croatian", "serbian",
   "slovenian", "slovak", "ukrainian", "greek", "hebrew", "thai", "vietnamese", "indonesian",
   "malay", "filipino", "bengali", "catalan", "latvian", "lithuanian", "estonian", "icelandic",
   "persian", "farsi", "urdu", "swahili", "afrikaans", "welsh", "irish", "scottish", "basque",
   "galician", "deutsch", "français", "español", "italiano", "português", "nederlands", "polski",
   "русский", "日本語", "한국어", "中文", "简体中文", "繁體中文", "العربية", "हिन्दी", "türkçe", "svenska",
   "dansk", "norsk", "suomi", "čeština", "magyar", "română", "български", "hrvatski", "српски",
   "slovenščina", "slovenčina", "українська", "ελληνικά", "עברית", "ไทย", "tiếng việt",
   "bahasa indonesia", "melayu", "filipino", "বাংলা", "català", "latviešu", "lietuvių", "eesti",
   "íslenska", "فارسی", "اردو", "kiswahili", "cymraeg", "gaeilge", "euskara", "galego", "en",
   "de", "fr", "es", "it", "pt", "nl", "pl", "ru", "ja", "ko", "zh", "ar", "hi", "tr", "sv",
   "da", "no", "fi", "cs", "hu", "ro", "bg", "hr", "sr", "sl", "sk", "uk", "el", "he", "th",
   "vi", "id", "ms", "tl", "bn", "ca", "lv", "lt", "et", "is", "fa", "ur", "sw", "af", "cy",
   "ga", "eu", "gl", "mt", "lb", "mk", "sq", "bs", "hy", "ka", "az", "kk", "uz", "tg", "mn",
   "ne", "si", "km", "lo", "my", "en-us", "en-gb", "en-au", "en-ca", "en-nz", "en-ie", "en-za",
   "en-in", "en-sg", "pt-br", "pt-pt", "zh-cn", "zh-tw", "zh-hk", "zh-sg", "es-es", "es-mx",
   "es-ar", "es-co", "es-cl", "es-pe", "fr-fr", "fr-ca", "fr-be", "fr-ch", "de-de", "de-at",
   "de-ch", "nl-nl", "nl-be", "it-it", "it-ch", "eng", "ger", "deu", "fra", "fre", "spa", "ita",
   "por", "dut", "nld", "pol", "rus", "jpn", "kor", "chn", "chi", "ara", "hin", "tur", "swe",
   "dan", "nor", "fin", "🇺🇸", "🇬🇧", "🇩🇪", "🇫🇷", "🇪🇸", "🇮🇹", "🇵🇹", "🇧🇷", "🇳🇱", "🇵🇱", "🇷🇺", "🇯🇵",
   "🇰🇷", "🇨🇳", "🇹🇼", "🇭🇰", "🇸🇦", "🇮🇳", "🇹🇷", "🇸🇪", "🇩🇰", "🇳🇴", "🇫🇮", "🇨🇿", "🇭🇺", "🇷🇴", "🇧🇬",
   "🇭🇷", "🇷🇸", "🇸🇮", "🇸🇰", "🇺🇦", "🇬🇷", "🇮🇱", "🇹🇭", "🇻🇳", "🇮🇩", "🇲🇾", "🇵🇭", "🇧🇩", "🇦🇹", "🇨🇭",
   "🇧🇪", "🇨🇦", "🇦🇺", "🇳🇿", "🇮🇪", "🇿🇦", "🇸🇬", "🇲🇽", "🇦🇷", "🇨🇴", "🇨🇱", "🇵🇪"].map String.toList

/-- The list `languageNames` of `isLocaleSwitcherLink` (server.js:1067-1074), character by
character as the file has it. -/
def languageNames : List Str :=
  ["english", "french", "german", "spanish", "italian", "portuguese", "russian", "chinese",
   "japanese", "korean", "arabic", "dutch", "polish", "swedish", "fran√ßais", "deutsch",
   "espa√±ol", "italiano", "portugu√™s", "—Ä—É—Å—Å–∫–∏–π", "‰∏≠Êñá", "Êó•Êú¨Ë™û", "ÌïúÍµ≠Ïñ¥",
   "ÿßŸÑÿπÿ±ÿ®Ÿäÿ©", "nederlands", "polski", "svenska", "english (us)", "english (uk)",
   "portugu√™s (brasil)"].map String.toList

/-! ## The locale-switcher tests -/

/-- The locale-switcher test of `GET /api/search` on the text of a link
(server.js:267-270): `true` when the link is filtered out. -/
def searchSwitcherTest (js : Runtime) (linkText : Str) : Bool :=
  let linkTextLower := trim (js.toLowerCase linkText)
  decide (linkTextLower ∈ LOCALE_SWITCHER_TEXTS) ||
    (decide (utf16Length linkTextLower ≤ 5) && isoCodeTest linkTextLower)

/-- The filter of `indexPage` on the text of a link (indexer.js:385-413): `true` when
the callback returns `false`, that is when the link is left out of the index. -/
def SiteIndexer.switcherTest (js : Runtime) (text : Str) : Bool :=
  let textLower := trim (js.toLowerCase text)
  let textRaw := trim text
  let textBase := trim (stripParens textLower)
  if textLower ∈ SiteIndexer.localeSwitcherTexts ∨ textBase ∈ SiteIndexer.localeSwitcherTexts then
    true
  else if utf16Length textLower ≤ 5 ∧ isoCodeTest textLower = true then true
  else if utf16Length textRaw ≤ 4 ∧
      (textRaw.all isFlagChar && decide (2 ≤ textRaw.length) && decide (textRaw.length ≤ 4)) = true
    then true
  else if
      (match textRaw with
        | a :: b :: rest =>
          isFlagChar a && isFlagChar b &&
            decide ((rest.dropWhile isJsSpace).length ≤ 15) &&
            (rest.dropWhile isJsSpace).all (fun c => !isLineTerminator c)
        | _ => false) = true ∧ utf16Length textRaw ≤ 20 ∧
      (js.toLowerCase (trim (textRaw.filter (fun c => !isFlagChar c))) ∈
          SiteIndexer.localeSwitcherTexts ∨
        utf16Length (js.toLowerCase (trim (textRaw.filter (fun c => !isFlagChar c)))) ≤ 3)
    then true
  else if
      (decide (0 < textRaw.length) &&
        textRaw.all (fun c => isCjkChar c || isJsSpace c || c = '(' || c = ')' || c.isAlpha ||
          c = '-')) = true ∧
      textRaw.any isCjkChar = true ∧ utf16Length textRaw ≤ 30
    then true
  else false

/-- The function `isLocaleSwitcherLink(text)` of `runHealthCheck` (server.js:1062-1093). -/
def isLocaleSwitcherLink (js : Runtime) (text : Str) : Bool :=
  if text.isEmpty then false
  else
    let t := js.toLowerCase (trim text)
    let baseText := trim (stripParens t)
    if baseText ∈ languageNames then true
    else if t.all (fun c => isCjkChar c || isJsSpace c || c = '(' || c = ')' || c.isAlpha) = true ∧
        t.any isCjkChar = true ∧ utf16Length t < 30 then true
    else if isoCodeTest t = true then true
    else if hasFlagPair text = true then true
    else false

/-- A model of the runtime on ASCII text and on regular expressions made of literal
characters, optionally ended by `$` or by `\?`: lower-casing lowers the ASCII letters,
a literal source tests for a substring, `lit$` for a suffix, `lit\?` for the substring
`lit?`. Other sources are outside the model. -/
def plainRuntime : Runtime where
  toLowerCase := toLowerCase
  regExp := fun source ignoreCase =>
    let fold := fun (s : Str) => if ignoreCase then toLowerCase s else s
    let literal := fun (c : Char) => c.isAlphanum || c = '/' || c = '-' || c = '_' || c = ':'
    if source.all literal then some (fun s => includes (fold s) (fold source))
    else if source.getLast? = some '$' ∧ source.dropLast.all literal = true then
      some (fun s => endsWith (fold s) (fold source.dropLast))
    else if source.getLast? = some '?' ∧ source.dropLast.getLast? = some '\\' ∧
        source.dropLast.dropLast.all literal = true then
      some (fun s => includes (fold s) (fold (source.dropLast.dropLast ++ ['?'])))
    else none

/-! ## The index file and the search of `GET /api/search` (src/server.js) -/

/-- A link of a page record, as `indexPage` stores it (indexer.js:340-372). -/
structure LinkRecord where
  href : Str
  text : Str
  isExternal : Bool := false
  locale : Option Str := none
deriving DecidableEq, Repr

/-- A page record of the index (indexer.js:462-467). -/
structure PageRecord where
  title : Str := []
  locale : Option Str := none
  links : List LinkRecord := []
deriving DecidableEq, Repr

/-- The index: the entries of `index.pages`, in the order of `Object.entries`. -/
structure Index where
  pages : List (Str × PageRecord)
deriving DecidableEq, Repr

/-- The query parameters of `GET /api/search` (server.js:179). -/
structure SearchQuery where
  mode : Option Str := none
  pattern : Option Str := none
  sourceLocale : Option Str := none
  otherLocales : Option Str := none
  excludeLocaleSwitcher : Option Str := none
deriving DecidableEq, Repr

/-- An entry of `results` (server.js:276-283); `targetUrl = none` is `undefined`. -/
structure SearchResult where
  sourceUrl : Str
  sourceLocale : Str
  targetUrl : Option Str
  targetLocale : Str
  linkText : Str
  crossLocale : Bool
deriving DecidableEq, Repr

/-- A loop that appends what `body` gives for each element and stops with `none` as
soon as `body` throws. -/
def collect {α β : Type} (body : α → Option (List β)) : List α → Option (List β)
  | [] => some []
  | a :: rest =>
    match body a with
    | none => none
    | some found =>
      match collect body rest with
      | none => none
      | some more => some (found ++ more)

/-- The parsing of a comma-separated parameter (server.js:196, 200):
`v ? v.split(',').map(p => p.trim().toLowerCase()).filter(Boolean) : []`. -/
def parseList (js : Runtime) (v : Option Str) : List Str :=
  if truthy v then
    ((splitOn ',' (v.getD [])).map (fun p => js.toLowerCase (trim p))).filter
      (fun p => !p.isEmpty)
  else []

/-- The loop of `detectLocale` over the locale patterns (server.js:311-317); `none`
when a `RegExp` constructor throws. -/
def detectLocaleLoop (js : Runtime) (urlLower : Str) : List Str → Option Str
  | [] => some "default".toList
  | locale :: rest =>
    if includes urlLower ('/' :: locale ++ ['/']) then some locale
    else
      match js.regExp ('/' :: locale ++ ['$']) false with
      | none => none
      | some atEnd =>
        if atEnd urlLower then some locale
        else
          match js.regExp ('/' :: locale ++ ['\\', '?']) false with
          | none => none
          | some beforeQuery =>
            if beforeQuery urlLower then some locale
            else detectLocaleLoop js urlLower rest

/-- The function `detectLocale(url, localePatterns)` (server.js:297-321); `none` when it
throws. -/
def detectLocale (js : Runtime) (url : Str) (localePatterns : List Str) : Option Str :=
  if url.isEmpty then some "unknown".toList
  else detectLocaleLoop js (js.toLowerCase url) localePatterns

/-- The pattern test of a link (server.js:226-233). -/
def patternMatched (js : Runtime) (patterns : List Str) (link : LinkRecord) : Bool :=
  decide (0 < patterns.length) &&
    patterns.any (fun p =>
      includes (js.toLowerCase link.href) p || includes (js.toLowerCase link.text) p)

/-- The cross-locale test on the two detected locales (server.js:240-246). -/
def crossLocaleTest (localePatterns : List Str) (pageLocale targetLocale : Str) : Bool :=
  if pageLocale ≠ targetLocale ∧ targetLocale ≠ "external".toList then
    if targetLocale ∈ localePatterns ∨
        (pageLocale ≠ "default".toList ∧ targetLocale = "default".toList) then true
    else false
  else false

/-- The source-locale filter of a page (server.js:209-219): `true` when the page is
skipped. -/
def skipsPage (q : SearchQuery) (pageLocale : Str) : Bool :=
  if q.mode = some "crosslocale".toList ∨ q.mode = some "both".toList then
    if truthy q.sourceLocale then
      if q.sourceLocale = some "default".toList then pageLocale ≠ "default".toList
      else some pageLocale ≠ q.sourceLocale
    else false
  else false

/-- The choice by mode (server.js:253-263). -/
def shouldInclude (q : SearchQuery) (patterns : List Str) (patternMatched isCrossLocale : Bool) :
    Bool :=
  if q.mode = some "pattern".toList then patternMatched
  else if q.mode = some "crosslocale".toList then
    if 0 < patterns.length then patternMatched && isCrossLocale else isCrossLocale
  else if q.mode = some "both".toList then patternMatched || isCrossLocale
  else false

/-- The body of the loop over the links of a page (server.js:221-285): the entries it
pushes, `none` when `detectLocale` throws. -/
def searchLink (js : Runtime) (q : SearchQuery) (patterns localePatterns : List Str)
    (pageUrl pageLocale : Str) (link : LinkRecord) : Option (List SearchResult) :=
  let targetUrl := js.toLowerCase link.href
  match
    (if q.mode = some "crosslocale".toList ∨ q.mode = some "both".toList then
      (detectLocale js targetUrl localePatterns).map (crossLocaleTest localePatterns pageLocale)
    else some false) with
  | none => none
  | some isCrossLocale =>
    let included := shouldInclude q patterns (patternMatched js patterns link) isCrossLocale
    let included :=
      if included && decide (q.excludeLocaleSwitcher = some "true".toList) then
        if searchSwitcherTest js link.text then false else included
      else included
    if included then
      match detectLocale js targetUrl localePatterns with
      | none => none
      | some targetLocale =>
        some [{ sourceUrl := pageUrl
                sourceLocale := pageLocale
                targetUrl := if link.href.isEmpty then none else some link.href
                targetLocale := targetLocale
                linkText := link.text
                crossLocale := isCrossLocale }]
    else some []

/-- The body of the loop over the pages (server.js:203-286). -/
def searchPage (js : Runtime) (q : SearchQuery) (patterns localePatterns : List Str)
    (entry : Str × PageRecord) : Option (List SearchResult) :=
  match detectLocale js entry.1 localePatterns with
  | none => none
  | some pageLocale =>
    if skipsPage q pageLocale then some []
    else collect (searchLink js q patterns localePatterns entry.1 pageLocale) entry.2.links

/-- The handler of `GET /api/search` on a loaded index (server.js:192-289): the array
`results` of the response, `none` for the response 500 after a throw. -/
def search (js : Runtime) (index : Index) (q : SearchQuery) : Option (List SearchResult) :=
  collect (searchPage js q (parseList js q.pattern) (parseList js q.otherLocales)) index.pages

/-! ## The search of `SiteIndexer.searchIndex` (src/indexer.js) -/

/-- An entry of `findings` (indexer.js:808-817). -/
structure IndexFinding where
  sourcePage : Str
  sourceTitle : Str
  sourceLocale : Str
  anchorText : Str
  linkedTo : Str
  targetLocale : Str
  isExternal : Bool
  findingType : Str
deriving DecidableEq, Repr

/-- The argument `options` of `searchIndex`. -/
structure SearchOptions where
  crossLocaleMode : Bool := false
  sourceLocale : Option Str := none
  otherLocales : Option Str := none
deriving DecidableEq, Repr

/-- The value `v || fallback` for a string-or-null `v`. -/
def orString (v : Option Str) (fallback : Str) : Str := if truthy v then v.getD [] else fallback

namespace SiteIndexer

/-- The test of one pattern on a link target (indexer.js:775-784): a pattern written
`/source/` is a regular expression, and a substring when it does not compile. -/
def patternHit (js : Runtime) (href pattern : Str) : Bool :=
  if startsWith pattern ['/'] && endsWith pattern ['/'] && decide (2 < utf16Length pattern) then
    match js.regExp (pattern.drop 1).dropLast true with
    | some test => test href
    | none => includes (js.toLowerCase href) pattern
  else includes (js.toLowerCase href) pattern

/-- The list `otherLocaleList` of `searchIndex` (indexer.js:751). -/
def otherLocaleList (js : Runtime) (otherLocales : Option Str) : List Str :=
  if truthy otherLocales then
    ((splitOn ',' (otherLocales.getD [])).map
      (fun l => removeSlashes (js.toLowerCase (trim l)))).filter (fun l => !l.isEmpty)
  else []

/-- The source-locale filter of a page (indexer.js:756-765): `true` when the page is
skipped. -/
def skipsPage (options : SearchOptions) (page : PageRecord) : Bool :=
  if truthy options.sourceLocale then
    if options.sourceLocale = some "default".toList then
      orString page.locale "default".toList ≠ "default".toList
    else some (orString page.locale "default".toList) ≠ options.sourceLocale
  else false

/-- The cross-locale test of a link (indexer.js:787-805). -/
def crossLocaleHit (js : Runtime) (options : SearchOptions) (page : PageRecord)
    (link : LinkRecord) : Bool :=
  if options.crossLocaleMode && !link.isExternal then
    if orString page.locale "default".toList = "default".toList then
      truthy link.locale && decide (link.locale.getD [] ∈ otherLocaleList js options.otherLocales)
    else decide (link.locale ≠ some (orString page.locale "default".toList))
  else false

/-- The body of the loop over the links of a page (indexer.js:767-819): the findings it
pushes. -/
def searchLink (js : Runtime) (patterns : List Str) (options : SearchOptions) (pageUrl : Str)
    (page : PageRecord) (link : LinkRecord) : List IndexFinding :=
  let isMatch := decide (0 < patterns.length) && patterns.any (patternHit js link.href)
  let cross := crossLocaleHit js options page link
  if isMatch || cross then
    [{ sourcePage := pageUrl
       sourceTitle := page.title
       sourceLocale := orString page.locale "default".toList
       anchorText := orString (some link.text) "[No Text]".toList
       linkedTo := link.href
       targetLocale := orString link.locale "default".toList
       isExternal := link.isExternal
       findingType := if cross then "cross_locale".toList else "pattern_match".toList }]
  else []

/-- The method `searchIndex(domain, searchPattern, options)` on the index that
`loadIndex(domain)` returns (indexer.js:743-830): the array `findings` of the result. -/
def searchIndex (js : Runtime) (index : Option Index) (searchPattern : Option Str)
    (options : SearchOptions) : List IndexFinding :=
  match index with
  | none => []
  | some index =>
    index.pages.flatMap (fun entry =>
      if skipsPage options entry.2 then []
      else entry.2.links.flatMap (searchLink js (parseList js searchPattern) options entry.1 entry.2))

end SiteIndexer

/-! ## Helpers for stating the search properties -/

/-- Every locale pattern gives regular expressions that the engine accepts. -/
def LocalesCompile (js : Runtime) (localePatterns : List Str) : Prop :=
  ∀ locale ∈ localePatterns,
    (js.regExp ('/' :: locale ++ ['$']) false).isSome = true ∧
    (js.regExp ('/' :: locale ++ ['\\', '?']) false).isSome = true

/-- The value of `isCrossLocale` for a link whose target has the locale `targetLocale`
(server.js:236-251). -/
def crossFlag (q : SearchQuery) (localePatterns : List Str) (pageLocale targetLocale : Str) :
    Bool :=
  if q.mode = some "crosslocale".toList ∨ q.mode = some "both".toList then
    crossLocaleTest localePatterns pageLocale targetLocale
  else false

/-- The final value of `shouldInclude` for a link whose target has the locale
`targetLocale` (server.js:253-273). -/
def linkIncluded (js : Runtime) (q : SearchQuery) (patterns localePatterns : List Str)
    (pageLocale : Str) (link : LinkRecord) (targetLocale : Str) : Bool :=
  shouldInclude q patterns (patternMatched js patterns link)
      (crossFlag q localePatterns pageLocale targetLocale) &&
    !(decide (q.excludeLocaleSwitcher = some "true".toList) && searchSwitcherTest js link.text)

/-- The entry pushed for a link (server.js:276-283). -/
def resultRecord (q : SearchQuery) (localePatterns : List Str) (pageUrl pageLocale : Str)
    (link : LinkRecord) (targetLocale : Str) : SearchResult where
  sourceUrl := pageUrl
  sourceLocale := pageLocale
  targetUrl := if link.href.isEmpty then none else some link.href
  targetLocale := targetLocale
  linkText := link.text
  crossLocale := crossFlag q localePatterns pageLocale targetLocale

/-- The locale `detectLocale` gives for a URL, when it returns. -/
def localeOfUrl (js : Runtime) (localePatterns : List Str) (url : Str) : Str :=
  (detectLocale js url localePatterns).getD []

/-- The link an entry of `results` stands for: its page, its target and its text. -/
def SearchResult.key (r : SearchResult) : Str × Option Str × Str :=
  (r.sourceUrl, r.targetUrl, r.linkText)

/-- The page, target and text of a link of the index. -/
def LinkRecord.key (pageUrl : Str) (link : LinkRecord) : Str × Option Str × Str :=
  (pageUrl, if link.href.isEmpty then none else some link.href, link.text)

/-- The entries pushed for a page when no regular expression throws (server.js:203-286). -/
def pageResults (js : Runtime) (q : SearchQuery) (patterns localePatterns : List Str)
    (entry : Str × PageRecord) : List SearchResult :=
  if skipsPage q (localeOfUrl js localePatterns entry.1) then []
  else
    (entry.2.links.filter (fun link =>
        linkIncluded js q patterns localePatterns (localeOfUrl js localePatterns entry.1) link
          (localeOfUrl js localePatterns (js.toLowerCase link.href)))).map
      (fun link =>
        resultRecord q localePatterns entry.1 (localeOfUrl js localePatterns entry.1) link
          (localeOfUrl js localePatterns (js.toLowerCase link.href)))

/-! ## Indexes for the examples -/

/-- The fixture index: page `http://a.com/a` with a contact link and a home link, page
`http://a.com/b` with an about link. -/
def fixtureIndex : Index where
  pages :=
    [("http://a.com/a".toList,
      { links := [{ href := "http://a.com/contact".toList, text := "Contact".toList },
                  { href := "http://a.com/".toList, text := "Home".toList }] }),
     ("http://a.com/b".toList,
      { links := [{ href := "http://a.com/about".toList, text := "About".toList }] })]

/-- An index with one page, `http://a.com/a`, whose only link points to
`http://a.com/x` with the text `Contact us`. -/
def textIndex : Index where
  pages :=
    [("http://a.com/a".toList,
      { links := [{ href := "http://a.com/x".toList, text := "Contact us".toList }] })]

/-- The finding `searchIndex` pushes for a link that only a pattern selects
(indexer.js:808-817). -/
def SiteIndexer.patternFinding (pageUrl : Str) (page : PageRecord) (link : LinkRecord) :
    IndexFinding where
  sourcePage := pageUrl
  sourceTitle := page.title
  sourceLocale := orString page.locale "default".toList
  anchorText := orString (some link.text) "[No Text]".toList
  linkedTo := link.href
  targetLocale := orString link.locale "default".toList
  isExternal := link.isExternal
  findingType := "pattern_match".toList

/-- An index with one page under `/de/`, `http://a.com/de/x`, whose only link points to
`http://a.com/de/contact` with the text `Kontakt`. -/
def germanIndex : Index where
  pages :=
    [("http://a.com/de/x".toList,
      { links := [{ href := "http://a.com/de/contact".toList, text := "Kontakt".toList }] })]

/-- An index with one page without locale, `http://a.com/`, whose links point to
`http://a.com/de/` with the text `Deutsch` and to `http://a.com/de/preise` with the
text `Preise`. -/
def switcherIndex : Index where
  pages :=
    [("http://a.com/".toList,
      { locale := some "default".toList
        links := [{ href := "http://a.com/de/".toList, text := "Deutsch".toList,
                    locale := some "de".toList },
                  { href := "http://a.com/de/preise".toList, text := "Preise".toList,
                    locale := some "de".toList }] })]

/-- An index with one page without locale, `http://a.com/`, whose links are the entries
of a locale switcher: to `http://a.com/fr/` with the native name `français`, and to
`http://a.com/de/` with the flag of Germany and with the text `Deutsch`. -/
def nativeSwitcherIndex : Index where
  pages :=
    [("http://a.com/".toList,
      { locale := some "default".toList
        links := [{ href := "http://a.com/fr/".toList, text := "français".toList,
                    locale := some "fr".toList },
                  { href := "http://a.com/de/".toList, text := "🇩🇪".toList,
                    locale := some "de".toList },
                  { href := "http://a.com/de/".toList, text := "Deutsch".toList,
                    locale := some "de".toList }] })]

/-- An index with one page under `/de/`, `http://a.com/de/x`, of locale `de`, whose
links point to `http://a.com/about` (no locale) and to `http://a.com/fr/x` (locale
`fr`). -/
def mixedIndex : Index where
  pages :=
    [("http://a.com/de/x".toList,
      { locale := some "de".toList
        links := [{ href := "http://a.com/about".toList, text := "About".toList,
                    locale := some "default".toList },
                  { href := "http://a.com/fr/x".toList, text := "Tarifs".toList,
                    locale := some "fr".toList }] })]

instance (js : Runtime) (localePatterns : List Str) :
    Decidable (LocalesCompile js localePatterns) :=
  inferInstanceAs (Decidable (∀ locale ∈ localePatterns,
    (js.regExp ('/' :: locale ++ ['$']) false).isSome = true ∧
    (js.regExp ('/' :: locale ++ ['\\', '?']) false).isSome = true))

/-! ## `SiteIndexer`: the index file, the retry loops and the batched link check -/

/-- The call `s.replace(/\./g, '_')`. -/
def dotsToUnderscores (s : Str) : Str := s.map (fun c => if c = '.' then '_' else c)

/-- The file name `saveIndex()` writes to, inside the index directory, for the root
domain and the locale filter of the indexer (indexer.js:544-548). -/
def SiteIndexer.saveIndexFilename (rootDomain : Str) (localeFilter : Option Str) : Str :=
  let filename := dotsToUnderscores rootDomain
  let filename :=
    if truthy localeFilter then filename ++ '_' :: localeFilter.getD [] else filename
  filename ++ ".json".toList

/-- The file name `loadIndex(domain)` reads (indexer.js:712). -/
def SiteIndexer.loadIndexFilename (domain : Str) : Str :=
  dotsToUnderscores domain ++ ".json".toList

/-- How an attempt to load a page can fail. -/
inductive Failure
  | navigationTimeout
  | network
  | pageClosed
  | other (message : Str)
deriving DecidableEq, Repr

/-- What a retry loop did: the attempts it made and the error it throws, if any. -/
structure Attempted where
  attempts : Nat
  thrown : Option Failure
deriving DecidableEq, Repr

/-- The `while (retries > 0)` loop of `crawlPage` (crawler.js:226-245): `goto made` is
the failure of the attempt after `made` earlier ones, `none` when `page.goto` returns.
The result is the value of `retries` and of `lastError` after the loop, with the number
of attempts. -/
def SpiderCrawler.gotoLoop (goto : Nat → Option Failure) :
    (retries made : Nat) → (lastError : Option Failure) → Nat × Nat × Option Failure
  | 0, made, lastError => (0, made, lastError)
  | retries + 1, made, lastError =>
    match goto made with
    | none => (retries + 1, made + 1, lastError)
    | some error => SpiderCrawler.gotoLoop goto retries (made + 1) (some error)

/-- The navigation of `crawlPage(page, url)` (crawler.js:221-249): the retry loop, then
`if (retries === 0 && lastError) throw lastError`. -/
def SpiderCrawler.crawlPageGoto (goto : Nat → Option Failure) : Attempted :=
  match SpiderCrawler.gotoLoop goto 2 0 none with
  | (retries, made, lastError) =>
    { attempts := made
      thrown := if retries = 0 ∧ lastError.isSome then lastError else none }

/-- The `while (retries > 0)` loop of `indexPage` (indexer.js:315-492): `body made` is
the failure of the attempt after `made` earlier ones, `none` when the body reaches
`return`. The result tells whether the loop returned, with the value of `lastError`
and the number of attempts. -/
def SiteIndexer.indexPageLoop (body : Nat → Option Failure) :
    (retries made : Nat) → (lastError : Option Failure) → Bool × Nat × Option Failure
  | 0, made, lastError => (false, made, lastError)
  | retries + 1, made, lastError =>
    match body made with
    | none => (true, made + 1, lastError)
    | some error => SiteIndexer.indexPageLoop body retries (made + 1) (some error)

/-- The attempts of `indexPage(page, url)` (indexer.js:311-497): the retry loop, then
`if (lastError) throw lastError`. -/
def SiteIndexer.indexPageAttempts (body : Nat → Option Failure) : Attempted :=
  match SiteIndexer.indexPageLoop body 2 0 none with
  | (returned, made, lastError) =>
    { attempts := made
      thrown := if returned then none else lastError }

/-- The call `map.set(key, value)` on a JavaScript `Map`, kept as the list of its
entries in insertion order. -/
def mapSet {β : Type} (m : List (Str × β)) (key : Str) (value : β) : List (Str × β) :=
  match m with
  | [] => [(key, value)]
  | (k, v) :: rest => if k = key then (k, value) :: rest else (k, v) :: mapSet rest key value

/-- The call `map.get(key)`. -/
def mapGet {β : Type} (m : List (Str × β)) (key : Str) : Option β :=
  (m.find? (fun entry => entry.1 = key)).map (fun entry => entry.2)

/-- What `checkLinksStatus` has done: the map it returns and the batches of hrefs it has
handed to `checkLinkStatus`, in order. -/
structure BatchRun where
  results : List (Str × Nat)
  batches : List (List Str)
deriving DecidableEq, Repr

/-- The `for` loop of `checkLinksStatus(links, batchSize)` (indexer.js:658-670), with one
unit of fuel per pass; `none` when the fuel runs out before the loop ends. The checks of
a batch are entered in the map in the order of the batch. -/
def SiteIndexer.checkLinksStatusLoop (lib : UrlLib) (net : Net) (links : List LinkRecord)
    (batchSize : Nat) : (fuel i : Nat) → BatchRun → Option BatchRun
  | 0, _, _ => none
  | fuel + 1, i, run =>
    if i < links.length then
      let batch := (links.drop i).take batchSize
      SiteIndexer.checkLinksStatusLoop lib net links batchSize fuel (i + batchSize)
        { results := batch.foldl
            (fun results link =>
              mapSet results link.href (SiteIndexer.checkLinkStatus lib net link.href).status)
            run.results
          batches := run.batches ++ [batch.map (fun link => link.href)] }
    else some run

/-- The method `checkLinksStatus(links, batchSize)` (indexer.js:655-673) run with the
given fuel. -/
def SiteIndexer.checkLinksStatus (lib : UrlLib) (net : Net) (links : List LinkRecord)
    (batchSize : Nat) (fuel : Nat) : Option BatchRun :=
  SiteIndexer.checkLinksStatusLoop lib net links batchSize fuel 0 { results := [], batches := [] }

/-! ## Saved reports and issue triage (server.js) -/

/-- An issue of a health report as `saveReportData` receives it: the fields that are
copied into the saved report as they are. -/
structure ReportIssue where
  sourceUrl : Str
  targetUrl : Str
  anchorText : Str := []
deriving DecidableEq, Repr

/-- The `report` argument of `saveReportData`: the three issue lists (an absent list
is the empty one, `report.broken || []`). -/
structure HealthReport where
  broken : List ReportIssue := []
  redirects : List ReportIssue := []
  crossLocale : List ReportIssue := []
deriving DecidableEq, Repr

/-- An issue of a saved report: the fields of the issue with `id`, `status` and
`notes` set over them. -/
structure TrackedIssue where
  issue : ReportIssue
  id : Str
  status : Str
  notes : Str
deriving DecidableEq, Repr

/-- The field `issueStats` of a saved report. -/
structure IssueStats where
  pending : Int
  inProgress : Int
  fixed : Int
deriving DecidableEq, Repr

/-- The field `report` of a saved report: the three lists of tracked issues. -/
structure SavedReport where
  broken : List TrackedIssue
  redirects : List TrackedIssue
  crossLocale : List TrackedIssue
deriving DecidableEq, Repr

/-- The object written by `saveReportData`. -/
structure ReportData where
  report : SavedReport
  issueStats : IssueStats
deriving DecidableEq, Repr

/-- A non-negative integer in a template literal: its decimal digits. -/
def numberToString (n : Nat) : Str := Nat.toDigits 10 n

/-- The callback of `issues.map((issue, idx) => ...)` in `initIssueStatus`, from the
index `idx` on (server.js:59-64). -/
def initIssueStatusFrom (timestamp : Nat) : Nat → List ReportIssue → List TrackedIssue
  | _, [] => []
  | idx, issue :: rest =>
    { issue := issue, id := numberToString timestamp ++ '_' :: numberToString idx,
      status := "pending".toList, notes := [] } :: initIssueStatusFrom timestamp (idx + 1) rest

/-- The function `initIssueStatus` of `saveReportData` (server.js:58). -/
def initIssueStatus (timestamp : Nat) (issues : List ReportIssue) : List TrackedIssue :=
  initIssueStatusFrom timestamp 0 issues

/-- The function `saveReportData` (server.js:55), with `timestamp` the value of
`Date.now()`: the lists with their triage fields and the counters. -/
def saveReportData (timestamp : Nat) (report : HealthReport) : ReportData :=
  { report :=
      { broken := initIssueStatus timestamp report.broken,
        redirects := initIssueStatus timestamp report.redirects,
        crossLocale := initIssueStatus timestamp report.crossLocale },
    issueStats :=
      { pending := (report.broken.length : Int) + report.redirects.length
          + report.crossLocale.length,
        inProgress := 0,
        fixed := 0 } }

/-- The counter update of the triage handler (server.js:562-570). -/
def IssueStats.move (stats : IssueStats) (oldStatus newStatus : Str) : IssueStats :=
  if oldStatus ≠ newStatus then
    let stats :=
      if oldStatus = "pending".toList then { stats with pending := stats.pending - 1 }
      else if oldStatus = "inProgress".toList then
        { stats with inProgress := stats.inProgress - 1 }
      else if oldStatus = "fixed".toList then { stats with fixed := stats.fixed - 1 }
      else stats
    if newStatus = "pending".toList then { stats with pending := stats.pending + 1 }
    else if newStatus = "inProgress".toList then
      { stats with inProgress := stats.inProgress + 1 }
    else if newStatus = "fixed".toList then { stats with fixed := stats.fixed + 1 }
    else stats
  else stats

/-- The search `find(i => i.id === issueId)` in one list with the update of the issue
found (server.js:556-559): the old status, the new status and the list after the
update, or `none` when no issue of the list has the id. -/
def patchFirst (issueId : Str) (status notes : Option Str) :
    List TrackedIssue → Option (Str × Str × List TrackedIssue)
  | [] => none
  | issue :: rest =>
    if issue.id = issueId then
      let newStatus := if truthy status then status.getD [] else issue.status
      some (issue.status, newStatus,
        { issue with status := newStatus, notes := notes.getD issue.notes } :: rest)
    else
      match patchFirst issueId status notes rest with
      | none => none
      | some (oldStatus, newStatus, rest) => some (oldStatus, newStatus, issue :: rest)

/-- The handler of `PATCH /api/reports/:id/issues/:issueId` on the report it has read
(server.js:554-581): the lists are searched in the order broken, redirects,
crossLocale and the search ends at the first issue found; `none` is the answer 404. -/
def patchIssue (data : ReportData) (issueId : Str) (status notes : Option Str) :
    Option ReportData :=
  match patchFirst issueId status notes data.report.broken with
  | some (oldStatus, newStatus, broken) =>
    some { report := { data.report with broken := broken },
           issueStats := data.issueStats.move oldStatus newStatus }
  | none =>
    match patchFirst issueId status notes data.report.redirects with
    | some (oldStatus, newStatus, redirects) =>
      some { report := { data.report with redirects := redirects },
             issueStats := data.issueStats.move oldStatus newStatus }
    | none =>
      match patchFirst issueId status notes data.report.crossLocale with
      | some (oldStatus, newStatus, crossLocale) =>
        some { report := { data.report with crossLocale := crossLocale },
               issueStats := data.issueStats.move oldStatus newStatus }
      | none => none

/-- A triage request: the id in the path and the body fields `status` and `notes`. -/
structure Patch where
  issueId : Str
  status : Option Str := none
  notes : Option Str := none
deriving DecidableEq, Repr

/-- A sequence of triage requests on one report; a request answered 404 leaves the
report file as it is. -/
def patchAll (data : ReportData) (patches : List Patch) : ReportData :=
  patches.foldl (fun data p => (patchIssue data p.issueId p.status p.notes).getD data) data

/-- The issues of a saved report, over the three lists. -/
def ReportData.issues (data : ReportData) : List TrackedIssue :=
  data.report.broken ++ data.report.redirects ++ data.report.crossLocale

/-- The number of issues of a saved report with a given status. -/
def ReportData.countStatus (data : ReportData) (status : Str) : Nat :=
  (data.issues.filter (fun issue => issue.status = status)).length

/-- The counters of a saved report agree with the statuses of its issues. -/
def StatsOk (data : ReportData) : Prop :=
  data.issueStats.pending = data.countStatus "pending".toList ∧
  data.issueStats.inProgress = data.countStatus "inProgress".toList ∧
  data.issueStats.fixed = data.countStatus "fixed".toList

/-- A report with one broken link and one cross-locale link. -/
def exampleReport : HealthReport :=
  { broken := [{ sourceUrl := "http://a.com/".toList, targetUrl := "http://a.com/gone".toList }],
    crossLocale :=
      [{ sourceUrl := "http://a.com/".toList, targetUrl := "http://a.com/de/x".toList }] }

/-! ## The health check of a saved index: `runHealthCheck` (server.js:1019) -/

/-- The list `commonLocales` of `runHealthCheck` (server.js:1033). -/
def commonLocales : List Str :=
  ["en", "fr", "de", "es", "it", "pt", "ru", "zh", "ja", "ko", "ar", "nl", "pl", "sv", "no",
   "da", "fi", "tr", "el", "he", "th", "vi", "id", "ms", "hi", "cs", "hu", "ro", "uk", "bg",
   "hr", "sk", "sl", "et", "lv", "lt", "en-us", "en-gb", "pt-br", "zh-cn", "zh-tw"].map
    String.toList

/-- The first non-empty segment of a path in lower case, when it is one of
`commonLocales` (server.js:1039-1045 and 1049-1055). -/
def firstPartLocale (js : Runtime) (path : Str) : Option Str :=
  match (splitOn '/' (js.toLowerCase path)).filter (fun p => !p.isEmpty) with
  | firstPart :: _ => if firstPart ∈ commonLocales then some firstPart else none
  | [] => none

/-- The function `detectLocaleFromUrl` of `runHealthCheck` (server.js:1035): the path of
the URL is read from `new URL(url)`, and from the text itself when that throws. -/
def detectLocaleFromUrl (lib : UrlLib) (js : Runtime) (url : Str) : Str :=
  if url.isEmpty then "default".toList
  else
    let found :=
      match lib.parse url with
      | some urlObj => firstPartLocale js urlObj.pathname
      | none => firstPartLocale js url
    match found with
    | some firstPart => firstPart
    | none => "default".toList

/-- The expression `s || fallback` on strings. -/
def orText (s fallback : Str) : Str := if s.isEmpty then fallback else s

/-- An entry of `crossLocaleIssues` (server.js:1132). -/
structure CrossLocaleIssue where
  sourceUrl : Str
  sourceLocale : Str
  targetUrl : Str
  targetLocale : Str
  anchorText : Str
deriving DecidableEq, Repr

/-- A value of the map `linksToCheck` (server.js:1143). -/
structure LinkSources where
  sourceUrls : List Str
  text : Str
deriving DecidableEq, Repr

/-- The two collections of the scan: `crossLocaleIssues` and the map `linksToCheck`, in
insertion order. -/
structure Collected where
  crossLocaleIssues : List CrossLocaleIssue := []
  linksToCheck : List (Str × LinkSources) := []
deriving DecidableEq, Repr

/-- The body of the loop over the links of a page (server.js:1124-1155). -/
def scanLink (lib : UrlLib) (js : Runtime) (pageUrl sourceLocale : Str) (acc : Collected)
    (link : LinkRecord) : Collected :=
  if !link.isExternal && !link.href.isEmpty then
    let targetLocale := detectLocaleFromUrl lib js link.href
    let linkText := orText link.text "(no text)".toList
    let crossLocaleIssues :=
      if sourceLocale ≠ targetLocale ∧ isLocaleSwitcherLink js linkText = false then
        acc.crossLocaleIssues ++
          [{ sourceUrl := pageUrl, sourceLocale := orText sourceLocale "default".toList,
             targetUrl := link.href, targetLocale := orText targetLocale "default".toList,
             anchorText := linkText }]
      else acc.crossLocaleIssues
    let linksToCheck :=
      if (mapGet acc.linksToCheck link.href).isSome then acc.linksToCheck
      else mapSet acc.linksToCheck link.href { sourceUrls := [], text := linkText }
    let linksToCheck :=
      match mapGet linksToCheck link.href with
      | some data =>
        mapSet linksToCheck link.href { data with sourceUrls := data.sourceUrls ++ [pageUrl] }
      | none => linksToCheck
    let linksToCheck :=
      match mapGet linksToCheck link.href with
      | some data =>
        if linkText ≠ "(no text)".toList ∧ data.text = "(no text)".toList then
          mapSet linksToCheck link.href { data with text := linkText }
        else linksToCheck
      | none => linksToCheck
    { crossLocaleIssues := crossLocaleIssues, linksToCheck := linksToCheck }
  else acc

/-- The test that skips a page of another locale than the one of the index
(server.js:1111-1120). -/
def pageSkipped (targetLocaleFilter : Option Str) (sourceLocale : Str) : Bool :=
  if truthy targetLocaleFilter then
    if targetLocaleFilter = some "default".toList ∧ sourceLocale ≠ "default".toList then true
    else if targetLocaleFilter ≠ some "default".toList ∧ some sourceLocale ≠ targetLocaleFilter
    then true
    else false
  else false

/-- The body of the loop over the pages of the index (server.js:1106-1157). -/
def scanPage (lib : UrlLib) (js : Runtime) (targetLocaleFilter : Option Str) (acc : Collected)
    (page : Str × PageRecord) : Collected :=
  let sourceLocale := detectLocaleFromUrl lib js page.1
  if pageSkipped targetLocaleFilter sourceLocale then acc
  else page.2.links.foldl (scanLink lib js page.1 sourceLocale) acc

/-- The key of the map `crossLocaleMap` (server.js:1163), with the separator as the
source file has it. -/
def crossLocaleKey (issue : CrossLocaleIssue) : Str :=
  issue.sourceLocale ++ "‚Üí".toList ++ issue.targetLocale ++ ':' :: issue.targetUrl

/-- A value of the map `crossLocaleMap`: the first issue of its key and the count. -/
structure CrossLocaleEntry where
  issue : CrossLocaleIssue
  occurrences : Nat
deriving DecidableEq, Repr

/-- The body of the loop that fills `crossLocaleMap` (server.js:1162-1169). -/
def dedupeStep (crossLocaleMap : List (Str × CrossLocaleEntry)) (issue : CrossLocaleIssue) :
    List (Str × CrossLocaleEntry) :=
  match mapGet crossLocaleMap (crossLocaleKey issue) with
  | none => mapSet crossLocaleMap (crossLocaleKey issue) { issue := issue, occurrences := 1 }
  | some entry =>
    mapSet crossLocaleMap (crossLocaleKey issue) { entry with occurrences := entry.occurrences + 1 }

/-- An entry of `healthReport.broken` (server.js:1237 and 1254); the entry of a network
failure has the status 0 and no field `occurrences`. -/
structure BrokenEntry where
  sourceUrl : Option Str
  targetUrl : Str
  status : Nat
  anchorText : Str
  occurrences : Option Nat
deriving DecidableEq, Repr

/-- The object `healthReport` of `runHealthCheck` (server.js:1175). -/
structure HealthCheckResult where
  broken : List BrokenEntry := []
  crossLocale : List CrossLocaleEntry := []
  healthy : Nat := 0
  checkedCount : Nat := 0
  totalUniqueLinks : Nat := 0
deriving DecidableEq, Repr

/-- The check of one entry of `linksToCheck` (server.js:1191-1262). -/
def checkOne (net : Net) (healthReport : HealthCheckResult) (entry : Str × LinkSources) :
    HealthCheckResult :=
  match healthCheckFetch net entry.1 with
  | FetchResult.response status _ =>
    if status = 404 ∨ status = 410 ∨ status ≥ 500 then
      { healthReport with
        broken := healthReport.broken ++
          [{ sourceUrl := entry.2.sourceUrls.head?, targetUrl := entry.1, status := status,
             anchorText := entry.2.text, occurrences := some entry.2.sourceUrls.length }] }
    else if status ≥ 200 ∧ status < 400 then
      { healthReport with healthy := healthReport.healthy + 1 }
    else healthReport
  | FetchResult.aborted => { healthReport with healthy := healthReport.healthy + 1 }
  | FetchResult.failed =>
    { healthReport with
      broken := healthReport.broken ++
        [{ sourceUrl := entry.2.sourceUrls.head?, targetUrl := entry.1, status := 0,
           anchorText := entry.2.text, occurrences := none }] }

/-- The scan of `runHealthCheck` (server.js:1101-1157) on the pages of the index, with
`localeFilter` the field `index.metadata.localeFilter`. -/
def collectLinks (lib : UrlLib) (js : Runtime) (localeFilter : Option Str) (index : Index) :
    Collected :=
  index.pages.foldl (scanPage lib js (orElse localeFilter none)) {}

/-- The handler `runHealthCheck` (server.js:1019) on an index that exists: the report it
emits. The links are checked in batches of 10; the entries of `broken` are listed in
the order of the map `linksToCheck`. -/
def runHealthCheck (lib : UrlLib) (js : Runtime) (net : Net) (localeFilter : Option Str)
    (index : Index) : HealthCheckResult :=
  let collected := collectLinks lib js localeFilter index
  let crossLocaleMap := collected.crossLocaleIssues.foldl dedupeStep []
  let linksArray := collected.linksToCheck
  linksArray.foldl (checkOne net)
    { crossLocale := crossLocaleMap.map (fun entry => entry.2),
      checkedCount := linksArray.length, totalUniqueLinks := linksArray.length }

/-- The links that the scan reads, with the URL and the locale of their page: the internal
links with a target, on the pages that are not skipped. -/
def scannedLinks (lib : UrlLib) (js : Runtime) (localeFilter : Option Str) (index : Index) :
    List (Str × Str × LinkRecord) :=
  index.pages.flatMap (fun page =>
    if pageSkipped (orElse localeFilter none) (detectLocaleFromUrl lib js page.1) then []
    else (page.2.links.filter (fun link => !link.isExternal && !link.href.isEmpty)).map
      (fun link => (page.1, detectLocaleFromUrl lib js page.1, link)))

/-- A full-site index where a French and a German page link to one English page, and
one page links twice to a missing page. -/
def healthIndex : Index :=
  { pages :=
      [("http://a.com/fr/a".toList,
        { links := [{ href := "http://a.com/en/x".toList, text := "read more".toList }] }),
       ("http://a.com/de/b".toList,
        { links := [{ href := "http://a.com/en/x".toList, text := "read more".toList }] }),
       ("http://a.com/p".toList,
        { links := [{ href := "http://a.com/gone".toList, text := "old".toList },
                    { href := "http://a.com/gone".toList, text := "older".toList }] })] }

/-- A network where the page `http://a.com/gone` is missing and every other page is
served. -/
def goneNet : Net := fun _ href =>
  if href = "http://a.com/gone".toList then FetchResult.response 404 none
  else FetchResult.response 200 none

/-- The step of the scan on a link with the URL and the locale of its page. -/
def scanStep (lib : UrlLib) (js : Runtime) (acc : Collected) (t : Str × Str × LinkRecord) :
    Collected :=
  scanLink lib js t.1 t.2.1 acc t.2.2

/-- The test of `runHealthCheck` for a cross-locale link (server.js:1130): the locale of
the page and the locale of the target differ and the text is not the text of a locale
switcher. -/
def isCrossLocale (lib : UrlLib) (js : Runtime) (t : Str × Str × LinkRecord) : Bool :=
  decide (t.2.1 ≠ detectLocaleFromUrl lib js t.2.2.href) &&
    !isLocaleSwitcherLink js (orText t.2.2.text "(no text)".toList)

/-- The value `linksToCheck` holds for a link after the three updates of the loop body
(server.js:1142-1153), from the value it held before. -/
def noteSource (pageUrl linkText : Str) (old : Option LinkSources) : LinkSources :=
  let data := old.getD { sourceUrls := [], text := linkText }
  let data := { data with sourceUrls := data.sourceUrls ++ [pageUrl] }
  if linkText ≠ "(no text)".toList ∧ data.text = "(no text)".toList then
    { data with text := linkText }
  else data

/-- The entry pushed to `crossLocaleIssues` for a cross-locale link (server.js:1131). -/
def crossIssue (lib : UrlLib) (js : Runtime) (t : Str × Str × LinkRecord) : CrossLocaleIssue :=
  { sourceUrl := t.1, sourceLocale := orText t.2.1 "default".toList,
    targetUrl := t.2.2.href,
    targetLocale := orText (detectLocaleFromUrl lib js t.2.2.href) "default".toList,
    anchorText := orText t.2.2.text "(no text)".toList }

/-! ## The worker pool of `crawlConcurrently` and `indexConcurrently` -/

/-- Where a worker of `createWorker` stands between two of its `await`s: before the
test of its `while` loop (after its set-up, after `sleep(200)`), in `sleep(100)` of the
pause loop, in `crawlPage` or `indexPage` for a URL, or after the loop. -/
inductive WorkerAt
  | loopTest
  | pauseWait
  | inPage (url : Str)
  | finished
deriving DecidableEq, Repr

/-- How `crawlPage` settles: it returns after it has read the links of the page, with
`hrefs` their targets in document order, or it throws an error with a message (from
`page.goto` after the retries, or from `page.evaluate`). -/
inductive CrawlOutcome
  | links (hrefs : List Str)
  | threw (message : Str)
deriving DecidableEq, Repr

/-- How `indexPage` settles: it returns after an attempt has read the page, with the
title, the locale and the links of `pageData`, or it throws the last error when both
attempts have failed. -/
inductive IndexOutcome
  | indexed (title : Str) (pageLocale : Option Str) (links : List LinkRecord)
  | threw (message : Str)
deriving DecidableEq, Repr

/-- What happens to a pool: a worker runs from where it waits to its next `await`
(`step`), the page of a worker settles (`pageDone`), or a caller calls `pause()`,
`resume()` or `stop()`. -/
inductive PoolEvent (Outcome : Type)
  | step (worker : Nat)
  | pageDone (worker : Nat) (outcome : Outcome)
  | pause
  | resume
  | stop
deriving DecidableEq, Repr

/-- A crawler with its workers. -/
structure CrawlerPool where
  crawler : SpiderCrawler
  workers : List WorkerAt
deriving DecidableEq, Repr

namespace CrawlerPool

/-- The workers of `crawlConcurrently` (crawler.js:103) after their set-up. -/
def init (crawler : SpiderCrawler) : CrawlerPool :=
  { crawler := crawler, workers := List.replicate crawler.concurrency WorkerAt.loopTest }

/-- The loop body from `queue.shift()` on (crawler.js:163-175): the worker waits in
`crawlPage` when a URL is taken, and comes back to the loop test otherwise. -/
def take (pool : CrawlerPool) (worker : Nat) : CrawlerPool :=
  match pool.crawler.takeNext with
  | (crawler, some currentUrl) =>
    { crawler := crawler, workers := pool.workers.set worker (WorkerAt.inPage currentUrl) }
  | (crawler, none) =>
    { crawler := crawler, workers := pool.workers.set worker WorkerAt.loopTest }

/-- The pause loop and what follows it (crawler.js:156-175), entered after the loop test
and again after each `sleep(100)`. -/
def afterTest (pool : CrawlerPool) (worker : Nat) : CrawlerPool :=
  if pool.crawler.isPaused && pool.crawler.isRunning then
    { pool with workers := pool.workers.set worker WorkerAt.pauseWait }
  else if !pool.crawler.isRunning then
    { pool with workers := pool.workers.set worker WorkerAt.finished }
  else pool.take worker

/-- A worker runs to its next `await` (crawler.js:154-175). -/
def step (pool : CrawlerPool) (worker : Nat) : CrawlerPool :=
  match pool.workers[worker]? with
  | some WorkerAt.loopTest =>
    if pool.crawler.loopTest then pool.afterTest worker
    else { pool with workers := pool.workers.set worker WorkerAt.finished }
  | some WorkerAt.pauseWait => pool.afterTest worker
  | _ => pool

/-- The call of `crawlPage` of a worker settles (crawler.js:186-202 with the link loop
of `crawlPage`, crawler.js:266-310): the links are offered to `addToQueue`, or the error
is recorded; then `activeWorkers--`, and the worker sleeps before its next loop test. -/
def pageDone (lib : UrlLib) (pool : CrawlerPool) (worker : Nat) (outcome : CrawlOutcome) :
    CrawlerPool :=
  match pool.workers[worker]? with
  | some (WorkerAt.inPage currentUrl) =>
    let crawler :=
      match outcome with
      | CrawlOutcome.links hrefs =>
        hrefs.foldl (fun (crawler : SpiderCrawler) (href : Str) => if href.isEmpty then crawler
          else crawler.addToQueue lib href) pool.crawler
      | CrawlOutcome.threw message =>
        { pool.crawler with errors := pool.crawler.errors ++ [(currentUrl, message)] }
    { crawler := { crawler with activeWorkers := crawler.activeWorkers - 1 },
      workers := pool.workers.set worker WorkerAt.loopTest }
  | _ => pool

/-- One event on the pool; `pause()`, `resume()` and `stop()` are crawler.js:514-542. -/
def apply (lib : UrlLib) (pool : CrawlerPool) : PoolEvent CrawlOutcome → CrawlerPool
  | PoolEvent.step worker => pool.step worker
  | PoolEvent.pageDone worker outcome => pool.pageDone lib worker outcome
  | PoolEvent.pause => { pool with crawler := { pool.crawler with isPaused := true } }
  | PoolEvent.resume => { pool with crawler := { pool.crawler with isPaused := false } }
  | PoolEvent.stop =>
    { pool with crawler := { pool.crawler with isRunning := false, isPaused := false } }

/-- The pool after a sequence of events. -/
def run (lib : UrlLib) (pool : CrawlerPool) (events : List (PoolEvent CrawlOutcome)) :
    CrawlerPool :=
  events.foldl (apply lib) pool

end CrawlerPool

/-- An indexer with the pages of its index and its workers. -/
structure IndexerPool where
  indexer : SiteIndexer
  pages : List (Str × PageRecord)
  workers : List WorkerAt
deriving DecidableEq, Repr

namespace IndexerPool

/-- The state `buildIndex()` hands to the workers of `indexConcurrently`
(indexer.js:120-156 and 215), with `existingIndex` the option of that name: in
incremental mode the index is the existing index, otherwise a new one; no worker is
created when the start URL does not parse. -/
def init (lib : UrlLib) (options : IndexerOptions) (existingIndex : Option Index) :
    IndexerPool :=
  match lib.parse options.startUrl with
  | none =>
    { indexer := (SiteIndexer.new options).buildIndex lib, pages := [], workers := [] }
  | some _ =>
    { indexer := (SiteIndexer.new options).buildIndex lib,
      pages :=
        match options.urlsToIndex, existingIndex with
        | some (_ :: _), some existing => existing.pages
        | _, _ => [],
      workers := List.replicate (SiteIndexer.new options).concurrency WorkerAt.loopTest }

/-- The loop body from `queue.shift()` on (indexer.js:266-274). -/
def take (pool : IndexerPool) (worker : Nat) : IndexerPool :=
  match pool.indexer.takeNext with
  | (indexer, some currentUrl) =>
    { pool with indexer := indexer,
                workers := pool.workers.set worker (WorkerAt.inPage currentUrl) }
  | (indexer, none) =>
    { pool with indexer := indexer, workers := pool.workers.set worker WorkerAt.loopTest }

/-- The pause loop and what follows it (indexer.js:260-274). -/
def afterTest (pool : IndexerPool) (worker : Nat) : IndexerPool :=
  if pool.indexer.isPaused && pool.indexer.isRunning then
    { pool with workers := pool.workers.set worker WorkerAt.pauseWait }
  else if !pool.indexer.isRunning then
    { pool with workers := pool.workers.set worker WorkerAt.finished }
  else pool.take worker

/-- A worker runs to its next `await` (indexer.js:259-274). -/
def step (pool : IndexerPool) (worker : Nat) : IndexerPool :=
  match pool.workers[worker]? with
  | some WorkerAt.loopTest =>
    if pool.indexer.loopTest then pool.afterTest worker
    else { pool with workers := pool.workers.set worker WorkerAt.finished }
  | some WorkerAt.pauseWait => pool.afterTest worker
  | _ => pool

/-- The links `indexPage` stores for a page (indexer.js:383-414). -/
def linksToStore (js : Runtime) (excludeLocaleSwitcher : Bool) (links : List LinkRecord) :
    List LinkRecord :=
  if excludeLocaleSwitcher then links.filter (fun link => !SiteIndexer.switcherTest js link.text)
  else links

/-- The call of `indexPage` of a worker settles (indexer.js:285-292 with the end of
`indexPage`, indexer.js:461-482): the page is stored under its URL and, outside the
incremental mode, its internal links are offered to `addToQueue`, or the error is
recorded; then `activeWorkers--`, and the worker sleeps before its next loop test. -/
def pageDone (lib : UrlLib) (js : Runtime) (pool : IndexerPool) (worker : Nat)
    (outcome : IndexOutcome) : IndexerPool :=
  match pool.workers[worker]? with
  | some (WorkerAt.inPage currentUrl) =>
    let settled : SiteIndexer × List (Str × PageRecord) :=
      match outcome with
      | IndexOutcome.indexed title pageLocale links =>
        let stored := linksToStore js pool.indexer.excludeLocaleSwitcher links
        let indexer :=
          { pool.indexer with totalLinksFound := pool.indexer.totalLinksFound + stored.length }
        (if indexer.urlsToIndex.isNone then
            links.foldl (fun (indexer : SiteIndexer) (link : LinkRecord) =>
              if link.isExternal then indexer
              else indexer.addToQueue lib link.href) indexer
          else indexer,
          mapSet pool.pages currentUrl { title := title, locale := pageLocale, links := stored })
      | IndexOutcome.threw message =>
        ({ pool.indexer with errors := pool.indexer.errors ++ [(currentUrl, message)] },
          pool.pages)
    { indexer := { settled.1 with activeWorkers := settled.1.activeWorkers - 1 },
      pages := settled.2,
      workers := pool.workers.set worker WorkerAt.loopTest }
  | _ => pool

/-- One event on the pool; `pause()`, `resume()` and `stop()` are indexer.js:556-558. -/
def apply (lib : UrlLib) (js : Runtime) (pool : IndexerPool) :
    PoolEvent IndexOutcome → IndexerPool
  | PoolEvent.step worker => pool.step worker
  | PoolEvent.pageDone worker outcome => pool.pageDone lib js worker outcome
  | PoolEvent.pause => { pool with indexer := { pool.indexer with isPaused := true } }
  | PoolEvent.resume => { pool with indexer := { pool.indexer with isPaused := false } }
  | PoolEvent.stop => { pool with indexer := { pool.indexer with isRunning := false } }

/-- The pool after a sequence of events. -/
def run (lib : UrlLib) (js : Runtime) (pool : IndexerPool)
    (events : List (PoolEvent IndexOutcome)) : IndexerPool :=
  events.foldl (apply lib js) pool

end IndexerPool

/-! ## Pools for the examples -/

/-- The links of each page of a site of five pages that link to one another, as the
browser gives them. -/
def fixtureLinks : List Str :=
  ["http://a.com/", "http://a.com/b", "http://a.com/c", "http://a.com/d", "http://a.com/e"].map
    String.toList

/-- The crawl of the fixture site from a start URL with `concurrency: 2` and
`maxPages: 5`. -/
def fixtureCrawl (startUrl : Str) : CrawlerPool :=
  CrawlerPool.init ((SpiderCrawler.new
    { startUrl := startUrl, maxPages := some 5, concurrency := some 2 }).start plainLib)

/-- The full index of the fixture site from a start URL with `concurrency: 2` and
`maxPages: 5`. -/
def fixtureIndexing (startUrl : Str) : IndexerPool :=
  IndexerPool.init plainLib { startUrl := startUrl, maxPages := some 5, concurrency := some 2 }
    none

/-- The schedule of the fixture crawl: the two workers take turns, each page gives the
links of the fixture, and the workers run until both have left the loop. -/
def fixtureSchedule : List (PoolEvent CrawlOutcome) :=
  [PoolEvent.step 0, PoolEvent.step 1,
   PoolEvent.pageDone 0 (CrawlOutcome.links fixtureLinks),
   PoolEvent.step 0, PoolEvent.step 1,
   PoolEvent.pageDone 0 (CrawlOutcome.links fixtureLinks),
   PoolEvent.pageDone 1 (CrawlOutcome.links fixtureLinks),
   PoolEvent.step 0, PoolEvent.step 1,
   PoolEvent.pageDone 0 (CrawlOutcome.links fixtureLinks),
   PoolEvent.pageDone 1 (CrawlOutcome.links fixtureLinks),
   PoolEvent.step 0, PoolEvent.step 1]

/-- The page of the fixture site as `indexPage` reads it. -/
def fixturePage : IndexOutcome :=
  IndexOutcome.indexed "page".toList (some "default".toList)
    (fixtureLinks.map (fun href => { href := href, text := "next page".toList }))

/-- The schedule of the fixture crawl for the indexer. -/
def fixtureIndexSchedule : List (PoolEvent IndexOutcome) :=
  [PoolEvent.step 0, PoolEvent.step 1,
   PoolEvent.pageDone 0 fixturePage,
   PoolEvent.step 0, PoolEvent.step 1,
   PoolEvent.pageDone 0 fixturePage,
   PoolEvent.pageDone 1 fixturePage,
   PoolEvent.step 0, PoolEvent.step 1,
   PoolEvent.pageDone 0 fixturePage,
   PoolEvent.pageDone 1 fixturePage,
   PoolEvent.step 0, PoolEvent.step 1]

/-- A crawl from `http://a.com/` with `concurrency: 2` and `maxPages: 2`. -/
def budgetCrawl : CrawlerPool :=
  CrawlerPool.init ((SpiderCrawler.new
    { startUrl := "http://a.com/".toList, maxPages := some 2, concurrency := some 2 }).start
    plainLib)

/-- A full index from `http://a.com/` with `concurrency: 2` and `maxPages: 2`. -/
def budgetIndexing : IndexerPool :=
  IndexerPool.init plainLib
    { startUrl := "http://a.com/".toList, maxPages := some 2, concurrency := some 2 } none

/-- A schedule with a pause: worker 0 takes the start page while worker 1 finds the
queue empty, the start page settles with `first`, the caller pauses, both workers pass
their loop test and wait in the pause loop, the caller resumes, and both workers go on
from the pause loop. -/
def pauseSchedule {Outcome : Type} (first : Outcome) : List (PoolEvent Outcome) :=
  [PoolEvent.step 0, PoolEvent.step 1, PoolEvent.pageDone 0 first, PoolEvent.pause,
   PoolEvent.step 0, PoolEvent.step 1, PoolEvent.resume, PoolEvent.step 0, PoolEvent.step 1]

/-- The links of a start page to two further pages. -/
def twoLinks : List Str := ["http://a.com/x", "http://a.com/y"].map String.toList

/-- The start page with its two links, as `indexPage` reads it. -/
def twoLinksPage : IndexOutcome :=
  IndexOutcome.indexed "home".toList (some "default".toList)
    (twoLinks.map (fun href => { href := href, text := "next page".toList }))

/-- What an incremental run keeps: the mode, the queue and the pages in flight within
`urls`, the pages of `existing` outside `urls` as they are, and no fewer pages. -/
def KeepsPages (existing : Index) (urls : List Str) (pool : IndexerPool) : Prop :=
  pool.indexer.urlsToIndex = some urls ∧
  (∀ u ∈ pool.indexer.queue, u ∈ urls) ∧
  (∀ (w : Nat) (u : Str), pool.workers[w]? = some (WorkerAt.inPage u) → u ∈ urls) ∧
  (∀ url, url ∉ urls → mapGet pool.pages url = mapGet existing.pages url) ∧
  existing.pages.length ≤ pool.pages.length

/-- An index with one page, saved by an earlier run. -/
def oldIndex : Index :=
  { pages := [("http://a.com/old".toList,
      { title := "old".toList, locale := some "default".toList,
        links := [{ href := "http://a.com/".toList, text := "home".toList }] })] }

/-- The options of an incremental run on one URL, and the same options with an empty
list `urlsToIndex`. -/
def mergeOptions (urls : List Str) : IndexerOptions :=
  { startUrl := "http://a.com".toList, maxPages := some 1, concurrency := some 1,
    urlsToIndex := some urls }

/-- A schedule of one worker that takes one page, stores it and comes back to its loop
test. -/
def mergeSchedule : List (PoolEvent IndexOutcome) :=
  [PoolEvent.step 0,
   PoolEvent.pageDone 0 (IndexOutcome.indexed "new".toList (some "default".toList) []),
   PoolEvent.step 0]

/-- The URL `w` is the URL `written` less the final slash of its path, when `written`
has no query, or less the final slash of its query. -/
def LessFinalSlash (w written : URL) : Prop :=
  (∃ p, written.path = p ++ ['/'] ∧ written.query = none ∧ w = { written with path := p }) ∨
  (∃ q, written.query = some (q ++ ['/']) ∧ w = { written with query := some q })

/-- How the library reads a cleaned text: it parses `c`, the text that cleaning made of
the serialisation of the URL `written`, to the URL `w`, which is `written` itself, or
serialises to `c` and is `written` less the final slash that cleaning stripped. -/
def ReadsAs (lib : UrlLib) (c : Str) (w written : URL) : Prop :=
  lib.parse c = some w ∧ (w = written ∨ (w.toString = c ∧ LessFinalSlash w written))


/-! # Properties -/

/-! ## The frontier: `addToQueue` -/

theorem mem_setAdd {s : List Str} {x y : Str} : y ∈ setAdd s x ↔ y ∈ s ∨ y = x := by
  unfold setAdd
  split
  · constructor
    · intro h; exact Or.inl h
    · rintro (h | h)
      · exact h
      · subst h; assumption
  · simp

theorem frontierOk_push {queue queued : List Str} (c : Str) (h : FrontierOk queue queued)
    (hc : c ∉ queued) : FrontierOk (queue ++ [c]) (setAdd queued c) := by
  obtain ⟨hnd, hsub⟩ := h
  constructor
  · rw [List.nodup_append]
    refine ⟨hnd, List.nodup_singleton c, ?_⟩
    intro a ha hb
    rw [List.mem_singleton] at hb
    subst hb
    exact hc (hsub a ha)
  · intro x hx
    rw [List.mem_append, List.mem_singleton] at hx
    rw [mem_setAdd]
    rcases hx with hx | hx
    · exact Or.inl (hsub x hx)
    · exact Or.inr hx

theorem frontierOk_single (queued : List Str) (c : Str) : FrontierOk [c] (setAdd queued c) := by
  constructor
  · exact List.nodup_singleton c
  · intro x hx
    rw [List.mem_singleton] at hx
    rw [mem_setAdd]
    exact Or.inr hx

namespace SpiderCrawler

theorem addToQueue_eq_crawler (lib : UrlLib) (s : SpiderCrawler) (href : Str) :
    s.addToQueue lib href =
      match s.admitted lib href with
      | none => s
      | some c => s.enqueue c := by
  unfold SpiderCrawler.addToQueue SpiderCrawler.admitted SpiderCrawler.enqueue
  cases lib.parse href with
  | none => rfl
  | some u =>
    dsimp only
    by_cases h1 : some u.hostname ≠ s.rootDomain
    · rw [if_pos h1, if_pos h1]
    rw [if_neg h1, if_neg h1]
    by_cases h2 : endsWithAnyCI u.pathname (dotted crawlerSkipExtensions) = true
    · rw [if_pos h2, if_pos h2]
    rw [if_neg h2, if_neg h2]
    by_cases h3 : includesAnyCI u.pathname (slashed crawlerSkipPaths) = true
    · rw [if_pos h3, if_pos h3]
    rw [if_neg h3, if_neg h3]
    by_cases h4 : s.localeRejects u = true
    · rw [if_pos h4, if_pos h4]
    rw [if_neg h4, if_neg h4]

theorem admitted_enqueue_crawler (lib : UrlLib) (s : SpiderCrawler) (c href : Str) :
    (s.enqueue c).admitted lib href = s.admitted lib href := by
  unfold SpiderCrawler.enqueue
  split <;> rfl

theorem enqueue_of_new_crawler {s : SpiderCrawler} {c : Str} (h : c ∉ s.visited ∧ c ∉ s.queued) :
    s.enqueue c = { s with queue := s.queue ++ [c], queued := setAdd s.queued c } := by
  unfold SpiderCrawler.enqueue
  rw [if_pos h]

theorem enqueue_of_known_crawler {s : SpiderCrawler} {c : Str} (h : ¬ (c ∉ s.visited ∧ c ∉ s.queued)) :
    s.enqueue c = s := by
  unfold SpiderCrawler.enqueue
  rw [if_neg h]

theorem enqueue_enqueue_crawler (s : SpiderCrawler) (c : Str) :
    (s.enqueue c).enqueue c = s.enqueue c := by
  by_cases h : c ∉ s.visited ∧ c ∉ s.queued
  · rw [enqueue_of_new_crawler h]
    apply enqueue_of_known_crawler
    simp [mem_setAdd]
  · rw [enqueue_of_known_crawler h, enqueue_of_known_crawler h]

theorem addToQueue_twice_crawler (lib : UrlLib) (s : SpiderCrawler) (href : Str) :
    (s.addToQueue lib href).addToQueue lib href = s.addToQueue lib href := by
  rw [addToQueue_eq_crawler lib s href]
  cases h : s.admitted lib href with
  | none => simp only [addToQueue_eq_crawler, h]
  | some c => simp only [addToQueue_eq_crawler, admitted_enqueue_crawler, h, enqueue_enqueue_crawler]

theorem frontierOk_enqueue_crawler {s : SpiderCrawler} (c : Str) (h : FrontierOk s.queue s.queued) :
    FrontierOk (s.enqueue c).queue (s.enqueue c).queued := by
  by_cases hc : c ∉ s.visited ∧ c ∉ s.queued
  · rw [enqueue_of_new_crawler hc]
    exact frontierOk_push c h hc.2
  · rw [enqueue_of_known_crawler hc]
    exact h

theorem frontierOk_addToQueue_crawler (lib : UrlLib) {s : SpiderCrawler} (href : Str)
    (h : FrontierOk s.queue s.queued) :
    FrontierOk (s.addToQueue lib href).queue (s.addToQueue lib href).queued := by
  rw [addToQueue_eq_crawler]
  cases s.admitted lib href with
  | none => exact h
  | some c => exact frontierOk_enqueue_crawler c h

theorem frontierOk_start_crawler (lib : UrlLib) (options : CrawlerOptions) :
    FrontierOk ((new options).start lib).queue ((new options).start lib).queued := by
  unfold SpiderCrawler.start
  rw [if_neg (by simp [SpiderCrawler.new])]
  cases lib.parse (new options).startUrl with
  | none => exact ⟨List.nodup_nil, fun x hx => absurd hx (List.not_mem_nil x)⟩
  | some u => exact frontierOk_single (new options).queued (new options).startUrl

theorem frontierOk_of_reachable_crawler (lib : UrlLib) {s : SpiderCrawler} (h : Reachable lib s) :
    FrontierOk s.queue s.queued := by
  induction h with
  | start options => exact frontierOk_start_crawler lib options
  | addToQueue s href _ ih => exact frontierOk_addToQueue_crawler lib href ih

end SpiderCrawler

namespace SiteIndexer

theorem addToQueue_eq_indexer (lib : UrlLib) (s : SiteIndexer) (href : Str) :
    s.addToQueue lib href =
      match s.admitted lib href with
      | none => s
      | some c => s.enqueue c := by
  unfold SiteIndexer.addToQueue SiteIndexer.admitted SiteIndexer.enqueue
  cases lib.parse href with
  | none => rfl
  | some u =>
    dsimp only
    by_cases h1 : some u.hostname ≠ s.rootDomain
    · rw [if_pos h1, if_pos h1]
    rw [if_neg h1, if_neg h1]
    by_cases h2 : endsWithAnyCI u.pathname (dotted indexerSkipExtensions) = true
    · rw [if_pos h2, if_pos h2]
    rw [if_neg h2, if_neg h2]
    by_cases h4 : s.localeRejects u = true
    · rw [if_pos h4, if_pos h4]
    rw [if_neg h4, if_neg h4]

theorem admitted_enqueue_indexer (lib : UrlLib) (s : SiteIndexer) (c href : Str) :
    (s.enqueue c).admitted lib href = s.admitted lib href := by
  unfold SiteIndexer.enqueue
  split <;> rfl

theorem enqueue_of_new_indexer {s : SiteIndexer} {c : Str} (h : c ∉ s.visited ∧ c ∉ s.queued) :
    s.enqueue c = { s with queue := s.queue ++ [c], queued := setAdd s.queued c } := by
  unfold SiteIndexer.enqueue
  rw [if_pos h]

theorem enqueue_of_known_indexer {s : SiteIndexer} {c : Str} (h : ¬ (c ∉ s.visited ∧ c ∉ s.queued)) :
    s.enqueue c = s := by
  unfold SiteIndexer.enqueue
  rw [if_neg h]

theorem enqueue_enqueue_indexer (s : SiteIndexer) (c : Str) :
    (s.enqueue c).enqueue c = s.enqueue c := by
  by_cases h : c ∉ s.visited ∧ c ∉ s.queued
  · rw [enqueue_of_new_indexer h]
    apply enqueue_of_known_indexer
    simp [mem_setAdd]
  · rw [enqueue_of_known_indexer h, enqueue_of_known_indexer h]

theorem addToQueue_twice_indexer (lib : UrlLib) (s : SiteIndexer) (href : Str) :
    (s.addToQueue lib href).addToQueue lib href = s.addToQueue lib href := by
  rw [addToQueue_eq_indexer lib s href]
  cases h : s.admitted lib href with
  | none => simp only [addToQueue_eq_indexer, h]
  | some c => simp only [addToQueue_eq_indexer, admitted_enqueue_indexer, h, enqueue_enqueue_indexer]

theorem frontierOk_enqueue_indexer {s : SiteIndexer} (c : Str) (h : FrontierOk s.queue s.queued) :
    FrontierOk (s.enqueue c).queue (s.enqueue c).queued := by
  by_cases hc : c ∉ s.visited ∧ c ∉ s.queued
  · rw [enqueue_of_new_indexer hc]
    exact frontierOk_push c h hc.2
  · rw [enqueue_of_known_indexer hc]
    exact h

theorem frontierOk_addToQueue_indexer (lib : UrlLib) {s : SiteIndexer} (href : Str)
    (h : FrontierOk s.queue s.queued) :
    FrontierOk (s.addToQueue lib href).queue (s.addToQueue lib href).queued := by
  rw [addToQueue_eq_indexer]
  cases s.admitted lib href with
  | none => exact h
  | some c => exact frontierOk_enqueue_indexer c h

theorem frontierOk_buildIndex_indexer (lib : UrlLib) (options : IndexerOptions)
    (hfull : options.urlsToIndex = none) :
    FrontierOk ((new options).buildIndex lib).queue ((new options).buildIndex lib).queued := by
  unfold SiteIndexer.buildIndex
  rw [if_neg (by simp [SiteIndexer.new])]
  have hu : (new options).urlsToIndex = none := hfull
  cases lib.parse (new options).startUrl with
  | none => exact ⟨List.nodup_nil, fun x hx => absurd hx (List.not_mem_nil x)⟩
  | some u =>
    dsimp only
    rw [hu]
    exact frontierOk_single (new options).queued (new options).startUrl

theorem frontierOk_of_reachable_indexer (lib : UrlLib) {s : SiteIndexer} (h : Reachable lib s) :
    FrontierOk s.queue s.queued := by
  induction h with
  | start options hfull => exact frontierOk_buildIndex_indexer lib options hfull
  | addToQueue s href _ ih => exact frontierOk_addToQueue_indexer lib href ih

end SiteIndexer

theorem count_le_one_of_nodup {l : List Str} (h : l.Nodup) (a : Str) : l.count a ≤ 1 := by
  induction l with
  | nil => simp
  | cons b l ih =>
    rw [List.nodup_cons] at h
    rw [List.count_cons]
    by_cases hb : (b == a) = true
    · have hba : b = a := eq_of_beq hb
      subst hba
      rw [List.count_eq_zero_of_not_mem h.1]
      simp
    · rw [if_neg hb]
      exact ih h.2

/-- C1. Frontier idempotence: in every state reached by `start` / `buildIndex` (full
crawl) and any calls of `addToQueue`, calling `addToQueue(href)` twice leaves the crawler
exactly as one call does, and the queue holds the cleaned URL of `href` at most once;
for `SpiderCrawler` and for `SiteIndexer`. -/
theorem addToQueue_idempotent (lib : UrlLib) (href : Str) (s : SpiderCrawler) (t : SiteIndexer)
    (hs : SpiderCrawler.Reachable lib s) (ht : SiteIndexer.Reachable lib t) :
    ((s.addToQueue lib href).addToQueue lib href = s.addToQueue lib href ∧
      ∀ c, SpiderCrawler.clean lib href = some c →
        ((s.addToQueue lib href).addToQueue lib href).queue.count c ≤ 1) ∧
    ((t.addToQueue lib href).addToQueue lib href = t.addToQueue lib href ∧
      ∀ c, SiteIndexer.clean lib href = some c →
        ((t.addToQueue lib href).addToQueue lib href).queue.count c ≤ 1) := by
  refine ⟨⟨SpiderCrawler.addToQueue_twice_crawler lib s href, fun c _ => ?_⟩,
    ⟨SiteIndexer.addToQueue_twice_indexer lib t href, fun c _ => ?_⟩⟩
  · rw [SpiderCrawler.addToQueue_twice_crawler]
    exact count_le_one_of_nodup
      (SpiderCrawler.frontierOk_addToQueue_crawler lib href
        (SpiderCrawler.frontierOk_of_reachable_crawler lib hs)).1 c
  · rw [SiteIndexer.addToQueue_twice_indexer]
    exact count_le_one_of_nodup
      (SiteIndexer.frontierOk_addToQueue_indexer lib href
        (SiteIndexer.frontierOk_of_reachable_indexer lib ht)).1 c

/-- Witness of C1: the crawler and the indexer started on `http://a.com/` that have
queued `http://a.com/foo/`, and the link `http://a.com/foo`. -/
theorem addToQueue_idempotent_witness :
    SpiderCrawler.Reachable plainLib (exampleCrawler.addToQueue plainLib "http://a.com/foo/".toList) ∧
    SiteIndexer.Reachable plainLib (exampleIndexer.addToQueue plainLib "http://a.com/foo/".toList) ∧
    ((((exampleCrawler.addToQueue plainLib "http://a.com/foo/".toList).addToQueue plainLib
          "http://a.com/foo".toList).addToQueue plainLib "http://a.com/foo".toList =
        (exampleCrawler.addToQueue plainLib "http://a.com/foo/".toList).addToQueue plainLib
          "http://a.com/foo".toList ∧
      (((exampleCrawler.addToQueue plainLib "http://a.com/foo/".toList).addToQueue plainLib
          "http://a.com/foo".toList).addToQueue plainLib "http://a.com/foo".toList).queue.count
          "http://a.com/foo".toList ≤ 1) ∧
     (((exampleIndexer.addToQueue plainLib "http://a.com/foo/".toList).addToQueue plainLib
          "http://a.com/foo".toList).addToQueue plainLib "http://a.com/foo".toList =
        (exampleIndexer.addToQueue plainLib "http://a.com/foo/".toList).addToQueue plainLib
          "http://a.com/foo".toList ∧
      (((exampleIndexer.addToQueue plainLib "http://a.com/foo/".toList).addToQueue plainLib
          "http://a.com/foo".toList).addToQueue plainLib "http://a.com/foo".toList).queue.count
          "http://a.com/foo".toList ≤ 1)) :=
  have hs : SpiderCrawler.Reachable plainLib
      (exampleCrawler.addToQueue plainLib "http://a.com/foo/".toList) :=
    SpiderCrawler.Reachable.addToQueue _ _ (SpiderCrawler.Reachable.start _)
  have ht : SiteIndexer.Reachable plainLib
      (exampleIndexer.addToQueue plainLib "http://a.com/foo/".toList) :=
    SiteIndexer.Reachable.addToQueue _ _ (SiteIndexer.Reachable.start _ rfl)
  ⟨hs, ht,
    ⟨(addToQueue_idempotent plainLib "http://a.com/foo".toList _ _ hs ht).1.1,
      (addToQueue_idempotent plainLib "http://a.com/foo".toList _ _ hs ht).1.2 _ (by decide)⟩,
    ⟨(addToQueue_idempotent plainLib "http://a.com/foo".toList _ _ hs ht).2.1,
      (addToQueue_idempotent plainLib "http://a.com/foo".toList _ _ hs ht).2.2 _ (by decide)⟩⟩

/-! ## The locale classifier: `isCrossLocaleLink` -/

theorem SpiderCrawler.isAssetUrl_of_parse {lib : UrlLib} {url : Str} {u : URL}
    (h : lib.parse url = some u) :
    SpiderCrawler.isAssetUrl lib url = endsWithAnyCI u.pathname (dotted assetExtensions) := by
  unfold SpiderCrawler.isAssetUrl
  rw [h]

theorem SpiderCrawler.isCrossLocaleLink_internal {lib : UrlLib} {self : SpiderCrawler}
    {sourceUrl targetUrl : Str} {t : URL} (ht : lib.parse targetUrl = some t)
    (hint : self.rootDomain = some t.hostname)
    (hasset : SpiderCrawler.isAssetUrl lib targetUrl = false) :
    self.isCrossLocaleLink lib sourceUrl targetUrl =
      if !self.defaultLocaleHasPrefix then
        (if !truthy (self.extractLocale lib sourceUrl) then
          (if truthy (self.extractLocale lib targetUrl) then true else false)
        else
          (if truthy (self.extractLocale lib targetUrl) &&
              decide (self.extractLocale lib targetUrl ≠ self.extractLocale lib sourceUrl) then true
          else if !truthy (self.extractLocale lib targetUrl) then true
          else false))
      else
        (if truthy (self.extractLocale lib sourceUrl) && truthy (self.extractLocale lib targetUrl) &&
            decide (self.extractLocale lib sourceUrl ≠ self.extractLocale lib targetUrl) then true
        else if truthy (self.extractLocale lib sourceUrl) &&
            !truthy (self.extractLocale lib targetUrl) then true
        else false) := by
  unfold SpiderCrawler.isCrossLocaleLink
  rw [ht]
  dsimp only
  rw [if_neg (by rw [hint]; exact fun h => h rfl), hasset]
  rfl

/-- C3 (amended). With `defaultLocaleHasPrefix = false`, for every source URL and every
internal non-asset target URL, `isCrossLocaleLink` is true exactly when the locales of
the two `extractLocale` verdicts differ, an empty code counting as no locale. -/
theorem isCrossLocaleLink_noPrefix (lib : UrlLib) (self : SpiderCrawler)
    (sourceUrl targetUrl : Str) (t : URL)
    (hflag : self.defaultLocaleHasPrefix = false)
    (ht : lib.parse targetUrl = some t) (hint : self.rootDomain = some t.hostname)
    (hasset : SpiderCrawler.isAssetUrl lib targetUrl = false) :
    self.isCrossLocaleLink lib sourceUrl targetUrl = true ↔
      localeOf (self.extractLocale lib sourceUrl) ≠ localeOf (self.extractLocale lib targetUrl) := by
  rw [SpiderCrawler.isCrossLocaleLink_internal ht hint hasset, hflag]
  unfold localeOf
  cases hs : truthy (self.extractLocale lib sourceUrl) <;>
    cases htl : truthy (self.extractLocale lib targetUrl) <;> simp
  · intro h
    rw [← h] at htl
    simp [truthy] at htl
  · intro h
    rw [h] at hs
    simp [truthy] at hs
  · constructor
    · intro h1 h2
      exact h1 h2.symm
    · intro h1 h2
      exact h1 h2.symm

/-- Witness of C3 (amended): the default crawler, from `/x` to `/de/x`. -/
theorem isCrossLocaleLink_noPrefix_witness :
    exampleCrawler.defaultLocaleHasPrefix = false ∧
    plainLib.parse "http://a.com/de/x".toList =
      some { scheme := "http".toList, host := some "a.com".toList, path := "/de/x".toList } ∧
    exampleCrawler.rootDomain = some "a.com".toList ∧
    SpiderCrawler.isAssetUrl plainLib "http://a.com/de/x".toList = false ∧
    (exampleCrawler.isCrossLocaleLink plainLib "http://a.com/x".toList "http://a.com/de/x".toList = true ↔
      localeOf (exampleCrawler.extractLocale plainLib "http://a.com/x".toList) ≠
        localeOf (exampleCrawler.extractLocale plainLib "http://a.com/de/x".toList)) :=
  ⟨by decide, by decide, by decide, by decide,
    isCrossLocaleLink_noPrefix plainLib exampleCrawler "http://a.com/x".toList
      "http://a.com/de/x".toList
      { scheme := "http".toList, host := some "a.com".toList, path := "/de/x".toList }
      (by decide) (by decide) (by decide) (by decide)⟩

/-- Counterexample to C3 as stated: with `otherLocales: '//'` the internal non-asset
link from `/x` (verdict `null`) to `//x` (verdict `''`) has two different verdicts and
is not cross-locale. -/
theorem isCrossLocaleLink_noPrefix_counterexample :
    slashLocaleCrawler.defaultLocaleHasPrefix = false ∧
    (plainLib.parse "http://a.com//x".toList).map URL.hostname = some "a.com".toList ∧
    slashLocaleCrawler.rootDomain = some "a.com".toList ∧
    SpiderCrawler.isAssetUrl plainLib "http://a.com//x".toList = false ∧
    slashLocaleCrawler.extractLocale plainLib "http://a.com/x".toList = none ∧
    slashLocaleCrawler.extractLocale plainLib "http://a.com//x".toList = some [] ∧
    ¬ (slashLocaleCrawler.isCrossLocaleLink plainLib "http://a.com/x".toList
          "http://a.com//x".toList = true ↔
        slashLocaleCrawler.extractLocale plainLib "http://a.com/x".toList ≠
          slashLocaleCrawler.extractLocale plainLib "http://a.com//x".toList) := by
  decide

/-- C4. With `defaultLocaleHasPrefix = true`, for every source URL and every internal
non-asset target URL, `isCrossLocaleLink` is true when both URLs carry locale codes and
the codes differ, true when the source carries a code and the target none, and false
when neither carries one (a URL carries a code when `extractLocale` gives a non-empty one). -/
theorem isCrossLocaleLink_withPrefix (lib : UrlLib) (self : SpiderCrawler)
    (sourceUrl targetUrl : Str) (t : URL)
    (hflag : self.defaultLocaleHasPrefix = true)
    (ht : lib.parse targetUrl = some t) (hint : self.rootDomain = some t.hostname)
    (hasset : SpiderCrawler.isAssetUrl lib targetUrl = false) :
    (truthy (self.extractLocale lib sourceUrl) = true →
      truthy (self.extractLocale lib targetUrl) = true →
      self.extractLocale lib sourceUrl ≠ self.extractLocale lib targetUrl →
      self.isCrossLocaleLink lib sourceUrl targetUrl = true) ∧
    (truthy (self.extractLocale lib sourceUrl) = true →
      truthy (self.extractLocale lib targetUrl) = false →
      self.isCrossLocaleLink lib sourceUrl targetUrl = true) ∧
    (truthy (self.extractLocale lib sourceUrl) = false →
      truthy (self.extractLocale lib targetUrl) = false →
      self.isCrossLocaleLink lib sourceUrl targetUrl = false) := by
  rw [SpiderCrawler.isCrossLocaleLink_internal ht hint hasset, hflag]
  refine ⟨fun h1 h2 h3 => ?_, fun h1 h2 => ?_, fun h1 h2 => ?_⟩ <;> simp [h1, h2]
  exact h3

/-- Witness of C4: the crawler with a prefixed default locale, from `/de/x` to `/fr/x`. -/
theorem isCrossLocaleLink_withPrefix_witness :
    prefixedCrawler.defaultLocaleHasPrefix = true ∧
    plainLib.parse "http://a.com/fr/x".toList =
      some { scheme := "http".toList, host := some "a.com".toList, path := "/fr/x".toList } ∧
    prefixedCrawler.rootDomain = some "a.com".toList ∧
    SpiderCrawler.isAssetUrl plainLib "http://a.com/fr/x".toList = false ∧
    truthy (prefixedCrawler.extractLocale plainLib "http://a.com/de/x".toList) = true ∧
    truthy (prefixedCrawler.extractLocale plainLib "http://a.com/fr/x".toList) = true ∧
    prefixedCrawler.extractLocale plainLib "http://a.com/de/x".toList ≠
      prefixedCrawler.extractLocale plainLib "http://a.com/fr/x".toList ∧
    prefixedCrawler.isCrossLocaleLink plainLib "http://a.com/de/x".toList
      "http://a.com/fr/x".toList = true :=
  ⟨by decide, by decide, by decide, by decide, by decide, by decide, by decide,
    (isCrossLocaleLink_withPrefix plainLib prefixedCrawler "http://a.com/de/x".toList
      "http://a.com/fr/x".toList
      { scheme := "http".toList, host := some "a.com".toList, path := "/fr/x".toList }
      (by decide) (by decide) (by decide) (by decide)).1
      (by decide) (by decide) (by decide)⟩

/-- C7. External and asset targets are never cross-locale: whatever the source URL, the
flag `defaultLocaleHasPrefix` and the locale list, a target whose hostname differs from
the root domain, or whose path ends in an asset extension, gives `false`. -/
theorem isCrossLocaleLink_external_or_asset (lib : UrlLib) (self : SpiderCrawler)
    (sourceUrl targetUrl : Str) (t : URL) (ht : lib.parse targetUrl = some t)
    (h : self.rootDomain ≠ some t.hostname ∨
      ∃ ext ∈ assetExtensions, endsWith (toLowerCase t.pathname) ('.' :: ext.toList) = true) :
    self.isCrossLocaleLink lib sourceUrl targetUrl = false := by
  unfold SpiderCrawler.isCrossLocaleLink
  rw [ht]
  dsimp only
  rcases h with h | ⟨ext, hext, hends⟩
  · rw [if_pos (fun e => h e.symm)]
  · have hasset : SpiderCrawler.isAssetUrl lib targetUrl = true := by
      rw [SpiderCrawler.isAssetUrl_of_parse ht]
      unfold endsWithAnyCI dotted
      rw [List.any_eq_true]
      exact ⟨'.' :: ext.toList, List.mem_map.mpr ⟨ext, hext, rfl⟩, hends⟩
    rw [hasset]
    split <;> rfl

/-- Witness of C7: a stylesheet on the root domain. -/
theorem isCrossLocaleLink_external_or_asset_witness :
    plainLib.parse "http://a.com/de/site.css".toList =
      some { scheme := "http".toList, host := some "a.com".toList, path := "/de/site.css".toList } ∧
    exampleCrawler.isCrossLocaleLink plainLib "http://a.com/x".toList
      "http://a.com/de/site.css".toList = false :=
  ⟨by decide,
    isCrossLocaleLink_external_or_asset plainLib exampleCrawler "http://a.com/x".toList
      "http://a.com/de/site.css".toList
      { scheme := "http".toList, host := some "a.com".toList, path := "/de/site.css".toList }
      (by decide)
      (Or.inr ⟨"css", by decide, by decide⟩)⟩

/-! ## The locale classifier: `extractLocale` -/

theorem isUpper_iff (c : Char) : c.isUpper = true ↔ 65 ≤ c.toNat ∧ c.toNat ≤ 90 := by
  unfold Char.isUpper
  rw [Bool.and_eq_true, decide_eq_true_iff, decide_eq_true_iff]
  exact Iff.rfl

theorem isLower_iff (c : Char) : c.isLower = true ↔ 97 ≤ c.toNat ∧ c.toNat ≤ 122 := by
  unfold Char.isLower
  rw [Bool.and_eq_true, decide_eq_true_iff, decide_eq_true_iff]
  exact Iff.rfl

theorem toNat_ofNat_lower (n : Nat) (h1 : 65 ≤ n) (h2 : n ≤ 90) :
    (Char.ofNat (n + 32)).toNat = n + 32 := by
  interval_cases n <;> rfl

theorem toLower_isLower {c : Char} (h : c.isAlpha = true) : c.toLower.isLower = true := by
  unfold Char.isAlpha at h
  rw [Bool.or_eq_true] at h
  unfold Char.toLower
  by_cases hu : 65 ≤ c.toNat ∧ c.toNat ≤ 90
  · simp only [ge_iff_le, hu, and_self, if_true]
    rw [isLower_iff, toNat_ofNat_lower _ hu.1 hu.2]
    omega
  · simp only [ge_iff_le, hu, if_false]
    rcases h with h | h
    · exact absurd ((isUpper_iff c).mp h) hu
    · exact h

theorem toLower_of_not_upper {c : Char} (h : c.isUpper = false) : c.toLower = c := by
  unfold Char.toLower
  have hu : ¬ (65 ≤ c.toNat ∧ c.toNat ≤ 90) := by
    intro hc
    rw [(isUpper_iff c).mpr hc] at h
    exact Bool.noConfusion h
  simp only [ge_iff_le, hu, if_false]

theorem all_toLower_isLower {r : Str} (h : r.all Char.isAlpha = true) :
    (toLowerCase r).all Char.isLower = true := by
  unfold toLowerCase
  rw [List.all_eq_true] at h ⊢
  intro c hc
  rw [List.mem_map] at hc
  obtain ⟨d, hd, rfl⟩ := hc
  exact toLower_isLower (h d hd)

theorem takeWhile_append_stop {p : Char → Bool} {r : Str} {c : Char} (rest : Str)
    (hr : r.all p = true) (hc : p c = false) :
    (r ++ c :: rest).takeWhile p = r ∧ (r ++ c :: rest).dropWhile p = c :: rest := by
  induction r with
  | nil => simp [List.takeWhile_cons, List.dropWhile_cons, hc]
  | cons a r ih =>
    rw [List.all_cons, Bool.and_eq_true] at hr
    simp only [List.cons_append, List.takeWhile_cons, List.dropWhile_cons, hr.1, if_true]
    exact ⟨by rw [(ih hr.2).1], (ih hr.2).2⟩

theorem all_takeWhile (p : Char → Bool) (s : Str) : (s.takeWhile p).all p = true := by
  induction s with
  | nil => rfl
  | cons a s ih =>
    rw [List.takeWhile_cons]
    by_cases h : p a = true
    · rw [if_pos h, List.all_cons, h, ih]
      rfl
    · rw [if_neg h]
      rfl

theorem localeMatch_shape {p code : Str} (h : localeMatch p = some code) :
    codeShape Char.isAlpha code = true ∧ ∃ rest, p = '/' :: (code ++ '/' :: rest) := by
  unfold localeMatch at h
  match p, h with
  | s :: a :: b :: rest, h =>
    dsimp only at h
    by_cases h1 : (s = '/' && a.isAlpha && b.isAlpha) = true
    · rw [if_pos h1] at h
      simp only [Bool.and_eq_true, decide_eq_true_eq] at h1
      obtain ⟨⟨hs, ha⟩, hb⟩ := h1
      subst hs
      match rest, h with
      | c :: rest2, h =>
        dsimp only at h
        by_cases hc : c = '/'
        · rw [if_pos hc] at h
          subst hc
          cases h
          refine ⟨by simp [codeShape, ha, hb], rest2, rfl⟩
        · rw [if_neg hc] at h
          by_cases hd : c = '-'
          · rw [if_pos hd] at h
            subst hd
            split at h
            · rename_i hrun
              cases h
              obtain ⟨h2, h4, hhead⟩ := hrun
              have hsplit := List.takeWhile_append_dropWhile Char.isAlpha rest2
              cases hdrop : rest2.dropWhile Char.isAlpha with
              | nil => rw [hdrop] at hhead; cases hhead
              | cons x tl =>
                rw [hdrop] at hhead hsplit
                simp only [List.head?_cons, Option.some.injEq] at hhead
                subst hhead
                refine ⟨?_, tl, ?_⟩
                · simp [codeShape, ha, hb, all_takeWhile, h2, h4]
                · simp only [List.cons_append]
                  rw [hsplit]
            · cases h
          · rw [if_neg hd] at h
            cases h
    · rw [if_neg h1] at h
      cases h

theorem localeMatch_of_shape {code rest : Str} (h : codeShape Char.isAlpha code = true) :
    localeMatch ('/' :: (code ++ '/' :: rest)) = some code := by
  unfold codeShape at h
  match code, h with
  | [a, b], h =>
    simp only [Bool.and_eq_true] at h
    simp [localeMatch, h.1, h.2]
  | a :: b :: d :: r, h =>
    simp only [Bool.and_eq_true, decide_eq_true_eq] at h
    obtain ⟨⟨⟨⟨⟨ha, hb⟩, hd⟩, hr⟩, h2⟩, h4⟩ := h
    subst hd
    have hstop := takeWhile_append_stop rest hr (show Char.isAlpha '/' = false by decide)
    simp only [localeMatch, List.cons_append, ha, hb, decide_True, Bool.and_self, if_true]
    rw [hstop.1, hstop.2]
    simp [h2, h4]

theorem find?_eq_some_split {p : Str → Bool} {l : List Str} {x : Str} :
    l.find? p = some x ↔
      ∃ before after, l = before ++ x :: after ∧ (∀ y ∈ before, p y = false) ∧ p x = true := by
  induction l with
  | nil => simp
  | cons a l ih =>
    rw [List.find?_cons]
    cases hpa : p a with
    | true =>
      constructor
      · intro h
        cases h
        exact ⟨[], l, rfl, fun y hy => absurd hy (List.not_mem_nil y), hpa⟩
      · rintro ⟨before, after, hl, hb, hx⟩
        cases before with
        | nil =>
          simp only [List.nil_append, List.cons.injEq] at hl
          rw [hl.1]
        | cons b before =>
          simp only [List.cons_append, List.cons.injEq] at hl
          have := hb b (List.mem_cons_self b before)
          rw [← hl.1, hpa] at this
          cases this
    | false =>
      rw [ih]
      constructor
      · rintro ⟨before, after, hl, hb, hx⟩
        refine ⟨a :: before, after, by rw [hl]; rfl, ?_, hx⟩
        intro y hy
        rcases List.mem_cons.mp hy with rfl | hy
        · exact hpa
        · exact hb y hy
      · rintro ⟨before, after, hl, hb, hx⟩
        cases before with
        | nil =>
          simp only [List.nil_append, List.cons.injEq] at hl
          rw [hl.1, hx] at hpa
          cases hpa
        | cons b before =>
          simp only [List.cons_append, List.cons.injEq] at hl
          exact ⟨before, after, hl.2, fun y hy => hb y (List.mem_cons_of_mem b hy), hx⟩

theorem find?_eq_none_all {p : Str → Bool} {l : List Str} :
    l.find? p = none ↔ ∀ y ∈ l, p y = false := by
  rw [List.find?_eq_none]
  constructor
  · intro h y hy
    exact Bool.eq_false_iff.mpr (h y hy)
  · intro h y hy
    exact Bool.eq_false_iff.mp (h y hy)

theorem codeShape_toLower {code : Str} (h : codeShape Char.isAlpha code = true) :
    codeShape Char.isLower (toLowerCase code) = true := by
  unfold codeShape at h
  match code, h with
  | [a, b], h =>
    simp only [Bool.and_eq_true] at h
    simp [toLowerCase, codeShape, toLower_isLower h.1, toLower_isLower h.2]
  | a :: b :: d :: r, h =>
    simp only [Bool.and_eq_true, decide_eq_true_eq] at h
    obtain ⟨⟨⟨⟨⟨ha, hb⟩, hd⟩, hr⟩, h2⟩, h4⟩ := h
    subst hd
    have hr2 := all_toLower_isLower hr
    unfold toLowerCase at hr2
    have hdash : Char.toLower '-' = '-' := by decide
    simp only [toLowerCase, List.map_cons, codeShape, toLower_isLower ha, toLower_isLower hb,
      hdash, decide_True, Bool.and_self, hr2, List.length_map, h2, h4]

/-- C5 (amended). `extractLocale` is total and its result is `null`, or the code of a
configured locale, or a code `xx` / `xx-yyyy` captured by the fallback pattern (which need
not be configured); a string that does not parse gives `null`. The helper of `indexPage`
gives `null`, `'default'` or one of the known locales. -/
theorem extractLocale_range (lib : UrlLib) (self : SpiderCrawler) (url : Str)
    (knownLocales : List Str) (href : Str) (isExternal : Bool) :
    ((lib.parse url = none → self.extractLocale lib url = none) ∧
      (self.extractLocale lib url = none ∨
        (∃ locale ∈ self.otherLocales, self.extractLocale lib url = some (removeSlashes locale)) ∨
        (∃ code, self.extractLocale lib url = some code ∧ codeShape Char.isLower code = true))) ∧
    (SiteIndexer.extractLocale lib knownLocales href isExternal = none ∨
      SiteIndexer.extractLocale lib knownLocales href isExternal = some "default".toList ∨
      ∃ code ∈ knownLocales, SiteIndexer.extractLocale lib knownLocales href isExternal = some code) := by
  refine ⟨⟨?_, ?_⟩, ?_⟩
  · intro h
    unfold SpiderCrawler.extractLocale
    rw [h]
  · unfold SpiderCrawler.extractLocale
    cases lib.parse url with
    | none => exact Or.inl rfl
    | some u =>
      dsimp only
      cases hf : self.otherLocales.find? (fun locale => startsWith (toLowerCase u.pathname) locale) with
      | some locale => exact Or.inr (Or.inl ⟨locale, List.mem_of_find?_eq_some hf, rfl⟩)
      | none =>
        dsimp only
        cases hm : localeMatch (toLowerCase u.pathname) with
        | none => exact Or.inl rfl
        | some code =>
          exact Or.inr (Or.inr ⟨toLowerCase code, rfl, codeShape_toLower (localeMatch_shape hm).1⟩)
  · unfold SiteIndexer.extractLocale
    cases isExternal with
    | true => exact Or.inl rfl
    | false =>
      simp only [Bool.false_eq_true, if_false]
      cases lib.parse href with
      | none => exact Or.inr (Or.inl rfl)
      | some u =>
        dsimp only
        cases (splitOn '/' (toLowerCase u.pathname)).filter (fun part => !part.isEmpty) with
        | nil => exact Or.inr (Or.inl rfl)
        | cons candidate rest =>
          dsimp only
          by_cases hc : candidate ∈ knownLocales
          · rw [if_pos hc]
            exact Or.inr (Or.inr ⟨candidate, hc, rfl⟩)
          · rw [if_neg hc]
            exact Or.inr (Or.inl rfl)

/-- Witness of C5 (amended): a string that is no URL gets `null`. -/
theorem extractLocale_range_witness :
    plainLib.parse "not a url".toList = none ∧
    exampleCrawler.extractLocale plainLib "not a url".toList = none :=
  ⟨by decide,
    (extractLocale_range plainLib exampleCrawler "not a url".toList [] [] false).1.1 (by decide)⟩

/-- Counterexample to C5 as stated: with the default locale list `/de/, /fr/, /es/` the
URL `http://a.com/it/x` gets `it`, which is no configured code and not the default verdict. -/
theorem extractLocale_range_counterexample :
    exampleCrawler.otherLocales = ["/de/".toList, "/fr/".toList, "/es/".toList] ∧
    exampleCrawler.extractLocale plainLib "http://a.com/it/x".toList = some "it".toList ∧
    "it".toList ∉ exampleCrawler.otherLocales.map removeSlashes ∧
    "it".toList ≠ "default".toList := by
  decide

/-- C6 (amended). `extractLocale` decides on prefixes of the lower-cased path: when the
path starts with a configured prefix `/code/` (the code followed by a slash), it returns
the first such prefix in list order with its slashes removed; when it starts with no
configured prefix and has the form `/xx/...` or `/xx-yyyy/...`, it returns that code; and
it returns `null` when neither holds. -/
theorem extractLocale_decides (lib : UrlLib) (self : SpiderCrawler) (url : Str) (u : URL)
    (hu : lib.parse url = some u) :
    (∀ before locale after, self.otherLocales = before ++ locale :: after →
      (∀ l ∈ before, startsWith (toLowerCase u.pathname) l = false) →
      startsWith (toLowerCase u.pathname) locale = true →
      self.extractLocale lib url = some (removeSlashes locale)) ∧
    ((∀ l ∈ self.otherLocales, startsWith (toLowerCase u.pathname) l = false) →
      ∀ code rest, toLowerCase u.pathname = '/' :: (code ++ '/' :: rest) →
        codeShape Char.isAlpha code = true →
        self.extractLocale lib url = some (toLowerCase code)) ∧
    ((∀ l ∈ self.otherLocales, startsWith (toLowerCase u.pathname) l = false) →
      (¬ ∃ code rest, toLowerCase u.pathname = '/' :: (code ++ '/' :: rest) ∧
        codeShape Char.isAlpha code = true) →
      self.extractLocale lib url = none) := by
  refine ⟨?_, ?_, ?_⟩
  · intro before locale after hl hb hx
    have hf : self.otherLocales.find? (fun l => startsWith (toLowerCase u.pathname) l) =
        some locale := find?_eq_some_split.mpr ⟨before, after, hl, hb, hx⟩
    unfold SpiderCrawler.extractLocale
    rw [hu]
    dsimp only
    rw [hf]
  · intro hnone code rest hp hshape
    have hf : self.otherLocales.find? (fun l => startsWith (toLowerCase u.pathname) l) = none :=
      find?_eq_none_all.mpr hnone
    unfold SpiderCrawler.extractLocale
    rw [hu]
    dsimp only
    rw [hf]
    dsimp only
    rw [hp, localeMatch_of_shape hshape]
  · intro hnone hno
    have hf : self.otherLocales.find? (fun l => startsWith (toLowerCase u.pathname) l) = none :=
      find?_eq_none_all.mpr hnone
    unfold SpiderCrawler.extractLocale
    rw [hu]
    dsimp only
    rw [hf]
    dsimp only
    cases hm : localeMatch (toLowerCase u.pathname) with
    | none => rfl
    | some code =>
      obtain ⟨hshape, rest, hp⟩ := localeMatch_shape hm
      exact absurd ⟨code, rest, hp, hshape⟩ hno

/-- Witness of C6 (amended): `http://a.com/de/x` under the default locale list. -/
theorem extractLocale_decides_witness :
    plainLib.parse "http://a.com/de/x".toList =
      some { scheme := "http".toList, host := some "a.com".toList, path := "/de/x".toList } ∧
    exampleCrawler.otherLocales = [] ++ "/de/".toList :: ["/fr/".toList, "/es/".toList] ∧
    startsWith (toLowerCase "/de/x".toList) "/de/".toList = true ∧
    exampleCrawler.extractLocale plainLib "http://a.com/de/x".toList = some "de".toList :=
  ⟨by decide, by decide, by decide,
    (extractLocale_decides plainLib exampleCrawler "http://a.com/de/x".toList
      { scheme := "http".toList, host := some "a.com".toList, path := "/de/x".toList }
      (by decide)).1 [] "/de/".toList ["/fr/".toList, "/es/".toList] (by decide)
      (fun l hl => absurd hl (List.not_mem_nil l)) (by decide)⟩

/-- Counterexample to C6 as stated: in `http://a.com/de` the first non-empty path segment
is the configured code `de`, nothing follows it, and `extractLocale` gives `null`. -/
theorem extractLocale_decides_counterexample :
    (plainLib.parse "http://a.com/de".toList).map URL.pathname = some "/de".toList ∧
    ((splitOn '/' (toLowerCase "/de".toList)).filter (fun part => !part.isEmpty)).head? =
      some "de".toList ∧
    "de".toList ∈ exampleCrawler.otherLocales.map removeSlashes ∧
    exampleCrawler.extractLocale plainLib "http://a.com/de".toList = none := by
  decide

/-! ## The link-health checker: `checkLinkStatus` -/

theorem checkLinkStatusFallback_requests (net : Net) (url : Str) :
    (SiteIndexer.checkLinkStatusFallback net url).requests = [Method.HEAD, Method.GET] := by
  unfold SiteIndexer.checkLinkStatusFallback
  cases net Method.GET url <;> rfl

theorem checkLinkStatusFallback_response {net : Net} {url : Str} {status : Nat}
    {location : Option Str} (h : net Method.GET url = FetchResult.response status location) :
    (SiteIndexer.checkLinkStatusFallback net url).status = status := by
  unfold SiteIndexer.checkLinkStatusFallback
  rw [h]

theorem checkLinkStatus_of_head_rejected {lib : UrlLib} {net : Net} {url : Str}
    (h : net Method.HEAD url = FetchResult.aborted ∨ net Method.HEAD url = FetchResult.failed) :
    SiteIndexer.checkLinkStatus lib net url = SiteIndexer.checkLinkStatusFallback net url := by
  unfold SiteIndexer.checkLinkStatus
  rcases h with h | h <;> rw [h]

/-- C8 (amended). Self-redirects report 200: when the HEAD response has status 301, 302,
307 or 308 and its `Location`, resolved against the request URL `u`, differs from `u` only
in the fragment and in query parameters named `utm_source`, `utm_medium`, `utm_campaign`,
`utm_term`, `utm_content`, `gclid`, `fbclid` or `r` (the list of `normalize`), then
`checkLinkStatus(u)` returns 200 after the HEAD request alone. -/
theorem checkLinkStatus_self_redirect (lib : UrlLib) (net : Net) (url : Str) (status : Nat)
    (location : Option Str) (resolved target request : URL)
    (hhead : net Method.HEAD url = FetchResult.response status location)
    (hstatus : status ∈ [301, 302, 307, 308])
    (hlocation : truthy location = true)
    (hresolve : lib.resolve (location.getD []) url = some resolved)
    (htarget : lib.parse resolved.toString = some target)
    (hrequest : lib.parse url = some request)
    (hsame : { target with query := none, fragment := none } =
      { request with query := none, fragment := none })
    (hparams :
      (lib.parseQuery target.search).filter (fun p => decide (p.1 ∉ SiteIndexer.normalizeDeleted)) =
      (lib.parseQuery request.search).filter (fun p => decide (p.1 ∉ SiteIndexer.normalizeDeleted))) :
    SiteIndexer.checkLinkStatus lib net url = { status := 200, requests := [Method.HEAD] } := by
  have hnorm : SiteIndexer.normalize lib resolved.toString = SiteIndexer.normalize lib url := by
    unfold SiteIndexer.normalize
    rw [htarget, hrequest]
    dsimp only
    have hs1 : target.clearHash.search = target.search := rfl
    have hs2 : request.clearHash.search = request.search := rfl
    rw [hs1, hs2, hparams]
    have hrec : ∀ v : Str, target.clearHash.setSearch v = request.clearHash.setSearch v := by
      intro v
      have h1 : ∀ w : URL, w.clearHash.setSearch v =
          ({ w with query := none, fragment := none } : URL).setSearch v := by
        intro w
        unfold URL.clearHash URL.setSearch
        split <;> rfl
      rw [h1 target, h1 request, hsame]
    rw [hrec]
  unfold SiteIndexer.checkLinkStatus
  rw [hhead]
  dsimp only
  rw [if_pos hstatus, if_pos hlocation, hresolve]
  dsimp only
  rw [if_pos hnorm]

/-- Witness of C8 (amended): `http://a.com/x` redirected to itself with `?utm_source=mail`. -/
theorem checkLinkStatus_self_redirect_witness :
    SiteIndexer.checkLinkStatus plainLib
      (constNet (FetchResult.response 301 (some "http://a.com/x?utm_source=mail".toList))
        FetchResult.failed)
      "http://a.com/x".toList = { status := 200, requests := [Method.HEAD] } :=
  checkLinkStatus_self_redirect plainLib
    (constNet (FetchResult.response 301 (some "http://a.com/x?utm_source=mail".toList))
      FetchResult.failed)
    "http://a.com/x".toList 301 (some "http://a.com/x?utm_source=mail".toList)
    { scheme := "http".toList, host := some "a.com".toList, path := "/x".toList,
      query := some "utm_source=mail".toList }
    { scheme := "http".toList, host := some "a.com".toList, path := "/x".toList,
      query := some "utm_source=mail".toList }
    { scheme := "http".toList, host := some "a.com".toList, path := "/x".toList }
    rfl (by decide) (by decide) (by decide) (by decide) (by decide) (by decide) (by decide)

/-- Counterexample to C8 as stated: `http://a.com/x` redirected with 301 to
`http://a.com/x?token=1`, which differs from it only by the tracking parameter `token`,
is reported as 301. -/
theorem checkLinkStatus_self_redirect_counterexample :
    (plainLib.resolve "http://a.com/x?token=1".toList "http://a.com/x".toList).map
        (fun resolved => (resolved.setSearch []).toString) = some "http://a.com/x".toList ∧
    (plainLib.resolve "http://a.com/x?token=1".toList "http://a.com/x".toList).map
        (fun resolved => plainLib.parseQuery resolved.search) =
      some [("token".toList, "1".toList)] ∧
    SiteIndexer.checkLinkStatus plainLib
      (constNet (FetchResult.response 301 (some "http://a.com/x?token=1".toList))
        FetchResult.failed)
      "http://a.com/x".toList = { status := 301, requests := [Method.HEAD] } := by
  decide

/-- C9. HEAD-then-GET fallback: when the HEAD response has status 400, 403 or 405,
`checkLinkStatus` issues a GET request and returns the status of the GET response; when
it has any other status that is not 301, 302, 307 or 308, `checkLinkStatus` returns that
status and issues no GET. -/
theorem checkLinkStatus_head_then_get (lib : UrlLib) (net : Net) (url : Str) (status : Nat)
    (location : Option Str)
    (hhead : net Method.HEAD url = FetchResult.response status location) :
    (status ∈ [400, 403, 405] →
      (SiteIndexer.checkLinkStatus lib net url).requests = [Method.HEAD, Method.GET] ∧
      ∀ getStatus getLocation,
        net Method.GET url = FetchResult.response getStatus getLocation →
        (SiteIndexer.checkLinkStatus lib net url).status = getStatus) ∧
    (status ∉ [400, 403, 405] → status ∉ [301, 302, 307, 308] →
      SiteIndexer.checkLinkStatus lib net url = { status := status, requests := [Method.HEAD] }) := by
  constructor
  · intro hblocked
    have hnot : status ∉ [301, 302, 307, 308] := by
      intro h
      simp only [List.mem_cons, List.mem_singleton, List.not_mem_nil, or_false] at h hblocked
      omega
    have e : SiteIndexer.checkLinkStatus lib net url =
        SiteIndexer.checkLinkStatusFallback net url := by
      unfold SiteIndexer.checkLinkStatus
      rw [hhead]
      dsimp only
      rw [if_neg hnot, if_pos hblocked]
    rw [e]
    exact ⟨checkLinkStatusFallback_requests net url,
      fun _ _ hget => checkLinkStatusFallback_response hget⟩
  · intro hblocked hredirect
    unfold SiteIndexer.checkLinkStatus
    rw [hhead]
    dsimp only
    rw [if_neg hredirect, if_neg hblocked]

/-- Witness of C9: a HEAD answered with 405 and a GET answered with 200. -/
theorem checkLinkStatus_head_then_get_witness :
    (SiteIndexer.checkLinkStatus plainLib
        (constNet (FetchResult.response 405 none) (FetchResult.response 200 none))
        "http://a.com/x".toList).requests = [Method.HEAD, Method.GET] ∧
    (SiteIndexer.checkLinkStatus plainLib
        (constNet (FetchResult.response 405 none) (FetchResult.response 200 none))
        "http://a.com/x".toList).status = 200 :=
  ⟨((checkLinkStatus_head_then_get plainLib
        (constNet (FetchResult.response 405 none) (FetchResult.response 200 none))
        "http://a.com/x".toList 405 none rfl).1 (by decide)).1,
    ((checkLinkStatus_head_then_get plainLib
        (constNet (FetchResult.response 405 none) (FetchResult.response 200 none))
        "http://a.com/x".toList 405 none rfl).1 (by decide)).2 200 none rfl⟩

/-- C10 (amended). When the HEAD request and the GET request both end without a response,
`checkLinkStatus` returns 0 if the GET ended in a network failure, a value outside 400 to
599, and 408 if the GET was aborted on timeout, the value of the HTTP status 408. -/
theorem checkLinkStatus_unreachable (lib : UrlLib) (net : Net) (url : Str)
    (hhead : net Method.HEAD url = FetchResult.aborted ∨ net Method.HEAD url = FetchResult.failed) :
    (net Method.GET url = FetchResult.failed →
      (SiteIndexer.checkLinkStatus lib net url).status = 0 ∧
      ¬ (400 ≤ (SiteIndexer.checkLinkStatus lib net url).status ∧
        (SiteIndexer.checkLinkStatus lib net url).status ≤ 599)) ∧
    (net Method.GET url = FetchResult.aborted →
      (SiteIndexer.checkLinkStatus lib net url).status = 408) := by
  rw [checkLinkStatus_of_head_rejected hhead]
  unfold SiteIndexer.checkLinkStatusFallback
  constructor
  · intro hget
    rw [hget]
    exact ⟨rfl, by decide⟩
  · intro hget
    rw [hget]

/-- Witness of C10 (amended): HEAD and GET both end in a network failure. -/
theorem checkLinkStatus_unreachable_witness :
    (SiteIndexer.checkLinkStatus plainLib (constNet FetchResult.failed FetchResult.failed)
        "http://a.com/x".toList).status = 0 ∧
    ¬ (400 ≤ (SiteIndexer.checkLinkStatus plainLib (constNet FetchResult.failed FetchResult.failed)
          "http://a.com/x".toList).status ∧
      (SiteIndexer.checkLinkStatus plainLib (constNet FetchResult.failed FetchResult.failed)
          "http://a.com/x".toList).status ≤ 599) :=
  (checkLinkStatus_unreachable plainLib (constNet FetchResult.failed FetchResult.failed)
    "http://a.com/x".toList (Or.inr rfl)).1 rfl

/-- Counterexample to C10 as stated: when the HEAD and the GET request are both aborted
on timeout, `checkLinkStatus` returns 408, which lies in the range 400 to 599. -/
theorem checkLinkStatus_unreachable_counterexample :
    constNet FetchResult.aborted FetchResult.aborted Method.HEAD "http://a.com/x".toList =
      FetchResult.aborted ∧
    constNet FetchResult.aborted FetchResult.aborted Method.GET "http://a.com/x".toList =
      FetchResult.aborted ∧
    (SiteIndexer.checkLinkStatus plainLib (constNet FetchResult.aborted FetchResult.aborted)
        "http://a.com/x".toList).status = 408 ∧
    400 ≤ (SiteIndexer.checkLinkStatus plainLib (constNet FetchResult.aborted FetchResult.aborted)
        "http://a.com/x".toList).status ∧
    (SiteIndexer.checkLinkStatus plainLib (constNet FetchResult.aborted FetchResult.aborted)
        "http://a.com/x".toList).status ≤ 599 := by
  decide

/-! ## URL cleaning: `plainLib` round-trips on the URLs it accepts, and cleaning is a
fixpoint when no slash is left at the end -/

theorem not_mem_of_all {p : Char → Bool} {s : Str} {c : Char} (hall : s.all p = true)
    (hc : p c = false) : c ∉ s := by
  intro hmem
  rw [List.all_eq_true] at hall
  rw [hall c hmem] at hc
  exact Bool.noConfusion hc

theorem splitFirst_append (sep : Char) {a : Str} (b : Str) (h : sep ∉ a) :
    splitFirst sep (a ++ sep :: b) = (a, some b) := by
  induction a with
  | nil => simp [splitFirst]
  | cons c a ih =>
    have hc : c ≠ sep := fun e => h (e ▸ List.mem_cons_self c a)
    have ha : sep ∉ a := fun m => h (List.mem_cons_of_mem c m)
    rw [List.cons_append, splitFirst, if_neg hc, ih ha]

theorem splitFirst_of_not_mem (sep : Char) {a : Str} (h : sep ∉ a) :
    splitFirst sep a = (a, none) := by
  induction a with
  | nil => rfl
  | cons c a ih =>
    have hc : c ≠ sep := fun e => h (e ▸ List.mem_cons_self c a)
    have ha : sep ∉ a := fun m => h (List.mem_cons_of_mem c m)
    rw [splitFirst, if_neg hc, ih ha]

theorem splitFirst_optStr (sep : Char) {a : Str} (h : sep ∉ a) (o : Option Str) :
    splitFirst sep (a ++ optStr sep o) = (a, o) := by
  cases o with
  | none => simpa [optStr] using splitFirst_of_not_mem sep h
  | some b => exact splitFirst_append sep b h

theorem takeWhile_of_all {p : Char → Bool} {a : Str} (h : a.all p = true) :
    a.takeWhile p = a ∧ a.dropWhile p = [] := by
  induction a with
  | nil => exact ⟨rfl, rfl⟩
  | cons c a ih =>
    rw [List.all_cons, Bool.and_eq_true] at h
    simp only [List.takeWhile_cons, List.dropWhile_cons, h.1, if_true]
    exact ⟨by rw [(ih h.2).1], (ih h.2).2⟩

theorem not_mem_optStr {c mark : Char} {o : Option Str} (hm : c ≠ mark)
    (ho : ∀ s, o = some s → c ∉ s) : c ∉ optStr mark o := by
  cases o with
  | none => exact List.not_mem_nil c
  | some s =>
    intro h
    rcases List.mem_cons.mp h with h | h
    · exact hm h
    · exact ho s rfl h

theorem validHost_all {h : Str} (hv : validHost h = true) : h.all hostChar = true := by
  unfold validHost at hv
  simp only [Bool.and_eq_true] at hv
  exact hv.1.1

theorem validPort_all {scheme p : Str} (hv : validPort scheme p = true) :
    p.all Char.isDigit = true := by
  unfold validPort at hv
  simp only [Bool.and_eq_true] at hv
  exact hv.1.1.1.1

theorem validPath_all {p : Str} (hv : validPath p = true) : p.all pathChar = true := by
  unfold validPath at hv
  simp only [Bool.and_eq_true] at hv
  exact hv.1.2

theorem validPath_head {p : Str} (hv : validPath p = true) : ∃ rest, p = '/' :: rest := by
  unfold validPath at hv
  simp only [Bool.and_eq_true, decide_eq_true_eq] at hv
  cases p with
  | nil => simp at hv
  | cons c rest =>
    have hc : c = '/' := by simpa using hv.1.1
    exact ⟨rest, by rw [hc]⟩

theorem not_mem_port {scheme : Str} {c : Char} {port : Option Str}
    (hport : port.all (validPort scheme) = true) (hc : Char.isDigit c = false) :
    ∀ s, port = some s → c ∉ s := by
  intro s hs
  subst hs
  exact not_mem_of_all (validPort_all (by simpa using hport)) hc

theorem not_mem_query {c : Char} {query : Option Str}
    (hquery : query.all (fun q => q.all queryChar) = true) (hc : queryChar c = false) :
    ∀ s, query = some s → c ∉ s := by
  intro s hs
  subst hs
  exact not_mem_of_all (by simpa using hquery) hc

theorem not_mem_path {c : Char} {path : Str} (hpath : path = [] ∨ validPath path = true)
    (hc : pathChar c = false) : c ∉ path := by
  rcases hpath with h | h
  · rw [h]
    exact List.not_mem_nil c
  · exact not_mem_of_all (validPath_all h) hc

theorem parseAfterScheme_plainText {scheme host : Str} {port : Option Str} {path : Str}
    {query fragment : Option Str}
    (hhost : validHost host = true) (hport : port.all (validPort scheme) = true)
    (hpath : path = [] ∨ validPath path = true)
    (hquery : query.all (fun q => q.all queryChar) = true)
    (hfragment : fragment.all (fun f => f.all queryChar) = true) :
    parseAfterScheme scheme
        (host ++ (optStr ':' port ++ (path ++ (optStr '?' query ++ optStr '#' fragment)))) =
      some { scheme := scheme, host := some host, port := port,
             path := if path.isEmpty then ['/'] else path, query := query,
             fragment := fragment } := by
  have hh := validHost_all hhost
  have e1 : host ++ (optStr ':' port ++ (path ++ (optStr '?' query ++ optStr '#' fragment))) =
      (host ++ (optStr ':' port ++ (path ++ optStr '?' query))) ++ optStr '#' fragment := by
    simp only [List.append_assoc]
  have e2 : host ++ (optStr ':' port ++ (path ++ optStr '?' query)) =
      (host ++ (optStr ':' port ++ path)) ++ optStr '?' query := by
    simp only [List.append_assoc]
  have e3 : host ++ (optStr ':' port ++ path) = (host ++ optStr ':' port) ++ path := by
    simp only [List.append_assoc]
  have n1 : '#' ∉ host ++ (optStr ':' port ++ (path ++ optStr '?' query)) := by
    simp only [List.mem_append, not_or]
    exact ⟨not_mem_of_all hh (by decide),
      not_mem_optStr (by decide) (not_mem_port hport (by decide)),
      not_mem_path hpath (by decide),
      not_mem_optStr (by decide) (not_mem_query hquery (by decide))⟩
  have n2 : '?' ∉ host ++ (optStr ':' port ++ path) := by
    simp only [List.mem_append, not_or]
    exact ⟨not_mem_of_all hh (by decide),
      not_mem_optStr (by decide) (not_mem_port hport (by decide)),
      not_mem_path hpath (by decide)⟩
  have n3 : ':' ∉ host := not_mem_of_all hh (by decide)
  have n4 : (host ++ optStr ':' port).all (fun c => c != '/') = true := by
    rw [List.all_eq_true]
    intro c hc
    have hne : c ≠ '/' := by
      rintro rfl
      rw [List.mem_append] at hc
      rcases hc with hc | hc
      · exact not_mem_of_all hh (by decide) hc
      · exact not_mem_optStr (by decide) (not_mem_port hport (by decide)) hc
    simpa using hne
  have hsplit : (host ++ (optStr ':' port ++ path)).takeWhile (fun c => c != '/') =
        host ++ optStr ':' port ∧
      (if ((host ++ (optStr ':' port ++ path)).dropWhile (fun c => c != '/')).isEmpty then ['/']
        else (host ++ (optStr ':' port ++ path)).dropWhile (fun c => c != '/')) =
        (if path.isEmpty then ['/'] else path) := by
    rw [e3]
    rcases hpath with hp | hp
    · subst hp
      rw [List.append_nil, (takeWhile_of_all n4).1, (takeWhile_of_all n4).2]
      exact ⟨rfl, rfl⟩
    · obtain ⟨rest, hrest⟩ := validPath_head hp
      subst hrest
      have hslash : (fun c : Char => c != '/') '/' = false := by decide
      have hstop := takeWhile_append_stop rest n4 hslash
      rw [hstop.1, hstop.2]
      exact ⟨rfl, rfl⟩
  have hvalidPath : validPath (if path.isEmpty then ['/'] else path) = true := by
    rcases hpath with hp | hp
    · subst hp
      decide
    · obtain ⟨rest, hrest⟩ := validPath_head hp
      subst hrest
      exact hp
  unfold parseAfterScheme
  rw [e1]
  simp only [splitFirst_optStr '#' n1]
  rw [e2]
  simp only [splitFirst_optStr '?' n2]
  simp only [hsplit.1, hsplit.2, splitFirst_optStr ':' n3, hhost, hport, hvalidPath, hquery,
    hfragment, Bool.and_self, if_true]

theorem parseURL_plainText {scheme host : Str} {port : Option Str} {path : Str}
    {query fragment : Option Str}
    (hscheme : scheme = "http".toList ∨ scheme = "https".toList)
    (hhost : validHost host = true) (hport : port.all (validPort scheme) = true)
    (hpath : path = [] ∨ validPath path = true)
    (hquery : query.all (fun q => q.all queryChar) = true)
    (hfragment : fragment.all (fun f => f.all queryChar) = true) :
    parseURL (plainText scheme host port path query fragment) =
      some { scheme := scheme, host := some host, port := port,
             path := if path.isEmpty then ['/'] else path, query := query,
             fragment := fragment } := by
  have hp := parseAfterScheme_plainText hhost hport hpath hquery hfragment
  have e1 : "http".toList = ['h', 't', 't', 'p'] := rfl
  have e2 : "https".toList = ['h', 't', 't', 'p', 's'] := rfl
  have e3 : "http://".toList = ['h', 't', 't', 'p', ':', '/', '/'] := rfl
  have e4 : "https://".toList = ['h', 't', 't', 'p', 's', ':', '/', '/'] := rfl
  rcases hscheme with hs | hs
  · subst hs
    unfold parseURL plainText
    rw [if_pos (by simp [startsWith, List.isPrefixOf, e1, e3])]
    rw [e1] at hp ⊢
    exact hp
  · subst hs
    unfold parseURL plainText
    rw [if_neg (by simp [startsWith, List.isPrefixOf, e2, e3]),
      if_pos (by simp [startsWith, List.isPrefixOf, e2, e4])]
    rw [e2] at hp ⊢
    exact hp

theorem plainURL_parts {u : URL} (h : plainURL u = true) :
    (u.scheme = "http".toList ∨ u.scheme = "https".toList) ∧ u.username = [] ∧ u.password = [] ∧
    (∃ host, u.host = some host ∧ validHost host = true) ∧
    u.port.all (validPort u.scheme) = true ∧ validPath u.path = true ∧
    u.query.all (fun q => q.all queryChar) = true ∧
    u.fragment.all (fun f => f.all queryChar) = true := by
  unfold plainURL at h
  simp only [Bool.and_eq_true, Bool.or_eq_true, decide_eq_true_eq, List.isEmpty_iff] at h
  obtain ⟨⟨⟨⟨⟨⟨⟨h1, h2⟩, h3⟩, h4⟩, h5⟩, h6⟩, h7⟩, h8⟩ := h
  refine ⟨h1, h2, h3, ?_, h5, h6, h7, h8⟩
  cases hh : u.host with
  | none => rw [hh] at h4; cases h4
  | some host => rw [hh] at h4; exact ⟨host, rfl, h4⟩

theorem toString_plain {u : URL} {host : Str} (hu : u.username = []) (hp : u.password = [])
    (hh : u.host = some host) :
    u.toString = plainText u.scheme host u.port u.path u.query u.fragment := by
  unfold URL.toString plainText optStr
  rw [hu, hp, hh]
  cases u.port <;> cases u.query <;> cases u.fragment <;> simp

theorem parseAfterScheme_plain {scheme rest : Str} {u : URL}
    (hs : scheme = "http".toList ∨ scheme = "https".toList)
    (h : parseAfterScheme scheme rest = some u) : plainURL u = true := by
  unfold parseAfterScheme at h
  dsimp only at h
  rw [Option.ite_none_right_eq_some] at h
  obtain ⟨hc, hu⟩ := h
  have hu2 := Option.some.inj hu
  subst hu2
  simp only [Bool.and_eq_true] at hc
  obtain ⟨⟨⟨⟨h1, h2⟩, h3⟩, h4⟩, h5⟩ := hc
  unfold plainURL
  simp only [h1, h2, h3, h4, h5, Bool.and_true, List.isEmpty_nil]
  rcases hs with hs | hs <;> simp [hs]

theorem parseURL_plain {s : Str} {u : URL} (h : parseURL s = some u) : plainURL u = true := by
  unfold parseURL at h
  split at h
  · exact parseAfterScheme_plain (Or.inl rfl) h
  · split at h
    · exact parseAfterScheme_plain (Or.inr rfl) h
    · cases h

/-- The parser and the serializer round-trip on plain URL records. -/
theorem parseURL_toString {u : URL} (h : plainURL u = true) : parseURL u.toString = some u := by
  obtain ⟨hs, hu, hp, ⟨host, hh, hv⟩, hport, hpath, hq, hf⟩ := plainURL_parts h
  rw [toString_plain hu hp hh, parseURL_plainText hs hv hport (Or.inr hpath) hq hf]
  obtain ⟨rest, hrest⟩ := validPath_head hpath
  have e : (if u.path.isEmpty then ['/'] else u.path) = u.path := by
    rw [hrest]
    rfl
  rw [e]
  cases u
  simp only at hu hp hh
  subst hu hp hh
  rfl

theorem noDotSegment_prefix {p : Str} {x : Char} (h : noDotSegment (p ++ [x]) = true) :
    noDotSegment p = true := by
  induction p with
  | nil => rfl
  | cons c p ih =>
    cases p with
    | nil => rfl
    | cons d s =>
      simp only [List.cons_append, noDotSegment, Bool.and_eq_true] at h ⊢
      exact ⟨h.1, ih h.2⟩

theorem validPath_prefix {p : Str} {x : Char} (hp : p ≠ []) (h : validPath (p ++ [x]) = true) :
    validPath p = true := by
  unfold validPath at h ⊢
  simp only [Bool.and_eq_true, decide_eq_true_eq, List.all_append] at h ⊢
  obtain ⟨⟨h1, h2, _⟩, h3⟩ := h
  refine ⟨⟨?_, h2⟩, noDotSegment_prefix h3⟩
  cases p with
  | nil => exact absurd rfl hp
  | cons c p => simpa using h1

theorem plainText_query_some (scheme host : Str) (port : Option Str) (path q : Str) :
    plainText scheme host port path (some q) none =
      (scheme ++ ':' :: '/' :: '/' :: (host ++ (optStr ':' port ++ path))) ++ '?' :: q := by
  simp [plainText, optStr]

theorem plainText_query_none (scheme host : Str) (port : Option Str) (path : Str) :
    plainText scheme host port path none none =
      (scheme ++ ':' :: '/' :: '/' :: (host ++ optStr ':' port)) ++ path := by
  simp [plainText, optStr]

theorem dropLast_append_concat (a b : Str) (x : Char) : (a ++ (b ++ [x])).dropLast = a ++ b := by
  rw [← List.append_assoc, List.dropLast_concat]

theorem getLast?_append_concat (a b : Str) (x : Char) : (a ++ (b ++ [x])).getLast? = some x := by
  rw [← List.append_assoc, List.getLast?_concat]

theorem plainURL_of_parts {u : URL} {host : Str}
    (hs : u.scheme = "http".toList ∨ u.scheme = "https".toList) (hun : u.username = [])
    (hpw : u.password = []) (hh : u.host = some host) (hv : validHost host = true)
    (hport : u.port.all (validPort u.scheme) = true) (hpath : validPath u.path = true)
    (hq : u.query.all (fun q => q.all queryChar) = true)
    (hf : u.fragment.all (fun f => f.all queryChar) = true) : plainURL u = true := by
  unfold plainURL
  rw [hun, hpw, hh, hport, hpath, hq, hf]
  dsimp only
  rw [hv]
  have h1 : (decide (u.scheme = "http".toList) || decide (u.scheme = "https".toList)) = true := by
    simp only [Bool.or_eq_true, decide_eq_true_eq]
    exact hs
  rw [h1]
  rfl

/-- What removing a trailing slash does to the text of a plain URL record without
fragment: nothing to remove, or the root path (the text parses to the same record), or
the last slash of the path, or the last slash of the query. -/
theorem toString_dropLast_cases {u : URL} (hu : plainURL u = true) (hf : u.fragment = none) :
    u.toString.getLast? ≠ some '/' ∨
    (u.toString.getLast? = some '/' ∧ u.path = ['/'] ∧ u.query = none ∧
      parseURL u.toString.dropLast = some u) ∨
    (u.toString.getLast? = some '/' ∧ ∃ p, p ≠ [] ∧ u.path = p ++ ['/'] ∧ u.query = none ∧
      plainURL { u with path := p } = true ∧
      ({ u with path := p } : URL).toString = u.toString.dropLast) ∨
    (u.toString.getLast? = some '/' ∧ ∃ q, u.query = some (q ++ ['/']) ∧
      plainURL { u with query := some q } = true ∧
      ({ u with query := some q } : URL).toString = u.toString.dropLast) := by
  obtain ⟨hs, hun, hpw, ⟨host, hh, hv⟩, hport, hpath, hq, _⟩ := plainURL_parts hu
  obtain ⟨scheme, username, password, uhost, port, path, query, fragment⟩ := u
  simp only at hs hun hpw hh hport hpath hq hf
  subst hun hpw hh hf
  rw [toString_plain rfl rfl rfl]
  dsimp only
  cases query with
  | some q =>
    rw [plainText_query_some]
    rcases List.eq_nil_or_concat q with hq0 | ⟨q', x, hq1⟩
    · subst hq0
      left
      rw [List.getLast?_append_of_ne_nil _ (by simp)]
      simp
    · rw [List.concat_eq_append] at hq1
      subst hq1
      have hlast : ((scheme ++ ':' :: '/' :: '/' :: (host ++ (optStr ':' port ++ path))) ++
          '?' :: (q' ++ [x])).getLast? = some x :=
        getLast?_append_concat _ ('?' :: q') x
      by_cases hx : x = '/'
      · subst hx
        right; right; right
        refine ⟨hlast, q', rfl, ?_, ?_⟩
        · have hq' : q'.all queryChar = true := by
            simp only [Option.all_some, List.all_append, Bool.and_eq_true] at hq
            exact hq.1
          exact plainURL_of_parts hs rfl rfl rfl hv hport hpath hq' rfl
        · rw [toString_plain rfl rfl rfl]
          dsimp only
          rw [plainText_query_some]
          exact (dropLast_append_concat _ ('?' :: q') '/').symm
      · left
        rw [hlast]
        simpa using hx
  | none =>
    rw [plainText_query_none]
    obtain ⟨rest, hrest⟩ := validPath_head hpath
    rcases List.eq_nil_or_concat path with hp0 | ⟨p, x, hp1⟩
    · rw [hp0] at hrest
      cases hrest
    · rw [List.concat_eq_append] at hp1
      subst hp1
      have hlast : ((scheme ++ ':' :: '/' :: '/' :: (host ++ optStr ':' port)) ++
          (p ++ [x])).getLast? = some x := getLast?_append_concat _ p x
      have hdrop : ((scheme ++ ':' :: '/' :: '/' :: (host ++ optStr ':' port)) ++
          (p ++ [x])).dropLast = (scheme ++ ':' :: '/' :: '/' :: (host ++ optStr ':' port)) ++ p :=
        dropLast_append_concat _ p x
      by_cases hx : x = '/'
      · subst hx
        cases p with
        | nil =>
          right; left
          refine ⟨hlast, rfl, rfl, ?_⟩
          rw [hdrop, List.append_nil]
          have hp := @parseURL_plainText scheme host port [] none none hs hv hport
            (Or.inl rfl) rfl rfl
          rw [plainText_query_none, List.append_nil] at hp
          rw [hp]
          rfl
        | cons c p =>
          right; right; left
          refine ⟨hlast, c :: p, by simp, rfl, rfl, ?_, ?_⟩
          · have hp' : validPath (c :: p) = true := validPath_prefix (by simp) hpath
            exact plainURL_of_parts hs rfl rfl rfl hv hport hp' rfl rfl
          · rw [toString_plain rfl rfl rfl]
            dsimp only
            rw [plainText_query_none, hdrop]
      · left
        rw [hlast]
        simpa using hx

theorem includes_nil (s : Str) : includes s [] = true := by
  cases s <;> rfl

theorem includes_append {s w : Str} (t : Str) (h : includes s w = true) :
    includes (s ++ t) w = true := by
  induction s with
  | nil =>
    have hw : w = [] := by
      cases w with
      | nil => rfl
      | cons c w => exact Bool.noConfusion h
    rw [hw]
    exact includes_nil _
  | cons c s ih =>
    simp only [List.cons_append, includes, Bool.or_eq_true] at h ⊢
    rcases h with h | h
    · left
      rw [List.isPrefixOf_iff_prefix] at h ⊢
      exact h.trans (List.prefix_append (c :: s) t)
    · exact Or.inr (ih h)

theorem trackingTest_append {s : Str} (t : Str) (h : trackingTest (s ++ t) = false) :
    trackingTest s = false := by
  rw [← Bool.not_eq_true] at h ⊢
  intro hs
  apply h
  unfold trackingTest includesAnyCI at hs ⊢
  rw [List.any_eq_true] at hs ⊢
  obtain ⟨w, hw, hi⟩ := hs
  refine ⟨w, hw, ?_⟩
  unfold toLowerCase at hi ⊢
  rw [List.map_append]
  exact includes_append _ hi

theorem cleanUrl_eq_crawler (u : URL) :
    SpiderCrawler.cleanUrl u =
      if (SpiderCrawler.cleanRecord u).toString ≠ (SpiderCrawler.cleanRecord u).root then
        stripTrailingSlash (SpiderCrawler.cleanRecord u).toString
      else (SpiderCrawler.cleanRecord u).toString := rfl

theorem plainURL_clearHash {u : URL} (h : plainURL u = true) : plainURL u.clearHash = true := by
  obtain ⟨hs, hun, hpw, ⟨host, hh, hv⟩, hport, hpath, hq, _⟩ := plainURL_parts h
  exact plainURL_of_parts hs hun hpw hh hv hport hpath hq rfl

theorem plainURL_setSearch_nil {u : URL} (h : plainURL u = true) :
    plainURL (u.setSearch []) = true := by
  obtain ⟨hs, hun, hpw, ⟨host, hh, hv⟩, hport, hpath, _, hf⟩ := plainURL_parts h
  exact plainURL_of_parts hs hun hpw hh hv hport hpath rfl hf

theorem cleanRecord_facts {u : URL} (h : plainURL u = true) :
    plainURL (SpiderCrawler.cleanRecord u) = true ∧
    (SpiderCrawler.cleanRecord u).fragment = none ∧
    ((SpiderCrawler.cleanRecord u).search = [] ∨
      trackingTest (SpiderCrawler.cleanRecord u).search = false) ∧
    (SpiderCrawler.cleanRecord u).root = u.root := by
  unfold SpiderCrawler.cleanRecord
  by_cases hc : (!u.search.isEmpty && trackingTest u.search) = true
  · rw [if_pos hc]
    exact ⟨plainURL_clearHash (plainURL_setSearch_nil h), rfl, Or.inl rfl, rfl⟩
  · rw [if_neg hc]
    refine ⟨plainURL_clearHash h, rfl, ?_, rfl⟩
    have hs : u.clearHash.search = u.search := rfl
    rw [hs]
    simp only [Bool.and_eq_true, Bool.not_eq_true', List.isEmpty_eq_false, not_and,
      Bool.not_eq_true] at hc
    by_cases he : u.search = []
    · exact Or.inl he
    · refine Or.inr (hc ?_)
      simpa using he

theorem cleanRecord_fix {v : URL} (hf : v.fragment = none)
    (ht : v.search = [] ∨ trackingTest v.search = false) : SpiderCrawler.cleanRecord v = v := by
  unfold SpiderCrawler.cleanRecord
  have hc : ¬ ((!v.search.isEmpty && trackingTest v.search) = true) := by
    rcases ht with ht | ht
    · rw [ht]
      simp
    · rw [ht]
      simp
  rw [if_neg hc]
  unfold URL.clearHash
  cases v
  simp only at hf
  subst hf
  rfl

theorem stripTrailingSlash_of_last {s : Str} (h : s.getLast? = some '/') :
    stripTrailingSlash s = s.dropLast := by
  unfold stripTrailingSlash
  rw [if_pos h]

theorem stripTrailingSlash_of_not_last {s : Str} (h : s.getLast? ≠ some '/') :
    stripTrailingSlash s = s := by
  unfold stripTrailingSlash
  rw [if_neg h]

theorem search_query_concat (v : URL) (q : Str) (x : Char) (hq : v.query = some (q ++ [x])) :
    v.search = ('?' :: q) ++ [x] := by
  unfold URL.search
  rw [hq]
  cases q <;> rfl

theorem search_with_query (v : URL) (q : Str) :
    ({ v with query := some q } : URL).search = [] ∨
      ({ v with query := some q } : URL).search = '?' :: q := by
  unfold URL.search
  cases q with
  | nil => exact Or.inl rfl
  | cons c q => exact Or.inr rfl

/-- The cleaning of the crawler, on a cleaned plain record: the string it gives parses
again, and cleaning the parsed URL gives the same string, unless a slash is left at the
end of a string that is not the bare root. -/
theorem cleanUrl_fix_crawler {v : URL} (hv : plainURL v = true) (hf : v.fragment = none)
    (ht : v.search = [] ∨ trackingTest v.search = false)
    (hfix : (SpiderCrawler.cleanUrl v).getLast? ≠ some '/' ∨ SpiderCrawler.cleanUrl v = v.root) :
    ∃ w, parseURL (SpiderCrawler.cleanUrl v) = some w ∧
      SpiderCrawler.cleanUrl w = SpiderCrawler.cleanUrl v := by
  have hrec := cleanRecord_fix hf ht
  have hclean : SpiderCrawler.cleanUrl v =
      if v.toString ≠ v.root then stripTrailingSlash v.toString else v.toString := by
    rw [cleanUrl_eq_crawler, hrec]
  have hself : parseURL v.toString = some v := parseURL_toString hv
  by_cases hroot : v.toString ≠ v.root
  · rw [if_pos hroot] at hclean
    rcases toString_dropLast_cases hv hf with hno | ⟨hl, _, _, hparse⟩ | ⟨hl, p, _, _, hq, hp, hstr⟩ |
        ⟨hl, q, hq, hp, hstr⟩
    · rw [stripTrailingSlash_of_not_last hno] at hclean
      rw [hclean]
      exact ⟨v, hself, hclean⟩
    · rw [stripTrailingSlash_of_last hl] at hclean
      rw [hclean]
      refine ⟨v, hparse, ?_⟩
      rw [cleanUrl_eq_crawler, hrec, if_pos hroot, stripTrailingSlash_of_last hl]
    · rw [stripTrailingSlash_of_last hl] at hclean
      rw [hclean] at hfix ⊢
      refine ⟨{ v with path := p }, ?_, ?_⟩
      · rw [← hstr]
        exact parseURL_toString hp
      · have hsearch : ({ v with path := p } : URL).search = [] := by
          unfold URL.search
          dsimp only
          rw [hq]
        have hrec2 : SpiderCrawler.cleanRecord ({ v with path := p } : URL) = { v with path := p } :=
          cleanRecord_fix hf (Or.inl hsearch)
        rw [cleanUrl_eq_crawler, hrec2, hstr]
        have hr : ({ v with path := p } : URL).root = v.root := rfl
        rw [hr]
        rcases hfix with hfix | hfix
        · rw [stripTrailingSlash_of_not_last hfix]
          split <;> rfl
        · rw [if_neg (fun hne => hne hfix)]
    · rw [stripTrailingSlash_of_last hl] at hclean
      rw [hclean] at hfix ⊢
      refine ⟨{ v with query := some q }, ?_, ?_⟩
      · rw [← hstr]
        exact parseURL_toString hp
      · have htrack : ({ v with query := some q } : URL).search = [] ∨
            trackingTest ({ v with query := some q } : URL).search = false := by
          rcases search_with_query v q with h0 | h1
          · exact Or.inl h0
          · right
            rw [h1]
            have hvs := search_query_concat v q '/' hq
            rcases ht with ht | ht
            · rw [hvs] at ht
              cases ht
            · rw [hvs] at ht
              exact trackingTest_append _ ht
        have hrec2 : SpiderCrawler.cleanRecord ({ v with query := some q } : URL) =
            { v with query := some q } := cleanRecord_fix hf htrack
        rw [cleanUrl_eq_crawler, hrec2, hstr]
        have hr : ({ v with query := some q } : URL).root = v.root := rfl
        rw [hr]
        rcases hfix with hfix | hfix
        · rw [stripTrailingSlash_of_not_last hfix]
          split <;> rfl
        · rw [if_neg (fun hne => hne hfix)]
  · rw [if_neg hroot] at hclean
    rw [hclean]
    exact ⟨v, hself, hclean⟩

theorem crawler_clean_fix {h c : Str} (hc : SpiderCrawler.clean plainLib h = some c)
    (hfix : c.getLast? ≠ some '/' ∨ ∃ u, plainLib.parse h = some u ∧ c = u.root) :
    SpiderCrawler.clean plainLib c = some c := by
  unfold SpiderCrawler.clean at hc ⊢
  have hparse : plainLib.parse = parseURL := rfl
  rw [hparse] at hc hfix ⊢
  cases hu : parseURL h with
  | none => rw [hu] at hc; cases hc
  | some u =>
    rw [hu] at hc
    have hcu : SpiderCrawler.cleanUrl u = c := Option.some.inj hc
    obtain ⟨hv, hf, ht, hr⟩ := cleanRecord_facts (parseURL_plain hu)
    have hsame : SpiderCrawler.cleanUrl (SpiderCrawler.cleanRecord u) = SpiderCrawler.cleanUrl u := by
      rw [cleanUrl_eq_crawler, cleanRecord_fix hf ht, ← cleanUrl_eq_crawler]
    have hfix2 : (SpiderCrawler.cleanUrl (SpiderCrawler.cleanRecord u)).getLast? ≠ some '/' ∨
        SpiderCrawler.cleanUrl (SpiderCrawler.cleanRecord u) = (SpiderCrawler.cleanRecord u).root := by
      rw [hsame, hcu, hr]
      rcases hfix with hfix | ⟨u2, hu2, hc2⟩
      · exact Or.inl hfix
      · rw [hu] at hu2
        cases hu2
        exact Or.inr hc2
    obtain ⟨w, hw, hcw⟩ := cleanUrl_fix_crawler hv hf ht hfix2
    rw [hsame, hcu] at hw hcw
    rw [hw]
    exact congrArg some hcw

theorem clearHash_fix {v : URL} (hf : v.fragment = none) : v.clearHash = v := by
  unfold URL.clearHash
  cases v
  simp only at hf
  subst hf
  rfl

theorem ne_nil_of_parseURL {s : Str} {u : URL} (h : parseURL s = some u) : s.isEmpty = false := by
  cases s with
  | nil => cases h
  | cons c s => rfl

theorem cleanUrl_eq_indexer {v : URL} (hf : v.fragment = none)
    (hs : (stripTrailingSlash v.toString).isEmpty = false) :
    SiteIndexer.cleanUrl v = stripTrailingSlash v.toString := by
  unfold SiteIndexer.cleanUrl
  dsimp only
  rw [clearHash_fix hf, hs]
  rfl

/-- The cleaning of the indexer, on a plain record without fragment: the string it gives
parses again, and cleaning the parsed URL gives the same string, unless a slash is left
at its end. -/
theorem cleanUrl_fix_indexer {v : URL} (hv : plainURL v = true) (hf : v.fragment = none)
    (hfix : (SiteIndexer.cleanUrl v).getLast? ≠ some '/') :
    ∃ w, parseURL (SiteIndexer.cleanUrl v) = some w ∧
      SiteIndexer.cleanUrl w = SiteIndexer.cleanUrl v := by
  have hself : parseURL v.toString = some v := parseURL_toString hv
  rcases toString_dropLast_cases hv hf with hno | ⟨hl, _, _, hparse⟩ | ⟨hl, p, _, _, hq, hp, hstr⟩ |
      ⟨hl, q, hq, hp, hstr⟩
  · have hclean : SiteIndexer.cleanUrl v = v.toString := by
      rw [cleanUrl_eq_indexer hf (by
        rw [stripTrailingSlash_of_not_last hno]; exact ne_nil_of_parseURL hself),
        stripTrailingSlash_of_not_last hno]
    rw [hclean]
    exact ⟨v, hself, hclean⟩
  · have hclean : SiteIndexer.cleanUrl v = v.toString.dropLast := by
      rw [cleanUrl_eq_indexer hf (by
        rw [stripTrailingSlash_of_last hl]; exact ne_nil_of_parseURL hparse),
        stripTrailingSlash_of_last hl]
    rw [hclean]
    exact ⟨v, hparse, hclean⟩
  · have hw : parseURL v.toString.dropLast = some { v with path := p } := by
      rw [← hstr]
      exact parseURL_toString hp
    have hclean : SiteIndexer.cleanUrl v = v.toString.dropLast := by
      rw [cleanUrl_eq_indexer hf (by
        rw [stripTrailingSlash_of_last hl]; exact ne_nil_of_parseURL hw),
        stripTrailingSlash_of_last hl]
    rw [hclean] at hfix ⊢
    refine ⟨{ v with path := p }, hw, ?_⟩
    have hf2 : ({ v with path := p } : URL).fragment = none := hf
    rw [cleanUrl_eq_indexer hf2 (by
      rw [hstr, stripTrailingSlash_of_not_last hfix]; exact ne_nil_of_parseURL hw),
      hstr, stripTrailingSlash_of_not_last hfix]
  · have hw : parseURL v.toString.dropLast = some { v with query := some q } := by
      rw [← hstr]
      exact parseURL_toString hp
    have hclean : SiteIndexer.cleanUrl v = v.toString.dropLast := by
      rw [cleanUrl_eq_indexer hf (by
        rw [stripTrailingSlash_of_last hl]; exact ne_nil_of_parseURL hw),
        stripTrailingSlash_of_last hl]
    rw [hclean] at hfix ⊢
    refine ⟨{ v with query := some q }, hw, ?_⟩
    have hf2 : ({ v with query := some q } : URL).fragment = none := hf
    rw [cleanUrl_eq_indexer hf2 (by
      rw [hstr, stripTrailingSlash_of_not_last hfix]; exact ne_nil_of_parseURL hw),
      hstr, stripTrailingSlash_of_not_last hfix]

theorem cleanUrl_clearHash_indexer (u : URL) :
    SiteIndexer.cleanUrl u.clearHash = SiteIndexer.cleanUrl u := rfl

theorem indexer_clean_fix {h c : Str} (hc : SiteIndexer.clean plainLib h = some c)
    (hfix : c.getLast? ≠ some '/') : SiteIndexer.clean plainLib c = some c := by
  unfold SiteIndexer.clean at hc ⊢
  have hparse : plainLib.parse = parseURL := rfl
  rw [hparse] at hc ⊢
  cases hu : parseURL h with
  | none => rw [hu] at hc; cases hc
  | some u =>
    rw [hu] at hc
    have hcu : SiteIndexer.cleanUrl u = c := Option.some.inj hc
    have hv := plainURL_clearHash (parseURL_plain hu)
    have hfix2 : (SiteIndexer.cleanUrl u.clearHash).getLast? ≠ some '/' := by
      rw [cleanUrl_clearHash_indexer, hcu]
      exact hfix
    obtain ⟨w, hw, hcw⟩ := cleanUrl_fix_indexer hv rfl hfix2
    rw [cleanUrl_clearHash_indexer, hcu] at hw hcw
    rw [hw]
    exact congrArg some hcw

theorem cleanRecord_clean (u : URL) :
    (SpiderCrawler.cleanRecord u).fragment = none ∧
    trackingTest (SpiderCrawler.cleanRecord u).search = false := by
  refine ⟨rfl, ?_⟩
  unfold SpiderCrawler.cleanRecord
  by_cases hc : (!u.search.isEmpty && trackingTest u.search) = true
  · rw [if_pos hc]
    exact (by decide : trackingTest [] = false)
  · rw [if_neg hc]
    have hs : u.clearHash.search = u.search := rfl
    rw [hs]
    cases ht : trackingTest u.search with
    | false => rfl
    | true =>
      rw [ht] at hc
      cases he : u.search with
      | nil => rw [he] at ht; exact absurd ht (by decide)
      | cons x rest =>
        rw [he] at hc
        exact absurd rfl hc

/-- A URL less its final slash has no fragment when the URL has none, the same bare
root, and a query string that passes the tracking test no more than the one of the
URL. -/
theorem lessFinalSlash_facts {w r : URL} (h : LessFinalSlash w r) (hf : r.fragment = none)
    (ht : trackingTest r.search = false) :
    w.fragment = none ∧ w.root = r.root ∧ trackingTest w.search = false := by
  rcases h with ⟨p, _, _, hw⟩ | ⟨q, hq, hw⟩
  · subst hw
    exact ⟨hf, rfl, ht⟩
  · subst hw
    refine ⟨hf, rfl, ?_⟩
    rcases search_with_query r q with h0 | h1
    · rw [h0]
      exact (by decide : trackingTest [] = false)
    · rw [h1]
      rw [search_query_concat r q '/' hq] at ht
      exact trackingTest_append _ ht

theorem crawler_clean_reads (lib : UrlLib) (h c : Str) (u w : URL)
    (hu : lib.parse h = some u) (hc : SpiderCrawler.clean lib h = some c)
    (hr : ReadsAs lib c w (SpiderCrawler.cleanRecord u))
    (hfix : c.getLast? ≠ some '/' ∨ c = u.root) :
    SpiderCrawler.clean lib c = some c := by
  obtain ⟨hf, ht⟩ := cleanRecord_clean u
  have hcu : SpiderCrawler.cleanUrl u = c := by
    unfold SpiderCrawler.clean at hc
    rw [hu] at hc
    exact Option.some.inj hc
  obtain ⟨hw, hcases⟩ := hr
  unfold SpiderCrawler.clean
  rw [hw]
  apply congrArg some
  rcases hcases with hsame | ⟨hser, hless⟩
  · rw [hsame, cleanUrl_eq_crawler, cleanRecord_fix hf (Or.inr ht), ← cleanUrl_eq_crawler]
    exact hcu
  · obtain ⟨wf, wr, wt⟩ := lessFinalSlash_facts hless hf ht
    rw [cleanUrl_eq_crawler, cleanRecord_fix wf (Or.inr wt), hser, wr]
    have hroot : (SpiderCrawler.cleanRecord u).root = u.root := by
      unfold SpiderCrawler.cleanRecord
      split <;> rfl
    rw [hroot]
    rcases hfix with hfix | hfix
    · rw [stripTrailingSlash_of_not_last hfix]
      split <;> rfl
    · rw [if_neg (fun hne => hne hfix)]

theorem indexer_clean_reads (lib : UrlLib) (h c : Str) (u w : URL)
    (hu : lib.parse h = some u) (hc : SiteIndexer.clean lib h = some c)
    (hr : ReadsAs lib c w u.clearHash) (hfix : c.getLast? ≠ some '/') :
    SiteIndexer.clean lib c = some c := by
  have hcu : SiteIndexer.cleanUrl u = c := by
    unfold SiteIndexer.clean at hc
    rw [hu] at hc
    exact Option.some.inj hc
  obtain ⟨hw, hcases⟩ := hr
  unfold SiteIndexer.clean
  rw [hw]
  apply congrArg some
  rcases hcases with hsame | ⟨hser, hless⟩
  · rw [hsame, cleanUrl_clearHash_indexer]
    exact hcu
  · have wf : w.fragment = none := by
      rcases hless with ⟨p, _, _, hw2⟩ | ⟨q, _, hw2⟩ <;> subst hw2 <;> rfl
    unfold SiteIndexer.cleanUrl
    dsimp only
    rw [clearHash_fix wf, hser, stripTrailingSlash_of_not_last hfix]
    split <;> rfl

theorem filter_not_deleted (l : List (Str × Str)) :
    (l.filter (fun p => decide (p.1 ∉ SiteIndexer.normalizeDeleted))).filter
        (fun p => decide (p.1 ∉ SiteIndexer.normalizeDeleted))
      = l.filter (fun p => decide (p.1 ∉ SiteIndexer.normalizeDeleted)) := by
  rw [List.filter_filter]
  congr 1
  funext p
  exact Bool.and_self _

/-- The assignment `url.search = v` sets the query, to a value that `v` alone decides. -/
theorem setSearch_cases (v : Str) :
    ∃ o : Option Str, ∀ x : URL, x.setSearch v = { x with query := o } := by
  cases v with
  | nil => exact ⟨none, fun x => rfl⟩
  | cons c q =>
    by_cases hc : c = '?'
    · subst hc
      exact ⟨some q, fun x => rfl⟩
    · refine ⟨some (c :: q), fun x => ?_⟩
      unfold URL.setSearch
      split
      · rename_i h
        cases h
      · rename_i h
        simp only [List.cons.injEq] at h
        exact absurd h.1 hc
      · rfl

theorem setSearch_fragment (u : URL) (v : Str) : (u.setSearch v).fragment = u.fragment := by
  obtain ⟨o, ho⟩ := setSearch_cases v
  rw [ho u]

theorem setSearch_twice (u : URL) (v : Str) : (u.setSearch v).setSearch v = u.setSearch v := by
  obtain ⟨o, ho⟩ := setSearch_cases v
  rw [ho u, ho _]

theorem setSearch_query (u x : URL) (v : Str) :
    (x.setSearch v).query = (u.setSearch v).query := by
  obtain ⟨o, ho⟩ := setSearch_cases v
  rw [ho u, ho x]

theorem setSearch_of_query (x : URL) (v : Str) (h : (x.setSearch v).query = x.query) :
    x.setSearch v = x := by
  obtain ⟨o, ho⟩ := setSearch_cases v
  rw [ho x] at h ⊢
  dsimp only at h
  subst h
  rfl

theorem setSearch_with_query (x : URL) (v : Str) :
    x.setSearch v = { x with query := (x.setSearch v).query } := by
  obtain ⟨o, ho⟩ := setSearch_cases v
  rw [ho x]

theorem normalize_eq (lib : UrlLib) (input : Str) (u : URL) (hu : lib.parse input = some u) :
    SiteIndexer.normalize lib input
      = stripTrailingSlash (SiteIndexer.normalizeRecord lib u).toString := by
  unfold SiteIndexer.normalize SiteIndexer.normalizeRecord
  rw [hu]

theorem normalize_reads (lib : UrlLib) (h : Str) (u w : URL)
    (hu : lib.parse h = some u)
    (hr : ReadsAs lib (SiteIndexer.normalize lib h) w (SiteIndexer.normalizeRecord lib u))
    (hq : lib.parseQuery w.search
      = (lib.parseQuery u.clearHash.search).filter
          (fun p => decide (p.1 ∉ SiteIndexer.normalizeDeleted)))
    (hfix : (SiteIndexer.normalize lib h).getLast? ≠ some '/') :
    SiteIndexer.normalize lib (SiteIndexer.normalize lib h) = SiteIndexer.normalize lib h := by
  obtain ⟨hw, hcases⟩ := hr
  have hn := normalize_eq lib h u hu
  rw [normalize_eq lib _ w hw]
  have hrf : (SiteIndexer.normalizeRecord lib u).fragment = none := by
    unfold SiteIndexer.normalizeRecord
    rw [setSearch_fragment]
    rfl
  have hwf : w.fragment = none := by
    rcases hcases with hsame | ⟨_, hless⟩
    · rw [hsame]
      exact hrf
    · rcases hless with ⟨p, _, _, hw2⟩ | ⟨q, _, hw2⟩ <;> subst hw2 <;> exact hrf
  -- the record that `normalize` serialises for `w` is `w` with the query that was written
  have hrec : SiteIndexer.normalizeRecord lib w
      = w.setSearch
          (if !(lib.serializeQuery ((lib.parseQuery u.clearHash.search).filter
                (fun p => decide (p.1 ∉ SiteIndexer.normalizeDeleted)))).isEmpty then
            '?' :: lib.serializeQuery ((lib.parseQuery u.clearHash.search).filter
                (fun p => decide (p.1 ∉ SiteIndexer.normalizeDeleted)))
          else []) := by
    unfold SiteIndexer.normalizeRecord
    rw [clearHash_fix hwf, hq, filter_not_deleted]
  have hquery : (SiteIndexer.normalizeRecord lib w).query
      = (SiteIndexer.normalizeRecord lib u).query := by
    rw [hrec]
    unfold SiteIndexer.normalizeRecord
    exact setSearch_query _ _ _
  rcases hcases with hsame | ⟨hser, hless⟩
  · have : SiteIndexer.normalizeRecord lib w = SiteIndexer.normalizeRecord lib u := by
      rw [hrec, hsame]
      unfold SiteIndexer.normalizeRecord
      exact setSearch_twice _ _
    rw [this, ← hn]
  · rcases hless with ⟨p, hp, hqn, hw2⟩ | ⟨q, hqs, hw2⟩
    · have : SiteIndexer.normalizeRecord lib w = w := by
        rw [hrec]
        apply setSearch_of_query
        rw [← hrec, hquery, hqn, hw2]
        exact hqn.symm
      rw [this, hser]
      exact stripTrailingSlash_of_not_last hfix
    · have : SiteIndexer.normalizeRecord lib w = SiteIndexer.normalizeRecord lib u := by
        have h1 : SiteIndexer.normalizeRecord lib w
            = { w with query := (SiteIndexer.normalizeRecord lib w).query } := by
          rw [hrec]
          exact setSearch_with_query _ _
        rw [h1, hquery, hw2]
      rw [this, ← hn]
/-- C2 (amended). Cleaning is a fixpoint when no slash is left at the end: for every URL
library and every absolute URL `h` that it parses, to `u`, the cleaned URL `c` that
`SpiderCrawler.addToQueue` derives from `h` is left unchanged by the same cleaning when
it does not end in a slash or is the bare root `protocol//hostname/`; the cleaned URL of
`SiteIndexer.addToQueue` and the result of the `normalize` helper are left unchanged
when they do not end in a slash. What is asked of the library is that it reads the
cleaned text back as the URL that was serialised, or as a URL that serialises to the
text and is that URL less the final slash that was stripped, and for `normalize` that it
reads the parameters that were written back from the query string. On an `h` that the
library does not parse, `normalize` returns `h` as it is. -/
theorem clean_fixpoint (lib : UrlLib) (h c : Str) (u w : URL) :
    (lib.parse h = some u →
      (SpiderCrawler.clean lib h = some c →
        ReadsAs lib c w (SpiderCrawler.cleanRecord u) →
        (c.getLast? ≠ some '/' ∨ c = u.root) →
        SpiderCrawler.clean lib c = some c) ∧
      (SiteIndexer.clean lib h = some c →
        ReadsAs lib c w u.clearHash →
        c.getLast? ≠ some '/' →
        SiteIndexer.clean lib c = some c) ∧
      (ReadsAs lib (SiteIndexer.normalize lib h) w (SiteIndexer.normalizeRecord lib u) →
        lib.parseQuery w.search
          = (lib.parseQuery u.clearHash.search).filter
              (fun p => decide (p.1 ∉ SiteIndexer.normalizeDeleted)) →
        (SiteIndexer.normalize lib h).getLast? ≠ some '/' →
        SiteIndexer.normalize lib (SiteIndexer.normalize lib h)
          = SiteIndexer.normalize lib h)) ∧
    (lib.parse h = none →
      SiteIndexer.normalize lib (SiteIndexer.normalize lib h) = SiteIndexer.normalize lib h) := by
  refine ⟨fun hu => ⟨fun hc hr hfix => crawler_clean_reads lib h c u w hu hc hr hfix,
    fun hc hr hfix => indexer_clean_reads lib h c u w hu hc hr hfix,
    fun hr hq hfix => normalize_reads lib h u w hu hr hq hfix⟩, fun hn => ?_⟩
  have hh : SiteIndexer.normalize lib h = h := by
    unfold SiteIndexer.normalize
    rw [hn]
  rw [hh, hh]

/-- Witness of C2 (amended): `http://a.com/foo/?utm_source=3&a=1#x`, cleaned to
`http://a.com/foo` by the crawler, to `http://a.com/foo/?utm_source=3&a=1` by the indexer
and to `http://a.com/foo/?a=1` by `normalize`. -/
theorem clean_fixpoint_witness :
    (SpiderCrawler.clean plainLib "http://a.com/foo/?utm_source=3&a=1#x".toList =
        some "http://a.com/foo".toList ∧
      SpiderCrawler.clean plainLib "http://a.com/foo".toList = some "http://a.com/foo".toList) ∧
    (SiteIndexer.clean plainLib "http://a.com/foo/?utm_source=3&a=1#x".toList =
        some "http://a.com/foo/?utm_source=3&a=1".toList ∧
      SiteIndexer.clean plainLib "http://a.com/foo/?utm_source=3&a=1".toList =
        some "http://a.com/foo/?utm_source=3&a=1".toList) ∧
    (SiteIndexer.normalize plainLib "http://a.com/foo/?utm_source=3&a=1#x".toList =
        "http://a.com/foo/?a=1".toList ∧
      SiteIndexer.normalize plainLib
          (SiteIndexer.normalize plainLib "http://a.com/foo/?utm_source=3&a=1#x".toList) =
        SiteIndexer.normalize plainLib "http://a.com/foo/?utm_source=3&a=1#x".toList) :=
  ⟨⟨by decide,
      ((clean_fixpoint plainLib "http://a.com/foo/?utm_source=3&a=1#x".toList
          "http://a.com/foo".toList
          { scheme := "http".toList, host := some "a.com".toList, path := "/foo/".toList,
            query := some "utm_source=3&a=1".toList, fragment := some "x".toList }
          { scheme := "http".toList, host := some "a.com".toList, path := "/foo".toList }).1
        (by decide)).1 (by decide)
        ⟨by decide, Or.inr ⟨by decide, Or.inl ⟨"/foo".toList, by decide, by decide, by decide⟩⟩⟩
        (Or.inl (by decide))⟩,
    ⟨by decide,
      ((clean_fixpoint plainLib "http://a.com/foo/?utm_source=3&a=1#x".toList
          "http://a.com/foo/?utm_source=3&a=1".toList
          { scheme := "http".toList, host := some "a.com".toList, path := "/foo/".toList,
            query := some "utm_source=3&a=1".toList, fragment := some "x".toList }
          { scheme := "http".toList, host := some "a.com".toList, path := "/foo/".toList,
            query := some "utm_source=3&a=1".toList }).1
        (by decide)).2.1 (by decide) ⟨by decide, Or.inl (by decide)⟩ (by decide)⟩,
    ⟨by decide,
      ((clean_fixpoint plainLib "http://a.com/foo/?utm_source=3&a=1#x".toList []
          { scheme := "http".toList, host := some "a.com".toList, path := "/foo/".toList,
            query := some "utm_source=3&a=1".toList, fragment := some "x".toList }
          { scheme := "http".toList, host := some "a.com".toList, path := "/foo/".toList,
            query := some "a=1".toList }).1
        (by decide)).2.2 ⟨by decide, Or.inl (by decide)⟩ (by decide) (by decide)⟩⟩


/-- Counterexample to C2 as stated: `http://a.com/foo//` is cleaned to
`http://a.com/foo/`, and that is cleaned to `http://a.com/foo`, by the crawler, by the
indexer and by `normalize`. -/
theorem clean_fixpoint_counterexample :
    (SpiderCrawler.clean plainLib "http://a.com/foo//".toList = some "http://a.com/foo/".toList ∧
      SpiderCrawler.clean plainLib "http://a.com/foo/".toList = some "http://a.com/foo".toList) ∧
    (SiteIndexer.clean plainLib "http://a.com/foo//".toList = some "http://a.com/foo/".toList ∧
      SiteIndexer.clean plainLib "http://a.com/foo/".toList = some "http://a.com/foo".toList) ∧
    (SiteIndexer.normalize plainLib "http://a.com/foo//".toList = "http://a.com/foo/".toList ∧
      SiteIndexer.normalize plainLib "http://a.com/foo/".toList = "http://a.com/foo".toList) := by
  decide

/-! ## The frontier: worker passes -/

theorem frontierFresh_tail {x : Str} {rest queued visited : List Str}
    (h : FrontierFresh (x :: rest) queued visited) : FrontierFresh rest queued visited := by
  obtain ⟨⟨hnd, hsub⟩, hno⟩ := h
  refine ⟨⟨(List.nodup_cons.mp hnd).2, fun y hy => hsub y (List.mem_cons_of_mem x hy)⟩, ?_⟩
  intro y hy
  exact hno y ⟨List.mem_cons_of_mem x hy.1, hy.2⟩

theorem frontierFresh_take {x : Str} {rest queued visited : List Str}
    (h : FrontierFresh (x :: rest) queued visited) :
    FrontierFresh rest queued (setAdd visited x) := by
  obtain ⟨⟨hnd, hsub⟩, hno⟩ := h
  refine ⟨⟨(List.nodup_cons.mp hnd).2, fun y hy => hsub y (List.mem_cons_of_mem x hy)⟩, ?_⟩
  intro y hy
  rcases mem_setAdd.mp hy.2 with hv | hv
  · exact hno y ⟨List.mem_cons_of_mem x hy.1, hv⟩
  · subst hv
    exact (List.nodup_cons.mp hnd).1 hy.1

theorem frontierFresh_push {queue queued visited : List Str} (c : Str)
    (h : FrontierFresh queue queued visited) (hv : c ∉ visited) (hq : c ∉ queued) :
    FrontierFresh (queue ++ [c]) (setAdd queued c) visited := by
  refine ⟨frontierOk_push c h.1 hq, ?_⟩
  intro y hy
  rcases List.mem_append.mp hy.1 with h1 | h1
  · exact h.2 y ⟨h1, hy.2⟩
  · rw [List.mem_singleton] at h1
    subst h1
    exact hv hy.2

theorem frontierFresh_takeNext_crawler (s : SpiderCrawler)
    (h : FrontierFresh s.queue s.queued s.visited) :
    FrontierFresh s.takeNext.1.queue s.takeNext.1.queued s.takeNext.1.visited := by
  unfold SpiderCrawler.takeNext
  cases hq : s.queue with
  | nil => simpa [hq] using h
  | cons x rest =>
    rw [hq] at h
    dsimp only
    split
    · exact frontierFresh_tail h
    · split
      · exact frontierFresh_tail h
      · exact frontierFresh_take h

theorem frontierFresh_takeNext_indexer (s : SiteIndexer)
    (h : FrontierFresh s.queue s.queued s.visited) :
    FrontierFresh s.takeNext.1.queue s.takeNext.1.queued s.takeNext.1.visited := by
  unfold SiteIndexer.takeNext
  cases hq : s.queue with
  | nil => simpa [hq] using h
  | cons x rest =>
    rw [hq] at h
    dsimp only
    split
    · exact frontierFresh_tail h
    · exact frontierFresh_take h

theorem frontierFresh_enqueue_crawler {s : SpiderCrawler} (c : Str)
    (h : FrontierFresh s.queue s.queued s.visited) :
    FrontierFresh (s.enqueue c).queue (s.enqueue c).queued (s.enqueue c).visited := by
  by_cases hc : c ∉ s.visited ∧ c ∉ s.queued
  · rw [SpiderCrawler.enqueue_of_new_crawler hc]
    exact frontierFresh_push c h hc.1 hc.2
  · rw [SpiderCrawler.enqueue_of_known_crawler hc]
    exact h

theorem frontierFresh_enqueue_indexer {s : SiteIndexer} (c : Str)
    (h : FrontierFresh s.queue s.queued s.visited) :
    FrontierFresh (s.enqueue c).queue (s.enqueue c).queued (s.enqueue c).visited := by
  by_cases hc : c ∉ s.visited ∧ c ∉ s.queued
  · rw [SiteIndexer.enqueue_of_new_indexer hc]
    exact frontierFresh_push c h hc.1 hc.2
  · rw [SiteIndexer.enqueue_of_known_indexer hc]
    exact h

theorem frontierFresh_addToQueue_crawler (lib : UrlLib) {s : SpiderCrawler} (href : Str)
    (h : FrontierFresh s.queue s.queued s.visited) :
    FrontierFresh (s.addToQueue lib href).queue (s.addToQueue lib href).queued
      (s.addToQueue lib href).visited := by
  rw [SpiderCrawler.addToQueue_eq_crawler]
  cases s.admitted lib href with
  | none => exact h
  | some c => exact frontierFresh_enqueue_crawler c h

theorem frontierFresh_addToQueue_indexer (lib : UrlLib) {s : SiteIndexer} (href : Str)
    (h : FrontierFresh s.queue s.queued s.visited) :
    FrontierFresh (s.addToQueue lib href).queue (s.addToQueue lib href).queued
      (s.addToQueue lib href).visited := by
  rw [SiteIndexer.addToQueue_eq_indexer]
  cases s.admitted lib href with
  | none => exact h
  | some c => exact frontierFresh_enqueue_indexer c h

theorem frontierFresh_start_crawler (lib : UrlLib) (options : CrawlerOptions) :
    FrontierFresh ((SpiderCrawler.new options).start lib).queue
      ((SpiderCrawler.new options).start lib).queued
      ((SpiderCrawler.new options).start lib).visited := by
  refine ⟨SpiderCrawler.frontierOk_start_crawler lib options, ?_⟩
  have hv : ((SpiderCrawler.new options).start lib).visited = [] := by
    unfold SpiderCrawler.start
    split
    · rfl
    · split <;> rfl
  intro x hx
  rw [hv] at hx
  exact absurd hx.2 (List.not_mem_nil x)

theorem frontierFresh_of_crawling (lib : UrlLib) {s : SpiderCrawler}
    (h : SpiderCrawler.Crawling lib s) : FrontierFresh s.queue s.queued s.visited := by
  induction h with
  | start options => exact frontierFresh_start_crawler lib options
  | addToQueue s href _ ih => exact frontierFresh_addToQueue_crawler lib href ih
  | takeNext s _ ih => exact frontierFresh_takeNext_crawler s ih

theorem mem_foldl_setAdd (urls : List Str) (queued : List Str) (x : Str) :
    x ∈ urls.foldl setAdd queued ↔ x ∈ queued ∨ x ∈ urls := by
  induction urls generalizing queued with
  | nil => simp
  | cons u urls ih =>
    rw [List.foldl_cons, ih, mem_setAdd, List.mem_cons]
    tauto

theorem frontierFresh_buildIndex (lib : UrlLib) (options : IndexerOptions)
    (hnd : (options.urlsToIndex.getD []).Nodup) :
    FrontierFresh ((SiteIndexer.new options).buildIndex lib).queue
      ((SiteIndexer.new options).buildIndex lib).queued
      ((SiteIndexer.new options).buildIndex lib).visited := by
  have hv : ((SiteIndexer.new options).buildIndex lib).visited = [] := by
    unfold SiteIndexer.buildIndex
    split
    · rfl
    · split
      · rfl
      · split <;> rfl
  refine ⟨?_, ?_⟩
  · unfold SiteIndexer.buildIndex
    rw [if_neg (by simp [SiteIndexer.new])]
    cases lib.parse (SiteIndexer.new options).startUrl with
    | none => exact ⟨List.nodup_nil, fun x hx => absurd hx (List.not_mem_nil x)⟩
    | some u =>
      dsimp only
      have hu : (SiteIndexer.new options).urlsToIndex = options.urlsToIndex := rfl
      rw [hu]
      cases hl : options.urlsToIndex with
      | none =>
        exact frontierOk_single (SiteIndexer.new options).queued (SiteIndexer.new options).startUrl
      | some l =>
        cases l with
        | nil =>
          exact frontierOk_single (SiteIndexer.new options).queued
            (SiteIndexer.new options).startUrl
        | cons url urls =>
          rw [hl] at hnd
          refine ⟨hnd, fun x hx => ?_⟩
          exact (mem_foldl_setAdd (url :: urls) _ x).mpr (Or.inr hx)
  · intro x hx
    rw [hv] at hx
    exact absurd hx.2 (List.not_mem_nil x)

theorem urlsToIndex_addToQueue (lib : UrlLib) (s : SiteIndexer) (href : Str) :
    (s.addToQueue lib href).urlsToIndex = s.urlsToIndex := by
  rw [SiteIndexer.addToQueue_eq_indexer]
  cases s.admitted lib href with
  | none => rfl
  | some c =>
    show (s.enqueue c).urlsToIndex = s.urlsToIndex
    by_cases hc : c ∉ s.visited ∧ c ∉ s.queued
    · rw [SiteIndexer.enqueue_of_new_indexer hc]
    · rw [SiteIndexer.enqueue_of_known_indexer hc]

theorem urlsToIndex_takeNext (s : SiteIndexer) : s.takeNext.1.urlsToIndex = s.urlsToIndex := by
  unfold SiteIndexer.takeNext
  split
  · rfl
  · split <;> rfl

theorem urlsToIndex_buildIndex (lib : UrlLib) (options : IndexerOptions) :
    ((SiteIndexer.new options).buildIndex lib).urlsToIndex = options.urlsToIndex := by
  unfold SiteIndexer.buildIndex
  split
  · rfl
  · split
    · rfl
    · split <;> rfl

theorem frontierFresh_of_indexing (lib : UrlLib) {s : SiteIndexer}
    (h : SiteIndexer.Indexing lib s) (hnd : (s.urlsToIndex.getD []).Nodup) :
    FrontierFresh s.queue s.queued s.visited := by
  induction h with
  | start options =>
    rw [urlsToIndex_buildIndex] at hnd
    exact frontierFresh_buildIndex lib options hnd
  | addToQueue s href _ ih =>
    rw [urlsToIndex_addToQueue] at hnd
    exact frontierFresh_addToQueue_indexer lib href (ih hnd)
  | takeNext s _ ih =>
    rw [urlsToIndex_takeNext] at hnd
    exact frontierFresh_takeNext_indexer s (ih hnd)

/-- C17 (amended). The queue and the visited set stay disjoint in every state of a
crawl of `SpiderCrawler`, and in every state of an indexing run of `SiteIndexer`, full
or incremental, provided the list `urlsToIndex` names no URL twice. -/
theorem queue_visited_disjoint (lib : UrlLib) (s : SpiderCrawler) (t : SiteIndexer)
    (hs : SpiderCrawler.Crawling lib s) (ht : SiteIndexer.Indexing lib t)
    (hnd : (t.urlsToIndex.getD []).Nodup) :
    NoOverlap s.queue s.visited ∧ NoOverlap t.queue t.visited :=
  ⟨(frontierFresh_of_crawling lib hs).2, (frontierFresh_of_indexing lib ht hnd).2⟩

/-- Witness of C17: the crawler on `http://a.com/` after one link and one worker pass,
and the incremental indexer on two different URLs after one worker pass. -/
theorem queue_visited_disjoint_witness :
    NoOverlap (exampleCrawler.addToQueue plainLib "http://a.com/foo".toList).takeNext.1.queue
      (exampleCrawler.addToQueue plainLib "http://a.com/foo".toList).takeNext.1.visited ∧
    NoOverlap incrementalIndexer.takeNext.1.queue incrementalIndexer.takeNext.1.visited :=
  queue_visited_disjoint plainLib _ _
    (SpiderCrawler.Crawling.takeNext _
      (SpiderCrawler.Crawling.addToQueue _ _ (SpiderCrawler.Crawling.start _)))
    (SiteIndexer.Indexing.takeNext _ (SiteIndexer.Indexing.start _))
    (by decide)

/-- Counterexample to C17 as stated: in incremental mode with `urlsToIndex` naming
`http://a.com/x` twice, the first worker pass (the loop test holds, the run is not
paused) hands the URL to `indexPage` and leaves it both in the queue and in the
visited set. -/
theorem queue_visited_disjoint_counterexample :
    SiteIndexer.Indexing plainLib duplicateIndexer.takeNext.1 ∧
    duplicateIndexer.loopTest = true ∧ duplicateIndexer.isPaused = false ∧
    duplicateIndexer.takeNext.2 = some "http://a.com/x".toList ∧
    "http://a.com/x".toList ∈ duplicateIndexer.takeNext.1.queue ∧
    "http://a.com/x".toList ∈ duplicateIndexer.takeNext.1.visited ∧
    ¬ NoOverlap duplicateIndexer.takeNext.1.queue duplicateIndexer.takeNext.1.visited := by
  have h1 : "http://a.com/x".toList ∈ duplicateIndexer.takeNext.1.queue := by decide
  have h2 : "http://a.com/x".toList ∈ duplicateIndexer.takeNext.1.visited := by decide
  exact ⟨SiteIndexer.Indexing.takeNext _ (SiteIndexer.Indexing.start _), by decide, by decide,
    by decide, h1, h2, fun h => h _ ⟨h1, h2⟩⟩

/-- C18. The start URL is queued as it is given, not in the cleaned form of later
links. `SpiderCrawler` started on `http://a.com` hands `http://a.com` to `crawlPage`,
queues the link `http://a.com/` found there and hands it to `crawlPage` too, although
both clean to `http://a.com/`; `SiteIndexer` started on `http://a.com/` hands
`http://a.com/` to `indexPage`, queues the link back to the start page as
`http://a.com` and hands that to `indexPage` too, although both clean to
`http://a.com`. -/
theorem start_url_visited_twice :
    (bareRootCrawler.loopTest = true ∧
      bareRootCrawler.takeNext.2 = some "http://a.com".toList ∧
      (bareRootCrawler.takeNext.1.addToQueue plainLib "http://a.com/".toList).loopTest = true ∧
      (bareRootCrawler.takeNext.1.addToQueue plainLib "http://a.com/".toList).takeNext.2 =
        some "http://a.com/".toList ∧
      (bareRootCrawler.takeNext.1.addToQueue plainLib "http://a.com/".toList).takeNext.1.visited =
        ["http://a.com".toList, "http://a.com/".toList] ∧
      SpiderCrawler.clean plainLib "http://a.com".toList = some "http://a.com/".toList ∧
      SpiderCrawler.clean plainLib "http://a.com/".toList = some "http://a.com/".toList) ∧
    (exampleIndexer.loopTest = true ∧
      exampleIndexer.takeNext.2 = some "http://a.com/".toList ∧
      (exampleIndexer.takeNext.1.addToQueue plainLib "http://a.com/".toList).loopTest = true ∧
      (exampleIndexer.takeNext.1.addToQueue plainLib "http://a.com/".toList).takeNext.2 =
        some "http://a.com".toList ∧
      (exampleIndexer.takeNext.1.addToQueue plainLib "http://a.com/".toList).takeNext.1.visited =
        ["http://a.com/".toList, "http://a.com".toList] ∧
      SiteIndexer.clean plainLib "http://a.com/".toList = some "http://a.com".toList ∧
      SiteIndexer.clean plainLib "http://a.com".toList = some "http://a.com".toList) := by
  decide

/-! ## The frontier: what `addToQueue` rejects -/

theorem queue_enqueue_crawler (s : SpiderCrawler) (c : Str) (h : (s.enqueue c).queue ≠ s.queue) :
    c ∉ s.visited ∧ c ∉ s.queued := by
  by_contra hc
  exact h (by rw [SpiderCrawler.enqueue_of_known_crawler hc])

theorem admitted_of_queue_crawler (lib : UrlLib) (s : SpiderCrawler) (href : Str)
    (h : (s.addToQueue lib href).queue ≠ s.queue) :
    ∃ c, s.admitted lib href = some c := by
  rw [SpiderCrawler.addToQueue_eq_crawler] at h
  cases ha : s.admitted lib href with
  | none => rw [ha] at h; exact absurd rfl h
  | some c => exact ⟨c, rfl⟩

theorem admitted_of_queue_indexer (lib : UrlLib) (s : SiteIndexer) (href : Str)
    (h : (s.addToQueue lib href).queue ≠ s.queue) :
    ∃ c, s.admitted lib href = some c := by
  rw [SiteIndexer.addToQueue_eq_indexer] at h
  cases ha : s.admitted lib href with
  | none => rw [ha] at h; exact absurd rfl h
  | some c => exact ⟨c, rfl⟩

theorem admitted_some_crawler {lib : UrlLib} {s : SpiderCrawler} {href c : Str}
    (h : s.admitted lib href = some c) :
    ∃ u, lib.parse href = some u ∧ some u.hostname = s.rootDomain ∧
      endsWithAnyCI u.pathname (dotted crawlerSkipExtensions) = false ∧
      includesAnyCI u.pathname (slashed crawlerSkipPaths) = false ∧
      s.localeRejects u = false ∧ c = SpiderCrawler.cleanUrl u := by
  unfold SpiderCrawler.admitted at h
  cases hp : lib.parse href with
  | none => rw [hp] at h; exact absurd h (by simp)
  | some u =>
    rw [hp] at h
    dsimp only at h
    by_cases h1 : some u.hostname ≠ s.rootDomain
    · rw [if_pos h1] at h; exact absurd h (by simp)
    rw [if_neg h1] at h
    by_cases h2 : endsWithAnyCI u.pathname (dotted crawlerSkipExtensions) = true
    · rw [if_pos h2] at h; exact absurd h (by simp)
    rw [if_neg h2] at h
    by_cases h3 : includesAnyCI u.pathname (slashed crawlerSkipPaths) = true
    · rw [if_pos h3] at h; exact absurd h (by simp)
    rw [if_neg h3] at h
    by_cases h4 : s.localeRejects u = true
    · rw [if_pos h4] at h; exact absurd h (by simp)
    rw [if_neg h4] at h
    exact ⟨u, rfl, not_not.mp h1, Bool.eq_false_iff.mpr h2, Bool.eq_false_iff.mpr h3,
      Bool.eq_false_iff.mpr h4, (Option.some.inj h).symm⟩

theorem admitted_some_indexer {lib : UrlLib} {s : SiteIndexer} {href c : Str}
    (h : s.admitted lib href = some c) :
    ∃ u, lib.parse href = some u ∧ some u.hostname = s.rootDomain ∧
      endsWithAnyCI u.pathname (dotted indexerSkipExtensions) = false ∧
      s.localeRejects u = false ∧ c = SiteIndexer.cleanUrl u := by
  unfold SiteIndexer.admitted at h
  cases hp : lib.parse href with
  | none => rw [hp] at h; exact absurd h (by simp)
  | some u =>
    rw [hp] at h
    dsimp only at h
    by_cases h1 : some u.hostname ≠ s.rootDomain
    · rw [if_pos h1] at h; exact absurd h (by simp)
    rw [if_neg h1] at h
    by_cases h2 : endsWithAnyCI u.pathname (dotted indexerSkipExtensions) = true
    · rw [if_pos h2] at h; exact absurd h (by simp)
    rw [if_neg h2] at h
    by_cases h4 : s.localeRejects u = true
    · rw [if_pos h4] at h; exact absurd h (by simp)
    rw [if_neg h4] at h
    exact ⟨u, rfl, not_not.mp h1, Bool.eq_false_iff.mpr h2, Bool.eq_false_iff.mpr h4,
      (Option.some.inj h).symm⟩

theorem addToQueue_of_not_admitted_crawler {lib : UrlLib} {s : SpiderCrawler} {href : Str}
    (h : s.admitted lib href = none) : s.addToQueue lib href = s := by
  rw [SpiderCrawler.addToQueue_eq_crawler, h]

theorem addToQueue_of_not_admitted_indexer {lib : UrlLib} {s : SiteIndexer} {href : Str}
    (h : s.admitted lib href = none) : s.addToQueue lib href = s := by
  rw [SiteIndexer.addToQueue_eq_indexer, h]

theorem not_admitted_crawler {lib : UrlLib} {s : SpiderCrawler} {href : Str} {u : URL}
    (hp : lib.parse href = some u)
    (h : some u.hostname ≠ s.rootDomain ∨
      endsWithAnyCI u.pathname (dotted crawlerSkipExtensions) = true ∨
      includesAnyCI u.pathname (slashed crawlerSkipPaths) = true ∨ s.localeRejects u = true) :
    s.admitted lib href = none := by
  cases ha : s.admitted lib href with
  | none => rfl
  | some c =>
    obtain ⟨v, hv, g1, g2, g3, g4, _⟩ := admitted_some_crawler ha
    rw [hp] at hv
    cases Option.some.inj hv
    rcases h with h | h | h | h
    · exact absurd g1 h
    · rw [g2] at h; exact absurd h (by simp)
    · rw [g3] at h; exact absurd h (by simp)
    · rw [g4] at h; exact absurd h (by simp)

theorem not_admitted_indexer {lib : UrlLib} {s : SiteIndexer} {href : Str} {u : URL}
    (hp : lib.parse href = some u)
    (h : some u.hostname ≠ s.rootDomain ∨
      endsWithAnyCI u.pathname (dotted indexerSkipExtensions) = true ∨ s.localeRejects u = true) :
    s.admitted lib href = none := by
  cases ha : s.admitted lib href with
  | none => rfl
  | some c =>
    obtain ⟨v, hv, g1, g2, g4, _⟩ := admitted_some_indexer ha
    rw [hp] at hv
    cases Option.some.inj hv
    rcases h with h | h | h
    · exact absurd g1 h
    · rw [g2] at h; exact absurd h (by simp)
    · rw [g4] at h; exact absurd h (by simp)

/-- C19 (amended). Enqueue rejection rules, on the parsed href. If
`SpiderCrawler.addToQueue(href)` changes the queue, then href parses, its hostname is
the root domain, its path does not end in an extension of the crawler's list, and its
path contains none of `/wp-admin`, `/wp-login`, `/admin`, `/login`, `/logout`, `/feed`,
`/rss`, `/cart`, `/checkout`, `/account`; a href that does not parse or fails one of
the three leaves the crawler unchanged. If `SiteIndexer.addToQueue(href)` changes the
queue, then href parses, its hostname is the root domain and its path does not end in
an extension of the indexer's list; a href that does not parse or fails one of these
two leaves the indexer unchanged. The indexer has no excluded path patterns. -/
theorem addToQueue_rejection_rules (lib : UrlLib) (s : SpiderCrawler) (t : SiteIndexer)
    (href : Str) :
    (((s.addToQueue lib href).queue ≠ s.queue →
        ∃ u, lib.parse href = some u ∧ some u.hostname = s.rootDomain ∧
          endsWithAnyCI u.pathname (dotted crawlerSkipExtensions) = false ∧
          includesAnyCI u.pathname (slashed crawlerSkipPaths) = false) ∧
      (lib.parse href = none → s.addToQueue lib href = s) ∧
      (∀ u, lib.parse href = some u →
        (some u.hostname ≠ s.rootDomain ∨
          endsWithAnyCI u.pathname (dotted crawlerSkipExtensions) = true ∨
          includesAnyCI u.pathname (slashed crawlerSkipPaths) = true) →
        s.addToQueue lib href = s)) ∧
    (((t.addToQueue lib href).queue ≠ t.queue →
        ∃ u, lib.parse href = some u ∧ some u.hostname = t.rootDomain ∧
          endsWithAnyCI u.pathname (dotted indexerSkipExtensions) = false) ∧
      (lib.parse href = none → t.addToQueue lib href = t) ∧
      (∀ u, lib.parse href = some u →
        (some u.hostname ≠ t.rootDomain ∨
          endsWithAnyCI u.pathname (dotted indexerSkipExtensions) = true) →
        t.addToQueue lib href = t)) := by
  refine ⟨⟨fun h => ?_, fun h => ?_, fun u hp h => ?_⟩, ⟨fun h => ?_, fun h => ?_, fun u hp h => ?_⟩⟩
  · obtain ⟨c, hc⟩ := admitted_of_queue_crawler lib s href h
    obtain ⟨u, hp, g1, g2, g3, _, _⟩ := admitted_some_crawler hc
    exact ⟨u, hp, g1, g2, g3⟩
  · unfold SpiderCrawler.addToQueue
    rw [h]
  · apply addToQueue_of_not_admitted_crawler
    apply not_admitted_crawler hp
    rcases h with h | h | h
    · exact Or.inl h
    · exact Or.inr (Or.inl h)
    · exact Or.inr (Or.inr (Or.inl h))
  · obtain ⟨c, hc⟩ := admitted_of_queue_indexer lib t href h
    obtain ⟨u, hp, g1, g2, _, _⟩ := admitted_some_indexer hc
    exact ⟨u, hp, g1, g2⟩
  · unfold SiteIndexer.addToQueue
    rw [h]
  · apply addToQueue_of_not_admitted_indexer
    apply not_admitted_indexer hp
    rcases h with h | h
    · exact Or.inl h
    · exact Or.inr (Or.inl h)

/-- Witness of C19: the link `http://a.com/blog` is queued by the crawler and by the
indexer started on `http://a.com/`, and `http://a.com/cart` leaves the crawler as it is. -/
theorem addToQueue_rejection_rules_witness :
    (∃ u, plainLib.parse "http://a.com/blog".toList = some u ∧
      some u.hostname = exampleCrawler.rootDomain ∧
      endsWithAnyCI u.pathname (dotted crawlerSkipExtensions) = false ∧
      includesAnyCI u.pathname (slashed crawlerSkipPaths) = false) ∧
    (∃ u, plainLib.parse "http://a.com/blog".toList = some u ∧
      some u.hostname = exampleIndexer.rootDomain ∧
      endsWithAnyCI u.pathname (dotted indexerSkipExtensions) = false) ∧
    exampleCrawler.addToQueue plainLib "http://a.com/cart".toList = exampleCrawler :=
  ⟨(addToQueue_rejection_rules plainLib exampleCrawler exampleIndexer
      "http://a.com/blog".toList).1.1 (by decide),
    (addToQueue_rejection_rules plainLib exampleCrawler exampleIndexer
      "http://a.com/blog".toList).2.1 (by decide),
    (addToQueue_rejection_rules plainLib exampleCrawler exampleIndexer
      "http://a.com/cart".toList).1.2.2
      { scheme := "http".toList, host := some "a.com".toList, path := "/cart".toList }
      (by decide) (by decide)⟩

/-- Counterexample to C19 as stated: the indexer started on `http://a.com/` queues
`http://a.com/login`, whose path matches the excluded pattern `/login`; and the crawler
queues, for the href `http://a.com/a.pdf/`, the URL `http://a.com/a.pdf`, whose path
ends in the disallowed extension `.pdf`. -/
theorem addToQueue_rejection_rules_counterexample :
    (exampleIndexer.addToQueue plainLib "http://a.com/login".toList).queue =
      ["http://a.com/".toList, "http://a.com/login".toList] ∧
    (∃ u, plainLib.parse "http://a.com/login".toList = some u ∧
      includesAnyCI u.pathname (slashed crawlerSkipPaths) = true) ∧
    (exampleCrawler.addToQueue plainLib "http://a.com/a.pdf/".toList).queue =
      ["http://a.com/".toList, "http://a.com/a.pdf".toList] ∧
    (∃ u, plainLib.parse "http://a.com/a.pdf".toList = some u ∧
      endsWithAnyCI u.pathname (dotted crawlerSkipExtensions) = true) := by
  refine ⟨by decide, ⟨_, rfl, by decide⟩, by decide, ⟨_, rfl, by decide⟩⟩

theorem localeRejects_filtered_crawler (s : SpiderCrawler) (u : URL)
    (hs : truthy s.localeFilter = true) :
    s.localeRejects u = !s.localeFilters.any (fun f => includes (toLowerCase u.pathname) f) := by
  unfold SpiderCrawler.localeRejects SpiderCrawler.localeFilters
  simp [hs]

theorem localeRejects_filtered_indexer (t : SiteIndexer) (u : URL)
    (ht : truthy t.localeFilter = true) :
    t.localeRejects u = false ↔
      (t.localeFilter = some "default".toList ∧ t.detectUrlLocale u.pathname = none) ∨
      (t.localeFilter ≠ some "default".toList ∧
        t.detectUrlLocale u.pathname = t.localeFilter) := by
  unfold SiteIndexer.localeRejects
  rw [if_pos ht]
  dsimp only
  by_cases hd : t.localeFilter = some "default".toList
  · rw [if_pos hd]
    simp only [ne_eq, decide_eq_false_iff_not, not_not]
    constructor
    · exact fun h => Or.inl ⟨hd, h⟩
    · rintro (⟨_, h⟩ | ⟨h, _⟩)
      · exact h
      · exact absurd hd h
  · rw [if_neg hd]
    simp only [ne_eq, decide_eq_false_iff_not, not_not]
    constructor
    · exact fun h => Or.inr ⟨hd, h⟩
    · rintro (⟨h, _⟩ | ⟨_, h⟩)
      · exact absurd h hd
      · exact h

/-- C20 (amended). Locale-scoped enqueue. With a locale filter set,
`SiteIndexer.addToQueue(href)` changes the queue only if the locale that
`detectUrlLocale` finds in the path of href (its first segment when that is a known
locale, otherwise none) equals the filter, or, for the filter `default`, only if it
finds none; every other href leaves the indexer unchanged. With a locale filter set,
`SpiderCrawler.addToQueue(href)` changes the queue only if the lower-cased path of
href contains one of the comma-separated, trimmed and lower-cased filters as a
substring; every other href leaves the crawler unchanged. -/
theorem addToQueue_locale_scope (lib : UrlLib) (s : SpiderCrawler) (t : SiteIndexer)
    (href : Str) (hs : truthy s.localeFilter = true) (ht : truthy t.localeFilter = true) :
    (((t.addToQueue lib href).queue ≠ t.queue →
        ∃ u, lib.parse href = some u ∧
          ((t.localeFilter = some "default".toList ∧ t.detectUrlLocale u.pathname = none) ∨
            (t.localeFilter ≠ some "default".toList ∧
              t.detectUrlLocale u.pathname = t.localeFilter))) ∧
      (∀ u, lib.parse href = some u →
        ¬ ((t.localeFilter = some "default".toList ∧ t.detectUrlLocale u.pathname = none) ∨
            (t.localeFilter ≠ some "default".toList ∧
              t.detectUrlLocale u.pathname = t.localeFilter)) →
        t.addToQueue lib href = t)) ∧
    (((s.addToQueue lib href).queue ≠ s.queue →
        ∃ u, lib.parse href = some u ∧
          ∃ f ∈ s.localeFilters, includes (toLowerCase u.pathname) f = true) ∧
      (∀ u, lib.parse href = some u →
        (∀ f ∈ s.localeFilters, includes (toLowerCase u.pathname) f = false) →
        s.addToQueue lib href = s)) := by
  refine ⟨⟨fun h => ?_, fun u hp h => ?_⟩, ⟨fun h => ?_, fun u hp h => ?_⟩⟩
  · obtain ⟨c, hc⟩ := admitted_of_queue_indexer lib t href h
    obtain ⟨u, hp, _, _, g, _⟩ := admitted_some_indexer hc
    exact ⟨u, hp, (localeRejects_filtered_indexer t u ht).mp g⟩
  · apply addToQueue_of_not_admitted_indexer
    apply not_admitted_indexer hp
    refine Or.inr (Or.inr ?_)
    cases hr : t.localeRejects u with
    | true => rfl
    | false => exact absurd ((localeRejects_filtered_indexer t u ht).mp hr) h
  · obtain ⟨c, hc⟩ := admitted_of_queue_crawler lib s href h
    obtain ⟨u, hp, _, _, _, g, _⟩ := admitted_some_crawler hc
    rw [localeRejects_filtered_crawler s u hs] at g
    simp only [Bool.not_eq_false', List.any_eq_true] at g
    exact ⟨u, hp, g⟩
  · apply addToQueue_of_not_admitted_crawler
    apply not_admitted_crawler hp
    refine Or.inr (Or.inr (Or.inr ?_))
    rw [localeRejects_filtered_crawler s u hs]
    simp only [Bool.not_eq_true', List.any_eq_false]
    intro f hf
    rw [h f hf]
    simp

/-- Witness of C20: with the filter `de`, the indexer started on `http://a.com/`
queues `http://a.com/de/x`, whose first path segment is `de`, and the crawler leaves
out `http://a.com/blog`, whose path does not contain `de`. -/
theorem addToQueue_locale_scope_witness :
    (∃ u, plainLib.parse "http://a.com/de/x".toList = some u ∧
      ((filteredIndexer.localeFilter = some "default".toList ∧
          filteredIndexer.detectUrlLocale u.pathname = none) ∨
        (filteredIndexer.localeFilter ≠ some "default".toList ∧
          filteredIndexer.detectUrlLocale u.pathname = filteredIndexer.localeFilter))) ∧
    filteredCrawler.addToQueue plainLib "http://a.com/blog".toList = filteredCrawler :=
  ⟨(addToQueue_locale_scope plainLib filteredCrawler filteredIndexer "http://a.com/de/x".toList
      (by decide) (by decide)).1.1 (by decide),
    (addToQueue_locale_scope plainLib filteredCrawler filteredIndexer "http://a.com/blog".toList
      (by decide) (by decide)).2.2
      { scheme := "http".toList, host := some "a.com".toList, path := "/blog".toList }
      (by decide) (by decide)⟩

/-- Counterexample to C20 as stated: the crawler started on `http://a.com/` with the
locale filter `de` queues `http://a.com/index`, a URL in which `extractLocale` detects
no locale and whose first path segment is `index`: the path only contains the letters
`de`. -/
theorem addToQueue_locale_scope_counterexample :
    truthy filteredCrawler.localeFilter = true ∧
    (filteredCrawler.addToQueue plainLib "http://a.com/index".toList).queue =
      ["http://a.com/".toList, "http://a.com/index".toList] ∧
    filteredCrawler.extractLocale plainLib "http://a.com/index".toList = none ∧
    (∃ u, plainLib.parse "http://a.com/index".toList = some u ∧
      (splitOn '/' u.pathname).filter (fun part => !part.isEmpty) = ["index".toList]) := by
  refine ⟨by decide, by decide, by decide, ⟨_, rfl, by decide⟩⟩

/-! ## Health report: status classification -/

theorem categorize_broken (status : Nat) :
    SiteIndexer.categorize status = some Category.broken ↔
      status = 404 ∨ status = 410 ∨ 500 ≤ status := by
  unfold SiteIndexer.categorize
  split_ifs with h1 h2 h3
  · simp only [true_iff]; omega
  · simp only [reduceCtorEq, Option.some.injEq, false_iff]; omega
  · simp only [reduceCtorEq, Option.some.injEq, false_iff]; omega
  · simp only [reduceCtorEq, false_iff]; omega

theorem categorize_redirect (status : Nat) :
    SiteIndexer.categorize status = some Category.redirect ↔
      status = 301 ∨ status = 302 ∨ status = 307 ∨ status = 308 := by
  unfold SiteIndexer.categorize
  split_ifs with h1 h2 h3
  · simp only [reduceCtorEq, Option.some.injEq, false_iff]; omega
  · simp only [true_iff]; omega
  · simp only [reduceCtorEq, Option.some.injEq, false_iff]; omega
  · simp only [reduceCtorEq, false_iff]; omega

theorem categorize_healthy (status : Nat) :
    SiteIndexer.categorize status = some Category.healthy ↔ 200 ≤ status ∧ status < 300 := by
  unfold SiteIndexer.categorize
  split_ifs with h1 h2 h3
  · simp only [reduceCtorEq, Option.some.injEq, false_iff]; omega
  · simp only [reduceCtorEq, Option.some.injEq, false_iff]; omega
  · simp only [true_iff]; omega
  · simp only [reduceCtorEq, false_iff]; omega

theorem categorize_none (status : Nat) :
    SiteIndexer.categorize status = none ↔
      status < 200 ∨ (300 ≤ status ∧ status < 500 ∧ status ≠ 301 ∧ status ≠ 302 ∧
        status ≠ 307 ∧ status ≠ 308 ∧ status ≠ 404 ∧ status ≠ 410) := by
  unfold SiteIndexer.categorize
  split_ifs with h1 h2 h3
  · simp only [reduceCtorEq, false_iff]; omega
  · simp only [reduceCtorEq, false_iff]; omega
  · simp only [reduceCtorEq, false_iff]; omega
  · simp only [true_iff]; omega

theorem healthCheckCategory_response {net : Net} {href : Str} {status : Nat}
    {location : Option Str} (h : healthCheckFetch net href = FetchResult.response status location) :
    healthCheckCategory net href =
      if status = 404 ∨ status = 410 ∨ status ≥ 500 then some Category.broken
      else if status ≥ 200 ∧ status < 400 then some Category.healthy
      else none := by
  unfold healthCheckCategory
  rw [h]

theorem healthCheckCategory_aborted {net : Net} {href : Str}
    (h : healthCheckFetch net href = FetchResult.aborted) :
    healthCheckCategory net href = some Category.healthy := by
  unfold healthCheckCategory
  rw [h]

theorem healthCheckCategory_failed {net : Net} {href : Str}
    (h : healthCheckFetch net href = FetchResult.failed) :
    healthCheckCategory net href = some Category.broken := by
  unfold healthCheckCategory
  rw [h]

/-- C11 (amended). Status classification puts a checked link in at most one category,
and some links in none. In `indexPage` a link is broken exactly when the status that
`checkLinkStatus` returns is 404, 410 or at least 500, a redirect exactly when it is
301, 302, 307 or 308, healthy exactly when it is a 2xx status, and in no category for
every other value (0 for a network failure, 408 for a timeout, 1xx, the other 3xx and
4xx). In the health checks of server.js a link is broken exactly when the final
response is 404, 410 or at least 500 or the request fails on the network, healthy
exactly when the final response is a 2xx or 3xx status or the request is aborted by
the timeout, never a redirect, and in no category for the remaining statuses. -/
theorem status_classification (lib : UrlLib) (net : Net) (href : Str) :
    (SiteIndexer.linkCategory lib net href = some Category.broken ↔
      (SiteIndexer.checkLinkStatus lib net href).status = 404 ∨
      (SiteIndexer.checkLinkStatus lib net href).status = 410 ∨
      500 ≤ (SiteIndexer.checkLinkStatus lib net href).status) ∧
    (SiteIndexer.linkCategory lib net href = some Category.redirect ↔
      (SiteIndexer.checkLinkStatus lib net href).status = 301 ∨
      (SiteIndexer.checkLinkStatus lib net href).status = 302 ∨
      (SiteIndexer.checkLinkStatus lib net href).status = 307 ∨
      (SiteIndexer.checkLinkStatus lib net href).status = 308) ∧
    (SiteIndexer.linkCategory lib net href = some Category.healthy ↔
      200 ≤ (SiteIndexer.checkLinkStatus lib net href).status ∧
      (SiteIndexer.checkLinkStatus lib net href).status < 300) ∧
    (SiteIndexer.linkCategory lib net href = none ↔
      (SiteIndexer.checkLinkStatus lib net href).status < 200 ∨
      (300 ≤ (SiteIndexer.checkLinkStatus lib net href).status ∧
        (SiteIndexer.checkLinkStatus lib net href).status < 500 ∧
        (SiteIndexer.checkLinkStatus lib net href).status ≠ 301 ∧
        (SiteIndexer.checkLinkStatus lib net href).status ≠ 302 ∧
        (SiteIndexer.checkLinkStatus lib net href).status ≠ 307 ∧
        (SiteIndexer.checkLinkStatus lib net href).status ≠ 308 ∧
        (SiteIndexer.checkLinkStatus lib net href).status ≠ 404 ∧
        (SiteIndexer.checkLinkStatus lib net href).status ≠ 410)) ∧
    (healthCheckCategory net href = some Category.broken ↔
      (∃ status location, healthCheckFetch net href = FetchResult.response status location ∧
        (status = 404 ∨ status = 410 ∨ 500 ≤ status)) ∨
      healthCheckFetch net href = FetchResult.failed) ∧
    (healthCheckCategory net href = some Category.healthy ↔
      (∃ status location, healthCheckFetch net href = FetchResult.response status location ∧
        200 ≤ status ∧ status < 400) ∨
      healthCheckFetch net href = FetchResult.aborted) ∧
    healthCheckCategory net href ≠ some Category.redirect := by
  refine ⟨categorize_broken _, categorize_redirect _, categorize_healthy _, categorize_none _,
    ?_, ?_, ?_⟩
  · cases h : healthCheckFetch net href with
    | response status location =>
      rw [healthCheckCategory_response h]
      constructor
      · intro hb
        refine Or.inl ⟨status, location, rfl, ?_⟩
        split_ifs at hb with h1 h2
        · omega
        · exact absurd hb (by simp)
      · rintro (⟨st, loc, he, hst⟩ | he)
        · cases he
          rw [if_pos (by omega)]
        · exact absurd he (by simp)
    | aborted =>
      rw [healthCheckCategory_aborted h]
      simp
    | failed =>
      rw [healthCheckCategory_failed h]
      simp
  · cases h : healthCheckFetch net href with
    | response status location =>
      rw [healthCheckCategory_response h]
      constructor
      · intro hb
        refine Or.inl ⟨status, location, rfl, ?_⟩
        split_ifs at hb with h1 h2
        · exact absurd hb (by simp)
        · omega
      · rintro (⟨st, loc, he, hst⟩ | he)
        · cases he
          rw [if_neg (by omega), if_pos (by omega)]
        · exact absurd he (by simp)
    | aborted =>
      rw [healthCheckCategory_aborted h]
      simp
    | failed =>
      rw [healthCheckCategory_failed h]
      simp
  · cases h : healthCheckFetch net href with
    | response status location =>
      rw [healthCheckCategory_response h]
      split_ifs <;> simp
    | aborted =>
      rw [healthCheckCategory_aborted h]
      simp
    | failed =>
      rw [healthCheckCategory_failed h]
      simp

/-- Counterexample to C11 as stated, for the link `http://a.com/x`. In `indexPage`: a
link answered 403 to HEAD and GET is in no category; a link whose requests are aborted
by the timeout gets 408 and is in no category, not healthy; a link answered 303 is in
no category, not a redirect. In the health checks of server.js: a link answered 401 is
in no category; a link answered 302 is healthy, not a redirect; a link whose requests
fail on the network is broken. -/
theorem status_classification_counterexample :
    SiteIndexer.linkCategory plainLib
      (constNet (FetchResult.response 403 none) (FetchResult.response 403 none))
      "http://a.com/x".toList = none ∧
    SiteIndexer.linkCategory plainLib (constNet FetchResult.aborted FetchResult.aborted)
      "http://a.com/x".toList = none ∧
    SiteIndexer.linkCategory plainLib
      (constNet (FetchResult.response 303 (some "http://a.com/y".toList))
        (FetchResult.response 200 none))
      "http://a.com/x".toList = none ∧
    healthCheckCategory
      (constNet (FetchResult.response 401 none) (FetchResult.response 401 none))
      "http://a.com/x".toList = none ∧
    healthCheckCategory
      (constNet (FetchResult.response 302 (some "http://a.com/y".toList))
        (FetchResult.response 200 none))
      "http://a.com/x".toList = some Category.healthy ∧
    healthCheckCategory (constNet FetchResult.failed FetchResult.failed)
      "http://a.com/x".toList = some Category.broken := by
  decide

/-! ## Search: the loops of `GET /api/search` -/

theorem collect_of_forall {α β : Type} (body : α → Option (List β)) (g : α → List β)
    (l : List α) (h : ∀ a ∈ l, body a = some (g a)) : collect body l = some (l.flatMap g) := by
  induction l with
  | nil => rfl
  | cons a rest ih =>
    unfold collect
    rw [h a (List.mem_cons_self a rest), ih (fun b hb => h b (List.mem_cons_of_mem a hb))]
    rfl

theorem mem_of_collect {α β : Type} (body : α → Option (List β)) :
    ∀ (l : List α) (rs : List β), collect body l = some rs → ∀ r ∈ rs,
      ∃ a ∈ l, ∃ found, body a = some found ∧ r ∈ found := by
  intro l
  induction l with
  | nil =>
    intro rs h r hr
    unfold collect at h
    cases Option.some.inj h
    exact absurd hr (List.not_mem_nil r)
  | cons a rest ih =>
    intro rs h r hr
    unfold collect at h
    cases hb : body a with
    | none => rw [hb] at h; exact absurd h (by simp)
    | some found =>
      rw [hb] at h
      cases hc : collect body rest with
      | none => rw [hc] at h; exact absurd h (by simp)
      | some more =>
        rw [hc] at h
        cases Option.some.inj h
        rcases List.mem_append.mp hr with h1 | h1
        · exact ⟨a, List.mem_cons_self a rest, found, hb, h1⟩
        · obtain ⟨b, hb1, f2, hb2, hb3⟩ := ih more hc r h1
          exact ⟨b, List.mem_cons_of_mem a hb1, f2, hb2, hb3⟩

theorem detectLocaleLoop_isSome (js : Runtime) (urlLower : Str) (localePatterns : List Str)
    (h : LocalesCompile js localePatterns) :
    ∃ l, detectLocaleLoop js urlLower localePatterns = some l := by
  induction localePatterns with
  | nil => exact ⟨_, rfl⟩
  | cons locale rest ih =>
    unfold detectLocaleLoop
    obtain ⟨h1, h2⟩ := h locale (List.mem_cons_self locale rest)
    obtain ⟨t1, ht1⟩ := Option.isSome_iff_exists.mp h1
    obtain ⟨t2, ht2⟩ := Option.isSome_iff_exists.mp h2
    rw [ht1, ht2]
    dsimp only
    split
    · exact ⟨_, rfl⟩
    · split
      · exact ⟨_, rfl⟩
      · split
        · exact ⟨_, rfl⟩
        · exact ih (fun l hl => h l (List.mem_cons_of_mem locale hl))

theorem detectLocale_of_compile (js : Runtime) (url : Str) (localePatterns : List Str)
    (h : LocalesCompile js localePatterns) :
    detectLocale js url localePatterns = some (localeOfUrl js localePatterns url) := by
  have hex : ∃ l, detectLocale js url localePatterns = some l := by
    unfold detectLocale
    split
    · exact ⟨_, rfl⟩
    · exact detectLocaleLoop_isSome js _ localePatterns h
  obtain ⟨l, hl⟩ := hex
  unfold localeOfUrl
  rw [hl]
  rfl

theorem searchLink_of_detect (js : Runtime) (q : SearchQuery) (patterns localePatterns : List Str)
    (pageUrl pageLocale : Str) (link : LinkRecord) (targetLocale : Str)
    (h : detectLocale js (js.toLowerCase link.href) localePatterns = some targetLocale) :
    searchLink js q patterns localePatterns pageUrl pageLocale link =
      some (if linkIncluded js q patterns localePatterns pageLocale link targetLocale then
        [resultRecord q localePatterns pageUrl pageLocale link targetLocale] else []) := by
  unfold searchLink linkIncluded resultRecord crossFlag
  dsimp only
  rw [h]
  by_cases hm : q.mode = some "crosslocale".toList ∨ q.mode = some "both".toList
  · simp only [if_pos hm, Option.map_some']
    cases shouldInclude q patterns (patternMatched js patterns link)
        (crossLocaleTest localePatterns pageLocale targetLocale) <;>
      cases decide (q.excludeLocaleSwitcher = some "true".toList) <;>
      cases searchSwitcherTest js link.text <;> rfl
  · simp only [if_neg hm]
    cases shouldInclude q patterns (patternMatched js patterns link) false <;>
      cases decide (q.excludeLocaleSwitcher = some "true".toList) <;>
      cases searchSwitcherTest js link.text <;> rfl

theorem flatMap_ite_singleton {α β : Type} (p : α → Bool) (f : α → β) (l : List α) :
    l.flatMap (fun a => if p a then [f a] else []) = (l.filter p).map f := by
  induction l with
  | nil => rfl
  | cons a rest ih =>
    rw [List.flatMap_cons, ih, List.filter_cons]
    cases p a <;> simp

theorem ite_none_some_nil {β : Type} (b : Bool) (found : List β)
    (h : (if b = true then (none : Option (List β)) else some []) = some found) : found = [] := by
  cases b with
  | true => exact absurd h (by simp)
  | false => exact (Option.some.inj h).symm

theorem searchPage_of_compile (js : Runtime) (q : SearchQuery) (patterns localePatterns : List Str)
    (entry : Str × PageRecord) (h : LocalesCompile js localePatterns) :
    searchPage js q patterns localePatterns entry =
      some (pageResults js q patterns localePatterns entry) := by
  unfold searchPage pageResults
  rw [detectLocale_of_compile js entry.1 localePatterns h]
  dsimp only
  split
  · rfl
  · rw [collect_of_forall _
      (fun link =>
        if linkIncluded js q patterns localePatterns (localeOfUrl js localePatterns entry.1) link
            (localeOfUrl js localePatterns (js.toLowerCase link.href)) then
          [resultRecord q localePatterns entry.1 (localeOfUrl js localePatterns entry.1) link
            (localeOfUrl js localePatterns (js.toLowerCase link.href))]
        else []) entry.2.links
      (fun link _ => searchLink_of_detect js q patterns localePatterns entry.1 _ link _
        (detectLocale_of_compile js _ localePatterns h))]
    rw [flatMap_ite_singleton]

theorem search_of_compile (js : Runtime) (index : Index) (q : SearchQuery)
    (h : LocalesCompile js (parseList js q.otherLocales)) :
    search js index q =
      some (index.pages.flatMap
        (pageResults js q (parseList js q.pattern) (parseList js q.otherLocales))) := by
  unfold search
  exact collect_of_forall _ _ index.pages
    (fun entry _ => searchPage_of_compile js q _ _ entry h)

theorem search_mem (js : Runtime) (index : Index) (q : SearchQuery) (rs : List SearchResult)
    (h : search js index q = some rs) (r : SearchResult) (hr : r ∈ rs) :
    ∃ entry ∈ index.pages, ∃ link ∈ entry.2.links, ∃ pageLocale targetLocale,
      detectLocale js entry.1 (parseList js q.otherLocales) = some pageLocale ∧
      skipsPage q pageLocale = false ∧
      detectLocale js (js.toLowerCase link.href) (parseList js q.otherLocales) =
        some targetLocale ∧
      linkIncluded js q (parseList js q.pattern) (parseList js q.otherLocales) pageLocale link
        targetLocale = true ∧
      r = resultRecord q (parseList js q.otherLocales) entry.1 pageLocale link targetLocale := by
  unfold search at h
  obtain ⟨entry, he, found, hf, hrf⟩ := mem_of_collect _ _ _ h r hr
  unfold searchPage at hf
  cases hp : detectLocale js entry.1 (parseList js q.otherLocales) with
  | none => rw [hp] at hf; exact absurd hf (by simp)
  | some pageLocale =>
    rw [hp] at hf
    dsimp only at hf
    cases hs : skipsPage q pageLocale with
    | true =>
      rw [hs, if_pos rfl] at hf
      cases Option.some.inj hf
      exact absurd hrf (List.not_mem_nil r)
    | false =>
      rw [hs, if_neg (by simp)] at hf
      obtain ⟨link, hl, found2, hf2, hrf2⟩ := mem_of_collect _ _ _ hf r hrf
      cases ht : detectLocale js (js.toLowerCase link.href) (parseList js q.otherLocales) with
      | none =>
        exfalso
        unfold searchLink at hf2
        dsimp only at hf2
        rw [ht] at hf2
        by_cases hm : q.mode = some "crosslocale".toList ∨ q.mode = some "both".toList
        · rw [if_pos hm] at hf2
          exact absurd hf2 (by simp)
        · rw [if_neg hm] at hf2
          dsimp only at hf2
          rw [ite_none_some_nil _ _ hf2] at hrf2
          exact absurd hrf2 (List.not_mem_nil r)
      | some targetLocale =>
        rw [searchLink_of_detect js q _ _ entry.1 pageLocale link targetLocale ht] at hf2
        cases Option.some.inj hf2
        by_cases hi : linkIncluded js q (parseList js q.pattern) (parseList js q.otherLocales)
            pageLocale link targetLocale = true
        · rw [if_pos hi, List.mem_singleton] at hrf2
          exact ⟨entry, he, link, hl, pageLocale, targetLocale, hp, hs, ht, hi, hrf2⟩
        · rw [if_neg hi] at hrf2
          exact absurd hrf2 (List.not_mem_nil r)

theorem mem_pageResults (js : Runtime) (q : SearchQuery) (patterns localePatterns : List Str)
    (entry : Str × PageRecord) (r : SearchResult) :
    r ∈ pageResults js q patterns localePatterns entry ↔
      skipsPage q (localeOfUrl js localePatterns entry.1) = false ∧
      ∃ link ∈ entry.2.links,
        linkIncluded js q patterns localePatterns (localeOfUrl js localePatterns entry.1) link
          (localeOfUrl js localePatterns (js.toLowerCase link.href)) = true ∧
        r = resultRecord q localePatterns entry.1 (localeOfUrl js localePatterns entry.1) link
          (localeOfUrl js localePatterns (js.toLowerCase link.href)) := by
  unfold pageResults
  cases hs : skipsPage q (localeOfUrl js localePatterns entry.1) with
  | true => simp
  | false =>
    simp only [Bool.false_eq_true, if_false, List.mem_map, List.mem_filter, true_and]
    constructor
    · rintro ⟨link, ⟨hl, hi⟩, rfl⟩
      exact ⟨link, hl, hi, rfl⟩
    · rintro ⟨link, hl, hi, rfl⟩
      exact ⟨link, ⟨hl, hi⟩, rfl⟩

theorem mem_search_keys (js : Runtime) (index : Index) (q : SearchQuery)
    (k : Str × Option Str × Str) :
    k ∈ (index.pages.flatMap
        (pageResults js q (parseList js q.pattern) (parseList js q.otherLocales))).map
        SearchResult.key ↔
      ∃ entry ∈ index.pages, ∃ link ∈ entry.2.links,
        skipsPage q (localeOfUrl js (parseList js q.otherLocales) entry.1) = false ∧
        linkIncluded js q (parseList js q.pattern) (parseList js q.otherLocales)
          (localeOfUrl js (parseList js q.otherLocales) entry.1) link
          (localeOfUrl js (parseList js q.otherLocales) (js.toLowerCase link.href)) = true ∧
        k = LinkRecord.key entry.1 link := by
  simp only [List.mem_map, List.mem_flatMap, mem_pageResults]
  constructor
  · rintro ⟨r, ⟨entry, he, hs, link, hl, hi, rfl⟩, rfl⟩
    exact ⟨entry, he, link, hl, hs, hi, rfl⟩
  · rintro ⟨entry, he, link, hl, hs, hi, rfl⟩
    exact ⟨_, ⟨entry, he, hs, link, hl, hi, rfl⟩, rfl⟩

theorem parseList_none (js : Runtime) : parseList js none = [] := rfl

theorem linkIncluded_pattern_mode (js : Runtime) (q : SearchQuery) (patterns localePatterns : List Str)
    (pageLocale : Str) (link : LinkRecord) (targetLocale : Str)
    (hmode : q.mode = some "pattern".toList) :
    linkIncluded js q patterns localePatterns pageLocale link targetLocale =
      (patternMatched js patterns link &&
        !(decide (q.excludeLocaleSwitcher = some "true".toList) &&
          searchSwitcherTest js link.text)) := by
  unfold linkIncluded shouldInclude
  rw [if_pos hmode]

theorem linkIncluded_crosslocale_mode (js : Runtime) (q : SearchQuery) (localePatterns : List Str)
    (pageLocale : Str) (link : LinkRecord) (targetLocale : Str)
    (hmode : q.mode = some "crosslocale".toList) :
    linkIncluded js q [] localePatterns pageLocale link targetLocale =
      (crossLocaleTest localePatterns pageLocale targetLocale &&
        !(decide (q.excludeLocaleSwitcher = some "true".toList) &&
          searchSwitcherTest js link.text)) := by
  unfold linkIncluded shouldInclude crossFlag
  rw [if_neg (by rw [hmode]; decide), if_pos hmode, if_pos (Or.inl hmode)]
  rfl

theorem linkIncluded_both_mode (js : Runtime) (q : SearchQuery) (patterns localePatterns : List Str)
    (pageLocale : Str) (link : LinkRecord) (targetLocale : Str)
    (hmode : q.mode = some "both".toList) :
    linkIncluded js q patterns localePatterns pageLocale link targetLocale =
      ((patternMatched js patterns link ||
          crossLocaleTest localePatterns pageLocale targetLocale) &&
        !(decide (q.excludeLocaleSwitcher = some "true".toList) &&
          searchSwitcherTest js link.text)) := by
  unfold linkIncluded shouldInclude crossFlag
  rw [if_neg (by rw [hmode]; decide), if_neg (by rw [hmode]; decide), if_pos hmode,
    if_pos (Or.inr hmode)]

theorem skipsPage_pattern_mode (q : SearchQuery) (pageLocale : Str)
    (hmode : q.mode = some "pattern".toList) : skipsPage q pageLocale = false := by
  unfold skipsPage
  rw [if_neg (by rw [hmode]; decide)]

theorem patternMatched_eq_any (js : Runtime) (patterns : List Str) (link : LinkRecord) :
    patternMatched js patterns link =
      patterns.any (fun p =>
        includes (js.toLowerCase link.href) p || includes (js.toLowerCase link.text) p) := by
  unfold patternMatched
  cases patterns with
  | nil => rfl
  | cons p rest => simp

/-! ## Search: the modes -/

theorem searchIndex_pattern_only (js : Runtime) (index : Index) (searchPattern : Option Str) :
    SiteIndexer.searchIndex js (some index) searchPattern {} =
      index.pages.flatMap (fun entry =>
        (entry.2.links.filter (fun link =>
          (parseList js searchPattern).any (SiteIndexer.patternHit js link.href))).map
          (SiteIndexer.patternFinding entry.1 entry.2)) := by
  unfold SiteIndexer.searchIndex
  dsimp only
  congr 1
  funext entry
  have hs : SiteIndexer.skipsPage {} entry.2 = false := rfl
  rw [hs]
  simp only [Bool.false_eq_true, if_false]
  rw [← flatMap_ite_singleton]
  congr 1
  funext link
  unfold SiteIndexer.searchLink SiteIndexer.patternFinding
  have hx : SiteIndexer.crossLocaleHit js {} entry.2 link = false := rfl
  rw [hx]
  cases hp : parseList js searchPattern with
  | nil => rfl
  | cons p rest => simp

/-- C12 (amended). Pattern search of `GET /api/search`: for every index and every query
in mode pattern whose locale patterns give regular expressions the engine accepts, the
response lists, in page order then link order, one entry for each link whose
lower-cased href or lower-cased anchor text contains one of the trimmed, lower-cased,
non-empty patterns as a substring (a pattern written `/regex/` is a substring like any
other), except, when `excludeLocaleSwitcher` is `'true'`, the links the locale-switcher
test takes; and no other entry. Each entry carries the URL of the page that holds the
link. In `SiteIndexer.searchIndex` without cross-locale mode and source-locale filter,
the findings are, in page order then link order, the links whose href contains a
pattern in lower case, or matches it as a regular expression when the pattern is
written `/regex/` and compiles. -/
theorem search_pattern_mode (js : Runtime) (index : Index) (q : SearchQuery)
    (searchPattern : Option Str) (hmode : q.mode = some "pattern".toList)
    (hc : LocalesCompile js (parseList js q.otherLocales)) :
    (search js index q).map (List.map SearchResult.key) =
      some (index.pages.flatMap (fun entry =>
        (entry.2.links.filter (fun link =>
          (parseList js q.pattern).any (fun p =>
            includes (js.toLowerCase link.href) p || includes (js.toLowerCase link.text) p) &&
          !(decide (q.excludeLocaleSwitcher = some "true".toList) &&
            searchSwitcherTest js link.text))).map (LinkRecord.key entry.1))) ∧
    SiteIndexer.searchIndex js (some index) searchPattern {} =
      index.pages.flatMap (fun entry =>
        (entry.2.links.filter (fun link =>
          (parseList js searchPattern).any (SiteIndexer.patternHit js link.href))).map
          (SiteIndexer.patternFinding entry.1 entry.2)) := by
  refine ⟨?_, searchIndex_pattern_only js index searchPattern⟩
  rw [search_of_compile js index q hc, Option.map_some', List.map_flatMap]
  congr 2
  funext entry
  unfold pageResults
  rw [skipsPage_pattern_mode q _ hmode]
  simp only [Bool.false_eq_true, if_false, List.map_map]
  have hk : (SearchResult.key ∘ fun link =>
      resultRecord q (parseList js q.otherLocales) entry.1
        (localeOfUrl js (parseList js q.otherLocales) entry.1) link
        (localeOfUrl js (parseList js q.otherLocales) (js.toLowerCase link.href))) =
      LinkRecord.key entry.1 := rfl
  rw [hk]
  congr 2
  funext link
  rw [linkIncluded_pattern_mode js q _ _ _ link _ hmode, patternMatched_eq_any]

/-- Witness of C12: on the fixture index, the pattern `contact,about` gives the contact
link under page A and the about link under page B, and nothing else. -/
theorem search_pattern_mode_witness :
    (search plainRuntime fixtureIndex
        { mode := some "pattern".toList, pattern := some "contact,about".toList }).map
      (List.map SearchResult.key) =
      some [("http://a.com/a".toList, some "http://a.com/contact".toList, "Contact".toList),
            ("http://a.com/b".toList, some "http://a.com/about".toList, "About".toList)] ∧
    (SiteIndexer.searchIndex plainRuntime (some fixtureIndex) (some "contact,about".toList) {}).map
      (fun f => (f.sourcePage, f.linkedTo)) =
      [("http://a.com/a".toList, "http://a.com/contact".toList),
       ("http://a.com/b".toList, "http://a.com/about".toList)] :=
  ⟨(search_pattern_mode plainRuntime fixtureIndex
      { mode := some "pattern".toList, pattern := some "contact,about".toList }
      (some "contact,about".toList) rfl
      (fun l hl => absurd hl (List.not_mem_nil l))).1.trans (by decide),
    (congrArg (List.map (fun f => (f.sourcePage, f.linkedTo)))
      (search_pattern_mode plainRuntime fixtureIndex
        { mode := some "pattern".toList, pattern := some "contact,about".toList }
        (some "contact,about".toList) rfl
        (fun l hl => absurd hl (List.not_mem_nil l))).2).trans (by decide)⟩

/-- Counterexample to C12 as stated. The pattern `contact` returns the link to
`http://a.com/x` with the text `Contact us`, whose href does not contain the pattern;
and the pattern `/contact/` returns nothing on the fixture index although the regular
expression `contact` matches the href `http://a.com/contact`, which
`SiteIndexer.searchIndex` finds. -/
theorem search_pattern_mode_counterexample :
    search plainRuntime textIndex
        { mode := some "pattern".toList, pattern := some "contact".toList } =
      some [{ sourceUrl := "http://a.com/a".toList
              sourceLocale := "default".toList
              targetUrl := some "http://a.com/x".toList
              targetLocale := "default".toList
              linkText := "Contact us".toList
              crossLocale := false }] ∧
    includes (toLowerCase "http://a.com/x".toList) "contact".toList = false ∧
    search plainRuntime fixtureIndex
        { mode := some "pattern".toList, pattern := some "/contact/".toList } = some [] ∧
    (SiteIndexer.searchIndex plainRuntime (some fixtureIndex) (some "/contact/".toList) {}).map
      (fun f => (f.sourcePage, f.linkedTo)) =
      [("http://a.com/a".toList, "http://a.com/contact".toList)] := by
  decide

theorem skipsPage_mode_irrelevant (q : SearchQuery) (pageLocale : Str) :
    skipsPage { q with mode := some "crosslocale".toList, pattern := none } pageLocale =
      skipsPage { q with mode := some "both".toList } pageLocale := by
  unfold skipsPage
  rw [if_pos (Or.inl rfl), if_pos (Or.inr rfl)]

theorem skipsPage_of_no_source (q : SearchQuery) (pageLocale : Str)
    (h : truthy q.sourceLocale = false) : skipsPage q pageLocale = false := by
  unfold skipsPage
  split
  · rw [if_neg (by rw [h]; simp)]
  · rfl

/-- C13 (amended). Mode both against the other two modes, for every index, pattern
list, source-locale filter, other-locale list and switcher flag whose locale patterns
give regular expressions the engine accepts: the links returned in mode both are the
links returned in mode pattern that sit on a page passing the source-locale filter,
together with the links returned in mode crosslocale with the pattern left out. When
no source-locale filter is given, mode both is the union of the two. -/
theorem search_both_mode (js : Runtime) (index : Index) (q : SearchQuery)
    (hc : LocalesCompile js (parseList js q.otherLocales)) :
    ∃ both pattern cross,
      search js index { q with mode := some "both".toList } = some both ∧
      search js index { q with mode := some "pattern".toList } = some pattern ∧
      search js index { q with mode := some "crosslocale".toList, pattern := none } =
        some cross ∧
      (∀ k, k ∈ both.map SearchResult.key ↔
        (∃ r ∈ pattern, r.key = k ∧
          skipsPage { q with mode := some "both".toList } r.sourceLocale = false) ∨
        k ∈ cross.map SearchResult.key) ∧
      (truthy q.sourceLocale = false →
        ∀ k, k ∈ both.map SearchResult.key ↔
          k ∈ pattern.map SearchResult.key ∨ k ∈ cross.map SearchResult.key) := by
  have hb := search_of_compile js index { q with mode := some "both".toList } hc
  have hp := search_of_compile js index { q with mode := some "pattern".toList } hc
  have hx := search_of_compile js index
    { q with mode := some "crosslocale".toList, pattern := none } hc
  have main : ∀ k, k ∈ (index.pages.flatMap
        (pageResults js { q with mode := some "both".toList } (parseList js q.pattern)
          (parseList js q.otherLocales))).map SearchResult.key ↔
      (∃ r ∈ index.pages.flatMap
          (pageResults js { q with mode := some "pattern".toList } (parseList js q.pattern)
            (parseList js q.otherLocales)),
        r.key = k ∧ skipsPage { q with mode := some "both".toList } r.sourceLocale = false) ∨
      k ∈ (index.pages.flatMap
        (pageResults js { q with mode := some "crosslocale".toList, pattern := none }
          (parseList js none) (parseList js q.otherLocales))).map SearchResult.key := by
    intro k
    rw [mem_search_keys js index { q with mode := some "both".toList } k,
      mem_search_keys js index { q with mode := some "crosslocale".toList, pattern := none } k]
    simp only [List.mem_flatMap, mem_pageResults]
    constructor
    · rintro ⟨entry, he, link, hl, hs, hi, rfl⟩
      rw [linkIncluded_both_mode js _ _ _ _ link _ rfl] at hi
      simp only [Bool.and_eq_true, Bool.or_eq_true] at hi
      rcases hi.1 with hpm | hcl
      · left
        refine ⟨_, ⟨entry, he, skipsPage_pattern_mode _ _ rfl, link, hl, ?_, rfl⟩, rfl, hs⟩
        rw [linkIncluded_pattern_mode js _ _ _ _ link _ rfl]
        simp only [Bool.and_eq_true]
        exact ⟨hpm, hi.2⟩
      · right
        refine ⟨entry, he, link, hl, ?_, ?_, rfl⟩
        · rw [skipsPage_mode_irrelevant]
          exact hs
        · have e := linkIncluded_crosslocale_mode js
            { q with mode := some "crosslocale".toList, pattern := none }
            (parseList js q.otherLocales)
            (localeOfUrl js (parseList js q.otherLocales) entry.1) link
            (localeOfUrl js (parseList js q.otherLocales) (js.toLowerCase link.href)) rfl
          rw [parseList_none]
          rw [e]
          simp only [Bool.and_eq_true]
          exact ⟨hcl, hi.2⟩
    · rintro (⟨r, ⟨entry, he, _, link, hl, hi, rfl⟩, rfl, hs⟩ | ⟨entry, he, link, hl, hs, hi, rfl⟩)
      · refine ⟨entry, he, link, hl, hs, ?_, rfl⟩
        rw [linkIncluded_pattern_mode js _ _ _ _ link _ rfl] at hi
        rw [linkIncluded_both_mode js _ _ _ _ link _ rfl]
        simp only [Bool.and_eq_true, Bool.or_eq_true] at hi ⊢
        exact ⟨Or.inl hi.1, hi.2⟩
      · refine ⟨entry, he, link, hl, ?_, ?_, rfl⟩
        · rw [← skipsPage_mode_irrelevant]
          exact hs
        · rw [parseList_none] at hi
          rw [linkIncluded_crosslocale_mode js _ _ _ link _ rfl] at hi
          rw [linkIncluded_both_mode js _ _ _ _ link _ rfl]
          simp only [Bool.and_eq_true, Bool.or_eq_true] at hi ⊢
          exact ⟨Or.inr hi.1, hi.2⟩
  refine ⟨_, _, _, hb, hp, hx, main, ?_⟩
  intro hsrc k
  rw [main k]
  constructor
  · rintro (⟨r, hr, rfl, _⟩ | h)
    · exact Or.inl (List.mem_map_of_mem _ hr)
    · exact Or.inr h
  · rintro (h | h)
    · obtain ⟨r, hr, rfl⟩ := List.mem_map.mp h
      exact Or.inl ⟨r, hr, rfl, skipsPage_of_no_source _ _ hsrc⟩
    · exact Or.inr h

/-- Witness of C13: on the index whose page `http://a.com/` links to `http://a.com/de/`
(text `Deutsch`) and to `http://a.com/de/preise` (text `Preise`), with the pattern
`preise`, the other locale `de` and no source-locale filter. -/
theorem search_both_mode_witness :
    ∃ both pattern cross,
      search plainRuntime switcherIndex
        { mode := some "both".toList, pattern := some "preise".toList,
          otherLocales := some "de".toList } = some both ∧
      search plainRuntime switcherIndex
        { mode := some "pattern".toList, pattern := some "preise".toList,
          otherLocales := some "de".toList } = some pattern ∧
      search plainRuntime switcherIndex
        { mode := some "crosslocale".toList, pattern := none,
          otherLocales := some "de".toList } = some cross ∧
      (∀ k, k ∈ both.map SearchResult.key ↔
        (∃ r ∈ pattern, r.key = k ∧
          skipsPage { mode := some "both".toList, pattern := some "preise".toList,
                      otherLocales := some "de".toList } r.sourceLocale = false) ∨
        k ∈ cross.map SearchResult.key) ∧
      (truthy (none : Option Str) = false →
        ∀ k, k ∈ both.map SearchResult.key ↔
          k ∈ pattern.map SearchResult.key ∨ k ∈ cross.map SearchResult.key) :=
  search_both_mode plainRuntime switcherIndex
    { pattern := some "preise".toList, otherLocales := some "de".toList } (by decide)

/-- Counterexample to C13 as stated: on the index whose page `http://a.com/de/x` links
to `http://a.com/de/contact`, with the pattern `contact`, the source-locale filter
`default` and the other locale `de`, mode pattern returns the link and mode both
returns nothing, because mode both skips the page. -/
theorem search_both_mode_counterexample :
    search plainRuntime germanIndex
        { mode := some "pattern".toList, pattern := some "contact".toList,
          sourceLocale := some "default".toList, otherLocales := some "de".toList } =
      some [{ sourceUrl := "http://a.com/de/x".toList
              sourceLocale := "de".toList
              targetUrl := some "http://a.com/de/contact".toList
              targetLocale := "de".toList
              linkText := "Kontakt".toList
              crossLocale := false }] ∧
    search plainRuntime germanIndex
        { mode := some "both".toList, pattern := some "contact".toList,
          sourceLocale := some "default".toList, otherLocales := some "de".toList } = some [] ∧
    search plainRuntime germanIndex
        { mode := some "crosslocale".toList, pattern := none,
          sourceLocale := some "default".toList, otherLocales := some "de".toList } =
      some [] := by
  decide

theorem crossLocaleTest_true {localePatterns : List Str} {pageLocale targetLocale : Str}
    (h : crossLocaleTest localePatterns pageLocale targetLocale = true) :
    pageLocale ≠ targetLocale ∧
      (targetLocale ∈ localePatterns ∨
        (pageLocale ≠ "default".toList ∧ targetLocale = "default".toList)) := by
  unfold crossLocaleTest at h
  split at h
  · rename_i h1
    split at h
    · rename_i h2
      exact ⟨h1.1, h2⟩
    · exact absurd h (by simp)
  · exact absurd h (by simp)

theorem searchIndex_mem (js : Runtime) (index : Index) (searchPattern : Option Str)
    (options : SearchOptions) (f : IndexFinding)
    (hf : f ∈ SiteIndexer.searchIndex js (some index) searchPattern options) :
    ∃ entry ∈ index.pages, ∃ link ∈ entry.2.links,
      SiteIndexer.skipsPage options entry.2 = false ∧
      f ∈ SiteIndexer.searchLink js (parseList js searchPattern) options entry.1 entry.2 link := by
  unfold SiteIndexer.searchIndex at hf
  dsimp only at hf
  obtain ⟨entry, he, hf2⟩ := List.mem_flatMap.mp hf
  cases hs : SiteIndexer.skipsPage options entry.2 with
  | true =>
    rw [hs, if_pos rfl] at hf2
    exact absurd hf2 (List.not_mem_nil f)
  | false =>
    rw [hs, if_neg (by simp)] at hf2
    obtain ⟨link, hl, hf3⟩ := List.mem_flatMap.mp hf2
    exact ⟨entry, he, link, hl, hs, hf3⟩

theorem orString_of_truthy {v : Option Str} (fallback : Str) (h : truthy v = true) :
    some (orString v fallback) = v := by
  unfold orString
  rw [if_pos h]
  cases v with
  | none => exact absurd h (by simp [truthy])
  | some s => rfl

theorem orString_ne {v : Option Str} {s : Str} (h : v ≠ some s) (hs : s ≠ "default".toList) :
    orString v "default".toList ≠ s := by
  unfold orString
  split
  · rename_i ht
    intro he
    apply h
    rw [← he]
    exact (orString_of_truthy "default".toList ht).symm.trans (by unfold orString; rw [if_pos ht])
  · exact fun he => hs he.symm

/-- C14 (amended). Cross-locale search, no pattern given. Every entry that
`GET /api/search` returns in mode crosslocale is flagged, has a target locale that
differs from the locale of its source page, and this target locale is one of the
configured other-locale codes or, when the source page has a locale, the value
`default` of a target without locale; and the search returns whenever the locale
patterns give regular expressions the engine accepts. Every finding of
`SiteIndexer.searchIndex` in cross-locale mode is an internal link of type
`cross_locale` whose target locale is one of the configured codes when the source page
has the locale `default`, and differs from the locale of the source page otherwise. -/
theorem search_crosslocale_mode (js : Runtime) (index : Index) (q : SearchQuery)
    (options : SearchOptions) (searchPattern : Option Str)
    (hmode : q.mode = some "crosslocale".toList) (hpat : parseList js q.pattern = [])
    (hcross : options.crossLocaleMode = true) (hpat2 : parseList js searchPattern = []) :
    (∀ rs, search js index q = some rs → ∀ r ∈ rs,
      r.crossLocale = true ∧ r.sourceLocale ≠ r.targetLocale ∧
      (r.targetLocale ∈ parseList js q.otherLocales ∨
        (r.sourceLocale ≠ "default".toList ∧ r.targetLocale = "default".toList))) ∧
    (LocalesCompile js (parseList js q.otherLocales) → ∃ rs, search js index q = some rs) ∧
    (∀ f ∈ SiteIndexer.searchIndex js (some index) searchPattern options,
      f.isExternal = false ∧ f.findingType = "cross_locale".toList ∧
      ((f.sourceLocale = "default".toList ∧
          f.targetLocale ∈ SiteIndexer.otherLocaleList js options.otherLocales) ∨
        (f.sourceLocale ≠ "default".toList ∧ f.targetLocale ≠ f.sourceLocale))) := by
  refine ⟨?_, fun hc => ⟨_, search_of_compile js index q hc⟩, ?_⟩
  · intro rs h r hr
    obtain ⟨entry, _, link, _, pageLocale, targetLocale, _, _, _, hi, rfl⟩ :=
      search_mem js index q rs h r hr
    rw [hpat, linkIncluded_crosslocale_mode js q _ _ link _ hmode] at hi
    simp only [Bool.and_eq_true] at hi
    have hx := crossLocaleTest_true hi.1
    refine ⟨?_, hx.1, hx.2⟩
    show crossFlag q _ pageLocale targetLocale = true
    unfold crossFlag
    rw [if_pos (Or.inl hmode)]
    exact hi.1
  · intro f hf
    obtain ⟨entry, _, link, _, _, hf2⟩ := searchIndex_mem js index searchPattern options f hf
    unfold SiteIndexer.searchLink at hf2
    rw [hpat2] at hf2
    dsimp only at hf2
    have hm : (decide (0 < ([] : List Str).length) &&
        ([] : List Str).any (SiteIndexer.patternHit js link.href)) = false := rfl
    rw [hm] at hf2
    cases hx : SiteIndexer.crossLocaleHit js options entry.2 link with
    | false =>
      rw [hx, if_neg (by simp)] at hf2
      exact absurd hf2 (List.not_mem_nil f)
    | true =>
      rw [hx, if_pos rfl, if_pos (show (false || true) = true from rfl), List.mem_singleton] at hf2
      subst hf2
      unfold SiteIndexer.crossLocaleHit at hx
      rw [hcross] at hx
      cases hext : link.isExternal with
      | true => rw [hext] at hx; exact absurd hx (by simp)
      | false =>
        rw [hext] at hx
        simp only [Bool.not_false, Bool.and_self, if_true] at hx
        refine ⟨rfl, rfl, ?_⟩
        by_cases hd : orString entry.2.locale "default".toList = "default".toList
        · rw [if_pos hd] at hx
          simp only [Bool.and_eq_true, decide_eq_true_eq] at hx
          left
          refine ⟨hd, ?_⟩
          show orString link.locale "default".toList ∈ _
          have e : orString link.locale "default".toList = link.locale.getD [] := by
            unfold orString
            rw [if_pos hx.1]
          rw [e]
          exact hx.2
        · rw [if_neg hd] at hx
          right
          refine ⟨hd, ?_⟩
          show orString link.locale "default".toList ≠ orString entry.2.locale "default".toList
          exact orString_ne (of_decide_eq_true hx) hd

/-- Witness of C14: on the index whose page `http://a.com/` links to `http://a.com/de/`
and to `http://a.com/de/preise`, with the other locale `de`: both links are returned,
from the locale `default` to the configured locale `de`. -/
theorem search_crosslocale_mode_witness :
    search plainRuntime switcherIndex
        { mode := some "crosslocale".toList, otherLocales := some "de".toList } =
      some [{ sourceUrl := "http://a.com/".toList
              sourceLocale := "default".toList
              targetUrl := some "http://a.com/de/".toList
              targetLocale := "de".toList
              linkText := "Deutsch".toList
              crossLocale := true },
            { sourceUrl := "http://a.com/".toList
              sourceLocale := "default".toList
              targetUrl := some "http://a.com/de/preise".toList
              targetLocale := "de".toList
              linkText := "Preise".toList
              crossLocale := true }] ∧
    (∀ r ∈ [({ sourceUrl := "http://a.com/".toList
               sourceLocale := "default".toList
               targetUrl := some "http://a.com/de/".toList
               targetLocale := "de".toList
               linkText := "Deutsch".toList
               crossLocale := true } : SearchResult),
            { sourceUrl := "http://a.com/".toList
              sourceLocale := "default".toList
              targetUrl := some "http://a.com/de/preise".toList
              targetLocale := "de".toList
              linkText := "Preise".toList
              crossLocale := true }],
      r.crossLocale = true ∧ r.sourceLocale ≠ r.targetLocale ∧
      (r.targetLocale ∈ parseList plainRuntime (some "de".toList) ∨
        (r.sourceLocale ≠ "default".toList ∧ r.targetLocale = "default".toList))) ∧
    (∀ f ∈ SiteIndexer.searchIndex plainRuntime (some switcherIndex) none
        { crossLocaleMode := true, otherLocales := some "de".toList },
      f.isExternal = false ∧ f.findingType = "cross_locale".toList ∧
      ((f.sourceLocale = "default".toList ∧
          f.targetLocale ∈ SiteIndexer.otherLocaleList plainRuntime (some "de".toList)) ∨
        (f.sourceLocale ≠ "default".toList ∧ f.targetLocale ≠ f.sourceLocale))) :=
  ⟨by decide,
    (search_crosslocale_mode plainRuntime switcherIndex
      { mode := some "crosslocale".toList, otherLocales := some "de".toList }
      { crossLocaleMode := true, otherLocales := some "de".toList } none rfl rfl rfl rfl).1 _
      (by decide),
    (search_crosslocale_mode plainRuntime switcherIndex
      { mode := some "crosslocale".toList, otherLocales := some "de".toList }
      { crossLocaleMode := true, otherLocales := some "de".toList } none rfl rfl rfl rfl).2.2⟩

/-- Counterexample to C14 as stated, on the index whose page `http://a.com/de/x` links
to `http://a.com/about` and to `http://a.com/fr/x`. With the other locale `de`,
`GET /api/search` in mode crosslocale returns both links with the target locale
`default`, which is not a configured code. With the other locale `es`,
`SiteIndexer.searchIndex` in cross-locale mode returns both links, with the target
locales `default` and `fr`, none of them configured. -/
theorem search_crosslocale_mode_counterexample :
    (search plainRuntime mixedIndex
        { mode := some "crosslocale".toList, otherLocales := some "de".toList }).map
      (List.map (fun r => (r.sourceLocale, r.targetUrl, r.targetLocale))) =
      some [("de".toList, some "http://a.com/about".toList, "default".toList),
            ("de".toList, some "http://a.com/fr/x".toList, "default".toList)] ∧
    parseList plainRuntime (some "de".toList) = ["de".toList] ∧
    (SiteIndexer.searchIndex plainRuntime (some mixedIndex) none
        { crossLocaleMode := true, otherLocales := some "es".toList }).map
      (fun f => (f.sourceLocale, f.linkedTo, f.targetLocale)) =
      [("de".toList, "http://a.com/about".toList, "default".toList),
       ("de".toList, "http://a.com/fr/x".toList, "fr".toList)] ∧
    SiteIndexer.otherLocaleList plainRuntime (some "es".toList) = ["es".toList] := by
  decide

/-! ## Search: the locale-switcher filter -/

theorem searchSwitcherTest_of_listed (js : Runtime) (text : Str)
    (h : trim (js.toLowerCase text) ∈ LOCALE_SWITCHER_TEXTS) :
    searchSwitcherTest js text = true := by
  unfold searchSwitcherTest
  simp only [Bool.or_eq_true, decide_eq_true_eq]
  exact Or.inl h

/-- Locale-switcher exclusion in `GET /api/search` for the texts its list holds, for
every index and every query whose locale patterns give regular expressions the engine
accepts. A link whose
anchor text, lower-cased and trimmed, is an entry of `LOCALE_SWITCHER_TEXTS` is absent
from the results when `excludeLocaleSwitcher` is `'true'`; and when the parameter has
another value, the same link is in the results whenever the query selects it, that is
whenever its page passes the source-locale filter and the test of the mode (pattern,
cross-locale or either) holds for it. -/
theorem search_switcher_exclusion (js : Runtime) (index : Index) (q : SearchQuery)
    (v : Option Str) (hv : v ≠ some "true".toList)
    (hc : LocalesCompile js (parseList js q.otherLocales)) :
    ∃ excluded included,
      search js index { q with excludeLocaleSwitcher := some "true".toList } = some excluded ∧
      search js index { q with excludeLocaleSwitcher := v } = some included ∧
      ∀ entry ∈ index.pages, ∀ link ∈ entry.2.links,
        trim (js.toLowerCase link.text) ∈ LOCALE_SWITCHER_TEXTS →
          LinkRecord.key entry.1 link ∉ excluded.map SearchResult.key ∧
          (skipsPage q (localeOfUrl js (parseList js q.otherLocales) entry.1) = false →
            shouldInclude q (parseList js q.pattern)
              (patternMatched js (parseList js q.pattern) link)
              (crossFlag q (parseList js q.otherLocales)
                (localeOfUrl js (parseList js q.otherLocales) entry.1)
                (localeOfUrl js (parseList js q.otherLocales) (js.toLowerCase link.href))) =
              true →
            LinkRecord.key entry.1 link ∈ included.map SearchResult.key) := by
  refine ⟨_, _,
    search_of_compile js index { q with excludeLocaleSwitcher := some "true".toList } hc,
    search_of_compile js index { q with excludeLocaleSwitcher := v } hc, ?_⟩
  intro entry he link hl htext
  constructor
  · intro hmem
    rw [mem_search_keys js index { q with excludeLocaleSwitcher := some "true".toList }] at hmem
    obtain ⟨entry2, _, link2, _, _, hi, hk⟩ := hmem
    have htxt : link.text = link2.text := congrArg (fun k => k.2.2) hk
    unfold linkIncluded at hi
    simp only [Bool.and_eq_true, Bool.not_eq_true', Bool.and_eq_false_imp,
      decide_eq_true_eq] at hi
    have hsw := hi.2 trivial
    rw [← htxt, searchSwitcherTest_of_listed js link.text htext] at hsw
    exact absurd hsw (by simp)
  · intro hs hinc
    rw [mem_search_keys js index { q with excludeLocaleSwitcher := v }]
    refine ⟨entry, he, link, hl, hs, ?_, rfl⟩
    unfold linkIncluded
    simp only [Bool.and_eq_true, Bool.not_eq_true', Bool.and_eq_false_imp, decide_eq_true_eq]
    exact ⟨hinc, fun h => absurd h hv⟩

/-- An instance of the exclusion: the link with the text `Deutsch` from `http://a.com/` to
`http://a.com/de/`, in mode crosslocale with the other locale `de`: absent with
`excludeLocaleSwitcher=true`, present with `excludeLocaleSwitcher=false`. -/
theorem search_switcher_exclusion_witness :
    search plainRuntime switcherIndex
        { mode := some "crosslocale".toList, otherLocales := some "de".toList,
          excludeLocaleSwitcher := some "true".toList } =
      some [{ sourceUrl := "http://a.com/".toList
              sourceLocale := "default".toList
              targetUrl := some "http://a.com/de/preise".toList
              targetLocale := "de".toList
              linkText := "Preise".toList
              crossLocale := true }] ∧
    search plainRuntime switcherIndex
        { mode := some "crosslocale".toList, otherLocales := some "de".toList,
          excludeLocaleSwitcher := some "false".toList } =
      some [{ sourceUrl := "http://a.com/".toList
              sourceLocale := "default".toList
              targetUrl := some "http://a.com/de/".toList
              targetLocale := "de".toList
              linkText := "Deutsch".toList
              crossLocale := true },
            { sourceUrl := "http://a.com/".toList
              sourceLocale := "default".toList
              targetUrl := some "http://a.com/de/preise".toList
              targetLocale := "de".toList
              linkText := "Preise".toList
              crossLocale := true }] ∧
    ∃ excluded included,
      search plainRuntime switcherIndex
        { mode := some "crosslocale".toList, otherLocales := some "de".toList,
          excludeLocaleSwitcher := some "true".toList } = some excluded ∧
      search plainRuntime switcherIndex
        { mode := some "crosslocale".toList, otherLocales := some "de".toList,
          excludeLocaleSwitcher := some "false".toList } = some included ∧
      ("http://a.com/".toList, some "http://a.com/de/".toList, "Deutsch".toList) ∉
        excluded.map SearchResult.key ∧
      ("http://a.com/".toList, some "http://a.com/de/".toList, "Deutsch".toList) ∈
        included.map SearchResult.key := by
  refine ⟨by decide, by decide, ?_⟩
  obtain ⟨excluded, included, h1, h2, h3⟩ :=
    search_switcher_exclusion plainRuntime switcherIndex
      { mode := some "crosslocale".toList, otherLocales := some "de".toList }
      (some "false".toList) (by decide) (by decide)
  have h := h3 ("http://a.com/".toList,
      { locale := some "default".toList
        links := [{ href := "http://a.com/de/".toList, text := "Deutsch".toList,
                    locale := some "de".toList },
                  { href := "http://a.com/de/preise".toList, text := "Preise".toList,
                    locale := some "de".toList }] })
    (by decide)
    { href := "http://a.com/de/".toList, text := "Deutsch".toList, locale := some "de".toList }
    (by decide) (by decide)
  exact ⟨excluded, included, h1, h2, h.1, h.2 (by decide) (by decide)⟩

/-- C15. The locale-switcher exclusion of `GET /api/search` misses the native names and
the flag glyphs of the maintained list. With `excludeLocaleSwitcher=true`, in mode
crosslocale with the other locales `fr` and `de`, the links of a locale switcher with
the texts `français` and with the flag of Germany are in the cross-locale findings, and
only the link with the text `Deutsch` is excluded: `LOCALE_SWITCHER_TEXTS` of server.js
does not hold these two texts, which the list of indexer.js that it copies holds, but
the mis-encoded `fran√ßais`. -/
theorem search_keeps_native_switcher :
    search plainRuntime nativeSwitcherIndex
        { mode := some "crosslocale".toList, otherLocales := some "fr,de".toList,
          excludeLocaleSwitcher := some "true".toList } =
      some [{ sourceUrl := "http://a.com/".toList
              sourceLocale := "default".toList
              targetUrl := some "http://a.com/fr/".toList
              targetLocale := "fr".toList
              linkText := "français".toList
              crossLocale := true },
            { sourceUrl := "http://a.com/".toList
              sourceLocale := "default".toList
              targetUrl := some "http://a.com/de/".toList
              targetLocale := "de".toList
              linkText := "🇩🇪".toList
              crossLocale := true }] ∧
    "français".toList ∉ LOCALE_SWITCHER_TEXTS ∧
    "🇩🇪".toList ∉ LOCALE_SWITCHER_TEXTS ∧
    "fran√ßais".toList ∈ LOCALE_SWITCHER_TEXTS ∧
    "français".toList ∈ SiteIndexer.localeSwitcherTexts ∧
    "🇩🇪".toList ∈ SiteIndexer.localeSwitcherTexts := by
  refine ⟨?_, ?_, ?_, ?_, ?_, ?_⟩ <;> decide

/-- C16. The three locale-switcher tests are separate implementations and disagree.
On the text `czech` the test of `GET /api/search` and the filter of `indexPage`
exclude the link while `isLocaleSwitcherLink` keeps it; on `German (DE)` the filter of
`indexPage` and `isLocaleSwitcherLink` exclude it while the test of `GET /api/search`
keeps it; on `français` the filter of `indexPage` excludes it while both tests of
server.js keep it, whose lists hold the name in a corrupted encoding. -/
theorem switcher_tests_differ :
    (searchSwitcherTest plainRuntime "czech".toList = true ∧
      SiteIndexer.switcherTest plainRuntime "czech".toList = true ∧
      isLocaleSwitcherLink plainRuntime "czech".toList = false) ∧
    (searchSwitcherTest plainRuntime "German (DE)".toList = false ∧
      SiteIndexer.switcherTest plainRuntime "German (DE)".toList = true ∧
      isLocaleSwitcherLink plainRuntime "German (DE)".toList = true) ∧
    (searchSwitcherTest plainRuntime "français".toList = false ∧
      SiteIndexer.switcherTest plainRuntime "français".toList = true ∧
      isLocaleSwitcherLink plainRuntime "français".toList = false) := by
  decide

/-! ## URL cleaning: the query string -/

theorem trackingTest_nil : trackingTest [] = false := by decide

theorem cleanRecord_query (u : URL) :
    (SpiderCrawler.cleanRecord u).query =
      if (!u.search.isEmpty && trackingTest u.search) = true then none else u.query := by
  unfold SpiderCrawler.cleanRecord
  split <;> rfl

theorem cleanRecord_tracking (u : URL) :
    trackingTest (SpiderCrawler.cleanRecord u).search = false := by
  unfold SpiderCrawler.cleanRecord
  by_cases hc : (!u.search.isEmpty && trackingTest u.search) = true
  · rw [if_pos hc]
    exact trackingTest_nil
  · rw [if_neg hc]
    have hs : u.clearHash.search = u.search := rfl
    rw [hs]
    cases ht : trackingTest u.search with
    | false => rfl
    | true =>
      rw [ht] at hc
      simp only [Bool.and_true, Bool.not_eq_true', List.isEmpty_eq_false, not_not] at hc
      have he : u.search = [] := by
        cases hq : u.search with
        | nil => rfl
        | cons a l => rw [hq] at hc; exact absurd hc (by simp)
      rw [he] at ht
      rw [trackingTest_nil] at ht
      exact absurd ht (by simp)

/-- The serialisation of a URL with a query and without fragment: the serialisation of
the URL without query, then `?` and the query. -/
theorem toString_with_query (u : URL) (q : Str) (hq : u.query = some q) :
    u.clearHash.toString
      = ({ u with query := none, fragment := none } : URL).toString ++ '?' :: q := by
  cases u
  simp only at hq
  subst hq
  unfold URL.clearHash URL.toString
  simp only [List.append_nil, List.append_assoc]

theorem getLast?_append_query (a q : Str) (h : q.getLast? ≠ some '/') :
    (a ++ '?' :: q).getLast? ≠ some '/' := by
  rw [List.getLast?_append]
  cases q with
  | nil => exact fun h => absurd (Option.some.inj h) (by decide)
  | cons x rest =>
    rw [List.getLast?_cons_cons]
    cases hl : (x :: rest).getLast? with
    | none => exact absurd hl (by simp)
    | some y =>
      rw [hl] at h
      exact h

/-- C21 (amended). What cleaning does to the query string, for every URL library and
every href that it parses, so for every href that `addToQueue` accepts. In
`SpiderCrawler.addToQueue`, when the query string of href has one of `utm_`, `fbclid`,
`gclid`, `session`, `token` right after `?` or `&` (whatever the case of the letters),
the cleaned URL is the serialisation of the URL without any query string (less the
trailing slash, unless it is the bare root); otherwise, when the query does not end in a
slash, the cleaned URL is the serialisation of the URL without query string and
fragment, then `?` and the query of href unchanged. In `SiteIndexer.addToQueue`, when
the query does not end in a slash, the cleaned URL is the serialisation of the URL
without query string and fragment, then `?` and the query of href unchanged, tracking
parameters included. -/
theorem cleaned_query (lib : UrlLib) (href : Str) (u : URL) (hu : lib.parse href = some u) :
    ((!u.search.isEmpty && trackingTest u.search) = true →
      SpiderCrawler.clean lib href =
        some (if ({ u with query := none, fragment := none } : URL).toString ≠ u.root then
            stripTrailingSlash ({ u with query := none, fragment := none } : URL).toString
          else ({ u with query := none, fragment := none } : URL).toString)) ∧
    (∀ q, u.query = some q → (!u.search.isEmpty && trackingTest u.search) = false →
      q.getLast? ≠ some '/' →
      SpiderCrawler.clean lib href =
        some (({ u with query := none, fragment := none } : URL).toString ++ '?' :: q)) ∧
    (∀ q, u.query = some q → q.getLast? ≠ some '/' →
      SiteIndexer.clean lib href =
        some (({ u with query := none, fragment := none } : URL).toString ++ '?' :: q)) := by
  refine ⟨fun ht => ?_, fun q hq ht hl => ?_, fun q hq hl => ?_⟩
  · unfold SpiderCrawler.clean
    rw [hu]
    apply congrArg some
    rw [cleanUrl_eq_crawler]
    have hrec : SpiderCrawler.cleanRecord u = { u with query := none, fragment := none } := by
      unfold SpiderCrawler.cleanRecord
      rw [if_pos ht]
      rfl
    rw [hrec]
    rfl
  · unfold SpiderCrawler.clean
    rw [hu]
    apply congrArg some
    rw [cleanUrl_eq_crawler]
    have hrec : SpiderCrawler.cleanRecord u = u.clearHash := by
      unfold SpiderCrawler.cleanRecord
      rw [if_neg (by rw [ht]; exact Bool.false_ne_true)]
    rw [hrec, toString_with_query u q hq,
      stripTrailingSlash_of_not_last (getLast?_append_query _ q hl)]
    split <;> rfl
  · unfold SiteIndexer.clean
    rw [hu]
    apply congrArg some
    unfold SiteIndexer.cleanUrl
    dsimp only
    rw [toString_with_query u q hq,
      stripTrailingSlash_of_not_last (getLast?_append_query _ q hl)]
    split <;> rfl

/-- Witness of C21 (amended): the href `http://a.com/p?a=1&b=2#x` is cleaned to
`http://a.com/p?a=1&b=2` by the crawler and by the indexer, and the href
`http://a.com/p/?utm_source=x` to `http://a.com/p` by the crawler. -/
theorem cleaned_query_witness :
    SpiderCrawler.clean plainLib "http://a.com/p?a=1&b=2#x".toList =
      some ("http://a.com/p".toList ++ '?' :: "a=1&b=2".toList) ∧
    SiteIndexer.clean plainLib "http://a.com/p?a=1&b=2#x".toList =
      some ("http://a.com/p".toList ++ '?' :: "a=1&b=2".toList) ∧
    SpiderCrawler.clean plainLib "http://a.com/p/?utm_source=x".toList =
      some "http://a.com/p".toList :=
  ⟨(cleaned_query plainLib "http://a.com/p?a=1&b=2#x".toList
      { scheme := "http".toList, host := some "a.com".toList, path := "/p".toList,
        query := some "a=1&b=2".toList, fragment := some "x".toList } (by decide)).2.1
      "a=1&b=2".toList rfl (by decide) (by decide),
    (cleaned_query plainLib "http://a.com/p?a=1&b=2#x".toList
      { scheme := "http".toList, host := some "a.com".toList, path := "/p".toList,
        query := some "a=1&b=2".toList, fragment := some "x".toList } (by decide)).2.2
      "a=1&b=2".toList rfl (by decide),
    (cleaned_query plainLib "http://a.com/p/?utm_source=x".toList
      { scheme := "http".toList, host := some "a.com".toList, path := "/p/".toList,
        query := some "utm_source=x".toList } (by decide)).1 (by decide)⟩

/-- Counterexample to C21 as stated. The crawler started on `http://a.com/` queues
`http://a.com/p` for the href `http://a.com/p?a=1&utm_source=x`: the parameter `a=1`,
which is no tracking parameter, is lost with the whole query. The indexer queues
`http://a.com/p?utm_source=x` as it is, with its tracking parameter. -/
theorem cleaned_query_counterexample :
    (exampleCrawler.addToQueue plainLib "http://a.com/p?a=1&utm_source=x".toList).queue =
      ["http://a.com/".toList, "http://a.com/p".toList] ∧
    plainLib.parseQuery "?a=1&utm_source=x".toList =
      [("a".toList, "1".toList), ("utm_source".toList, "x".toList)] ∧
    (exampleIndexer.addToQueue plainLib "http://a.com/p?utm_source=x".toList).queue =
      ["http://a.com/".toList, "http://a.com/p?utm_source=x".toList] ∧
    plainLib.parseQuery "?utm_source=x".toList = [("utm_source".toList, "x".toList)] := by
  decide

/-! ## The index file name -/

theorem dotsToUnderscores_inj {a b : Str} (ha : '_' ∉ a) (hb : '_' ∉ b)
    (h : dotsToUnderscores a = dotsToUnderscores b) : a = b := by
  induction a generalizing b with
  | nil =>
    cases b with
    | nil => rfl
    | cons y b => exact absurd h (by simp [dotsToUnderscores])
  | cons x a ih =>
    cases b with
    | nil => exact absurd h (by simp [dotsToUnderscores])
    | cons y b =>
      unfold dotsToUnderscores at h
      rw [List.map_cons, List.map_cons] at h
      have h1 := (List.cons.inj h).1
      have h2 := (List.cons.inj h).2
      have hx : x ≠ '_' := fun e => ha (e ▸ List.mem_cons_self x a)
      have hy : y ≠ '_' := fun e => hb (e ▸ List.mem_cons_self y b)
      have hxy : x = y := by
        by_cases e1 : x = '.'
        · by_cases e2 : y = '.'
          · rw [e1, e2]
          · rw [if_pos e1, if_neg e2] at h1
            exact absurd h1.symm hy
        · by_cases e2 : y = '.'
          · rw [if_neg e1, if_pos e2] at h1
            exact absurd h1 hx
          · rw [if_neg e1, if_neg e2] at h1
            exact h1
      rw [hxy, ih (fun m => ha (List.mem_cons_of_mem x m)) (fun m => hb (List.mem_cons_of_mem y m)) h2]

theorem saveIndexFilename_eq (rootDomain : Str) (localeFilter : Option Str) :
    SiteIndexer.saveIndexFilename rootDomain localeFilter =
      dotsToUnderscores rootDomain ++
        ((if truthy localeFilter then '_' :: localeFilter.getD [] else []) ++ ".json".toList) := by
  unfold SiteIndexer.saveIndexFilename
  dsimp only
  split
  · rw [List.append_assoc]
  · rw [List.nil_append]

theorem orElse_none_of_truthy {l : Option Str} (h : truthy l = true) :
    orElse l none = some (l.getD []) := by
  unfold orElse
  rw [if_pos h]
  cases l with
  | none => exact absurd h (by simp [truthy])
  | some s => rfl

theorem orElse_none_of_not_truthy {l : Option Str} (h : truthy l = false) :
    orElse l none = none := by
  unfold orElse
  rw [if_neg (by rw [h]; simp)]

/-- C23 (amended). The file name of an index. The name `saveIndex` derives is the
domain with every dot replaced by an underscore, followed by an underscore and the
locale when a locale filter is set, followed by `.json`; `loadIndex(domain)` reads the
name of the index without locale filter. For one domain, two different locale scopes
give different names; for one locale scope, two different domains without underscore
give different names. -/
theorem saveIndexFilename_spec (domain other : Str) (localeFilter otherFilter : Option Str) :
    SiteIndexer.saveIndexFilename domain localeFilter =
      dotsToUnderscores domain ++
        ((if truthy localeFilter then '_' :: localeFilter.getD [] else []) ++ ".json".toList) ∧
    SiteIndexer.loadIndexFilename domain = SiteIndexer.saveIndexFilename domain none ∧
    (orElse localeFilter none ≠ orElse otherFilter none →
      SiteIndexer.saveIndexFilename domain localeFilter ≠
        SiteIndexer.saveIndexFilename domain otherFilter) ∧
    ('_' ∉ domain → '_' ∉ other → domain ≠ other →
      SiteIndexer.saveIndexFilename domain localeFilter ≠
        SiteIndexer.saveIndexFilename other localeFilter) := by
  refine ⟨saveIndexFilename_eq domain localeFilter, rfl, ?_, ?_⟩
  · intro hne heq
    rw [saveIndexFilename_eq, saveIndexFilename_eq] at heq
    have h := List.append_cancel_left heq
    cases h1 : truthy localeFilter with
    | false =>
      cases h2 : truthy otherFilter with
      | false =>
        exact hne (by rw [orElse_none_of_not_truthy h1, orElse_none_of_not_truthy h2])
      | true =>
        rw [h1, h2, show ".json".toList = '.' :: "json".toList from rfl] at h
        simp only [Bool.false_eq_true, if_false, if_true, List.nil_append, List.cons_append,
          List.cons.injEq] at h
        exact absurd h.1 (by decide)
    | true =>
      cases h2 : truthy otherFilter with
      | false =>
        rw [h1, h2, show ".json".toList = '.' :: "json".toList from rfl] at h
        simp only [Bool.false_eq_true, if_false, if_true, List.nil_append, List.cons_append,
          List.cons.injEq] at h
        exact absurd h.1 (by decide)
      | true =>
        rw [h1, h2] at h
        simp only [if_true, List.cons_append, List.cons.injEq, true_and] at h
        have h3 := List.append_cancel_right h
        exact hne (by rw [orElse_none_of_truthy h1, orElse_none_of_truthy h2, h3])
  · intro h1 h2 hne heq
    rw [saveIndexFilename_eq, saveIndexFilename_eq] at heq
    exact hne (dotsToUnderscores_inj h1 h2 (List.append_cancel_right heq))

/-- Witness of C23: the index of `a.com` with the locale filter `de` is written to
`a_com_de.json`, the index of `a.com` without filter to another file, and the index of
`b.com` with the filter `de` to another one. -/
theorem saveIndexFilename_spec_witness :
    SiteIndexer.saveIndexFilename "a.com".toList (some "de".toList) = "a_com_de.json".toList ∧
    SiteIndexer.saveIndexFilename "a.com".toList (some "de".toList) ≠
      SiteIndexer.saveIndexFilename "a.com".toList none ∧
    SiteIndexer.saveIndexFilename "a.com".toList (some "de".toList) ≠
      SiteIndexer.saveIndexFilename "b.com".toList (some "de".toList) :=
  ⟨(saveIndexFilename_spec "a.com".toList "b.com".toList (some "de".toList) none).1.trans
      (by decide),
    (saveIndexFilename_spec "a.com".toList "b.com".toList (some "de".toList) none).2.2.1
      (by decide),
    (saveIndexFilename_spec "a.com".toList "b.com".toList (some "de".toList) none).2.2.2
      (by decide) (by decide) (by decide)⟩

/-- Counterexample to C23 as stated: the full index of the domain `shop.de` and the
index of the domain `shop` with the locale filter `de` are written to the same file
`shop_de.json`; so are the full indexes of `a.b.com` and of `a_b.com`. -/
theorem saveIndexFilename_spec_counterexample :
    SiteIndexer.saveIndexFilename "shop.de".toList none = "shop_de.json".toList ∧
    SiteIndexer.saveIndexFilename "shop".toList (some "de".toList) = "shop_de.json".toList ∧
    SiteIndexer.saveIndexFilename "a.b.com".toList none =
      SiteIndexer.saveIndexFilename "a_b.com".toList none := by
  decide

/-! ## The retry loops of `crawlPage` and `indexPage` -/

/-- C27 (amended). Retry policy: for every URL, `crawlPage` makes one or two attempts
at navigation and `indexPage` one or two attempts at its body. When the first attempt
succeeds there is no second one and nothing is thrown; when the first attempt fails,
whatever the kind of failure (an already closed page included), a second attempt is
made, and the error of the second attempt is thrown when it fails too. -/
theorem retry_policy (attempt : Nat → Option Failure) :
    (1 ≤ (SpiderCrawler.crawlPageGoto attempt).attempts ∧
      (SpiderCrawler.crawlPageGoto attempt).attempts ≤ 2 ∧
      (attempt 0 = none →
        SpiderCrawler.crawlPageGoto attempt = { attempts := 1, thrown := none }) ∧
      (∀ error, attempt 0 = some error →
        SpiderCrawler.crawlPageGoto attempt = { attempts := 2, thrown := attempt 1 })) ∧
    (1 ≤ (SiteIndexer.indexPageAttempts attempt).attempts ∧
      (SiteIndexer.indexPageAttempts attempt).attempts ≤ 2 ∧
      (attempt 0 = none →
        SiteIndexer.indexPageAttempts attempt = { attempts := 1, thrown := none }) ∧
      (∀ error, attempt 0 = some error →
        SiteIndexer.indexPageAttempts attempt = { attempts := 2, thrown := attempt 1 })) := by
  have hc0 : attempt 0 = none →
      SpiderCrawler.crawlPageGoto attempt = { attempts := 1, thrown := none } := by
    intro h
    unfold SpiderCrawler.crawlPageGoto SpiderCrawler.gotoLoop
    rw [h]
    rfl
  have hc1 : ∀ error, attempt 0 = some error →
      SpiderCrawler.crawlPageGoto attempt = { attempts := 2, thrown := attempt 1 } := by
    intro error h
    unfold SpiderCrawler.crawlPageGoto SpiderCrawler.gotoLoop
    rw [h]
    dsimp only
    unfold SpiderCrawler.gotoLoop
    cases h1 : attempt 1 with
    | none => rfl
    | some e => rfl
  have hi0 : attempt 0 = none →
      SiteIndexer.indexPageAttempts attempt = { attempts := 1, thrown := none } := by
    intro h
    unfold SiteIndexer.indexPageAttempts SiteIndexer.indexPageLoop
    rw [h]
    rfl
  have hi1 : ∀ error, attempt 0 = some error →
      SiteIndexer.indexPageAttempts attempt = { attempts := 2, thrown := attempt 1 } := by
    intro error h
    unfold SiteIndexer.indexPageAttempts SiteIndexer.indexPageLoop
    rw [h]
    dsimp only
    unfold SiteIndexer.indexPageLoop
    cases h1 : attempt 1 with
    | none => rfl
    | some e => rfl
  have hcb : 1 ≤ (SpiderCrawler.crawlPageGoto attempt).attempts ∧
      (SpiderCrawler.crawlPageGoto attempt).attempts ≤ 2 := by
    cases h : attempt 0 with
    | none =>
      rw [hc0 h]
      exact ⟨Nat.le_refl 1, Nat.le_succ 1⟩
    | some e =>
      rw [hc1 e h]
      exact ⟨Nat.le_succ 1, Nat.le_refl 2⟩
  have hib : 1 ≤ (SiteIndexer.indexPageAttempts attempt).attempts ∧
      (SiteIndexer.indexPageAttempts attempt).attempts ≤ 2 := by
    cases h : attempt 0 with
    | none =>
      rw [hi0 h]
      exact ⟨Nat.le_refl 1, Nat.le_succ 1⟩
    | some e =>
      rw [hi1 e h]
      exact ⟨Nat.le_succ 1, Nat.le_refl 2⟩
  exact ⟨⟨hcb.1, hcb.2, hc0, hc1⟩, ⟨hib.1, hib.2, hi0, hi1⟩⟩

/-- Counterexample to C27 as stated: when the first attempt fails because the page is
already closed and the second one succeeds, `crawlPage` and `indexPage` make both
attempts and throw nothing; when the page stays closed they throw after the second
attempt, not after the first. -/
theorem retry_policy_counterexample :
    SpiderCrawler.crawlPageGoto (fun made => if made = 0 then some Failure.pageClosed else none) =
      { attempts := 2, thrown := none } ∧
    SiteIndexer.indexPageAttempts (fun made => if made = 0 then some Failure.pageClosed else none) =
      { attempts := 2, thrown := none } ∧
    SpiderCrawler.crawlPageGoto (fun _ => some Failure.pageClosed) =
      { attempts := 2, thrown := some Failure.pageClosed } ∧
    SiteIndexer.indexPageAttempts (fun _ => some Failure.pageClosed) =
      { attempts := 2, thrown := some Failure.pageClosed } := by
  decide

/-! ## The batched link check `checkLinksStatus` -/

theorem keys_mapSet {β : Type} (m : List (Str × β)) (key : Str) (value : β) :
    (mapSet m key value).map Prod.fst =
      if key ∈ m.map Prod.fst then m.map Prod.fst else m.map Prod.fst ++ [key] := by
  induction m with
  | nil => simp [mapSet]
  | cons e rest ih =>
    obtain ⟨k, v⟩ := e
    unfold mapSet
    by_cases hk : k = key
    · rw [if_pos hk]
      subst hk
      rw [if_pos (by rw [List.map_cons]; exact List.mem_cons_self _ _)]
      rfl
    · rw [if_neg hk, List.map_cons, ih]
      have hk2 : ¬ key = k := fun e => hk e.symm
      by_cases hm : key ∈ rest.map Prod.fst
      · rw [if_pos hm, if_pos (by simp [hm])]
        rfl
      · rw [if_neg hm, if_neg (by simp [hm, hk2])]
        rfl

theorem mem_mapSet {β : Type} (m : List (Str × β)) (key : Str) (value : β) (e : Str × β)
    (h : e ∈ mapSet m key value) : e ∈ m ∨ e = (key, value) := by
  induction m with
  | nil =>
    unfold mapSet at h
    exact Or.inr (List.mem_singleton.mp h)
  | cons x rest ih =>
    obtain ⟨k, v⟩ := x
    unfold mapSet at h
    by_cases hk : k = key
    · rw [if_pos hk] at h
      subst hk
      rcases List.mem_cons.mp h with h1 | h1
      · exact Or.inr h1
      · exact Or.inl (List.mem_cons_of_mem _ h1)
    · rw [if_neg hk] at h
      rcases List.mem_cons.mp h with h1 | h1
      · exact Or.inl (by rw [h1]; exact List.mem_cons_self _ _)
      · rcases ih h1 with h2 | h2
        · exact Or.inl (List.mem_cons_of_mem _ h2)
        · exact Or.inr h2

theorem nodup_keys_mapSet {β : Type} (m : List (Str × β)) (key : Str) (value : β)
    (h : (m.map Prod.fst).Nodup) : ((mapSet m key value).map Prod.fst).Nodup := by
  rw [keys_mapSet]
  split
  · exact h
  · rename_i hk
    rw [List.nodup_append]
    refine ⟨h, List.nodup_singleton key, ?_⟩
    intro a ha hb
    rw [List.mem_singleton] at hb
    subst hb
    exact hk ha

theorem mem_keys_mapSet {β : Type} (m : List (Str × β)) (key : Str) (value : β) (k : Str) :
    k ∈ (mapSet m key value).map Prod.fst ↔ k ∈ m.map Prod.fst ∨ k = key := by
  rw [keys_mapSet]
  split
  · rename_i hk
    constructor
    · exact fun h => Or.inl h
    · rintro (h | h)
      · exact h
      · rw [h]; exact hk
  · rw [List.mem_append, List.mem_singleton]

/-- The map after the checks of `links` have been entered into `results`. -/
theorem foldl_mapSet_facts (status : Str → Nat) (links : List LinkRecord)
    (results : List (Str × Nat)) (hn : (results.map Prod.fst).Nodup)
    (hv : ∀ entry ∈ results, entry.2 = status entry.1) :
    ((links.foldl (fun results link => mapSet results link.href (status link.href))
        results).map Prod.fst).Nodup ∧
    (∀ k, k ∈ (links.foldl (fun results link => mapSet results link.href (status link.href))
        results).map Prod.fst ↔
      k ∈ results.map Prod.fst ∨ k ∈ links.map (fun link => link.href)) ∧
    (∀ entry ∈ links.foldl (fun results link => mapSet results link.href (status link.href))
        results, entry.2 = status entry.1) := by
  induction links generalizing results with
  | nil => exact ⟨hn, fun k => by simp, hv⟩
  | cons link rest ih =>
    rw [List.foldl_cons]
    have hv2 : ∀ entry ∈ mapSet results link.href (status link.href),
        entry.2 = status entry.1 := by
      intro entry he
      rcases mem_mapSet _ _ _ _ he with h1 | h1
      · exact hv entry h1
      · rw [h1]
    obtain ⟨a, b, c⟩ := ih (mapSet results link.href (status link.href))
      (nodup_keys_mapSet _ _ _ hn) hv2
    refine ⟨a, fun k => ?_, c⟩
    rw [b k, mem_keys_mapSet, List.map_cons, List.mem_cons]
    tauto

theorem checkLinksStatusLoop_spec (lib : UrlLib) (net : Net) (links : List LinkRecord)
    (batchSize : Nat) (hb : 1 ≤ batchSize) :
    ∀ (fuel i : Nat) (run : BatchRun), links.length - i < fuel →
      ∃ out, SiteIndexer.checkLinksStatusLoop lib net links batchSize fuel i run = some out ∧
        out.results =
          (links.drop i).foldl
            (fun results link =>
              mapSet results link.href (SiteIndexer.checkLinkStatus lib net link.href).status)
            run.results ∧
        out.batches.flatten = run.batches.flatten ++ (links.drop i).map (fun link => link.href) ∧
        (∀ batch ∈ out.batches,
          batch ∈ run.batches ∨ (batch ≠ [] ∧ batch.length ≤ batchSize)) := by
  intro fuel
  induction fuel with
  | zero => intro i run h; exact absurd h (Nat.not_lt_zero _)
  | succ fuel ih =>
    intro i run h
    unfold SiteIndexer.checkLinksStatusLoop
    by_cases hi : i < links.length
    · rw [if_pos hi]
      dsimp only
      obtain ⟨out, ho, hr, hj, hl⟩ := ih (i + batchSize)
        { results := ((links.drop i).take batchSize).foldl
            (fun results link =>
              mapSet results link.href (SiteIndexer.checkLinkStatus lib net link.href).status)
            run.results
          batches := run.batches ++
            [((links.drop i).take batchSize).map (fun link => link.href)] }
        (by omega)
      have hdrop : links.drop (i + batchSize) = (links.drop i).drop batchSize := by
        rw [List.drop_drop]
      have hsplit : links.drop i =
          (links.drop i).take batchSize ++ links.drop (i + batchSize) := by
        rw [hdrop]
        exact (List.take_append_drop batchSize (links.drop i)).symm
      refine ⟨out, ho, ?_, ?_, ?_⟩
      · rw [hr]
        conv_rhs => rw [hsplit, List.foldl_append]
      · rw [hj]
        conv_rhs => rw [hsplit, List.map_append]
        simp only [List.flatten_append, List.flatten_cons, List.flatten_nil, List.append_nil,
          List.append_assoc]
      · intro batch hbm
        rcases hl batch hbm with h1 | h1
        · rcases List.mem_append.mp h1 with h2 | h2
          · exact Or.inl h2
          · rw [List.mem_singleton] at h2
            right
            rw [h2]
            constructor
            · intro he
              have hlen := congrArg List.length he
              rw [List.length_map, List.length_take, List.length_drop, List.length_nil] at hlen
              omega
            · rw [List.length_map]
              exact List.length_take_le _ _
        · exact Or.inr h1
    · rw [if_neg hi]
      refine ⟨run, rfl, ?_, ?_, fun batch hbm => Or.inl hbm⟩
      · rw [List.drop_eq_nil_of_le (by omega)]
        rfl
      · rw [List.drop_eq_nil_of_le (by omega)]
        simp

theorem checkLinksStatusLoop_zero (lib : UrlLib) (net : Net) (link : LinkRecord) :
    ∀ (fuel : Nat) (run : BatchRun),
      SiteIndexer.checkLinksStatusLoop lib net [link] 0 fuel 0 run = none := by
  intro fuel
  induction fuel with
  | zero => intro run; rfl
  | succ fuel ih =>
    intro run
    unfold SiteIndexer.checkLinksStatusLoop
    rw [if_pos (by simp)]
    exact ih _

theorem checkLinksStatusLoop_mono (lib : UrlLib) (net : Net) (links : List LinkRecord)
    (batchSize : Nat) :
    ∀ (fuel i : Nat) (run out : BatchRun),
      SiteIndexer.checkLinksStatusLoop lib net links batchSize fuel i run = some out →
      ∀ more, fuel ≤ more →
        SiteIndexer.checkLinksStatusLoop lib net links batchSize more i run = some out := by
  intro fuel
  induction fuel with
  | zero =>
    intro i run out h
    unfold SiteIndexer.checkLinksStatusLoop at h
    cases h
  | succ fuel ih =>
    intro i run out h more hm
    cases more with
    | zero => exact absurd hm (Nat.not_succ_le_zero fuel)
    | succ more =>
      unfold SiteIndexer.checkLinksStatusLoop at h ⊢
      by_cases hi : i < links.length
      · rw [if_pos hi] at h ⊢
        exact ih _ _ _ h more (Nat.le_of_succ_le_succ hm)
      · rw [if_neg hi] at h ⊢
        exact h

/-- C28 (amended). `checkLinksStatus` terminates and covers its input for every batch
size of at least 1: for every list of links, the call returns (the same result for
every amount of fuel above the number of links), it hands every link to
`checkLinkStatus` exactly once, in the order of the list and in consecutive non-empty
batches of at most `batchSize` links, and the map it returns has each distinct href of
the input as a key exactly once, and no other key, each mapped to the status
`checkLinkStatus` gives for it. -/
theorem checkLinksStatus_covers (lib : UrlLib) (net : Net) (links : List LinkRecord)
    (batchSize : Nat) (hb : 1 ≤ batchSize) :
    ∃ run,
      (∀ fuel, links.length < fuel →
        SiteIndexer.checkLinksStatus lib net links batchSize fuel = some run) ∧
      run.batches.flatten = links.map (fun link => link.href) ∧
      (∀ batch ∈ run.batches, batch ≠ [] ∧ batch.length ≤ batchSize) ∧
      (run.results.map Prod.fst).Nodup ∧
      (∀ href, href ∈ run.results.map Prod.fst ↔ href ∈ links.map (fun link => link.href)) ∧
      (∀ entry ∈ run.results,
        entry.2 = (SiteIndexer.checkLinkStatus lib net entry.1).status) := by
  obtain ⟨out, ho, hr, hj, hl⟩ := checkLinksStatusLoop_spec lib net links batchSize hb
    (links.length + 1) 0 { results := [], batches := [] } (by omega)
  obtain ⟨hn, hk, hv⟩ := foldl_mapSet_facts
    (fun href => (SiteIndexer.checkLinkStatus lib net href).status) links []
    List.nodup_nil (fun entry he => absurd he (List.not_mem_nil entry))
  rw [List.drop_zero] at hr hj
  refine ⟨out, ?_, ?_, ?_, ?_, ?_, ?_⟩
  · intro fuel hf
    exact checkLinksStatusLoop_mono lib net links batchSize _ 0 _ out ho fuel (by omega)
  · rw [hj]
    rfl
  · intro batch hbm
    rcases hl batch hbm with h1 | h1
    · exact absurd h1 (List.not_mem_nil batch)
    · exact h1
  · rw [hr]
    exact hn
  · intro href
    rw [hr, hk href]
    simp
  · intro entry he
    rw [hr] at he
    exact hv entry he

/-- Witness of C28: three links, two of them to the same href, checked in batches of 2
on a network that answers 200 to every HEAD request. -/
theorem checkLinksStatus_covers_witness :
    ∃ run,
      (∀ fuel, 3 < fuel →
        SiteIndexer.checkLinksStatus plainLib
          (constNet (FetchResult.response 200 none) (FetchResult.response 200 none))
          [{ href := "http://a.com/x".toList, text := "x".toList },
           { href := "http://a.com/y".toList, text := "y".toList },
           { href := "http://a.com/x".toList, text := "again".toList }] 2 fuel = some run) ∧
      run.batches.flatten =
        ["http://a.com/x".toList, "http://a.com/y".toList, "http://a.com/x".toList] ∧
      (∀ batch ∈ run.batches, batch ≠ [] ∧ batch.length ≤ 2) ∧
      (run.results.map Prod.fst).Nodup ∧
      (∀ href, href ∈ run.results.map Prod.fst ↔
        href ∈ ["http://a.com/x".toList, "http://a.com/y".toList, "http://a.com/x".toList]) ∧
      (∀ entry ∈ run.results,
        entry.2 = (SiteIndexer.checkLinkStatus plainLib
          (constNet (FetchResult.response 200 none) (FetchResult.response 200 none))
          entry.1).status) :=
  checkLinksStatus_covers plainLib
    (constNet (FetchResult.response 200 none) (FetchResult.response 200 none))
    [{ href := "http://a.com/x".toList, text := "x".toList },
     { href := "http://a.com/y".toList, text := "y".toList },
     { href := "http://a.com/x".toList, text := "again".toList }] 2 (by decide)

/-- Counterexample to C28 as stated: with the batch size 0 and one link, the loop of
`checkLinksStatus` never advances, so the call returns for no amount of fuel. -/
theorem checkLinksStatus_covers_counterexample :
    ¬ ∃ fuel,
      (SiteIndexer.checkLinksStatus plainLib
        (constNet (FetchResult.response 200 none) (FetchResult.response 200 none))
        [{ href := "http://a.com/x".toList, text := "x".toList }] 0 fuel).isSome = true := by
  rintro ⟨fuel, h⟩
  unfold SiteIndexer.checkLinksStatus at h
  rw [checkLinksStatusLoop_zero] at h
  exact absurd h (by decide)

/-! ## Saved reports: ids and counters -/

theorem patchFirst_ids (issueId : Str) (status notes : Option Str) :
    ∀ (l : List TrackedIssue) (o n : Str) (l2 : List TrackedIssue),
      patchFirst issueId status notes l = some (o, n, l2) →
      l2.map (fun i => i.id) = l.map (fun i => i.id) ∧ issueId ∈ l.map (fun i => i.id) := by
  intro l
  induction l with
  | nil => intro o n l2 h; cases h
  | cons issue rest ih =>
    intro o n l2 h
    unfold patchFirst at h
    by_cases hid : issue.id = issueId
    · rw [if_pos hid] at h
      simp only [Option.some.injEq, Prod.mk.injEq] at h
      obtain ⟨_, _, h3⟩ := h
      subst h3
      exact ⟨rfl, by rw [List.map_cons, hid]; exact List.mem_cons_self _ _⟩
    · rw [if_neg hid] at h
      cases hr : patchFirst issueId status notes rest with
      | none => rw [hr] at h; cases h
      | some r =>
        obtain ⟨o2, n2, rest2⟩ := r
        rw [hr] at h
        simp only [Option.some.injEq, Prod.mk.injEq] at h
        obtain ⟨_, _, h3⟩ := h
        subst h3
        obtain ⟨h1, h2⟩ := ih o2 n2 rest2 hr
        exact ⟨by rw [List.map_cons, List.map_cons, h1], List.mem_cons_of_mem _ h2⟩

theorem patchFirst_none (issueId : Str) (status notes : Option Str) :
    ∀ (l : List TrackedIssue), issueId ∉ l.map (fun i => i.id) →
      patchFirst issueId status notes l = none := by
  intro l
  induction l with
  | nil => intro _; rfl
  | cons issue rest ih =>
    intro h
    rw [List.map_cons, List.mem_cons, not_or] at h
    unfold patchFirst
    rw [if_neg (fun e => h.1 e.symm), ih h.2]

/-- The update changes the number of issues with a status by the old and the new status
of the issue found. -/
theorem patchFirst_count (issueId : Str) (status notes : Option Str) (s : Str) :
    ∀ (l : List TrackedIssue) (o n : Str) (l2 : List TrackedIssue),
      patchFirst issueId status notes l = some (o, n, l2) →
      (l2.filter (fun i => i.status = s)).length + (if o = s then 1 else 0)
        = (l.filter (fun i => i.status = s)).length + (if n = s then 1 else 0) := by
  intro l
  induction l with
  | nil => intro o n l2 h; cases h
  | cons issue rest ih =>
    intro o n l2 h
    unfold patchFirst at h
    by_cases hid : issue.id = issueId
    · rw [if_pos hid] at h
      simp only [Option.some.injEq, Prod.mk.injEq] at h
      obtain ⟨h1, h2, h3⟩ := h
      subst h3
      subst h1
      simp only [List.filter_cons, h2]
      by_cases ho : issue.status = s <;> by_cases hn : n = s <;>
        simp [ho, hn]
    · rw [if_neg hid] at h
      cases hr : patchFirst issueId status notes rest with
      | none => rw [hr] at h; cases h
      | some r =>
        obtain ⟨o2, n2, rest2⟩ := r
        rw [hr] at h
        simp only [Option.some.injEq, Prod.mk.injEq] at h
        obtain ⟨h1, h2, h3⟩ := h
        subst h3
        subst h1
        subst h2
        have := ih o2 n2 rest2 hr
        simp only [List.filter_cons]
        by_cases hi : issue.status = s <;> simp [hi] <;> omega

theorem move_counts (stats : IssueStats) (o n : Str) :
    (stats.move o n).pending
      = stats.pending - (if o = "pending".toList then 1 else 0)
        + (if n = "pending".toList then 1 else 0) ∧
    (stats.move o n).inProgress
      = stats.inProgress - (if o = "inProgress".toList then 1 else 0)
        + (if n = "inProgress".toList then 1 else 0) ∧
    (stats.move o n).fixed
      = stats.fixed - (if o = "fixed".toList then 1 else 0)
        + (if n = "fixed".toList then 1 else 0) := by
  have h1 : "inProgress".toList ≠ "pending".toList := by decide
  have h2 : "fixed".toList ≠ "pending".toList := by decide
  have h3 : "fixed".toList ≠ "inProgress".toList := by decide
  unfold IssueStats.move
  by_cases hon : o = n
  · subst hon
    rw [if_neg (by simp)]
    refine ⟨?_, ?_, ?_⟩ <;> split <;> omega
  · rw [if_pos hon]
    dsimp only
    refine ⟨?_, ?_, ?_⟩ <;> split_ifs <;> simp_all

theorem initIssueStatusFrom_count (timestamp : Nat) (s : Str) :
    ∀ (issues : List ReportIssue) (idx : Nat),
      ((initIssueStatusFrom timestamp idx issues).filter (fun i => i.status = s)).length
        = if s = "pending".toList then issues.length else 0 := by
  intro issues
  induction issues with
  | nil => intro idx; simp [initIssueStatusFrom]
  | cons issue rest ih =>
    intro idx
    unfold initIssueStatusFrom
    rw [List.filter_cons]
    by_cases hs : s = "pending".toList
    · subst hs
      have := ih (idx + 1)
      rw [if_pos rfl] at this
      rw [if_pos (decide_eq_true rfl), if_pos rfl, List.length_cons, this, List.length_cons]
    · have := ih (idx + 1)
      rw [if_neg hs] at this
      rw [if_neg hs, if_neg (by simpa using fun e => hs e.symm)]
      exact this

theorem countStatus_eq (data : ReportData) (s : Str) :
    data.countStatus s
      = (data.report.broken.filter (fun i => i.status = s)).length
        + (data.report.redirects.filter (fun i => i.status = s)).length
        + (data.report.crossLocale.filter (fun i => i.status = s)).length := by
  unfold ReportData.countStatus ReportData.issues
  rw [List.filter_append, List.filter_append, List.length_append, List.length_append]

theorem statsOk_saveReportData (timestamp : Nat) (report : HealthReport) :
    StatsOk (saveReportData timestamp report) := by
  unfold StatsOk
  simp only [countStatus_eq]
  unfold saveReportData initIssueStatus
  simp only [initIssueStatusFrom_count]
  refine ⟨?_, ?_, ?_⟩ <;> simp

theorem patchIssue_count (data data2 : ReportData) (issueId : Str) (status notes : Option Str)
    (h : patchIssue data issueId status notes = some data2) :
    ∃ o n, data2.issueStats = data.issueStats.move o n ∧
      ∀ s, data2.countStatus s + (if o = s then 1 else 0)
        = data.countStatus s + (if n = s then 1 else 0) := by
  unfold patchIssue at h
  cases hb : patchFirst issueId status notes data.report.broken with
  | some r =>
    obtain ⟨o, n, l⟩ := r
    rw [hb] at h
    simp only [Option.some.injEq] at h
    subst h
    refine ⟨o, n, rfl, fun s => ?_⟩
    have := patchFirst_count issueId status notes s _ o n l hb
    simp only [countStatus_eq]
    omega
  | none =>
    rw [hb] at h
    cases hr : patchFirst issueId status notes data.report.redirects with
    | some r =>
      obtain ⟨o, n, l⟩ := r
      rw [hr] at h
      simp only [Option.some.injEq] at h
      subst h
      refine ⟨o, n, rfl, fun s => ?_⟩
      have := patchFirst_count issueId status notes s _ o n l hr
      simp only [countStatus_eq]
      omega
    | none =>
      rw [hr] at h
      cases hc : patchFirst issueId status notes data.report.crossLocale with
      | some r =>
        obtain ⟨o, n, l⟩ := r
        rw [hc] at h
        simp only [Option.some.injEq] at h
        subst h
        refine ⟨o, n, rfl, fun s => ?_⟩
        have := patchFirst_count issueId status notes s _ o n l hc
        simp only [countStatus_eq]
        omega
      | none =>
        rw [hc] at h
        cases h

theorem statsOk_patchIssue (data data2 : ReportData) (issueId : Str) (status notes : Option Str)
    (h : patchIssue data issueId status notes = some data2) (hok : StatsOk data) :
    StatsOk data2 := by
  obtain ⟨o, n, hs, hc⟩ := patchIssue_count data data2 issueId status notes h
  obtain ⟨m1, m2, m3⟩ := move_counts data.issueStats o n
  obtain ⟨k1, k2, k3⟩ := hok
  have c1 := hc "pending".toList
  have c2 := hc "inProgress".toList
  have c3 := hc "fixed".toList
  unfold StatsOk
  rw [hs, m1, m2, m3, k1, k2, k3]
  refine ⟨?_, ?_, ?_⟩
  · split_ifs at c1 ⊢ <;> omega
  · split_ifs at c2 ⊢ <;> omega
  · split_ifs at c3 ⊢ <;> omega

/-- The counters of `issueStats` stay the numbers of issues with the status pending,
inProgress and fixed, whatever the triage requests are. -/
theorem statsOk_patchAll (patches : List Patch) :
    ∀ data, StatsOk data → StatsOk (patchAll data patches) := by
  induction patches with
  | nil => intro data h; exact h
  | cons p rest ih =>
    intro data h
    unfold patchAll
    rw [List.foldl_cons]
    apply ih
    cases hp : patchIssue data p.issueId p.status p.notes with
    | none => exact h
    | some data2 => exact statsOk_patchIssue data data2 _ _ _ hp h

/-- An issue of crossLocale whose id is also the id of a broken issue is out of reach
of the triage handler: a request changes no issue of crossLocale when every id of
crossLocale is an id of broken, and the ids of broken stay as they are. -/
theorem patchIssue_shadowed (data data2 : ReportData) (issueId : Str)
    (status notes : Option Str)
    (h : patchIssue data issueId status notes = some data2)
    (hs : ∀ c ∈ data.report.crossLocale, c.id ∈ data.report.broken.map (fun i => i.id)) :
    data2.report.crossLocale = data.report.crossLocale ∧
    data2.report.broken.map (fun i => i.id) = data.report.broken.map (fun i => i.id) := by
  unfold patchIssue at h
  cases hb : patchFirst issueId status notes data.report.broken with
  | some r =>
    obtain ⟨o, n, l⟩ := r
    rw [hb] at h
    simp only [Option.some.injEq] at h
    subst h
    exact ⟨rfl, (patchFirst_ids issueId status notes _ o n l hb).1⟩
  | none =>
    rw [hb] at h
    have hnot : issueId ∉ data.report.broken.map (fun i => i.id) := by
      intro hm
      have : ∀ (l : List TrackedIssue), issueId ∈ l.map (fun i => i.id) →
          patchFirst issueId status notes l ≠ none := by
        intro l
        induction l with
        | nil => intro hl; exact absurd hl (List.not_mem_nil _)
        | cons issue rest ih =>
          intro hl
          unfold patchFirst
          by_cases hid : issue.id = issueId
          · rw [if_pos hid]
            exact Option.some_ne_none _
          · rw [if_neg hid]
            rw [List.map_cons, List.mem_cons] at hl
            rcases hl with hl | hl
            · exact absurd hl.symm hid
            · cases hr : patchFirst issueId status notes rest with
              | none => exact absurd hr (ih hl)
              | some r => exact Option.some_ne_none _
      exact this _ hm hb
    have hc : patchFirst issueId status notes data.report.crossLocale = none := by
      apply patchFirst_none
      intro hm
      obtain ⟨c, hcm, hce⟩ := List.mem_map.1 hm
      exact hnot (hce ▸ hs c hcm)
    cases hr : patchFirst issueId status notes data.report.redirects with
    | some r =>
      obtain ⟨o, n, l⟩ := r
      rw [hr] at h
      simp only [Option.some.injEq] at h
      subst h
      exact ⟨rfl, rfl⟩
    | none =>
      rw [hr, hc] at h
      cases h

theorem patchAll_shadowed (patches : List Patch) :
    ∀ data : ReportData,
      (∀ c ∈ data.report.crossLocale, c.id ∈ data.report.broken.map (fun i => i.id)) →
      (patchAll data patches).report.crossLocale = data.report.crossLocale := by
  induction patches with
  | nil => intro data _; rfl
  | cons p rest ih =>
    intro data hs
    unfold patchAll
    rw [List.foldl_cons]
    cases hp : patchIssue data p.issueId p.status p.notes with
    | none => exact ih data hs
    | some data2 =>
      obtain ⟨h1, h2⟩ := patchIssue_shadowed data data2 _ _ _ hp hs
      have := ih data2 (by rw [h1, h2]; exact hs)
      rw [← h1]
      exact this

/-- C30. The ids of a saved report are not pairwise different across the three lists:
`initIssueStatus` numbers each list from 0. In the report saved at the time
1700000000000 for one broken link and one cross-locale link, the two issues both get
the id `1700000000000_0`; the triage request for that id with the status fixed changes
the broken issue and leaves the cross-locale issue pending; and no sequence of triage
requests ever changes the status of the cross-locale issue. -/
theorem issue_ids_collide :
    (saveReportData 1700000000000 exampleReport).report.broken.map (fun i => i.id)
      = ["1700000000000_0".toList] ∧
    (saveReportData 1700000000000 exampleReport).report.crossLocale.map (fun i => i.id)
      = ["1700000000000_0".toList] ∧
    (patchIssue (saveReportData 1700000000000 exampleReport) "1700000000000_0".toList
        (some "fixed".toList) none).map
        (fun data => (data.report.broken.map (fun i => i.status),
          data.report.crossLocale.map (fun i => i.status), data.issueStats))
      = some (["fixed".toList], ["pending".toList],
          { pending := 1, inProgress := 0, fixed := 1 }) ∧
    ¬ ∃ patches,
      (patchAll (saveReportData 1700000000000 exampleReport) patches).report.crossLocale.map
        (fun i => i.status) ≠ ["pending".toList] := by
  refine ⟨by decide, by decide, by decide, ?_⟩
  rintro ⟨patches, h⟩
  apply h
  rw [patchAll_shadowed patches _ (by decide)]
  decide

/-! ## The health check of a saved index -/

theorem mapGet_none_iff {β : Type} (m : List (Str × β)) (key : Str) :
    mapGet m key = none ↔ key ∉ m.map Prod.fst := by
  unfold mapGet
  induction m with
  | nil => simp
  | cons e rest ih =>
    obtain ⟨k, v⟩ := e
    rw [List.find?_cons]
    by_cases hk : k = key
    · subst hk
      rw [show decide ((k, v).1 = k) = true from decide_eq_true rfl]
      constructor
      · intro h
        cases h
      · intro h
        exact absurd (List.mem_cons_self _ _) h
    · have : decide ((k, v).1 = key) = false := decide_eq_false hk
      rw [this, List.map_cons, List.mem_cons, not_or]
      constructor
      · intro h
        exact ⟨fun e => hk e.symm, ih.1 h⟩
      · intro h
        exact ih.2 h.2

theorem mapGet_mem {β : Type} (m : List (Str × β)) (key : Str) (v : β)
    (h : mapGet m key = some v) : (key, v) ∈ m := by
  unfold mapGet at h
  cases hf : m.find? (fun entry => entry.1 = key) with
  | none => rw [hf] at h; cases h
  | some e =>
    rw [hf] at h
    simp only [Option.map_some', Option.some.injEq] at h
    have h1 := List.find?_some hf
    have h2 := List.mem_of_find?_eq_some hf
    simp only [decide_eq_true_eq] at h1
    obtain ⟨k, w⟩ := e
    simp only at h1 h
    subst h1
    subst h
    exact h2

theorem mapGet_mapSet {β : Type} (m : List (Str × β)) (key : Str) (v : β) :
    mapGet (mapSet m key v) key = some v := by
  induction m with
  | nil => simp [mapSet, mapGet]
  | cons e rest ih =>
    obtain ⟨k, w⟩ := e
    unfold mapSet
    by_cases hk : k = key
    · rw [if_pos hk]
      unfold mapGet
      rw [List.find?_cons, show decide ((k, v).1 = key) = true from decide_eq_true hk]
      rfl
    · rw [if_neg hk]
      unfold mapGet at ih ⊢
      rw [List.find?_cons, show decide ((k, w).1 = key) = false from decide_eq_false hk]
      exact ih

theorem mapSet_mapSet {β : Type} (m : List (Str × β)) (key : Str) (v w : β) :
    mapSet (mapSet m key v) key w = mapSet m key w := by
  induction m with
  | nil => simp [mapSet]
  | cons e rest ih =>
    obtain ⟨k, u⟩ := e
    by_cases hk : k = key
    · simp [mapSet, hk]
    · simp [mapSet, hk, ih]

theorem mapSet_self_mem {β : Type} (m : List (Str × β)) (key : Str) (v : β) :
    (key, v) ∈ mapSet m key v := by
  induction m with
  | nil => simp [mapSet]
  | cons e rest ih =>
    obtain ⟨k, u⟩ := e
    unfold mapSet
    by_cases hk : k = key
    · rw [if_pos hk, hk]
      exact List.mem_cons_self _ _
    · rw [if_neg hk]
      exact List.mem_cons_of_mem _ ih

/-- In a map with distinct keys, two entries with one key are one entry. -/
theorem entry_unique {β : Type} (m : List (Str × β)) (h : (m.map Prod.fst).Nodup)
    (a b : Str × β) (ha : a ∈ m) (hb : b ∈ m) (hk : a.1 = b.1) : a = b := by
  induction m with
  | nil => exact absurd ha (List.not_mem_nil a)
  | cons e rest ih =>
    rw [List.map_cons, List.nodup_cons] at h
    rcases List.mem_cons.1 ha with ha | ha <;> rcases List.mem_cons.1 hb with hb | hb
    · rw [ha, hb]
    · exact absurd (ha ▸ hk ▸ List.mem_map_of_mem Prod.fst hb) h.1
    · exact absurd (hb ▸ hk.symm ▸ List.mem_map_of_mem Prod.fst ha) h.1
    · exact ih h.2 ha hb

/-- The entries of a map after `set`: the entry set, and the entries of the other keys. -/
theorem mem_mapSet_iff {β : Type} (m : List (Str × β)) (h : (m.map Prod.fst).Nodup)
    (key : Str) (v : β) (e : Str × β) :
    e ∈ mapSet m key v ↔ (e ∈ m ∧ e.1 ≠ key) ∨ e = (key, v) := by
  constructor
  · intro he
    by_cases hk : e.1 = key
    · right
      exact entry_unique _ (nodup_keys_mapSet m key v h) e (key, v) he
        (mapSet_self_mem m key v) hk
    · rcases mem_mapSet m key v e he with h1 | h1
      · exact Or.inl ⟨h1, hk⟩
      · exact Or.inr h1
  · rintro (⟨h1, h2⟩ | h1)
    · clear h
      induction m with
      | nil => exact absurd h1 (List.not_mem_nil e)
      | cons x rest ih =>
        obtain ⟨k, u⟩ := x
        unfold mapSet
        by_cases hk : k = key
        · rw [if_pos hk]
          rcases List.mem_cons.1 h1 with h3 | h3
          · rw [h3] at h2
            exact absurd hk h2
          · exact List.mem_cons_of_mem _ h3
        · rw [if_neg hk]
          rcases List.mem_cons.1 h1 with h3 | h3
          · rw [h3]
            exact List.mem_cons_self _ _
          · exact List.mem_cons_of_mem _ (ih h3)
    · rw [h1]
      exact mapSet_self_mem m key v

theorem scanStep_skip (lib : UrlLib) (js : Runtime) (acc : Collected)
    (t : Str × Str × LinkRecord)
    (hq : (!t.2.2.isExternal && !t.2.2.href.isEmpty) = false) :
    scanStep lib js acc t = acc := by
  unfold scanStep scanLink
  rw [if_neg (by rw [hq]; exact Bool.false_ne_true)]

/-- The loop body on a link that is read: one more issue when the link is cross-locale,
and one more source for the target of the link. -/
theorem scanStep_eq (lib : UrlLib) (js : Runtime) (acc : Collected)
    (t : Str × Str × LinkRecord)
    (hq : (!t.2.2.isExternal && !t.2.2.href.isEmpty) = true) :
    scanStep lib js acc t =
      { crossLocaleIssues :=
          acc.crossLocaleIssues ++ (if isCrossLocale lib js t then [crossIssue lib js t] else []),
        linksToCheck :=
          mapSet acc.linksToCheck t.2.2.href
            (noteSource t.1 (orText t.2.2.text "(no text)".toList)
              (mapGet acc.linksToCheck t.2.2.href)) } := by
  obtain ⟨pageUrl, sourceLocale, link⟩ := t
  unfold scanStep scanLink
  simp only at hq ⊢
  rw [if_pos hq]
  have hc : (if sourceLocale ≠ detectLocaleFromUrl lib js link.href ∧
        isLocaleSwitcherLink js (orText link.text "(no text)".toList) = false then
        acc.crossLocaleIssues ++
          [{ sourceUrl := pageUrl, sourceLocale := orText sourceLocale "default".toList,
             targetUrl := link.href,
             targetLocale := orText (detectLocaleFromUrl lib js link.href) "default".toList,
             anchorText := orText link.text "(no text)".toList : CrossLocaleIssue }]
      else acc.crossLocaleIssues)
      = acc.crossLocaleIssues ++
        (if isCrossLocale lib js (pageUrl, sourceLocale, link) then
          [crossIssue lib js (pageUrl, sourceLocale, link)] else []) := by
    unfold isCrossLocale crossIssue
    by_cases h1 : sourceLocale ≠ detectLocaleFromUrl lib js link.href
    · cases h2 : isLocaleSwitcherLink js (orText link.text "(no text)".toList)
      · rw [if_pos ⟨h1, rfl⟩]
        simp [h1, h2]
      · rw [if_neg (by simp)]
        simp [h2]
    · rw [if_neg (fun h => h1 h.1)]
      simp [h1]
  have hm : ∀ (m : List (Str × LinkSources)) (linkText : Str),
      (let linksToCheck :=
        if (mapGet m link.href).isSome then m
        else mapSet m link.href { sourceUrls := [], text := linkText }
      let linksToCheck :=
        match mapGet linksToCheck link.href with
        | some data =>
          mapSet linksToCheck link.href { data with sourceUrls := data.sourceUrls ++ [pageUrl] }
        | none => linksToCheck
      match mapGet linksToCheck link.href with
      | some data =>
        if linkText ≠ "(no text)".toList ∧ data.text = "(no text)".toList then
          mapSet linksToCheck link.href { data with text := linkText }
        else linksToCheck
      | none => linksToCheck)
      = mapSet m link.href (noteSource pageUrl linkText (mapGet m link.href)) := by
    intro m linkText
    dsimp only
    cases hg : mapGet m link.href with
    | none =>
      rw [if_neg (by simp), mapGet_mapSet]
      dsimp only
      rw [mapSet_mapSet, mapGet_mapSet]
      dsimp only
      unfold noteSource
      dsimp only [Option.getD]
      split
      · rw [mapSet_mapSet]
      · rfl
    | some data =>
      rw [if_pos (by simp), hg]
      dsimp only
      rw [mapGet_mapSet]
      dsimp only
      unfold noteSource
      dsimp only [Option.getD]
      split
      · rw [mapSet_mapSet]
      · rfl
  rw [hc]
  have := hm acc.linksToCheck (orText link.text "(no text)".toList)
  dsimp only at this
  rw [this]

theorem foldl_scanLink (lib : UrlLib) (js : Runtime) (pageUrl sourceLocale : Str) :
    ∀ (links : List LinkRecord) (acc : Collected),
      links.foldl (scanLink lib js pageUrl sourceLocale) acc
        = ((links.filter (fun link => !link.isExternal && !link.href.isEmpty)).map
            (fun link => (pageUrl, sourceLocale, link))).foldl (scanStep lib js) acc := by
  intro links
  induction links with
  | nil => intro acc; rfl
  | cons link rest ih =>
    intro acc
    rw [List.foldl_cons, List.filter_cons]
    cases hq : (!link.isExternal && !link.href.isEmpty)
    · rw [if_neg Bool.false_ne_true, ih]
      have := scanStep_skip lib js acc (pageUrl, sourceLocale, link) hq
      unfold scanStep at this
      simp only at this
      rw [this]
    · rw [if_pos rfl, List.map_cons, List.foldl_cons, ih]
      rfl

/-- The scan of the pages is the loop body run over the links that are read, in order. -/
theorem collectLinks_eq (lib : UrlLib) (js : Runtime) (localeFilter : Option Str)
    (index : Index) :
    collectLinks lib js localeFilter index
      = (scannedLinks lib js localeFilter index).foldl (scanStep lib js) {} := by
  unfold collectLinks scannedLinks
  generalize ({} : Collected) = acc
  generalize index.pages = pages
  induction pages generalizing acc with
  | nil => rfl
  | cons page rest ih =>
    rw [List.foldl_cons, List.flatMap_cons, List.foldl_append, ih]
    congr 1
    unfold scanPage
    dsimp only
    cases hs : pageSkipped (orElse localeFilter none) (detectLocaleFromUrl lib js page.1)
    · rw [if_neg Bool.false_ne_true, if_neg Bool.false_ne_true]
      exact foldl_scanLink lib js _ _ _ _
    · rw [if_pos rfl, if_pos rfl]
      rfl

theorem scannedLinks_read (lib : UrlLib) (js : Runtime) (localeFilter : Option Str)
    (index : Index) :
    ∀ t ∈ scannedLinks lib js localeFilter index,
      (!t.2.2.isExternal && !t.2.2.href.isEmpty) = true ∧
      t.2.1 = detectLocaleFromUrl lib js t.1 ∧
      pageSkipped (orElse localeFilter none) t.2.1 = false := by
  intro t ht
  unfold scannedLinks at ht
  rw [List.mem_flatMap] at ht
  obtain ⟨page, _, hp⟩ := ht
  cases hs : pageSkipped (orElse localeFilter none) (detectLocaleFromUrl lib js page.1)
  · rw [hs, if_neg Bool.false_ne_true, List.mem_map] at hp
    obtain ⟨link, hl, he⟩ := hp
    rw [List.mem_filter] at hl
    subst he
    exact ⟨hl.2, rfl, hs⟩
  · rw [hs, if_pos rfl] at hp
    exact absurd hp (List.not_mem_nil t)

theorem noteSource_sourceUrls (pageUrl linkText : Str) (old : Option LinkSources) :
    (noteSource pageUrl linkText old).sourceUrls
      = (old.getD { sourceUrls := [], text := linkText }).sourceUrls ++ [pageUrl] := by
  unfold noteSource
  dsimp only
  split <;> rfl

/-- The sources that `linksToCheck` holds for a target after the links `done`. -/
theorem foldl_scanStep_facts (lib : UrlLib) (js : Runtime) :
    ∀ (ts done : List (Str × Str × LinkRecord)) (acc : Collected),
      (∀ t ∈ ts, (!t.2.2.isExternal && !t.2.2.href.isEmpty) = true) →
      (acc.linksToCheck.map Prod.fst).Nodup →
      (∀ k, k ∈ acc.linksToCheck.map Prod.fst ↔ k ∈ done.map (fun t => t.2.2.href)) →
      (∀ e ∈ acc.linksToCheck,
        e.2.sourceUrls = (done.filter (fun t => t.2.2.href = e.1)).map (fun t => t.1)) →
      (ts.foldl (scanStep lib js) acc).crossLocaleIssues
        = acc.crossLocaleIssues ++ (ts.filter (isCrossLocale lib js)).map (crossIssue lib js) ∧
      ((ts.foldl (scanStep lib js) acc).linksToCheck.map Prod.fst).Nodup ∧
      (∀ k, k ∈ (ts.foldl (scanStep lib js) acc).linksToCheck.map Prod.fst ↔
        k ∈ (done ++ ts).map (fun t => t.2.2.href)) ∧
      (∀ e ∈ (ts.foldl (scanStep lib js) acc).linksToCheck,
        e.2.sourceUrls
          = ((done ++ ts).filter (fun t => t.2.2.href = e.1)).map (fun t => t.1)) := by
  intro ts
  induction ts with
  | nil =>
    intro done acc _ hn hk hv
    rw [List.append_nil]
    exact ⟨by simp, hn, hk, hv⟩
  | cons t rest ih =>
    intro done acc hq hn hk hv
    have hqt := hq t (List.mem_cons_self _ _)
    have hstep := scanStep_eq lib js acc t hqt
    have hn2 : ((scanStep lib js acc t).linksToCheck.map Prod.fst).Nodup := by
      rw [hstep]
      exact nodup_keys_mapSet _ _ _ hn
    have hk2 : ∀ k, k ∈ (scanStep lib js acc t).linksToCheck.map Prod.fst ↔
        k ∈ (done ++ [t]).map (fun t => t.2.2.href) := by
      intro k
      rw [hstep]
      dsimp only
      rw [mem_keys_mapSet, hk k, List.map_append, List.mem_append, List.map_singleton,
        List.mem_singleton]
    have hv2 : ∀ e ∈ (scanStep lib js acc t).linksToCheck,
        e.2.sourceUrls
          = ((done ++ [t]).filter (fun t => t.2.2.href = e.1)).map (fun t => t.1) := by
      intro e he
      rw [hstep] at he
      dsimp only at he
      rw [mem_mapSet_iff _ hn] at he
      rw [List.filter_append, List.map_append]
      rcases he with ⟨h1, h2⟩ | h1
      · rw [hv e h1, List.filter_cons, if_neg (by simpa using fun h => h2 h.symm)]
        simp
      · subst h1
        dsimp only
        rw [noteSource_sourceUrls, List.filter_cons, if_pos (by simp)]
        congr 1
        cases hg : mapGet acc.linksToCheck t.2.2.href with
        | none =>
          have hnot := (mapGet_none_iff _ _).1 hg
          rw [hk] at hnot
          have : done.filter (fun u => u.2.2.href = t.2.2.href) = [] := by
            rw [List.filter_eq_nil_iff]
            intro u hu
            simp only [decide_eq_true_eq]
            intro hh
            exact hnot (hh ▸ List.mem_map_of_mem (fun t => t.2.2.href) hu)
          rw [this]
          rfl
        | some data =>
          exact hv _ (mapGet_mem _ _ _ hg)
    obtain ⟨r1, r2, r3, r4⟩ := ih (done ++ [t]) (scanStep lib js acc t)
      (fun u hu => hq u (List.mem_cons_of_mem _ hu)) hn2 hk2 hv2
    rw [List.foldl_cons]
    have happ : done ++ t :: rest = done ++ [t] ++ rest := by simp
    rw [happ]
    refine ⟨?_, r2, r3, r4⟩
    rw [r1, hstep, List.filter_cons]
    dsimp only
    split <;> simp

theorem sum_mapSet {β : Type} (w : β → Nat) (m : List (Str × β)) (key : Str) (v : β) :
    ((mapSet m key v).map (fun e => w e.2)).sum + ((mapGet m key).map w).getD 0
      = (m.map (fun e => w e.2)).sum + w v := by
  induction m with
  | nil => simp [mapSet, mapGet]
  | cons e rest ih =>
    obtain ⟨k, u⟩ := e
    unfold mapSet
    by_cases hk : k = key
    · rw [if_pos hk]
      have : mapGet ((k, u) :: rest) key = some u := by
        unfold mapGet
        rw [List.find?_cons, show decide ((k, u).1 = key) = true from decide_eq_true hk]
        rfl
      rw [this]
      simp only [List.map_cons, List.sum_cons, Option.map_some', Option.getD_some]
      omega
    · rw [if_neg hk]
      have : mapGet ((k, u) :: rest) key = mapGet rest key := by
        unfold mapGet
        rw [List.find?_cons, show decide ((k, u).1 = key) = false from decide_eq_false hk]
      rw [this]
      simp only [List.map_cons, List.sum_cons]
      omega

/-- The map `crossLocaleMap` after the issues `done`: one entry for each key, with the
number of issues of the key. -/
theorem foldl_dedupeStep_facts :
    ∀ (issues done : List CrossLocaleIssue) (m : List (Str × CrossLocaleEntry)),
      (m.map Prod.fst).Nodup →
      (∀ e ∈ m, e.1 = crossLocaleKey e.2.issue ∧ e.2.issue ∈ done ∧
        e.2.occurrences = (done.filter (fun i => crossLocaleKey i = e.1)).length) →
      (∀ i ∈ done, crossLocaleKey i ∈ m.map Prod.fst) →
      ((issues.foldl dedupeStep m).map Prod.fst).Nodup ∧
      (∀ e ∈ issues.foldl dedupeStep m, e.1 = crossLocaleKey e.2.issue ∧
        e.2.issue ∈ done ++ issues ∧
        e.2.occurrences = ((done ++ issues).filter (fun i => crossLocaleKey i = e.1)).length) ∧
      ((issues.foldl dedupeStep m).map (fun e => e.2.occurrences)).sum
        = (m.map (fun e => e.2.occurrences)).sum + issues.length := by
  intro issues
  induction issues with
  | nil =>
    intro done m hn hv _
    rw [List.append_nil]
    exact ⟨hn, hv, rfl⟩
  | cons i rest ih =>
    intro done m hn hv hd
    have hn2 : ((dedupeStep m i).map Prod.fst).Nodup := by
      unfold dedupeStep
      split <;> exact nodup_keys_mapSet _ _ _ hn
    have hv2 : ∀ e ∈ dedupeStep m i, e.1 = crossLocaleKey e.2.issue ∧
        e.2.issue ∈ done ++ [i] ∧
        e.2.occurrences
          = ((done ++ [i]).filter (fun j => crossLocaleKey j = e.1)).length := by
      intro e he
      rw [List.filter_append, List.length_append]
      cases hg : mapGet m (crossLocaleKey i) with
      | none =>
        have hs : dedupeStep m i
            = mapSet m (crossLocaleKey i) { issue := i, occurrences := 1 } := by
          unfold dedupeStep
          rw [hg]
        rw [hs, mem_mapSet_iff _ hn] at he
        rcases he with ⟨h1, h2⟩ | h1
        · obtain ⟨a, b, c⟩ := hv e h1
          refine ⟨a, List.mem_append_left _ b, ?_⟩
          rw [c, List.filter_cons, if_neg (by simpa using fun h => h2 h.symm)]
          rfl
        · subst h1
          refine ⟨rfl, List.mem_append_right _ (List.mem_singleton_self i), ?_⟩
          have hnot := (mapGet_none_iff _ _).1 hg
          have : done.filter (fun j => crossLocaleKey j = crossLocaleKey i) = [] := by
            rw [List.filter_eq_nil_iff]
            intro j hj
            simp only [decide_eq_true_eq]
            intro hh
            exact hnot (hh ▸ hd j hj)
          dsimp only
          rw [this, List.filter_cons, if_pos (by simp)]
          rfl
      | some entry =>
        have hs : dedupeStep m i
            = mapSet m (crossLocaleKey i)
                { entry with occurrences := entry.occurrences + 1 } := by
          unfold dedupeStep
          rw [hg]
        have hm := mapGet_mem _ _ _ hg
        obtain ⟨a0, b0, c0⟩ := hv _ hm
        rw [hs, mem_mapSet_iff _ hn] at he
        rcases he with ⟨h1, h2⟩ | h1
        · obtain ⟨a, b, c⟩ := hv e h1
          refine ⟨a, List.mem_append_left _ b, ?_⟩
          rw [c, List.filter_cons, if_neg (by simpa using fun h => h2 h.symm)]
          rfl
        · subst h1
          refine ⟨a0, List.mem_append_left _ b0, ?_⟩
          dsimp only at a0 c0 ⊢
          rw [c0, List.filter_cons, if_pos (by simp)]
          rfl
    have hd2 : ∀ j ∈ done ++ [i], crossLocaleKey j ∈ (dedupeStep m i).map Prod.fst := by
      intro j hj
      have hkeys : ∀ k, k ∈ (dedupeStep m i).map Prod.fst ↔
          k ∈ m.map Prod.fst ∨ k = crossLocaleKey i := by
        intro k
        unfold dedupeStep
        split <;> exact mem_keys_mapSet _ _ _ k
      rw [hkeys]
      rcases List.mem_append.1 hj with h | h
      · exact Or.inl (hd j h)
      · rw [List.mem_singleton.1 h]
        exact Or.inr rfl
    have hsum : ((dedupeStep m i).map (fun e => e.2.occurrences)).sum
        = (m.map (fun e => e.2.occurrences)).sum + 1 := by
      unfold dedupeStep
      cases hg : mapGet m (crossLocaleKey i) with
      | none =>
        have := sum_mapSet (fun e : CrossLocaleEntry => e.occurrences) m (crossLocaleKey i)
          { issue := i, occurrences := 1 }
        rw [hg] at this
        simpa using this
      | some entry =>
        have := sum_mapSet (fun e : CrossLocaleEntry => e.occurrences) m (crossLocaleKey i)
          { entry with occurrences := entry.occurrences + 1 }
        rw [hg] at this
        simp only [Option.map_some', Option.getD_some] at this
        dsimp only
        omega
    obtain ⟨r1, r2, r3⟩ := ih (done ++ [i]) (dedupeStep m i) hn2 hv2 hd2
    rw [List.foldl_cons]
    have happ : done ++ i :: rest = done ++ [i] ++ rest := by simp
    rw [happ]
    refine ⟨r1, r2, ?_⟩
    rw [r3, hsum, List.length_cons]
    omega

/-- The entries of `broken` after the checks: at most one for each entry of
`linksToCheck`, for its target, with the number of its sources when the request was
answered. -/
theorem foldl_checkOne_facts (net : Net) :
    ∀ (entries : List (Str × LinkSources)) (report : HealthCheckResult),
      (entries.foldl (checkOne net) report).crossLocale = report.crossLocale ∧
      (∃ l, List.Sublist l (entries.map Prod.fst) ∧
        (entries.foldl (checkOne net) report).broken.map (fun b => b.targetUrl)
          = report.broken.map (fun b => b.targetUrl) ++ l) ∧
      (∀ b ∈ (entries.foldl (checkOne net) report).broken, b ∈ report.broken ∨
        ∃ entry ∈ entries, b.targetUrl = entry.1 ∧
          (b.occurrences = some entry.2.sourceUrls.length ∨ b.occurrences = none)) := by
  intro entries
  induction entries with
  | nil =>
    intro report
    exact ⟨rfl, ⟨[], List.Sublist.refl _, by simp⟩, fun b hb => Or.inl hb⟩
  | cons entry rest ih =>
    intro report
    rw [List.foldl_cons]
    obtain ⟨r1, ⟨l, hl, r2⟩, r3⟩ := ih (checkOne net report entry)
    have hstep : (checkOne net report entry).crossLocale = report.crossLocale ∧
        ((checkOne net report entry).broken = report.broken ∨
          ∃ b, (checkOne net report entry).broken = report.broken ++ [b] ∧
            b.targetUrl = entry.1 ∧
            (b.occurrences = some entry.2.sourceUrls.length ∨ b.occurrences = none)) := by
      unfold checkOne
      split
      · split
        · exact ⟨rfl, Or.inr ⟨_, rfl, rfl, Or.inl rfl⟩⟩
        · split
          · exact ⟨rfl, Or.inl rfl⟩
          · exact ⟨rfl, Or.inl rfl⟩
      · exact ⟨rfl, Or.inl rfl⟩
      · exact ⟨rfl, Or.inr ⟨_, rfl, rfl, Or.inr rfl⟩⟩
    obtain ⟨s1, s2⟩ := hstep
    refine ⟨r1.trans s1, ?_, ?_⟩
    · rcases s2 with s2 | ⟨b, s2, s3, _⟩
      · refine ⟨l, ?_, ?_⟩
        · rw [List.map_cons]
          exact List.Sublist.cons _ hl
        · rw [r2, s2]
      · refine ⟨entry.1 :: l, ?_, ?_⟩
        · rw [List.map_cons]
          exact List.Sublist.cons₂ _ hl
        · rw [r2, s2, List.map_append, List.map_singleton, s3]
          simp
    · intro b hb
      rcases r3 b hb with h | ⟨e, he, h1, h2⟩
      · rcases s2 with s2 | ⟨b2, s2, s3, s4⟩
        · rw [s2] at h
          exact Or.inl h
        · rw [s2, List.mem_append, List.mem_singleton] at h
          rcases h with h | h
          · exact Or.inl h
          · subst h
            exact Or.inr ⟨entry, List.mem_cons_self _ _, s3, s4⟩
      · exact Or.inr ⟨e, List.mem_cons_of_mem _ he, h1, h2⟩

theorem detectLocaleFromUrl_mem (lib : UrlLib) (js : Runtime) (url : Str) :
    detectLocaleFromUrl lib js url ∈ "default".toList :: commonLocales := by
  have hf : ∀ path l, firstPartLocale js path = some l → l ∈ commonLocales := by
    intro path l h
    unfold firstPartLocale at h
    split at h
    · split at h
      · rename_i hm
        simp only [Option.some.injEq] at h
        exact h ▸ hm
      · cases h
    · cases h
  unfold detectLocaleFromUrl
  split
  · exact List.mem_cons_self _ _
  · dsimp only
    split
    · rename_i l hl
      apply List.mem_cons_of_mem
      split at hl
      · exact hf _ _ hl
      · exact hf _ _ hl
    · exact List.mem_cons_self _ _

set_option maxRecDepth 4000 in
theorem locale_chars :
    ∀ l ∈ "default".toList :: commonLocales, l ≠ [] ∧ '‚' ∉ l ∧ ':' ∉ l := by
  decide

theorem append_cons_inj (c : Char) :
    ∀ (a b x y : Str), c ∉ a → c ∉ b → a ++ c :: x = b ++ c :: y → a = b ∧ x = y := by
  intro a
  induction a with
  | nil =>
    intro b x y _ hb h
    cases b with
    | nil =>
      simp only [List.nil_append, List.cons.injEq, true_and] at h
      exact ⟨rfl, h⟩
    | cons d b =>
      simp only [List.nil_append, List.cons_append, List.cons.injEq] at h
      exact absurd (h.1 ▸ List.mem_cons_self _ _) hb
  | cons e a ih =>
    intro b x y ha hb h
    cases b with
    | nil =>
      simp only [List.nil_append, List.cons_append, List.cons.injEq] at h
      exact absurd (h.1.symm ▸ List.mem_cons_self _ _) ha
    | cons d b =>
      simp only [List.cons_append, List.cons.injEq] at h
      obtain ⟨h1, h2⟩ := ih b x y (fun hm => ha (List.mem_cons_of_mem _ hm))
        (fun hm => hb (List.mem_cons_of_mem _ hm)) h.2
      exact ⟨by rw [h.1, h1], h2⟩

theorem orText_of_ne_nil (s fallback : Str) (h : s ≠ []) : orText s fallback = s := by
  unfold orText
  cases s with
  | nil => exact absurd rfl h
  | cons c s => rfl

/-- Two issues of scanned links have one key exactly when they have one source locale
and one target. -/
theorem crossLocaleKey_eq_iff (lib : UrlLib) (js : Runtime) (t u : Str × Str × LinkRecord)
    (ht : t.2.1 ∈ "default".toList :: commonLocales)
    (hu : u.2.1 ∈ "default".toList :: commonLocales) :
    crossLocaleKey (crossIssue lib js t) = crossLocaleKey (crossIssue lib js u) ↔
      t.2.1 = u.2.1 ∧ t.2.2.href = u.2.2.href := by
  have h1 := locale_chars _ ht
  have h2 := locale_chars _ hu
  have h3 := locale_chars _ (detectLocaleFromUrl_mem lib js t.2.2.href)
  have h4 := locale_chars _ (detectLocaleFromUrl_mem lib js u.2.2.href)
  unfold crossLocaleKey crossIssue
  dsimp only
  rw [orText_of_ne_nil _ _ h1.1, orText_of_ne_nil _ _ h2.1, orText_of_ne_nil _ _ h3.1,
    orText_of_ne_nil _ _ h4.1]
  constructor
  · intro h
    rw [show "‚Üí".toList = '‚' :: "Üí".toList from rfl] at h
    simp only [List.append_assoc, List.cons_append] at h
    obtain ⟨a, b⟩ := append_cons_inj '‚' _ _ _ _ h1.2.1 h2.2.1 h
    have b2 := List.append_cancel_left b
    obtain ⟨_, d⟩ := append_cons_inj ':' _ _ _ _ h3.2.2 h4.2.2 b2
    exact ⟨a, d⟩
  · rintro ⟨a, b⟩
    rw [a, b]

theorem nodup_map_of_nodup_map {α β γ : Type} (f : α → β) (g : α → γ) :
    ∀ (l : List α), (∀ x ∈ l, ∀ y ∈ l, g x = g y → f x = f y) →
      (l.map f).Nodup → (l.map g).Nodup := by
  intro l
  induction l with
  | nil => intro _ _; exact List.nodup_nil
  | cons a l ih =>
    intro h hn
    rw [List.map_cons, List.nodup_cons] at hn ⊢
    refine ⟨?_, ih (fun x hx y hy => h x (List.mem_cons_of_mem _ hx) y
      (List.mem_cons_of_mem _ hy)) hn.2⟩
    intro hm
    obtain ⟨y, hy, he⟩ := List.mem_map.1 hm
    apply hn.1
    rw [← h y (List.mem_cons_of_mem _ hy) a (List.mem_cons_self _ _) he]
    exact List.mem_map_of_mem f hy

theorem pageSkipped_false (filter : Option Str) (sourceLocale : Str)
    (ht : truthy filter = true) (h : pageSkipped filter sourceLocale = false) :
    filter = some sourceLocale := by
  unfold pageSkipped at h
  rw [if_pos ht] at h
  by_cases hd : filter = some "default".toList
  · by_cases hs : sourceLocale = "default".toList
    · rw [hd, hs]
    · rw [if_pos ⟨hd, hs⟩] at h
      cases h
  · rw [if_neg (fun hh => hd hh.1)] at h
    by_cases hs : some sourceLocale = filter
    · exact hs.symm
    · rw [if_pos ⟨hd, hs⟩] at h
      cases h

/-- What `runHealthCheck` counts. Its occurrence counts deduplicate by target for
broken links and by source locale and target for cross-locale links, and they count
links, not pages. For every index: each target URL appears in at most one broken
entry; each pair of a source locale and a target URL appears in at most one
crossLocale entry, so each target URL appears in at most one crossLocale entry when the
index has a locale filter; the occurrence count of a broken entry that has one is the
number of internal links of the scanned pages to that target, each link of a page
counted; the occurrence count of a crossLocale entry is the number of cross-locale
links of the scanned pages with the source locale and the target of the entry; and the
occurrence counts of the crossLocale entries add up to the number of cross-locale links
found before deduplication. -/
theorem occurrences_count_links (lib : UrlLib) (js : Runtime) (net : Net)
    (localeFilter : Option Str) (index : Index) :
    ((runHealthCheck lib js net localeFilter index).broken.map
      (fun b => b.targetUrl)).Nodup ∧
    ((runHealthCheck lib js net localeFilter index).crossLocale.map
      (fun e => (e.issue.sourceLocale, e.issue.targetUrl))).Nodup ∧
    (truthy localeFilter = true →
      ((runHealthCheck lib js net localeFilter index).crossLocale.map
        (fun e => e.issue.targetUrl)).Nodup) ∧
    (∀ b ∈ (runHealthCheck lib js net localeFilter index).broken, ∀ n,
      b.occurrences = some n →
      n = ((scannedLinks lib js localeFilter index).filter
            (fun t => t.2.2.href = b.targetUrl)).length) ∧
    (∀ e ∈ (runHealthCheck lib js net localeFilter index).crossLocale,
      e.occurrences
        = (((scannedLinks lib js localeFilter index).filter (isCrossLocale lib js)).filter
            (fun t => t.2.1 = e.issue.sourceLocale ∧ t.2.2.href = e.issue.targetUrl)).length) ∧
    ((runHealthCheck lib js net localeFilter index).crossLocale.map
        (fun e => e.occurrences)).sum
      = ((scannedLinks lib js localeFilter index).filter (isCrossLocale lib js)).length := by
  have hread := scannedLinks_read lib js localeFilter index
  obtain ⟨c1, c2, c3, c4⟩ := foldl_scanStep_facts lib js
    (scannedLinks lib js localeFilter index) [] {} (fun t ht => (hread t ht).1)
    List.nodup_nil (fun k => Iff.rfl) (fun e he => absurd he (List.not_mem_nil e))
  rw [← collectLinks_eq] at c1 c2 c3 c4
  rw [List.nil_append] at c3 c4
  have c1b : (collectLinks lib js localeFilter index).crossLocaleIssues
      = ((scannedLinks lib js localeFilter index).filter (isCrossLocale lib js)).map
          (crossIssue lib js) := c1
  obtain ⟨d1, d2, d3⟩ := foldl_dedupeStep_facts
    (collectLinks lib js localeFilter index).crossLocaleIssues [] [] List.nodup_nil
    (fun e he => absurd he (List.not_mem_nil e)) (fun i hi => absurd hi (List.not_mem_nil i))
  rw [List.nil_append] at d2
  obtain ⟨k1, ⟨l, hl, k2⟩, k3⟩ := foldl_checkOne_facts net
    (collectLinks lib js localeFilter index).linksToCheck
    { crossLocale := ((collectLinks lib js localeFilter index).crossLocaleIssues.foldl
        dedupeStep []).map (fun entry => entry.2),
      checkedCount := (collectLinks lib js localeFilter index).linksToCheck.length,
      totalUniqueLinks := (collectLinks lib js localeFilter index).linksToCheck.length }
  have hrun : runHealthCheck lib js net localeFilter index
      = (collectLinks lib js localeFilter index).linksToCheck.foldl (checkOne net)
          { crossLocale := ((collectLinks lib js localeFilter index).crossLocaleIssues.foldl
              dedupeStep []).map (fun entry => entry.2),
            checkedCount := (collectLinks lib js localeFilter index).linksToCheck.length,
            totalUniqueLinks := (collectLinks lib js localeFilter index).linksToCheck.length } :=
    rfl
  rw [← hrun] at k1 k2 k3
  dsimp only at k1 k2 k3
  -- every entry of crossLocale is the issue of a cross-locale link that was read
  have hentry : ∀ e ∈ (runHealthCheck lib js net localeFilter index).crossLocale,
      ∃ t ∈ (scannedLinks lib js localeFilter index).filter (isCrossLocale lib js),
        e.issue = crossIssue lib js t ∧
        e.occurrences = ((collectLinks lib js localeFilter index).crossLocaleIssues.filter
          (fun i => crossLocaleKey i = crossLocaleKey e.issue)).length := by
    intro e he
    rw [k1, List.mem_map] at he
    obtain ⟨x, hx, hxe⟩ := he
    obtain ⟨a, b, c⟩ := d2 x hx
    rw [c1b, List.mem_map] at b
    obtain ⟨t, ht, hte⟩ := b
    subst hxe
    exact ⟨t, ht, hte.symm, by rw [c, a]⟩
  have hloc : ∀ t ∈ (scannedLinks lib js localeFilter index).filter (isCrossLocale lib js),
      t.2.1 ∈ "default".toList :: commonLocales := by
    intro t ht
    rw [(hread t (List.mem_of_mem_filter ht)).2.1]
    exact detectLocaleFromUrl_mem lib js t.1
  have hpair : ∀ t ∈ (scannedLinks lib js localeFilter index).filter (isCrossLocale lib js),
      ((crossIssue lib js t).sourceLocale, (crossIssue lib js t).targetUrl)
        = (t.2.1, t.2.2.href) := by
    intro t ht
    unfold crossIssue
    dsimp only
    rw [orText_of_ne_nil _ _ (locale_chars _ (hloc t ht)).1]
  have hpairs : ((runHealthCheck lib js net localeFilter index).crossLocale.map
      (fun e => (e.issue.sourceLocale, e.issue.targetUrl))).Nodup := by
    apply nodup_map_of_nodup_map (fun e : CrossLocaleEntry => crossLocaleKey e.issue)
    · intro x hx y hy hxy
      obtain ⟨t, ht, hte, _⟩ := hentry x hx
      obtain ⟨u, hu, hue, _⟩ := hentry y hy
      rw [hte, hue] at hxy ⊢
      rw [hpair t ht, hpair u hu] at hxy
      rw [crossLocaleKey_eq_iff lib js t u (hloc t ht) (hloc u hu)]
      rw [Prod.mk.injEq] at hxy
      exact hxy
    · rw [k1, List.map_map]
      have : List.map ((fun e : CrossLocaleEntry => crossLocaleKey e.issue) ∘
            fun entry : Str × CrossLocaleEntry => entry.2)
          ((collectLinks lib js localeFilter index).crossLocaleIssues.foldl dedupeStep [])
          = List.map Prod.fst
            ((collectLinks lib js localeFilter index).crossLocaleIssues.foldl dedupeStep []) := by
        apply List.map_congr_left
        intro x hx
        exact (d2 x hx).1.symm
      rw [this]
      exact d1
  refine ⟨?_, hpairs, ?_, ?_, ?_, ?_⟩
  · rw [k2]
    exact List.Nodup.sublist hl c2
  · intro htruthy
    have hor : orElse localeFilter none = localeFilter := by
      unfold orElse
      rw [if_pos htruthy]
    have := nodup_map_of_nodup_map
      (fun e : CrossLocaleEntry => (e.issue.sourceLocale, e.issue.targetUrl))
      (fun e : CrossLocaleEntry => e.issue.targetUrl)
      (runHealthCheck lib js net localeFilter index).crossLocale ?_ hpairs
    · exact this
    · intro x hx y hy hxy
      obtain ⟨t, ht, hte, _⟩ := hentry x hx
      obtain ⟨u, hu, hue, _⟩ := hentry y hy
      have e1 := hpair t ht
      have e2 := hpair u hu
      rw [← hte] at e1
      rw [← hue] at e2
      have s1 := pageSkipped_false _ _ (hor.symm ▸ htruthy)
        (hread t (List.mem_of_mem_filter ht)).2.2
      have s2 := pageSkipped_false _ _ (hor.symm ▸ htruthy)
        (hread u (List.mem_of_mem_filter hu)).2.2
      have s3 : t.2.1 = u.2.1 := Option.some.inj (s1.symm.trans s2)
      dsimp only at hxy ⊢
      rw [Prod.mk.injEq] at e1 e2
      rw [Prod.mk.injEq, e1.1, e2.1]
      exact ⟨s3, hxy⟩
  · intro b hb n hn
    rcases k3 b hb with h | ⟨entry, he, h1, h2⟩
    · exact absurd h (List.not_mem_nil b)
    · rcases h2 with h2 | h2
      · rw [h2] at hn
        simp only [Option.some.injEq] at hn
        rw [← hn, c4 entry he, List.length_map, h1]
      · rw [h2] at hn
        cases hn
  · intro e he
    obtain ⟨t, ht, hte, hocc⟩ := hentry e he
    rw [hocc, c1b, List.filter_map, List.length_map]
    congr 1
    apply List.filter_congr
    intro u hu
    have e1 := hpair t ht
    rw [← hte, Prod.mk.injEq] at e1
    rw [e1.1, e1.2]
    have := crossLocaleKey_eq_iff lib js u t (hloc u hu) (hloc t ht)
    rw [← hte] at this
    simp only [Function.comp_apply]
    by_cases hk : crossLocaleKey (crossIssue lib js u) = crossLocaleKey e.issue
    · rw [decide_eq_true hk, decide_eq_true (this.1 hk)]
    · rw [decide_eq_false hk, decide_eq_false (fun h => hk (this.2 h))]
  · rw [k1, List.map_map]
    have : List.map ((fun e : CrossLocaleEntry => e.occurrences) ∘
          fun entry : Str × CrossLocaleEntry => entry.2)
        ((collectLinks lib js localeFilter index).crossLocaleIssues.foldl dedupeStep [])
        = List.map (fun e => e.2.occurrences)
          ((collectLinks lib js localeFilter index).crossLocaleIssues.foldl dedupeStep []) := rfl
    rw [this, d3, c1b, List.length_map]
    simp

/-- C29. The occurrence counts of `runHealthCheck` do not deduplicate by target and do
not count pages. In the full-site index where a French and a German page link to one
English page, that target is in two crossLocale entries, each with the count 1; and the
missing page that one page links to twice has the occurrence count 2 with one source
page. -/
theorem occurrences_not_by_target :
    (runHealthCheck plainLib plainRuntime goneNet none healthIndex).crossLocale.map
        (fun e => (e.issue.sourceLocale, e.issue.targetUrl, e.occurrences))
      = [("fr".toList, "http://a.com/en/x".toList, 1),
         ("de".toList, "http://a.com/en/x".toList, 1)] ∧
    (runHealthCheck plainLib plainRuntime goneNet none healthIndex).broken
      = [{ sourceUrl := some "http://a.com/p".toList, targetUrl := "http://a.com/gone".toList,
           status := 404, anchorText := "old".toList, occurrences := some 2 }] ∧
    (healthIndex.pages.filter (fun page =>
      page.2.links.any (fun link => link.href = "http://a.com/gone".toList))).map Prod.fst
      = ["http://a.com/p".toList] := by
  refine ⟨?_, ?_, ?_⟩ <;> decide

/-! ## The worker pool: a page that fails -/

theorem getElem?_set_self_of_some {α : Type} (l : List α) (i : Nat) (a b : α)
    (h : l[i]? = some a) : (l.set i b)[i]? = some b := by
  have hi : i < l.length := by
    by_contra hn
    rw [List.getElem?_eq_none (Nat.le_of_not_lt hn)] at h
    cases h
  rw [List.getElem?_set_self hi]

theorem set_set_of_getElem? {α : Type} (l : List α) (i : Nat) (a b : α)
    (h : l[i]? = some a) : (l.set i b).set i a = l := by
  rw [List.set_set]
  apply List.ext_getElem?
  intro j
  by_cases hj : i = j
  · subst hj
    rw [getElem?_set_self_of_some l i a a h, h]
  · rw [List.getElem?_set_ne hj]

theorem crawler_takeNext_some (s : SpiderCrawler) (url : Str) (h : s.takeNext.2 = some url) :
    s.takeNext.1 =
      { s with
        queue := s.queue.tail
        visited := setAdd s.visited url
        pagesCrawled := s.pagesCrawled + 1
        activeWorkers := s.activeWorkers + 1 } ∧
    s.queue.head? = some url ∧ url ∉ s.visited := by
  unfold SpiderCrawler.takeNext at h ⊢
  cases hq : s.queue with
  | nil => rw [hq] at h; cases h
  | cons u rest =>
    rw [hq] at h
    dsimp only at h ⊢
    by_cases he : u.isEmpty = true
    · rw [if_pos he] at h; cases h
    · rw [if_neg he] at h ⊢
      by_cases hv : u ∈ s.visited
      · rw [if_pos hv] at h; cases h
      · rw [if_neg hv] at h ⊢
        simp only [Option.some.injEq] at h
        subst h
        exact ⟨rfl, rfl, hv⟩

theorem indexer_takeNext_some (s : SiteIndexer) (url : Str) (h : s.takeNext.2 = some url) :
    s.takeNext.1 =
      { s with
        queue := s.queue.tail
        visited := setAdd s.visited url
        pagesCrawled := s.pagesCrawled + 1
        activeWorkers := s.activeWorkers + 1 } ∧
    s.queue.head? = some url ∧ url ∉ s.visited := by
  unfold SiteIndexer.takeNext at h ⊢
  cases hq : s.queue with
  | nil => rw [hq] at h; cases h
  | cons u rest =>
    rw [hq] at h
    dsimp only at h ⊢
    by_cases he : (u.isEmpty || decide (u ∈ s.visited)) = true
    · rw [if_pos he] at h; cases h
    · rw [if_neg he] at h ⊢
      simp only [Option.some.injEq] at h
      subst h
      refine ⟨rfl, rfl, ?_⟩
      intro hv
      apply he
      rw [Bool.or_eq_true]
      exact Or.inr (decide_eq_true hv)

theorem crawler_loopTest_running (s : SpiderCrawler) (h : s.loopTest = true) :
    s.isRunning = true := by
  unfold SpiderCrawler.loopTest at h
  cases hr : s.isRunning
  · rw [hr] at h
    simp at h
  · rfl

theorem indexer_loopTest_running (s : SiteIndexer) (h : s.loopTest = true) :
    s.isRunning = true := by
  unfold SiteIndexer.loopTest at h
  cases hr : s.isRunning
  · rw [hr] at h
    simp at h
  · rfl

/-- The step of a crawler worker that takes a URL. -/
theorem crawler_step_of_take (p : CrawlerPool) (w : Nat) (url : Str)
    (hw : p.workers[w]? = some WorkerAt.loopTest) (ht : p.crawler.loopTest = true)
    (hp : p.crawler.isPaused = false) (hu : p.crawler.takeNext.2 = some url) :
    p.step w = { crawler := p.crawler.takeNext.1,
                 workers := p.workers.set w (WorkerAt.inPage url) } := by
  have hr := crawler_loopTest_running _ ht
  unfold CrawlerPool.step
  rw [hw]
  dsimp only
  rw [if_pos ht]
  unfold CrawlerPool.afterTest
  rw [hp, hr, if_neg (by decide), if_neg (by decide)]
  unfold CrawlerPool.take
  cases hk : p.crawler.takeNext with
  | mk c o =>
    rw [hk] at hu
    dsimp only at hu
    subst hu
    rfl

/-- The step of an indexer worker that takes a URL. -/
theorem indexer_step_of_take (p : IndexerPool) (w : Nat) (url : Str)
    (hw : p.workers[w]? = some WorkerAt.loopTest) (ht : p.indexer.loopTest = true)
    (hp : p.indexer.isPaused = false) (hu : p.indexer.takeNext.2 = some url) :
    p.step w = { p with indexer := p.indexer.takeNext.1,
                        workers := p.workers.set w (WorkerAt.inPage url) } := by
  have hr := indexer_loopTest_running _ ht
  unfold IndexerPool.step
  rw [hw]
  dsimp only
  rw [if_pos ht]
  unfold IndexerPool.afterTest
  rw [hp, hr, if_neg (by decide), if_neg (by decide)]
  unfold IndexerPool.take
  cases hk : p.indexer.takeNext with
  | mk c o =>
    rw [hk] at hu
    dsimp only at hu
    subst hu
    rfl

/-- The failure branch of the crawler worker, in any state where the worker is in a
page. -/
theorem crawler_pageDone_threw (lib : UrlLib) (p : CrawlerPool) (w : Nat) (url message : Str)
    (hw : p.workers[w]? = some (WorkerAt.inPage url)) :
    p.pageDone lib w (CrawlOutcome.threw message) =
      { crawler := { p.crawler with
                     errors := p.crawler.errors ++ [(url, message)]
                     activeWorkers := p.crawler.activeWorkers - 1 },
        workers := p.workers.set w WorkerAt.loopTest } := by
  unfold CrawlerPool.pageDone
  rw [hw]

/-- The failure branch of the indexer worker, in any state where the worker is in a
page. -/
theorem indexer_pageDone_threw (lib : UrlLib) (js : Runtime) (p : IndexerPool) (w : Nat)
    (url message : Str) (hw : p.workers[w]? = some (WorkerAt.inPage url)) :
    p.pageDone lib js w (IndexOutcome.threw message) =
      { indexer := { p.indexer with
                     errors := p.indexer.errors ++ [(url, message)]
                     activeWorkers := p.indexer.activeWorkers - 1 },
        pages := p.pages,
        workers := p.workers.set w WorkerAt.loopTest } := by
  unfold IndexerPool.pageDone
  rw [hw]

/-- C24. A failing page never aborts the job. When a worker, of the crawler or of the
indexer, stands at a loop test that holds on a pool that is not paused and takes the
URL `url`, and the extraction of `url` throws, then the worker has appended exactly one
entry, for `url`, to the error list, `activeWorkers` is back at the value it had before
the page was taken, the job is still running, the worker is back at its loop test with
the other workers where they were, the queue is the queue after `url`, and when the
loop test holds again the worker takes the next queue entry. In every state in which a
worker is in the page `url`, however it was reached, the failure appends that one entry,
takes one from `activeWorkers` and leaves `isRunning`, the queue and the visited set as
they are. -/
theorem failing_page_continues (lib : UrlLib) (js : Runtime) (cp : CrawlerPool)
    (ip : IndexerPool) (w : Nat) (url message : Str)
    (hcw : cp.workers[w]? = some WorkerAt.loopTest) (hct : cp.crawler.loopTest = true)
    (hcp : cp.crawler.isPaused = false) (hcu : cp.crawler.takeNext.2 = some url)
    (hiw : ip.workers[w]? = some WorkerAt.loopTest) (hit : ip.indexer.loopTest = true)
    (hip : ip.indexer.isPaused = false) (hiu : ip.indexer.takeNext.2 = some url) :
    ((cp.step w).workers[w]? = some (WorkerAt.inPage url) ∧
      (cp.step w).crawler.activeWorkers = cp.crawler.activeWorkers + 1 ∧
      ((cp.step w).pageDone lib w (CrawlOutcome.threw message)).crawler.errors
        = cp.crawler.errors ++ [(url, message)] ∧
      ((cp.step w).pageDone lib w (CrawlOutcome.threw message)).crawler.activeWorkers
        = cp.crawler.activeWorkers ∧
      ((cp.step w).pageDone lib w (CrawlOutcome.threw message)).crawler.isRunning = true ∧
      ((cp.step w).pageDone lib w (CrawlOutcome.threw message)).workers = cp.workers ∧
      ((cp.step w).pageDone lib w (CrawlOutcome.threw message)).crawler.queue
        = cp.crawler.queue.tail ∧
      (∀ next,
        ((cp.step w).pageDone lib w (CrawlOutcome.threw message)).crawler.loopTest = true →
        ((cp.step w).pageDone lib w (CrawlOutcome.threw message)).crawler.takeNext.2
          = some next →
        ((((cp.step w).pageDone lib w (CrawlOutcome.threw message)).step w).workers[w]?
          = some (WorkerAt.inPage next)))) ∧
    ((ip.step w).workers[w]? = some (WorkerAt.inPage url) ∧
      (ip.step w).indexer.activeWorkers = ip.indexer.activeWorkers + 1 ∧
      ((ip.step w).pageDone lib js w (IndexOutcome.threw message)).indexer.errors
        = ip.indexer.errors ++ [(url, message)] ∧
      ((ip.step w).pageDone lib js w (IndexOutcome.threw message)).indexer.activeWorkers
        = ip.indexer.activeWorkers ∧
      ((ip.step w).pageDone lib js w (IndexOutcome.threw message)).indexer.isRunning = true ∧
      ((ip.step w).pageDone lib js w (IndexOutcome.threw message)).workers = ip.workers ∧
      ((ip.step w).pageDone lib js w (IndexOutcome.threw message)).indexer.queue
        = ip.indexer.queue.tail ∧
      ((ip.step w).pageDone lib js w (IndexOutcome.threw message)).pages = ip.pages ∧
      (∀ next,
        ((ip.step w).pageDone lib js w (IndexOutcome.threw message)).indexer.loopTest = true →
        ((ip.step w).pageDone lib js w (IndexOutcome.threw message)).indexer.takeNext.2
          = some next →
        ((((ip.step w).pageDone lib js w (IndexOutcome.threw message)).step w).workers[w]?
          = some (WorkerAt.inPage next)))) ∧
    (∀ r : CrawlerPool, r.workers[w]? = some (WorkerAt.inPage url) →
      (r.pageDone lib w (CrawlOutcome.threw message)).crawler.errors
        = r.crawler.errors ++ [(url, message)] ∧
      (r.pageDone lib w (CrawlOutcome.threw message)).crawler.activeWorkers
        = r.crawler.activeWorkers - 1 ∧
      (r.pageDone lib w (CrawlOutcome.threw message)).crawler.isRunning = r.crawler.isRunning ∧
      (r.pageDone lib w (CrawlOutcome.threw message)).crawler.queue = r.crawler.queue ∧
      (r.pageDone lib w (CrawlOutcome.threw message)).crawler.visited = r.crawler.visited ∧
      (r.pageDone lib w (CrawlOutcome.threw message)).workers
        = r.workers.set w WorkerAt.loopTest) ∧
    (∀ r : IndexerPool, r.workers[w]? = some (WorkerAt.inPage url) →
      (r.pageDone lib js w (IndexOutcome.threw message)).indexer.errors
        = r.indexer.errors ++ [(url, message)] ∧
      (r.pageDone lib js w (IndexOutcome.threw message)).indexer.activeWorkers
        = r.indexer.activeWorkers - 1 ∧
      (r.pageDone lib js w (IndexOutcome.threw message)).indexer.isRunning
        = r.indexer.isRunning ∧
      (r.pageDone lib js w (IndexOutcome.threw message)).indexer.queue = r.indexer.queue ∧
      (r.pageDone lib js w (IndexOutcome.threw message)).indexer.visited
        = r.indexer.visited ∧
      (r.pageDone lib js w (IndexOutcome.threw message)).workers
        = r.workers.set w WorkerAt.loopTest) := by
  have hcs := crawler_step_of_take cp w url hcw hct hcp hcu
  have his := indexer_step_of_take ip w url hiw hit hip hiu
  have hcn := (crawler_takeNext_some cp.crawler url hcu).1
  have hin := (indexer_takeNext_some ip.indexer url hiu).1
  have hcr := crawler_loopTest_running _ hct
  have hir := indexer_loopTest_running _ hit
  have hcw2 : (cp.step w).workers[w]? = some (WorkerAt.inPage url) := by
    rw [hcs]
    exact getElem?_set_self_of_some _ _ _ _ hcw
  have hiw2 : (ip.step w).workers[w]? = some (WorkerAt.inPage url) := by
    rw [his]
    exact getElem?_set_self_of_some _ _ _ _ hiw
  have hcd := crawler_pageDone_threw lib (cp.step w) w url message hcw2
  have hid := indexer_pageDone_threw lib js (ip.step w) w url message hiw2
  have hcwk : ((cp.step w).pageDone lib w (CrawlOutcome.threw message)).workers = cp.workers := by
    rw [hcd, hcs]
    exact set_set_of_getElem? _ _ _ _ hcw
  have hiwk : ((ip.step w).pageDone lib js w (IndexOutcome.threw message)).workers
      = ip.workers := by
    rw [hid, his]
    exact set_set_of_getElem? _ _ _ _ hiw
  have hcpz : ((cp.step w).pageDone lib w (CrawlOutcome.threw message)).crawler.isPaused
      = false := by
    rw [hcd, hcs, hcn]
    exact hcp
  have hipz : ((ip.step w).pageDone lib js w (IndexOutcome.threw message)).indexer.isPaused
      = false := by
    rw [hid, his, hin]
    exact hip
  refine ⟨⟨hcw2, ?_, ?_, ?_, ?_, hcwk, ?_, ?_⟩, ⟨hiw2, ?_, ?_, ?_, ?_, hiwk, ?_, ?_, ?_⟩, ?_, ?_⟩
  · rw [hcs, hcn]
  · rw [hcd, hcs, hcn]
  · rw [hcd, hcs, hcn]
    exact Nat.add_sub_cancel _ _
  · rw [hcd, hcs, hcn]
    exact hcr
  · rw [hcd, hcs, hcn]
  · intro next hl hn
    rw [crawler_step_of_take _ w next (by rw [hcwk]; exact hcw) hl hcpz hn]
    exact getElem?_set_self_of_some _ _ _ _ (by rw [hcwk]; exact hcw)
  · rw [his, hin]
  · rw [hid, his, hin]
  · rw [hid, his, hin]
    exact Nat.add_sub_cancel _ _
  · rw [hid, his, hin]
    exact hir
  · rw [hid, his, hin]
  · rw [hid, his]
  · intro next hl hn
    rw [indexer_step_of_take _ w next (by rw [hiwk]; exact hiw) hl hipz hn]
    exact getElem?_set_self_of_some _ _ _ _ (by rw [hiwk]; exact hiw)
  · intro r hr
    rw [crawler_pageDone_threw lib r w url message hr]
    exact ⟨rfl, rfl, rfl, rfl, rfl, rfl⟩
  · intro r hr
    rw [indexer_pageDone_threw lib js r w url message hr]
    exact ⟨rfl, rfl, rfl, rfl, rfl, rfl⟩

set_option maxRecDepth 100000 in
/-- Witness of C24: the first page of the fixture crawl fails with a network error, in
the crawler and in the indexer; each has the one error entry. -/
theorem failing_page_continues_witness :
    (((fixtureCrawl "http://a.com/".toList).step 0).pageDone plainLib 0
        (CrawlOutcome.threw "net::ERR_FAILED".toList)).crawler.errors
      = (fixtureCrawl "http://a.com/".toList).crawler.errors
        ++ [("http://a.com/".toList, "net::ERR_FAILED".toList)] ∧
    (((fixtureIndexing "http://a.com/".toList).step 0).pageDone plainLib plainRuntime 0
        (IndexOutcome.threw "net::ERR_FAILED".toList)).indexer.errors
      = (fixtureIndexing "http://a.com/".toList).indexer.errors
        ++ [("http://a.com/".toList, "net::ERR_FAILED".toList)] :=
  have h := failing_page_continues plainLib plainRuntime
    (fixtureCrawl "http://a.com/".toList) (fixtureIndexing "http://a.com/".toList) 0
    "http://a.com/".toList "net::ERR_FAILED".toList
    (by decide) (by decide) (by decide) (by decide)
    (by decide) (by decide) (by decide) (by decide)
  ⟨h.1.2.2.1, h.2.1.2.2.1⟩

/-! ## The worker pool: the page budget and the fixture crawl -/

set_option maxRecDepth 100000 in
/-- C26. The page budget is exceeded after a pause. With `maxPages: 2` and two workers,
the start page is taken and gives two links; the caller pauses; both workers pass the
loop test, which sees one page crawled, and wait in the pause loop; the caller resumes;
both workers go on from the pause loop to `queue.shift()` without a new loop test, and
three pages have been taken. The same holds for the crawler and for the indexer. -/
theorem budget_exceeded_after_pause :
    (budgetCrawl.crawler.maxPages = some 2 ∧
      (budgetCrawl.run plainLib
        (pauseSchedule (CrawlOutcome.links twoLinks))).crawler.pagesCrawled = 3 ∧
      (budgetCrawl.run plainLib (pauseSchedule (CrawlOutcome.links twoLinks))).crawler.visited
        = ["http://a.com/".toList, "http://a.com/x".toList, "http://a.com/y".toList] ∧
      (budgetCrawl.run plainLib (pauseSchedule (CrawlOutcome.links twoLinks))).workers
        = [WorkerAt.inPage "http://a.com/x".toList, WorkerAt.inPage "http://a.com/y".toList]) ∧
    (budgetIndexing.indexer.maxPages = some 2 ∧
      (budgetIndexing.run plainLib plainRuntime
        (pauseSchedule twoLinksPage)).indexer.pagesCrawled = 3 ∧
      (budgetIndexing.run plainLib plainRuntime (pauseSchedule twoLinksPage)).indexer.visited
        = ["http://a.com/".toList, "http://a.com/x".toList, "http://a.com/y".toList] ∧
      (budgetIndexing.run plainLib plainRuntime (pauseSchedule twoLinksPage)).workers
        = [WorkerAt.inPage "http://a.com/x".toList, WorkerAt.inPage "http://a.com/y".toList]) := by
  refine ⟨⟨?_, ?_, ?_, ?_⟩, ⟨?_, ?_, ?_, ?_⟩⟩ <;> decide

set_option maxRecDepth 100000 in
/-- C25. The fixture crawl visits the start page twice when the start URL is not in the
cleaned form of the links. On the site of five pages that link to one another, with
`concurrency: 2` and `maxPages: 5`, the crawler started on `http://a.com` and the
indexer started on `http://a.com/` hand the start page to the extractor under both of
its URLs and never the page `http://a.com/e`; when both workers have left the loop,
`activeWorkers` is 0 and the queue still holds `http://a.com/e`. -/
theorem fixture_crawl_revisits_start :
    (((fixtureCrawl "http://a.com".toList).run plainLib fixtureSchedule).workers
        = [WorkerAt.finished, WorkerAt.finished] ∧
      ((fixtureCrawl "http://a.com".toList).run plainLib fixtureSchedule).crawler.visited
        = ["http://a.com".toList, "http://a.com/".toList, "http://a.com/b".toList,
           "http://a.com/c".toList, "http://a.com/d".toList] ∧
      ((fixtureCrawl "http://a.com".toList).run plainLib fixtureSchedule).crawler.queue
        = ["http://a.com/e".toList] ∧
      ((fixtureCrawl "http://a.com".toList).run plainLib fixtureSchedule).crawler.activeWorkers
        = 0 ∧
      SpiderCrawler.clean plainLib "http://a.com".toList
        = SpiderCrawler.clean plainLib "http://a.com/".toList) ∧
    (((fixtureIndexing "http://a.com/".toList).run plainLib plainRuntime
        fixtureIndexSchedule).workers = [WorkerAt.finished, WorkerAt.finished] ∧
      ((fixtureIndexing "http://a.com/".toList).run plainLib plainRuntime
        fixtureIndexSchedule).indexer.visited
        = ["http://a.com/".toList, "http://a.com".toList, "http://a.com/b".toList,
           "http://a.com/c".toList, "http://a.com/d".toList] ∧
      ((fixtureIndexing "http://a.com/".toList).run plainLib plainRuntime
        fixtureIndexSchedule).indexer.queue = ["http://a.com/e".toList] ∧
      ((fixtureIndexing "http://a.com/".toList).run plainLib plainRuntime
        fixtureIndexSchedule).indexer.activeWorkers = 0 ∧
      SiteIndexer.clean plainLib "http://a.com/".toList
        = SiteIndexer.clean plainLib "http://a.com".toList) := by
  refine ⟨⟨?_, ?_, ?_, ?_, ?_⟩, ⟨?_, ?_, ?_, ?_, ?_⟩⟩ <;> decide

set_option maxRecDepth 100000 in
/-- With the start URL in the cleaned form, the same schedule of the fixture crawl hands
each of the five pages to the extractor once and ends with an empty queue and no page in
flight. -/
theorem fixture_crawl_clean_start :
    (((fixtureCrawl "http://a.com/".toList).run plainLib fixtureSchedule).workers
        = [WorkerAt.finished, WorkerAt.finished] ∧
      ((fixtureCrawl "http://a.com/".toList).run plainLib fixtureSchedule).crawler.visited
        = fixtureLinks ∧
      ((fixtureCrawl "http://a.com/".toList).run plainLib fixtureSchedule).crawler.queue = [] ∧
      ((fixtureCrawl "http://a.com/".toList).run plainLib fixtureSchedule).crawler.activeWorkers
        = 0) ∧
    (((fixtureIndexing "http://a.com".toList).run plainLib plainRuntime
        fixtureIndexSchedule).workers = [WorkerAt.finished, WorkerAt.finished] ∧
      ((fixtureIndexing "http://a.com".toList).run plainLib plainRuntime
        fixtureIndexSchedule).indexer.visited
        = ["http://a.com".toList, "http://a.com/b".toList, "http://a.com/c".toList,
           "http://a.com/d".toList, "http://a.com/e".toList] ∧
      ((fixtureIndexing "http://a.com".toList).run plainLib plainRuntime
        fixtureIndexSchedule).indexer.queue = [] ∧
      ((fixtureIndexing "http://a.com".toList).run plainLib plainRuntime
        fixtureIndexSchedule).indexer.activeWorkers = 0) := by
  refine ⟨⟨?_, ?_, ?_, ?_⟩, ⟨?_, ?_, ?_, ?_⟩⟩ <;> decide

/-! ## The worker pool: incremental indexing keeps the other pages -/

theorem getElem?_set_cases {α : Type} (l : List α) (i j : Nat) (a b : α)
    (h : (l.set i a)[j]? = some b) : b = a ∨ l[j]? = some b := by
  by_cases hij : i = j
  · subst hij
    by_cases hi : i < l.length
    · rw [List.getElem?_set_self hi] at h
      exact Or.inl (Option.some.inj h).symm
    · rw [List.getElem?_eq_none (by rw [List.length_set]; exact Nat.le_of_not_lt hi)] at h
      cases h
  · rw [List.getElem?_set_ne hij] at h
    exact Or.inr h

theorem mapGet_mapSet_ne {β : Type} (m : List (Str × β)) (key other : Str) (v : β)
    (h : other ≠ key) : mapGet (mapSet m key v) other = mapGet m other := by
  induction m with
  | nil =>
    unfold mapSet mapGet
    rw [List.find?_cons, show decide ((key, v).1 = other) = false from
      decide_eq_false (fun e => h e.symm)]
  | cons e rest ih =>
    obtain ⟨k, u⟩ := e
    unfold mapSet
    by_cases hk : k = key
    · rw [if_pos hk]
      unfold mapGet
      rw [List.find?_cons, List.find?_cons,
        show decide ((k, v).1 = other) = false from
          decide_eq_false (fun e => h (e.symm.trans hk))]
    · rw [if_neg hk]
      unfold mapGet at ih ⊢
      rw [List.find?_cons, List.find?_cons]
      by_cases hko : k = other
      · rw [show decide ((k, u).1 = other) = true from decide_eq_true hko]
      · rw [show decide ((k, u).1 = other) = false from decide_eq_false hko]
        exact ih

theorem length_mapSet {β : Type} (m : List (Str × β)) (key : Str) (v : β) :
    m.length ≤ (mapSet m key v).length := by
  induction m with
  | nil => exact Nat.zero_le _
  | cons e rest ih =>
    obtain ⟨k, u⟩ := e
    unfold mapSet
    by_cases hk : k = key
    · rw [if_pos hk]
      exact Nat.le_refl _
    · rw [if_neg hk]
      exact Nat.succ_le_succ ih

theorem indexer_takeNext_queue (s : SiteIndexer) :
    (∀ u ∈ s.takeNext.1.queue, u ∈ s.queue) ∧
    (∀ u, s.takeNext.2 = some u → u ∈ s.queue) := by
  unfold SiteIndexer.takeNext
  cases hq : s.queue with
  | nil => exact ⟨fun u hu => by rw [hq] at hu; exact hu, fun u hu => by cases hu⟩
  | cons c rest =>
    dsimp only
    split
    · exact ⟨fun u hu => List.mem_cons_of_mem _ hu, fun u hu => by cases hu⟩
    · refine ⟨fun u hu => List.mem_cons_of_mem _ hu, fun u hu => ?_⟩
      simp only [Option.some.injEq] at hu
      rw [← hu]
      exact List.mem_cons_self _ _

theorem keepsPages_workers (existing : Index) (urls : List Str) (pool : IndexerPool)
    (h : KeepsPages existing urls pool) (w : Nat) (at_ : WorkerAt)
    (ha : ∀ u, at_ = WorkerAt.inPage u → u ∈ urls) :
    KeepsPages existing urls { pool with workers := pool.workers.set w at_ } := by
  obtain ⟨h1, h2, h3, h4, h5⟩ := h
  refine ⟨h1, h2, ?_, h4, h5⟩
  intro v u hv
  rcases getElem?_set_cases _ _ _ _ _ hv with e | e
  · exact ha u e.symm
  · exact h3 v u e

theorem keepsPages_take (existing : Index) (urls : List Str) (pool : IndexerPool)
    (h : KeepsPages existing urls pool) (w : Nat) :
    KeepsPages existing urls (pool.take w) := by
  obtain ⟨h1, h2, h3, h4, h5⟩ := h
  have hq := indexer_takeNext_queue pool.indexer
  have hu := urlsToIndex_takeNext pool.indexer
  unfold IndexerPool.take
  cases hk : pool.indexer.takeNext with
  | mk c o =>
    rw [hk] at hq hu
    cases o with
    | none =>
      refine ⟨hu.trans h1, fun u hm => h2 u (hq.1 u hm), ?_, h4, h5⟩
      intro v u hv
      rcases getElem?_set_cases _ _ _ _ _ hv with e | e
      · cases e
      · exact h3 v u e
    | some url =>
      refine ⟨hu.trans h1, fun u hm => h2 u (hq.1 u hm), ?_, h4, h5⟩
      intro v u hv
      rcases getElem?_set_cases _ _ _ _ _ hv with e | e
      · simp only [WorkerAt.inPage.injEq] at e
        rw [e]
        exact h2 url (hq.2 url rfl)
      · exact h3 v u e

theorem keepsPages_afterTest (existing : Index) (urls : List Str) (pool : IndexerPool)
    (h : KeepsPages existing urls pool) (w : Nat) :
    KeepsPages existing urls (pool.afterTest w) := by
  unfold IndexerPool.afterTest
  split
  · exact keepsPages_workers existing urls pool h w _ (fun u e => by cases e)
  · split
    · exact keepsPages_workers existing urls pool h w _ (fun u e => by cases e)
    · exact keepsPages_take existing urls pool h w

theorem keepsPages_step (existing : Index) (urls : List Str) (pool : IndexerPool)
    (h : KeepsPages existing urls pool) (w : Nat) :
    KeepsPages existing urls (pool.step w) := by
  unfold IndexerPool.step
  split
  · split
    · exact keepsPages_afterTest existing urls pool h w
    · exact keepsPages_workers existing urls pool h w _ (fun u e => by cases e)
  · exact keepsPages_afterTest existing urls pool h w
  · exact h

theorem keepsPages_pageDone (lib : UrlLib) (js : Runtime) (existing : Index) (urls : List Str)
    (pool : IndexerPool) (h : KeepsPages existing urls pool) (w : Nat)
    (outcome : IndexOutcome) :
    KeepsPages existing urls (pool.pageDone lib js w outcome) := by
  obtain ⟨h1, h2, h3, h4, h5⟩ := h
  unfold IndexerPool.pageDone
  split
  · rename_i currentUrl hw
    have hcu := h3 w currentUrl hw
    have hset : ∀ (v : Nat) (u : Str),
        (pool.workers.set w WorkerAt.loopTest)[v]? = some (WorkerAt.inPage u) →
        u ∈ urls := by
      intro v u hv
      rcases getElem?_set_cases _ _ _ _ _ hv with e | e
      · cases e
      · exact h3 v u e
    cases outcome with
    | indexed title pageLocale links =>
      dsimp only
      rw [h1]
      simp only [Option.isNone_some, Bool.false_eq_true, if_false]
      refine ⟨rfl, h2, hset, ?_, Nat.le_trans h5 (length_mapSet _ _ _)⟩
      intro url hurl
      have hne2 : url ≠ currentUrl := fun e => hurl (by rw [e]; exact hcu)
      rw [mapGet_mapSet_ne _ _ _ _ hne2]
      exact h4 url hurl
    | threw message =>
      exact ⟨h1, h2, hset, h4, h5⟩
  · exact ⟨h1, h2, h3, h4, h5⟩

theorem keepsPages_run (lib : UrlLib) (js : Runtime) (existing : Index) (urls : List Str)
    (events : List (PoolEvent IndexOutcome)) :
    ∀ pool, KeepsPages existing urls pool →
      KeepsPages existing urls (pool.run lib js events) := by
  induction events with
  | nil => intro pool h; exact h
  | cons e rest ih =>
    intro pool h
    unfold IndexerPool.run
    rw [List.foldl_cons]
    apply ih
    cases e with
    | step w => exact keepsPages_step existing urls pool h w
    | pageDone w outcome => exact keepsPages_pageDone lib js existing urls pool h w outcome
    | pause => exact h
    | resume => exact h
    | stop => exact h

theorem keepsPages_init (lib : UrlLib) (options : IndexerOptions) (existing : Index)
    (urls : List Str) (hu : options.urlsToIndex = some urls) (hne : urls ≠ [])
    (hp : (lib.parse options.startUrl).isSome = true) :
    KeepsPages existing urls (IndexerPool.init lib options (some existing)) := by
  cases urls with
  | nil => exact absurd rfl hne
  | cons url rest =>
    unfold IndexerPool.init
    cases hparse : lib.parse options.startUrl with
    | none => rw [hparse] at hp; cases hp
    | some urlObj =>
      dsimp only
      rw [hu]
      dsimp only
      refine ⟨by rw [urlsToIndex_buildIndex, hu], ?_, ?_, fun _ _ => rfl, Nat.le_refl _⟩
      · have hb : ((SiteIndexer.new options).buildIndex lib).queue = url :: rest := by
          unfold SiteIndexer.buildIndex
          rw [if_neg (by simp [SiteIndexer.new])]
          have hs : (SiteIndexer.new options).startUrl = options.startUrl := rfl
          have hx : (SiteIndexer.new options).urlsToIndex = some (url :: rest) := hu
          rw [hs, hparse]
          dsimp only
          rw [hx]
        rw [hb]
        exact fun u hm => hm
      · intro w u hw
        rw [List.getElem?_replicate] at hw
        split at hw <;> cases hw

/-- C22 (amended). Incremental merge keeps untouched pages, for a list `urlsToIndex`
that is not empty. For every existing index, every non-empty list `urlsToIndex` and
every start URL that parses, in every state that the workers of the incremental
`buildIndex` reach, by any interleaving of their steps, any outcomes of the pages and
any calls of `pause()`, `resume()` and `stop()`, every URL that is not in `urlsToIndex`
has in the index the page record, with its title, locale and links, that it has in the
existing index (and none when it has none there), and the index has at least as many
pages as the existing index. -/
theorem incremental_keeps_pages (lib : UrlLib) (js : Runtime) (options : IndexerOptions)
    (existing : Index) (urls : List Str) (events : List (PoolEvent IndexOutcome))
    (hu : options.urlsToIndex = some urls) (hne : urls ≠ [])
    (hp : (lib.parse options.startUrl).isSome = true) :
    (∀ url, url ∉ urls →
      mapGet ((IndexerPool.init lib options (some existing)).run lib js events).pages url
        = mapGet existing.pages url) ∧
    existing.pages.length
      ≤ ((IndexerPool.init lib options (some existing)).run lib js events).pages.length := by
  have h := keepsPages_run lib js existing urls events _
    (keepsPages_init lib options existing urls hu hne hp)
  exact ⟨h.2.2.2.1, h.2.2.2.2⟩

set_option maxRecDepth 100000 in
/-- Witness of C22: the page `http://a.com/new` is indexed into the index that holds
`http://a.com/old`, which keeps its record. -/
theorem incremental_keeps_pages_witness :
    mapGet ((IndexerPool.init plainLib (mergeOptions ["http://a.com/new".toList])
        (some oldIndex)).run plainLib plainRuntime mergeSchedule).pages "http://a.com/old".toList
      = mapGet oldIndex.pages "http://a.com/old".toList ∧
    oldIndex.pages.length
      ≤ ((IndexerPool.init plainLib (mergeOptions ["http://a.com/new".toList])
          (some oldIndex)).run plainLib plainRuntime mergeSchedule).pages.length :=
  have h := incremental_keeps_pages plainLib plainRuntime
    (mergeOptions ["http://a.com/new".toList]) oldIndex ["http://a.com/new".toList]
    mergeSchedule rfl (by decide) (by decide)
  ⟨h.1 "http://a.com/old".toList (by decide), h.2⟩

set_option maxRecDepth 100000 in
/-- Counterexample to C22 as stated: with the empty list `urlsToIndex`, `buildIndex`
takes the branch of a full crawl and indexes into a new index; the page of the existing
index, whose URL is not in the list, is in no state of the run, before or after the
start page is stored. -/
theorem incremental_keeps_pages_counterexample :
    "http://a.com/old".toList ∉ ([] : List Str) ∧
    mapGet oldIndex.pages "http://a.com/old".toList ≠ none ∧
    (IndexerPool.init plainLib (mergeOptions []) (some oldIndex)).pages = [] ∧
    ((IndexerPool.init plainLib (mergeOptions []) (some oldIndex)).run plainLib plainRuntime
        mergeSchedule).pages.map Prod.fst = ["http://a.com".toList] ∧
    mapGet ((IndexerPool.init plainLib (mergeOptions []) (some oldIndex)).run plainLib
        plainRuntime mergeSchedule).pages "http://a.com/old".toList = none := by
  refine ⟨?_, ?_, ?_, ?_, ?_⟩ <;> decide

end Spider
